import Mathlib

/-!
# Reml native runtime: heap object model

A shallow embedding of the C runtime under `compiler/runtime/native`
(`mem_alloc.c`, `refcount.c`, `array.c`, `record.c`, `closure.c`, `boxing.c`, `set.c`,
`string_compare.c`, `ffi_bridge.c` with `reml_ffi_bridge.h`) and theorems about it.

Conventions of the embedding.

* Target: LP64, little endian. `size_t`, pointers and `int64_t` are 64 bits wide,
  `sizeof(reml_object_header_t) = 8`, `sizeof(void*) = 8`.
* A pointer is a natural number, `0` is `NULL`.
* The host allocator (`malloc` / `calloc` / `free`, the `#else` branch of the
  platform switch) is a parameter `Host`: a function from the current memory and the
  requested byte count to the raw address it hands out, or `none` for `NULL`.
* Memory is a finite table of live blocks keyed by the raw address `malloc`
  returned. A heap object is the block `[header | payload]`; the pointer the
  runtime exposes is `raw + 8`, and `REML_GET_HEADER(ptr)` is the block at
  `ptr - 8`. The payload is kept as 64-bit words (its size is a multiple of 8).
  An element array obtained from `calloc` is a block of pointer slots.
* Touching memory that is not inside a live block of the right kind is undefined
  behaviour in C; the embedding reports it as `Err.fault`.
* `panic` terminates the process; the embedding reports it as `Err.panic msg`.
* The `DEBUG` build is modelled: its five counters are part of the state and
  `mem_free` carries the double-free check. Diagnostic `fprintf` output is omitted.
* `dec_ref` recurses through the destructors; the embedding bounds the number of
  nested steps by a fuel argument and reports exhaustion as `Err.fuel`.
* String data lives in a byte memory `ByteMem`; of the `int` that `memcmp` returns only
  the sign is fixed, the magnitude is a parameter `Libc`.
* The atomic FFI counters are modelled sequentially as `uint64_t` values; a `double` is
  its IEEE 754 binary64 value, arithmetic rounding to nearest, ties to even.
-/

namespace Reml

/-! ## Results -/

/-- Ways an operation can fail to return. -/
inductive Err where
  | panic (msg : String)
  | fault
  | fuel
  deriving DecidableEq, Repr

/-- Outcome of a runtime call. -/
abbrev Res (α : Type) := Except Err α

/-! ## Memory -/

/-- A live block of host memory. -/
inductive Block where
  | obj (refcount : Nat) (type_tag : Nat) (payload : List Nat)
  | buf (slots : List Nat)
  deriving DecidableEq, Repr

/-- The table of live blocks, keyed by raw address. -/
abbrev Mem := List (Nat × Block)

/-- Block at raw address `a`, if one is live. -/
def memGet (a : Nat) : Mem → Option Block
  | [] => none
  | (k, b) :: m => if k = a then some b else memGet a m

/-- Overwrite the block at raw address `a` in place. -/
def memSet (a : Nat) (b : Block) : Mem → Mem
  | [] => []
  | (k, b0) :: m => if k = a then (k, b) :: m else (k, b0) :: memSet a b m

/-- Remove the block at raw address `a`. -/
def memErase (a : Nat) : Mem → Mem
  | [] => []
  | (k, b) :: m => if k = a then memErase a m else (k, b) :: memErase a m

/-- The host allocator: current memory and byte count to raw address (`none` is `NULL`). -/
abbrev Host := Mem → Nat → Option Nat

/-- What `malloc` guarantees of a non-null result: it is not the address of a live block. -/
def HostOK (H : Host) : Prop :=
  ∀ m n a, H m n = some a → a ≠ 0 ∧ memGet a m = none

/-- Runtime state: memory and the counters of the `DEBUG` build. -/
structure Heap where
  mem : Mem
  alloc_count : Nat
  free_count : Nat
  inc_ref_count : Nat
  dec_ref_count : Nat
  destroy_count : Nat
  deriving DecidableEq, Repr

/-- Modulus of `size_t` arithmetic. -/
def SIZE_MOD : Nat := 2 ^ 64

/-- Modulus of `uint32_t` arithmetic. -/
def U32_MOD : Nat := 2 ^ 32

/-- Size of `reml_object_header_t` in bytes. -/
def HEADER_SIZE : Nat := 8

/-- Value of a 64-bit word read as `int64_t`. -/
def toInt64 (w : Nat) : Int :=
  if w % 2 ^ 64 < 2 ^ 63 then ((w % 2 ^ 64 : Nat) : Int) else ((w % 2 ^ 64 : Nat) : Int) - 2 ^ 64

/-- Word holding an `int64_t` value. -/
def ofInt64 (v : Int) : Nat := (v % 2 ^ 64).toNat

/-! ## Type tags (`reml_type_tag_t`) -/

def REML_TAG_INT : Nat := 1
def REML_TAG_FLOAT : Nat := 2
def REML_TAG_BOOL : Nat := 3
def REML_TAG_STRING : Nat := 4
def REML_TAG_TUPLE : Nat := 5
def REML_TAG_RECORD : Nat := 6
def REML_TAG_CLOSURE : Nat := 7
def REML_TAG_ADT : Nat := 8
def REML_TAG_SET : Nat := 9
def REML_TAG_CHAR : Nat := 10
def REML_TAG_ARRAY : Nat := 11

/-! ## Access through a payload pointer -/

/-- The object `REML_GET_HEADER(ptr)` belongs to: header fields and payload words. -/
def getObj (h : Heap) (ptr : Nat) : Option (Nat × Nat × List Nat) :=
  if ptr < HEADER_SIZE then none
  else
    match memGet (ptr - HEADER_SIZE) h.mem with
    | some (.obj rc tag pl) => some (rc, tag, pl)
    | _ => none

/-- Store header fields and payload of the object at payload pointer `ptr`. -/
def putObj (h : Heap) (ptr : Nat) (rc tag : Nat) (pl : List Nat) : Heap :=
  { h with mem := memSet (ptr - HEADER_SIZE) (.obj rc tag pl) h.mem }

/-- Read the 64-bit payload field at word index `i` of the object at `ptr`. -/
def readField (h : Heap) (ptr i : Nat) : Res Nat :=
  match getObj h ptr with
  | some (_, _, pl) =>
    match pl[i]? with
    | some w => .ok w
    | none => .error .fault
  | none => .error .fault

/-- Write the 64-bit payload field at word index `i` of the object at `ptr`. -/
def writeField (h : Heap) (ptr i w : Nat) : Res Heap :=
  match getObj h ptr with
  | some (rc, tag, pl) =>
    if i < pl.length then .ok (putObj h ptr rc tag (pl.set i w)) else .error .fault
  | none => .error .fault

/-- Read slot `i` of the element array at address `a`. -/
def readSlot (h : Heap) (a i : Nat) : Res Nat :=
  match memGet a h.mem with
  | some (.buf slots) =>
    match slots[i]? with
    | some w => .ok w
    | none => .error .fault
  | _ => .error .fault

/-- Write slot `i` of the element array at address `a`. -/
def writeSlot (h : Heap) (a i w : Nat) : Res Heap :=
  match memGet a h.mem with
  | some (.buf slots) =>
    if i < slots.length then .ok { h with mem := memSet a (.buf (slots.set i w)) h.mem }
    else .error .fault
  | _ => .error .fault

/-! ## Host calls -/

/-- Host `free` of an element array obtained from `calloc`. -/
def hostFree (h : Heap) (a : Nat) : Res Heap :=
  match memGet a h.mem with
  | some (.buf _) => .ok { h with mem := memErase a h.mem }
  | _ => .error .fault

/-- Host `calloc(n, sizeof(void*))`: `n` zeroed pointer slots; `none` is `NULL`
(the product `n * 8` does not fit `size_t`, or the host refuses). -/
def hostCalloc (H : Host) (h : Heap) (n : Nat) : Option (Heap × Nat) :=
  if SIZE_MOD ≤ n * 8 then none
  else
    match H h.mem (n * 8) with
    | none => none
    | some a => some ({ h with mem := (a, .buf (List.replicate n 0)) :: h.mem }, a)

/-! ## `mem_alloc.c` -/

/-- The helper `align_to_8`: `(size + 7) & ~(size_t)7` in `size_t` arithmetic. -/
def align_to_8 (size : Nat) : Nat :=
  ((size + 7) % SIZE_MOD) &&& (SIZE_MOD - 8)

/-- The size rounded up to the next multiple of 8 over the natural numbers, as the
specification words the payload size (`align_up_8`); the code computes `align_to_8`. -/
def align_up_8 (size : Nat) : Nat :=
  (size + 7) / 8 * 8

/-- The allocator `mem_alloc(size)`: new state and payload pointer. -/
def mem_alloc (H : Host) (h : Heap) (size : Nat) : Res (Heap × Nat) :=
  let aligned_size := align_to_8 size
  let total_size := (HEADER_SIZE + aligned_size) % SIZE_MOD
  match H h.mem total_size with
  | none => .error (.panic "Memory allocation failed")
  | some raw_ptr =>
    -- header write and memset must stay inside the `total_size` bytes obtained
    if total_size < HEADER_SIZE + aligned_size then .error .fault
    else
      .ok ({ h with
              mem := (raw_ptr, .obj 1 0 (List.replicate (aligned_size / 8) 0)) :: h.mem
              alloc_count := (h.alloc_count + 1) % SIZE_MOD },
           raw_ptr + HEADER_SIZE)

/-- The deallocator `mem_free(ptr)`. -/
def mem_free (h : Heap) (ptr : Nat) : Res Heap :=
  if ptr = 0 then .ok h
  else
    match getObj h ptr with
    | none => .error .fault
    | some (rc, _, _) =>
      if rc = 0xDEADBEEF then .error (.panic "Double free detected")
      else
        .ok { h with
              mem := memErase (ptr - HEADER_SIZE) h.mem
              free_count := (h.free_count + 1) % SIZE_MOD }

/-- The setter `reml_set_type_tag(ptr, type_tag)`. -/
def reml_set_type_tag (h : Heap) (ptr type_tag : Nat) : Res Heap :=
  if ptr = 0 then .ok h
  else
    match getObj h ptr with
    | none => .error .fault
    | some (rc, _, pl) => .ok (putObj h ptr rc type_tag pl)

/-- The getter `reml_get_type_tag(ptr)`. -/
def reml_get_type_tag (h : Heap) (ptr : Nat) : Res Nat :=
  if ptr = 0 then .ok 0
  else
    match getObj h ptr with
    | none => .error .fault
    | some (_, tag, _) => .ok tag

/-! ## `refcount.c` -/

/-- The retain operation `inc_ref(ptr)`. -/
def inc_ref (h : Heap) (ptr : Nat) : Res Heap :=
  if ptr = 0 then .ok h
  else
    match getObj h ptr with
    | none => .error .fault
    | some (rc, tag, pl) =>
      .ok { h with
            mem := memSet (ptr - HEADER_SIZE) (.obj ((rc + 1) % U32_MOD) tag pl) h.mem
            inc_ref_count := (h.inc_ref_count + 1) % SIZE_MOD }

/-- Body shared by `reml_destroy_tuple`, `reml_destroy_record` and `reml_destroy_array`
(the three C functions differ in field names only: count at word 0, element array at
word 1), given the element loop. -/
def destroy_slots (loop : Heap → Nat → Nat → Res Heap) (h : Heap) (ptr : Nat) : Res Heap :=
  if ptr = 0 then .ok h
  else do
    let items ← readField h ptr 1
    if items ≠ 0 then
      let h1 ← loop h ptr 0
      let items1 ← readField h1 ptr 1
      let h2 ← hostFree h1 items1
      writeField h2 ptr 1 0
    else pure h

/-- Body of `destroy_set` (len at word 0, capacity at word 1, items at word 2), given
the element loop. -/
def destroy_set (loop : Heap → Nat → Nat → Res Heap) (h : Heap) (ptr : Nat) : Res Heap := do
  let items ← readField h ptr 2
  if items ≠ 0 then
    let h1 ← loop h ptr 0
    let items1 ← readField h1 ptr 2
    let h2 ← hostFree h1 items1
    writeField h2 ptr 2 0
  else pure h

/-- Body of `destroy_closure` (env at word 0, code pointer at word 1), given `dec_ref`. -/
def destroy_closure (dec : Heap → Nat → Res Heap) (h : Heap) (ptr : Nat) : Res Heap :=
  match readField h ptr 0 with
  | .error e => .error e
  | .ok env => if env ≠ 0 then dec h env else .ok h

/-- Body of `destroy_adt` (`int32_t` tag at word 0, payload pointer at word 1), given
`dec_ref`. -/
def destroy_adt (dec : Heap → Nat → Res Heap) (h : Heap) (ptr : Nat) : Res Heap :=
  match readField h ptr 1 with
  | .error e => .error e
  | .ok payload => if payload ≠ 0 then dec h payload else .ok h

/-- The `switch (header->type_tag)` of `dec_ref`, given `dec_ref` and the two element
loops. `destroy_string` only looks at its argument; the primitive tags and the default
case do nothing. -/
def destroy_switch (dec : Heap → Nat → Res Heap) (slots setItems : Heap → Nat → Nat → Res Heap)
    (tag : Nat) (h : Heap) (ptr : Nat) : Res Heap :=
  if tag = REML_TAG_STRING then .ok h
  else if tag = REML_TAG_TUPLE then destroy_slots slots h ptr
  else if tag = REML_TAG_RECORD then destroy_slots slots h ptr
  else if tag = REML_TAG_ARRAY then destroy_slots slots h ptr
  else if tag = REML_TAG_CLOSURE then destroy_closure dec h ptr
  else if tag = REML_TAG_ADT then destroy_adt dec h ptr
  else if tag = REML_TAG_SET then destroy_set setItems h ptr
  else .ok h

/-- The three mutually recursive pieces of `refcount.c`: a call of `dec_ref`, the element
loop of the tuple / record / array destructors from index `i` on, and the element loop of
`destroy_set` from index `i` on. -/
inductive RcCall where
  | dec (ptr : Nat)
  | slots (ptr i : Nat)
  | setItems (ptr i : Nat)
  deriving DecidableEq, Repr

/-- Execution of `dec_ref` and the destructor loops; `fuel` bounds the nesting of calls
and loop steps. -/
def rcExec : Nat → Heap → RcCall → Res Heap
  | 0, _, _ => .error .fuel
  -- void dec_ref(void* ptr)
  | fuel + 1, h, .dec ptr =>
    if ptr = 0 then .ok h
    else
      match getObj h ptr with
      | none => .error .fault
      | some (rc, tag, pl) =>
        let rc1 := (rc + (U32_MOD - 1)) % U32_MOD
        let h1 : Heap :=
          { h with
            mem := memSet (ptr - HEADER_SIZE) (.obj rc1 tag pl) h.mem
            dec_ref_count := (h.dec_ref_count + 1) % SIZE_MOD }
        if rc1 = 0 then
          let h2 : Heap := { h1 with destroy_count := (h1.destroy_count + 1) % SIZE_MOD }
          let destroyed : Res Heap :=
            destroy_switch (fun s q => rcExec fuel s (.dec q))
              (fun s q i => rcExec fuel s (.slots q i))
              (fun s q i => rcExec fuel s (.setItems q i)) tag h2 ptr
          match destroyed with
          | .error e => .error e
          | .ok h3 => mem_free h3 ptr
        else .ok h1
  -- for (...; i < c->len; i++) if (c->items[i] != NULL) dec_ref(c->items[i]);
  | fuel + 1, h, .slots ptr i =>
    match readField h ptr 0 with
    | .error e => .error e
    | .ok len =>
      if (i : Int) < toInt64 len then
        match readField h ptr 1 with
        | .error e => .error e
        | .ok items =>
          match readSlot h items i with
          | .error e => .error e
          | .ok item =>
            if item ≠ 0 then
              match rcExec fuel h (.dec item) with
              | .error e => .error e
              | .ok h1 => rcExec fuel h1 (.slots ptr (i + 1))
            else rcExec fuel h (.slots ptr (i + 1))
      else .ok h
  -- for (...; i < set->len; i++) dec_ref(set->items[i]);
  | fuel + 1, h, .setItems ptr i =>
    match readField h ptr 0 with
    | .error e => .error e
    | .ok len =>
      if (i : Int) < toInt64 len then
        match readField h ptr 2 with
        | .error e => .error e
        | .ok items =>
          match readSlot h items i with
          | .error e => .error e
          | .ok item =>
            match rcExec fuel h (.dec item) with
            | .error e => .error e
            | .ok h1 => rcExec fuel h1 (.setItems ptr (i + 1))
      else .ok h

/-- The release operation `dec_ref(ptr)`. -/
def dec_ref (fuel : Nat) (h : Heap) (ptr : Nat) : Res Heap :=
  rcExec fuel h (.dec ptr)

/-- The element loop of the tuple / record / array destructors, from index `i` on. -/
def slots_loop (fuel : Nat) (h : Heap) (ptr i : Nat) : Res Heap :=
  rcExec fuel h (.slots ptr i)

/-- The element loop of `destroy_set`, from index `i` on. -/
def set_loop (fuel : Nat) (h : Heap) (ptr i : Nat) : Res Heap :=
  rcExec fuel h (.setItems ptr i)

/-- The destructor `reml_destroy_tuple(ptr)`. -/
def reml_destroy_tuple (fuel : Nat) (h : Heap) (ptr : Nat) : Res Heap :=
  destroy_slots (slots_loop fuel) h ptr

/-- The destructor `reml_destroy_record(ptr)`. -/
def reml_destroy_record (fuel : Nat) (h : Heap) (ptr : Nat) : Res Heap :=
  destroy_slots (slots_loop fuel) h ptr

/-- The destructor `reml_destroy_array(ptr)`. -/
def reml_destroy_array (fuel : Nat) (h : Heap) (ptr : Nat) : Res Heap :=
  destroy_slots (slots_loop fuel) h ptr

/-! ## `array.c`, `record.c` -/

/-- Size of `reml_tuple_t`, `reml_record_t`, `reml_array_t` and `reml_closure_t`
(an `int64_t` or pointer followed by a pointer). -/
def SIZEOF_PAIR : Nat := 16

/-- The helpers `reml_array_alloc_items(len)` and `reml_record_alloc_values(field_count)`
(same body); `msg` is the panic message of the caller's file. -/
def alloc_items (msg : String) (H : Host) (h : Heap) (len : Int) : Res (Heap × Nat) :=
  if len ≤ 0 then .ok (h, 0)
  else
    match hostCalloc H h len.toNat with
    | none => .error (.panic msg)
    | some r => .ok r

/-- The loop `for (i = ...; i < len; i++) { item = va_arg(args, void*); c->items[i] = item;
if (item != NULL) inc_ref(item); }` of `reml_array_from` and `reml_record_from`:
`k = len - i` iterations are left, `args` are the variadic arguments not yet read. -/
def from_loop (c : Nat) : Nat → Heap → Nat → List Nat → Res Heap
  | 0, h, _, _ => .ok h
  | k + 1, h, i, args =>
    match args with
    | [] => .error .fault
    | item :: rest =>
      match readField h c 1 with
      | .error e => .error e
      | .ok items =>
        match writeSlot h items i item with
        | .error e => .error e
        | .ok h1 =>
          if item ≠ 0 then
            match inc_ref h1 item with
            | .error e => .error e
            | .ok h2 => from_loop c k h2 (i + 1) rest
          else from_loop c k h1 (i + 1) rest

/-- Body shared by `reml_array_from` and `reml_record_from`, which differ in the tag and
the panic messages only. -/
def container_from (tag : Nat) (negMsg allocMsg : String) (H : Host) (h : Heap) (len : Int)
    (args : List Nat) : Res (Heap × Nat) :=
  if len < 0 then .error (.panic negMsg)
  else do
    let (h1, c) ← mem_alloc H h SIZEOF_PAIR
    let h2 ← reml_set_type_tag h1 c tag
    let h3 ← writeField h2 c 0 (ofInt64 len)
    let (h4, items) ← alloc_items allocMsg H h3 len
    let h5 ← writeField h4 c 1 items
    let h6 ← from_loop c len.toNat h5 0 args
    pure (h6, c)

/-- The constructor `reml_array_from(len, ...)`; `args` are the variadic arguments. -/
def reml_array_from (H : Host) (h : Heap) (len : Int) (args : List Nat) : Res (Heap × Nat) :=
  container_from REML_TAG_ARRAY "array length is negative" "Array allocation failed" H h len args

/-- The constructor `reml_record_from(field_count, ...)`; `args` are the variadic arguments. -/
def reml_record_from (H : Host) (h : Heap) (field_count : Int) (args : List Nat) :
    Res (Heap × Nat) :=
  container_from REML_TAG_RECORD "record field_count is negative" "Record allocation failed"
    H h field_count args

/-! ## `closure.c` -/

/-- The constructor `reml_closure_new(env, code_ptr)`. -/
def reml_closure_new (H : Host) (h : Heap) (env code_ptr : Nat) : Res (Heap × Nat) := do
  let (h1, closure) ← mem_alloc H h SIZEOF_PAIR
  let h2 ← reml_set_type_tag h1 closure REML_TAG_CLOSURE
  let h3 ← writeField h2 closure 0 env
  let h4 ← writeField h3 closure 1 code_ptr
  let h5 ← if env ≠ 0 then inc_ref h4 env else pure h4
  pure (h5, closure)

/-- The accessor `reml_closure_env(closure_ptr)`. -/
def reml_closure_env (h : Heap) (closure_ptr : Nat) : Res Nat :=
  if closure_ptr = 0 then .error (.panic "closure env target is null")
  else
    match reml_get_type_tag h closure_ptr with
    | .error e => .error e
    | .ok tag =>
      if tag ≠ REML_TAG_CLOSURE then .error (.panic "closure env type tag mismatch")
      else readField h closure_ptr 0

/-- The accessor `reml_closure_code_ptr(closure_ptr)`. -/
def reml_closure_code_ptr (h : Heap) (closure_ptr : Nat) : Res Nat :=
  if closure_ptr = 0 then .error (.panic "closure code_ptr target is null")
  else
    match reml_get_type_tag h closure_ptr with
    | .error e => .error e
    | .ok tag =>
      if tag ≠ REML_TAG_CLOSURE then .error (.panic "closure code_ptr type tag mismatch")
      else readField h closure_ptr 1

/-! ## Auxiliary notions used in the statements -/

/-- Equality of outcomes is decidable. -/
instance instDecidableEqRes {α : Type} [DecidableEq α] : DecidableEq (Res α)
  | .ok a, .ok b =>
    if h : a = b then isTrue (by rw [h]) else isFalse (by intro h2; cases h2; exact h rfl)
  | .error a, .error b =>
    if h : a = b then isTrue (by rw [h]) else isFalse (by intro h2; cases h2; exact h rfl)
  | .ok _, .error _ => isFalse (by intro h; cases h)
  | .error _, .ok _ => isFalse (by intro h; cases h)

/-- The host never refuses a request of `n` bytes. -/
def HostServes (H : Host) (n : Nat) : Prop :=
  ∀ m, ∃ a, H m n = some a

/-- Largest raw address of a live block. -/
def maxKey : Mem → Nat
  | [] => 0
  | (k, _) :: m => max k (maxKey m)

/-- A host that always succeeds and hands out an address above every live block. -/
def bumpHost : Host :=
  fun m _ => some (16 * (maxKey m + 1))

/-- A host that refuses every request. -/
def nullHost : Host :=
  fun _ _ => none

/-- The empty heap with all counters at zero. -/
def emptyHeap : Heap :=
  ⟨[], 0, 0, 0, 0, 0⟩

/-- Refcount in the header of the object at `ptr`, if it is live. -/
def refcountOf (h : Heap) (ptr : Nat) : Option Nat :=
  (getObj h ptr).map (fun o => o.1)

/-- Size in bytes of the payload struct the destructor of tag `t` reads
(`int64_t`, `double`, `uint8_t`, `reml_string_t`, `reml_tuple_t`, `reml_record_t`,
`reml_closure_t`, the ADT pair, `reml_set_t`, `reml_char_t`, `reml_array_t`; nothing for
0 and unknown tags). -/
def payload_struct_size (t : Nat) : Nat :=
  if t = REML_TAG_INT then 8
  else if t = REML_TAG_FLOAT then 8
  else if t = REML_TAG_BOOL then 1
  else if t = REML_TAG_STRING then 16
  else if t = REML_TAG_TUPLE then 16
  else if t = REML_TAG_RECORD then 16
  else if t = REML_TAG_CLOSURE then 16
  else if t = REML_TAG_ADT then 16
  else if t = REML_TAG_SET then 24
  else if t = REML_TAG_CHAR then 4
  else if t = REML_TAG_ARRAY then 16
  else 0

/-- A tag whose destructor releases nothing, whatever the payload holds. -/
def leafTag (tag : Nat) : Prop :=
  tag ≠ REML_TAG_TUPLE ∧ tag ≠ REML_TAG_RECORD ∧ tag ≠ REML_TAG_ARRAY ∧
    tag ≠ REML_TAG_CLOSURE ∧ tag ≠ REML_TAG_ADT ∧ tag ≠ REML_TAG_SET

/-- The sequence `p = mem_alloc(size); reml_set_type_tag(p, t); dec_ref(p)`. -/
def alloc_tag_release (fuel : Nat) (H : Host) (h : Heap) (size t : Nat) : Res Heap := do
  let (h1, p) ← mem_alloc H h size
  let h2 ← reml_set_type_tag h1 p t
  dec_ref fuel h2 p

/-- A reference-count call on a fixed pointer. -/
inductive RcOp where
  | inc
  | dec
  deriving DecidableEq, Repr

/-- One call `inc_ref(p)` or `dec_ref(p)`. -/
def rcStep (fuel : Nat) (p : Nat) (h : Heap) : RcOp → Res Heap
  | .inc => inc_ref h p
  | .dec => dec_ref fuel h p

/-- A sequence of `inc_ref(p)` / `dec_ref(p)` calls, in order. -/
def rcRun (fuel : Nat) (p : Nat) : Heap → List RcOp → Res Heap
  | h, [] => .ok h
  | h, op :: ops =>
    match rcStep fuel p h op with
    | .error e => .error e
    | .ok h1 => rcRun fuel p h1 ops

/-- No `inc_ref(p)` of the run meets a header whose refcount is the 32-bit maximum. -/
def rcNoWrap (fuel : Nat) (p : Nat) : Heap → List RcOp → Prop
  | _, [] => True
  | h, op :: ops =>
    (op = .inc → refcountOf h p ≠ some (U32_MOD - 1)) ∧
    match rcStep fuel p h op with
    | .error _ => True
    | .ok h1 => rcNoWrap fuel p h1 ops

/-- The 32-bit refcount `rc` after `j` calls of `inc_ref`. -/
def incN : Nat → Nat → Nat
  | 0, rc => rc
  | j + 1, rc => (incN j rc + 1) % U32_MOD

/-- A block after `j` calls of `inc_ref` on it (element arrays have no header). -/
def bumpBlock (j : Nat) : Block → Block
  | .obj rc tag pl => .obj (incN j rc) tag pl
  | .buf slots => .buf slots

/-- A 64-bit counter `c` after `j` increments. -/
def countN : Nat → Nat → Nat
  | 0, c => c
  | j + 1, c => (countN j c + 1) % SIZE_MOD

/-- Number of non-null pointers in an argument list. -/
def nonNull (vs : List Nat) : Nat :=
  (vs.filter (fun v => decide (v ≠ 0))).length

/-- State of `reml_array_from` / `reml_record_from` when its loop stands at index `i`:
`h` is the state at entry, `vs` the variadic arguments, `raw` and `a` the raw addresses of
the container and of its element array. -/
def FromInv (h : Heap) (vs : List Nat) (raw a tag : Nat) (i : Nat) (cur : Heap) : Prop :=
  memGet a cur.mem = some (.buf (vs.take i ++ List.replicate (vs.length - i) 0)) ∧
  memGet raw cur.mem = some (.obj 1 tag [vs.length, a]) ∧
  (∀ b, b ≠ a → b ≠ raw →
    memGet b cur.mem = (memGet b h.mem).map (bumpBlock ((vs.take i).count (b + 8)))) ∧
  cur.alloc_count = (h.alloc_count + 1) % SIZE_MOD ∧ cur.free_count = h.free_count ∧
  cur.inc_ref_count = countN (nonNull (vs.take i)) h.inc_ref_count ∧
  cur.dec_ref_count = h.dec_ref_count ∧ cur.destroy_count = h.destroy_count

/-- Postcondition of `reml_array_from` / `reml_record_from` called in state `h` with
`vs.length` arguments `vs`: the call returns a non-null pointer `c` that was not live in `h`;
`c` has refcount 1, tag `tag`, length field `vs.length` and element-array pointer `items`;
`items` is null for an empty list and otherwise a new block whose slots are exactly `vs` in
order; every non-null argument that was a live object with 32-bit refcount `rc` has
refcount `rc` plus its number of occurrences in `vs` (modulo `2^32`), tag and payload
unchanged; every other block is unchanged; `inc_ref` was called once per non-null
argument, and no other counter but the allocation counter moved. -/
def Built (h : Heap) (vs : List Nat) (tag : Nat) (r : Res (Heap × Nat)) : Prop :=
  ∃ h1 c items, r = .ok (h1, c) ∧ c ≠ 0 ∧ getObj h c = none ∧
    getObj h1 c = some (1, tag, [vs.length, items]) ∧
    (vs.length = 0 → items = 0) ∧
    (0 < vs.length → items ≠ 0 ∧ memGet items h.mem = none ∧
      memGet items h1.mem = some (.buf vs)) ∧
    (∀ v rc t pl, v ∈ vs → v ≠ 0 → getObj h v = some (rc, t, pl) → rc < U32_MOD →
      getObj h1 v = some ((rc + vs.count v) % U32_MOD, t, pl)) ∧
    (∀ b, b ≠ c - 8 → b ≠ items → b + 8 ∉ vs → memGet b h1.mem = memGet b h.mem) ∧
    h1.inc_ref_count = countN (nonNull vs) h.inc_ref_count ∧
    h1.alloc_count = (h.alloc_count + 1) % SIZE_MOD ∧ h1.free_count = h.free_count ∧
    h1.dec_ref_count = h.dec_ref_count ∧ h1.destroy_count = h.destroy_count

/-- A block after `j` calls of `dec_ref` on it, none of which runs a destructor with an
effect: the refcount drops by `j`, and the block is gone once it reaches zero. -/
def dropBlock (j : Nat) : Block → Option Block
  | .obj rc tag pl =>
    if j = 0 then some (.obj rc tag pl)
    else if j < rc then some (.obj (rc - j) tag pl)
    else none
  | .buf slots => some (.buf slots)

/-- State of the tuple / record / array destructor of the container at raw address `raw`
when its loop stands at index `i`: `h` is the state at entry of `dec_ref`, `slots` the
element array at address `items`. -/
def DestroyInv (h : Heap) (slots : List Nat) (raw items tag : Nat) (pl : List Nat) (i : Nat)
    (cur : Heap) : Prop :=
  memGet items cur.mem = some (.buf slots) ∧
  memGet raw cur.mem = some (.obj 0 tag pl) ∧
  (∀ b, b ≠ items → b ≠ raw →
    memGet b cur.mem = (memGet b h.mem).bind (dropBlock ((slots.take i).count (b + 8)))) ∧
  cur.alloc_count = h.alloc_count ∧ cur.inc_ref_count = h.inc_ref_count ∧
  cur.dec_ref_count = countN (nonNull (slots.take i) + 1) h.dec_ref_count

/-- What the claims on container destruction assume of the children of a container with
element array `slots`: every non-null slot holds a live object whose 32-bit refcount is at
least the number of slots holding it, and a child whose refcount equals that number (it
will be destroyed) has a tag whose destructor releases nothing. -/
def ChildrenOK (h : Heap) (slots : List Nat) : Prop :=
  ∀ x ∈ slots, x ≠ 0 → ∃ rc t pl, getObj h x = some (rc, t, pl) ∧ slots.count x ≤ rc ∧
    rc < U32_MOD ∧ (slots.count x = rc → leafTag t)

/-- The tag is one of TUPLE, RECORD, ARRAY. -/
def slotsTag (tag : Nat) : Prop :=
  tag = REML_TAG_TUPLE ∨ tag = REML_TAG_RECORD ∨ tag = REML_TAG_ARRAY

/-! ## `boxing.c` -/

/-- The string value `reml_string_t`: data pointer and length in bytes. -/
structure reml_string_t where
  data : Nat
  length : Int
  deriving DecidableEq, Repr

/-- The first byte of a 64-bit word (`*(uint8_t*)ptr`, little endian). -/
def loadU8 (word : Nat) : Nat := word % 2 ^ 8

/-- A 64-bit word after a `uint8_t` store to its first byte. -/
def storeU8 (word v : Nat) : Nat := word - word % 2 ^ 8 + v % 2 ^ 8

/-- The first four bytes of a 64-bit word (`*(uint32_t*)ptr`, little endian). -/
def loadU32 (word : Nat) : Nat := word % 2 ^ 32

/-- A 64-bit word after a `uint32_t` store to its first four bytes. -/
def storeU32 (word v : Nat) : Nat := word - word % 2 ^ 32 + v % 2 ^ 32

/-- The check `reml_char_is_valid(value)`. -/
def reml_char_is_valid (value : Nat) : Bool :=
  if value > 0x10FFFF then false
  else if value ≥ 0xD800 ∧ value ≤ 0xDFFF then false
  else true

/-- The constructor `reml_box_i64(value)`. -/
def reml_box_i64 (H : Host) (h : Heap) (value : Int) : Res (Heap × Nat) := do
  let (h1, payload) ← mem_alloc H h 8
  let h2 ← reml_set_type_tag h1 payload REML_TAG_INT
  let h3 ← writeField h2 payload 0 (ofInt64 value)
  pure (h3, payload)

/-- The constructor `reml_box_bool(value)`; the stored byte is `value ? 1u : 0u`. -/
def reml_box_bool (H : Host) (h : Heap) (value : Nat) : Res (Heap × Nat) := do
  let (h1, payload) ← mem_alloc H h 1
  let h2 ← reml_set_type_tag h1 payload REML_TAG_BOOL
  let w ← readField h2 payload 0
  let h3 ← writeField h2 payload 0 (storeU8 w (if value ≠ 0 then 1 else 0))
  pure (h3, payload)

/-- The constructor `reml_box_float(value)`; a `double` is its 64-bit pattern. -/
def reml_box_float (H : Host) (h : Heap) (value : Nat) : Res (Heap × Nat) := do
  let (h1, payload) ← mem_alloc H h 8
  let h2 ← reml_set_type_tag h1 payload REML_TAG_FLOAT
  let h3 ← writeField h2 payload 0 value
  pure (h3, payload)

/-- The constructor `reml_box_char(value)`. -/
def reml_box_char (H : Host) (h : Heap) (value : Nat) : Res (Heap × Nat) :=
  if ¬ reml_char_is_valid value then .error (.panic "char scalar value out of range")
  else do
    let (h1, payload) ← mem_alloc H h 4
    let h2 ← reml_set_type_tag h1 payload REML_TAG_CHAR
    let w ← readField h2 payload 0
    let h3 ← writeField h2 payload 0 (storeU32 w value)
    pure (h3, payload)

/-- The constructor `reml_box_string(value)`. -/
def reml_box_string (H : Host) (h : Heap) (value : reml_string_t) : Res (Heap × Nat) := do
  let (h1, payload) ← mem_alloc H h SIZEOF_PAIR
  let h2 ← reml_set_type_tag h1 payload REML_TAG_STRING
  let h3 ← writeField h2 payload 0 value.data
  let h4 ← writeField h3 payload 1 (ofInt64 value.length)
  pure (h4, payload)

/-- Body shared by the typed accessors of `boxing.c` and `closure.c`: panic on a null
pointer, panic on a tag other than `tag`, otherwise read the payload. -/
def typed_access {α : Type} (nullMsg misMsg : String) (tag : Nat) (read : Heap → Nat → Res α)
    (h : Heap) (ptr : Nat) : Res α :=
  if ptr = 0 then .error (.panic nullMsg)
  else
    match reml_get_type_tag h ptr with
    | .error e => .error e
    | .ok t => if t ≠ tag then .error (.panic misMsg) else read h ptr

/-- The accessor `reml_unbox_i64(ptr)`. -/
def reml_unbox_i64 (h : Heap) (ptr : Nat) : Res Int :=
  typed_access "i64 unbox target is null" "i64 unbox type tag mismatch" REML_TAG_INT
    (fun s p =>
      match readField s p 0 with
      | .error e => .error e
      | .ok w => .ok (toInt64 w)) h ptr

/-- The accessor `reml_unbox_bool(ptr)`; the result is `*(uint8_t*)ptr ? 1u : 0u`. -/
def reml_unbox_bool (h : Heap) (ptr : Nat) : Res Nat :=
  typed_access "bool unbox target is null" "bool unbox type tag mismatch" REML_TAG_BOOL
    (fun s p =>
      match readField s p 0 with
      | .error e => .error e
      | .ok w => .ok (if loadU8 w ≠ 0 then 1 else 0)) h ptr

/-- The accessor `reml_unbox_float(ptr)`. -/
def reml_unbox_float (h : Heap) (ptr : Nat) : Res Nat :=
  typed_access "float unbox target is null" "float unbox type tag mismatch" REML_TAG_FLOAT
    (fun s p => readField s p 0) h ptr

/-- The accessor `reml_unbox_char(ptr)`. -/
def reml_unbox_char (h : Heap) (ptr : Nat) : Res Nat :=
  typed_access "char unbox target is null" "char unbox type tag mismatch" REML_TAG_CHAR
    (fun s p =>
      match readField s p 0 with
      | .error e => .error e
      | .ok w => .ok (loadU32 w)) h ptr

/-- The accessor `reml_unbox_string(ptr)`. -/
def reml_unbox_string (h : Heap) (ptr : Nat) : Res reml_string_t :=
  typed_access "string unbox target is null" "string unbox type tag mismatch" REML_TAG_STRING
    (fun s p =>
      match readField s p 0 with
      | .error e => .error e
      | .ok d =>
        match readField s p 1 with
        | .error e => .error e
        | .ok l => .ok ⟨d, toInt64 l⟩) h ptr

/-- The object at `p` in `h1` is new with respect to `h`: `p` is not null, no object of `h`
is at `p`, the object has refcount 1, tag `tag` and payload `pl`, and every other block is
as in `h`. -/
def NewBox (h h1 : Heap) (p tag : Nat) (pl : List Nat) : Prop :=
  p ≠ 0 ∧ getObj h p = none ∧ getObj h1 p = some (1, tag, pl) ∧
    ∀ b, b ≠ p - HEADER_SIZE → memGet b h1.mem = memGet b h.mem

/-- Contract of a typed accessor `acc` with expected tag `tag`, where `stored pl` is the
value the accessor reads from payload words `pl`: on the null pointer it panics with
`nullMsg`; on a live object with another tag it panics with `misMsg`; on a live object
with tag `tag` it returns the stored value; so on a live object holding a value it
panics exactly when the tag differs. The accessor is a function of the state that returns
a value only, no state. -/
def AccessorSpec {α : Type} (acc : Heap → Nat → Res α) (nullMsg misMsg : String) (tag : Nat)
    (stored : List Nat → Option α) : Prop :=
  ∀ h : Heap, acc h 0 = .error (.panic nullMsg) ∧
    ∀ p rc t pl, getObj h p = some (rc, t, pl) →
      (t ≠ tag → acc h p = .error (.panic misMsg)) ∧
      (∀ v, t = tag → stored pl = some v → acc h p = .ok v) ∧
      (∀ v, stored pl = some v → ((∃ msg, acc h p = .error (.panic msg)) ↔ t ≠ tag))

/-- Every typed accessor whose expected tag is not `t` panics with its tag-mismatch
message on the pointer `p` in state `h`. -/
def MismatchPanics (h : Heap) (p t : Nat) : Prop :=
  (t ≠ REML_TAG_INT → reml_unbox_i64 h p = .error (.panic "i64 unbox type tag mismatch")) ∧
  (t ≠ REML_TAG_BOOL → reml_unbox_bool h p = .error (.panic "bool unbox type tag mismatch")) ∧
  (t ≠ REML_TAG_FLOAT →
    reml_unbox_float h p = .error (.panic "float unbox type tag mismatch")) ∧
  (t ≠ REML_TAG_CHAR → reml_unbox_char h p = .error (.panic "char unbox type tag mismatch")) ∧
  (t ≠ REML_TAG_STRING →
    reml_unbox_string h p = .error (.panic "string unbox type tag mismatch")) ∧
  (t ≠ REML_TAG_CLOSURE →
    reml_closure_env h p = .error (.panic "closure env type tag mismatch") ∧
    reml_closure_code_ptr h p = .error (.panic "closure code_ptr type tag mismatch"))


/-! ## `set.c` -/

/-- Size of `reml_set_t` in bytes: `int64_t len`, `int64_t capacity`, `void** items`. -/
def SIZEOF_SET : Nat := 24

/-- The helper `reml_set_alloc_items(capacity)` (same body as the array helper, with the
panic message of `set.c`). -/
def reml_set_alloc_items (H : Host) (h : Heap) (capacity : Int) : Res (Heap × Nat) :=
  alloc_items "Set allocation failed" H h capacity

/-- The constructor `reml_set_new()`. -/
def reml_set_new (H : Host) (h : Heap) : Res (Heap × Nat) := do
  let (h1, set) ← mem_alloc H h SIZEOF_SET
  let h2 ← reml_set_type_tag h1 set REML_TAG_SET
  let h3 ← writeField h2 set 0 (ofInt64 0)
  let h4 ← writeField h3 set 1 (ofInt64 0)
  let h5 ← writeField h4 set 2 0
  pure (h5, set)

/-- The scan `for (i = ...; i < set->len; i++) if (set->items[i] == value_ptr) ...` of
`reml_set_contains` (which returns 1 on a hit) and of `reml_set_insert` (which sets
`exists` and breaks): `true` on a hit, `false` when the loop runs out. The first argument
bounds the iterations left; the callers pass `set->len`, which the loop never exceeds. -/
def set_scan (h : Heap) (set value_ptr : Nat) : Nat → Nat → Res Bool
  | 0, i =>
    match readField h set 0 with
    | .error e => .error e
    | .ok len => if (i : Int) < toInt64 len then .error .fuel else .ok false
  | k + 1, i =>
    match readField h set 0 with
    | .error e => .error e
    | .ok len =>
      if (i : Int) < toInt64 len then
        match readField h set 2 with
        | .error e => .error e
        | .ok items =>
          match readSlot h items i with
          | .error e => .error e
          | .ok x => if x = value_ptr then .ok true else set_scan h set value_ptr k (i + 1)
      else .ok false

/-- The function `reml_set_contains(set_ptr, value_ptr)`. -/
def reml_set_contains (h : Heap) (set_ptr value_ptr : Nat) : Res Int :=
  if set_ptr = 0 then .error (.panic "set contains target is null")
  else
    match readField h set_ptr 0 with
    | .error e => .error e
    | .ok len =>
      match set_scan h set_ptr value_ptr (toInt64 len).toNat 0 with
      | .error e => .error e
      | .ok found => .ok (if found then 1 else 0)

/-- The function `reml_set_len(set_ptr)`. -/
def reml_set_len (h : Heap) (set_ptr : Nat) : Res Int :=
  if set_ptr = 0 then .error (.panic "set len target is null")
  else
    match readField h set_ptr 0 with
    | .error e => .error e
    | .ok len => .ok (toInt64 len)

/-- The loop `for (i = 0; i < set->len; i++) { next->items[i] = set->items[i];
inc_ref(next->items[i]); }` of `reml_set_insert`. The first argument bounds the iterations
left; the caller passes `set->len`, which the loop never exceeds. -/
def set_copy_loop (set next : Nat) : Nat → Heap → Nat → Res Heap
  | 0, h, i =>
    match readField h set 0 with
    | .error e => .error e
    | .ok len => if (i : Int) < toInt64 len then .error .fuel else .ok h
  | k + 1, h, i =>
    match readField h set 0 with
    | .error e => .error e
    | .ok len =>
      if (i : Int) < toInt64 len then
        match readField h set 2 with
        | .error e => .error e
        | .ok sitems =>
          match readSlot h sitems i with
          | .error e => .error e
          | .ok x =>
            match readField h next 2 with
            | .error e => .error e
            | .ok nitems =>
              match writeSlot h nitems i x with
              | .error e => .error e
              | .ok h1 =>
                match readSlot h1 nitems i with
                | .error e => .error e
                | .ok y =>
                  match inc_ref h1 y with
                  | .error e => .error e
                  | .ok h2 => set_copy_loop set next k h2 (i + 1)
      else .ok h

/-- The function `reml_set_insert(set_ptr, value_ptr)`. The sum `set->len + 1` is signed:
a result of `2^63` is an overflow, and a negative `set->len` makes `next->items[set->len]`
an access before the array. -/
def reml_set_insert (H : Host) (h : Heap) (set_ptr value_ptr : Nat) : Res (Heap × Nat) :=
  if set_ptr = 0 then .error (.panic "set insert target is null")
  else do
    let len0 ← readField h set_ptr 0
    let found ← set_scan h set_ptr value_ptr (toInt64 len0).toNat 0
    let new_len := toInt64 len0 + (if found then 0 else 1)
    if 2 ^ 63 ≤ new_len then .error .fault
    else do
      let (h1, next) ← mem_alloc H h SIZEOF_SET
      let h2 ← reml_set_type_tag h1 next REML_TAG_SET
      let h3 ← writeField h2 next 0 (ofInt64 new_len)
      let h4 ← writeField h3 next 1 (ofInt64 new_len)
      let (h5, items) ← reml_set_alloc_items H h4 new_len
      let h6 ← writeField h5 next 2 items
      let len1 ← readField h6 set_ptr 0
      let h7 ← set_copy_loop set_ptr next (toInt64 len1).toNat h6 0
      if found then pure (h7, next)
      else do
        let nitems ← readField h7 next 2
        let len2 ← readField h7 set_ptr 0
        if toInt64 len2 < 0 then .error .fault
        else do
          let h8 ← writeSlot h7 nitems (toInt64 len2).toNat value_ptr
          let h9 ← inc_ref h8 value_ptr
          pure (h9, next)

/-- The object at `s` is a set with item sequence `xs`: it is live with tag SET, its `len`
field is the length of `xs` (an `int64_t`), and for a non-empty `xs` its `items` field
points to an element array whose first `len` slots are `xs`. -/
def IsSet (h : Heap) (s : Nat) (xs : List Nat) : Prop :=
  ∃ rc cap items, getObj h s = some (rc, REML_TAG_SET, [xs.length, cap, items]) ∧
    xs.length < 2 ^ 63 ∧
    (xs ≠ [] → ∃ slots, memGet items h.mem = some (.buf slots) ∧ slots.take xs.length = xs)

/-- Item sequence of `reml_set_insert(s, v)` for a set with item sequence `xs`. -/
def insertItems (xs : List Nat) (v : Nat) : List Nat :=
  if v ∈ xs then xs else xs ++ [v]

/-- State of `reml_set_insert` when its copy loop stands at index `i`: `h` is the state at
entry, `xs` the item sequence of the source set, `raw` and `a` the raw addresses of the new
set and of its element array of `n` slots. -/
def CopyInv (h : Heap) (xs : List Nat) (raw a n : Nat) (i : Nat) (cur : Heap) : Prop :=
  memGet a cur.mem = some (.buf (xs.take i ++ List.replicate (n - i) 0)) ∧
  memGet raw cur.mem = some (.obj 1 REML_TAG_SET [n, n, a]) ∧
  (∀ b, b ≠ a → b ≠ raw →
    memGet b cur.mem = (memGet b h.mem).map (bumpBlock ((xs.take i).count (b + 8)))) ∧
  cur.alloc_count = (h.alloc_count + 1) % SIZE_MOD ∧ cur.free_count = h.free_count ∧
  cur.inc_ref_count = countN (nonNull (xs.take i)) h.inc_ref_count ∧
  cur.dec_ref_count = h.dec_ref_count ∧ cur.destroy_count = h.destroy_count

/-- Postcondition of `reml_set_insert` called in state `h`, where `ys` is the item
sequence of the result: the call returns a non-null pointer `p` that was not live in `h`;
`p` has refcount 1, tag SET, `len` and `capacity` equal to the length of `ys`, and an
element array `items`, new as well, whose slots are exactly `ys` in order; every object
live in `h` with 32-bit refcount `rc` is live with the same tag and payload and with
refcount `rc` plus the number of slots of `ys` holding it (modulo `2^32`); every element
array of `h` is unchanged; a block whose payload pointer is not in `ys` is unchanged;
`inc_ref` was called once per non-null slot, and no other counter but the allocation
counter moved. -/
def Inserted (h : Heap) (ys : List Nat) (r : Res (Heap × Nat)) : Prop :=
  ∃ h1 p items, r = .ok (h1, p) ∧ p ≠ 0 ∧ getObj h p = none ∧
    getObj h1 p = some (1, REML_TAG_SET, [ys.length, ys.length, items]) ∧
    items ≠ 0 ∧ memGet items h.mem = none ∧ memGet items h1.mem = some (.buf ys) ∧
    (∀ x rc t pl, getObj h x = some (rc, t, pl) → rc < U32_MOD →
      getObj h1 x = some ((rc + ys.count x) % U32_MOD, t, pl)) ∧
    (∀ b slots, memGet b h.mem = some (.buf slots) → memGet b h1.mem = some (.buf slots)) ∧
    (∀ b, b ≠ p - 8 → b ≠ items → b + 8 ∉ ys → memGet b h1.mem = memGet b h.mem) ∧
    h1.inc_ref_count = countN (nonNull ys) h.inc_ref_count ∧
    h1.alloc_count = (h.alloc_count + 1) % SIZE_MOD ∧ h1.free_count = h.free_count ∧
    h1.dec_ref_count = h.dec_ref_count ∧ h1.destroy_count = h.destroy_count

/-- A small state used to instantiate the statements on sets: an INT box at payload
address 24 and, at payload address 56, a set whose one item is that box. -/
def sampleSetHeap : Heap :=
  ⟨[(64, .buf [24]), (48, .obj 1 REML_TAG_SET [1, 1, 64]), (16, .obj 1 REML_TAG_INT [7])],
    2, 0, 1, 0, 0⟩


/-! ## `string_compare.c` -/

/-- Readable bytes: the `unsigned char` stored at an address, `none` where no object is. -/
abbrev ByteMem := Nat → Option Nat

/-- The `n` bytes from address `p` on, `none` if one of them is not readable. -/
def loadBytes (m : ByteMem) (p : Nat) : Nat → Option (List Nat)
  | 0 => some []
  | n + 1 =>
    match m p, loadBytes m (p + 1) n with
    | some b, some bs => some (b :: bs)
    | _, _ => none

/-- What the C library leaves open in `memcmp`: of the `int` it returns for two byte
sequences only the sign is specified; `L xs ys` selects the magnitude. -/
abbrev Libc := List Nat → List Nat → Nat

/-- Sign of the first pair of differing bytes of two sequences, the bytes compared as
`unsigned char`; 0 if no pair differs. -/
def firstDiff : List Nat → List Nat → Int
  | x :: xs, y :: ys => if x < y then -1 else if y < x then 1 else firstDiff xs ys
  | _, _ => 0

/-- The library call `memcmp(p, q, n)`: both regions must be readable for `n` bytes; the
result is zero if they agree, and otherwise an `int` in `1 .. INT_MAX` or its negation, the
sign given by the first differing byte. -/
def memcmp (L : Libc) (m : ByteMem) (p q n : Nat) : Res Int :=
  match loadBytes m p n, loadBytes m q n with
  | some xs, some ys => .ok (firstDiff xs ys * ((L xs ys % (2 ^ 31 - 1) : Nat) + 1))
  | _, _ => .error .fault

/-- The function `string_eq(s1, s2)`; `none` is a null pointer, `some s` a pointer to the
string value `s`. -/
def string_eq (L : Libc) (m : ByteMem) (s1 s2 : Option reml_string_t) : Res Int :=
  match s1, s2 with
  | none, none => .ok 1
  | none, some _ => .ok 0
  | some _, none => .ok 0
  | some a, some b =>
    if a.length ≠ b.length then .ok 0
    else if a.length = 0 then .ok 1
    else
      match memcmp L m a.data b.data (ofInt64 a.length) with
      | .error e => .error e
      | .ok c => .ok (if c = 0 then 1 else 0)

/-- The function `string_compare(s1, s2)`. -/
def string_compare (L : Libc) (m : ByteMem) (s1 s2 : Option reml_string_t) : Res Int :=
  match s1, s2 with
  | none, none => .ok 0
  | none, some _ => .ok (-1)
  | some _, none => .ok 1
  | some a, some b =>
    let min_len := if a.length < b.length then a.length else b.length
    match memcmp L m a.data b.data (ofInt64 min_len) with
    | .error e => .error e
    | .ok cmp =>
      if cmp ≠ 0 then .ok cmp
      else if a.length < b.length then .ok (-1)
      else if a.length > b.length then .ok 1
      else .ok 0

/-- The string value `s` has a non-negative `int64_t` length and its data is readable for
that many bytes, which are `bs`. -/
def StrBytes (m : ByteMem) (s : reml_string_t) (bs : List Nat) : Prop :=
  0 ≤ s.length ∧ s.length < 2 ^ 63 ∧ loadBytes m s.data s.length.toNat = some bs

/-- Reference comparison of two byte sequences, as the specification words it: the bytes
are compared as unsigned values at the first index where the sequences differ; if one
sequence is a prefix of the other the shorter one is smaller; equal sequences give 0. -/
def lexCompareRef : List Nat → List Nat → Int
  | [], [] => 0
  | [], _ :: _ => -1
  | _ :: _, [] => 1
  | x :: xs, y :: ys => if x < y then -1 else if y < x then 1 else lexCompareRef xs ys

/-- A byte memory holding "abc" at address 100 and "abd" at address 200. -/
def sampleBytes : ByteMem := fun a =>
  if a = 100 then some 97 else if a = 101 then some 98 else if a = 102 then some 99
  else if a = 200 then some 97 else if a = 201 then some 98 else if a = 202 then some 100
  else none

/-- A string argument is a null pointer or points to a string value with a non-negative
length whose data is readable for that many bytes. -/
def StrArgOK (m : ByteMem) (a : Option reml_string_t) : Prop :=
  ∀ s, a = some s → ∃ bs, StrBytes m s bs


/-! ## `double` values -/

/-- A finite non-negative `double` (IEEE 754 binary64) with value `mant * 2 ^ exp`: zero is
`⟨0, 0⟩`, every other value has `2^52 ≤ mant < 2^53`. -/
structure reml_double where
  mant : Nat
  exp : Int
  deriving DecidableEq, Repr

/-- The integer nearest to `num / den`, ties to the even one. -/
def roundHalfEven (num den : Nat) : Nat :=
  let q := num / den
  let r := num % den
  if 2 * r < den then q else if den < 2 * r then q + 1 else q + q % 2

/-- The integer nearest to `a / (b * 2 ^ e)`, ties to the even one. -/
def scaledRound (a b : Nat) (e : Int) : Nat :=
  if 0 ≤ e then roundHalfEven a (b * 2 ^ e.toNat) else roundHalfEven (a * 2 ^ (-e).toNat) b

/-- Test `2 ^ d ≤ a / b`. -/
def reachesPow (a b : Nat) (d : Int) : Bool :=
  if 0 ≤ d then decide (b * 2 ^ d.toNat ≤ a) else decide (b ≤ a * 2 ^ (-d).toNat)

/-- Position of the highest set bit of `n`, computed in at most `f` halvings. -/
def log2Fuel : Nat → Nat → Nat
  | 0, _ => 0
  | f + 1, n => if n < 2 then 0 else log2Fuel f (n / 2) + 1

/-- Position of the highest set bit of `n` (0 for 0). -/
def ilog2 (n : Nat) : Nat := log2Fuel n n

/-- The `double` nearest to `a / b` in the default rounding mode (to nearest, ties to
even), for `b ≠ 0` and a quotient in the normal range. -/
def roundRatio (a b : Nat) : reml_double :=
  if a = 0 then ⟨0, 0⟩
  else
    let d : Int := (ilog2 a : Int) - (ilog2 b : Int)
    let l : Int := if reachesPow a b d then d else d - 1
    let m := scaledRound a b (l - 52)
    if m = 2 ^ 53 then ⟨2 ^ 52, l - 52 + 1⟩ else ⟨m, l - 52⟩

/-- The conversion `(double)n` of a `uint64_t`. -/
def u64_to_double (n : Nat) : reml_double := roundRatio n 1

/-- The quotient `x / y` of two `double` values, `y` not zero. -/
def double_div (x y : reml_double) : reml_double :=
  if 0 ≤ x.exp - y.exp then roundRatio (x.mant * 2 ^ (x.exp - y.exp).toNat) y.mant
  else roundRatio x.mant (y.mant * 2 ^ (y.exp - x.exp).toNat)

/-- The `double` 1.0. -/
def DOUBLE_ONE : reml_double := ⟨2 ^ 52, -52⟩

/-- The `double` 0.5. -/
def DOUBLE_HALF : reml_double := ⟨2 ^ 52, -53⟩

/-- The rational value `mant * 2 ^ exp` of a `double`. -/
def doubleValue (d : reml_double) : ℚ := (d.mant : ℚ) * (2 : ℚ) ^ d.exp

/-! ## `reml_ffi_bridge.h` and `ffi_bridge.c` -/

/-- The span `reml_span_t`: data pointer and `size_t` length. -/
structure reml_span_t where
  data : Nat
  length : Nat
  deriving DecidableEq, Repr

/-- Modulus of `uint64_t` arithmetic. -/
def U64_MOD : Nat := 2 ^ 64

/-- The constant `INT64_MAX`. -/
def INT64_MAX : Nat := 2 ^ 63 - 1

def REML_FFI_BRIDGE_STATUS_SUCCESS : Nat := 0
def REML_FFI_BRIDGE_STATUS_FAILURE : Nat := 1

/-- The snapshot `reml_ffi_bridge_metrics_t`. -/
structure reml_ffi_bridge_metrics_t where
  total_calls : Nat
  success_calls : Nat
  borrowed_results : Nat
  transferred_results : Nat
  null_results : Nat
  deriving DecidableEq, Repr

/-- The five static 64-bit counters of `ffi_bridge.c`. -/
structure BridgeCounters where
  bridge_total_calls : Nat
  bridge_success_calls : Nat
  bridge_borrowed_results : Nat
  bridge_transferred_results : Nat
  bridge_null_results : Nat
  deriving DecidableEq, Repr

/-- The inline helper `reml_ffi_acquire_borrowed(value)`. -/
def reml_ffi_acquire_borrowed (h : Heap) (value : Nat) : Res (Heap × Nat) :=
  if value ≠ 0 then
    match inc_ref h value with
    | .error e => .error e
    | .ok h1 => .ok (h1, value)
  else .ok (h, value)

/-- The inline helper `reml_ffi_acquire_transferred(value)`. -/
def reml_ffi_acquire_transferred (h : Heap) (value : Nat) : Heap × Nat :=
  (h, value)

/-- The inline helper `reml_ffi_release_transferred(value)`. -/
def reml_ffi_release_transferred (fuel : Nat) (h : Heap) (value : Nat) : Res Heap :=
  if value ≠ 0 then dec_ref fuel h value else .ok h

/-- The inline helper `reml_ffi_make_span(data, length)`. -/
def reml_ffi_make_span (data length : Nat) : reml_span_t :=
  ⟨data, if data = 0 then 0 else length⟩

/-- The function `reml_ffi_box_string(source)`; `none` is a null `source`. -/
def reml_ffi_box_string (source : Option reml_string_t) : reml_span_t :=
  match source with
  | none => reml_ffi_make_span 0 0
  | some s =>
    if s.data = 0 then reml_ffi_make_span 0 0
    else
      let length := if s.length > 0 then ofInt64 s.length else 0
      reml_ffi_make_span s.data length

/-- The function `reml_ffi_unbox_span(span)`; `none` is a null `span`. -/
def reml_ffi_unbox_span (span : Option reml_span_t) : reml_string_t :=
  match span with
  | none => ⟨0, 0⟩
  | some sp =>
    if sp.data = 0 then ⟨0, 0⟩
    else ⟨sp.data, if sp.length > INT64_MAX then (INT64_MAX : Int) else toInt64 sp.length⟩

/-- The function `reml_ffi_acquire_borrowed_result(value)`. -/
def reml_ffi_acquire_borrowed_result (c : BridgeCounters) (value : Nat) : BridgeCounters × Nat :=
  if value = 0 then
    ({ c with bridge_null_results := (c.bridge_null_results + 1) % U64_MOD }, 0)
  else ({ c with bridge_borrowed_results := (c.bridge_borrowed_results + 1) % U64_MOD }, value)

/-- The function `reml_ffi_acquire_transferred_result(value)`. -/
def reml_ffi_acquire_transferred_result (c : BridgeCounters) (value : Nat) :
    BridgeCounters × Nat :=
  if value = 0 then
    ({ c with bridge_null_results := (c.bridge_null_results + 1) % U64_MOD }, 0)
  else
    ({ c with bridge_transferred_results := (c.bridge_transferred_results + 1) % U64_MOD },
      value)

/-- The function `reml_ffi_bridge_record_status(status)`. -/
def reml_ffi_bridge_record_status (c : BridgeCounters) (status : Nat) : BridgeCounters :=
  if status = REML_FFI_BRIDGE_STATUS_SUCCESS then
    { c with
      bridge_total_calls := (c.bridge_total_calls + 1) % U64_MOD
      bridge_success_calls := (c.bridge_success_calls + 1) % U64_MOD }
  else { c with bridge_total_calls := (c.bridge_total_calls + 1) % U64_MOD }

/-- The function `reml_ffi_bridge_reset_metrics()`. -/
def reml_ffi_bridge_reset_metrics (_ : BridgeCounters) : BridgeCounters :=
  ⟨0, 0, 0, 0, 0⟩

/-- The function `reml_ffi_bridge_get_metrics()`. -/
def reml_ffi_bridge_get_metrics (c : BridgeCounters) : reml_ffi_bridge_metrics_t :=
  ⟨c.bridge_total_calls, c.bridge_success_calls, c.bridge_borrowed_results,
    c.bridge_transferred_results, c.bridge_null_results⟩

/-- The function `reml_ffi_bridge_pass_rate()`. -/
def reml_ffi_bridge_pass_rate (c : BridgeCounters) : reml_double :=
  let total := c.bridge_total_calls
  let success := c.bridge_success_calls
  if total = 0 then DOUBLE_ONE
  else double_div (u64_to_double success) (u64_to_double total)

/-- A call of the metrics interface. -/
inductive BridgeOp where
  | record_status (status : Nat)
  | acquire_borrowed_result (value : Nat)
  | acquire_transferred_result (value : Nat)
  | reset_metrics
  deriving DecidableEq, Repr

/-- One call of the metrics interface. -/
def bridgeStep (c : BridgeCounters) : BridgeOp → BridgeCounters
  | .record_status status => reml_ffi_bridge_record_status c status
  | .acquire_borrowed_result value => (reml_ffi_acquire_borrowed_result c value).1
  | .acquire_transferred_result value => (reml_ffi_acquire_transferred_result c value).1
  | .reset_metrics => reml_ffi_bridge_reset_metrics c

/-- A sequence of calls of the metrics interface, in order. -/
def bridgeRun : BridgeCounters → List BridgeOp → BridgeCounters
  | c, [] => c
  | c, op :: ops => bridgeRun (bridgeStep c op) ops

/-- The counters at program start. -/
def bridgeInit : BridgeCounters := ⟨0, 0, 0, 0, 0⟩

/-- Every counter of `a` is at most the same counter of `b`. -/
def MetricsLE (a b : reml_ffi_bridge_metrics_t) : Prop :=
  a.total_calls ≤ b.total_calls ∧ a.success_calls ≤ b.success_calls ∧
    a.borrowed_results ≤ b.borrowed_results ∧
    a.transferred_results ≤ b.transferred_results ∧ a.null_results ≤ b.null_results

/-- Bound used for the counters after `n` calls: `success_calls` is at most `total_calls`,
and no counter exceeds `n`. -/
def BridgeBound (c : BridgeCounters) (n : Nat) : Prop :=
  c.bridge_success_calls ≤ c.bridge_total_calls ∧ c.bridge_total_calls ≤ n ∧
    c.bridge_borrowed_results ≤ n ∧ c.bridge_transferred_results ≤ n ∧
    c.bridge_null_results ≤ n

/-- The calls `reml_ffi_bridge_record_status(r)` for the statuses `r` of a list, in order. -/
def recordOps (rs : List Nat) : List BridgeOp :=
  rs.map BridgeOp.record_status


/-! ## The index intrinsic (`intrinsics.c`) -/

/-- The list walk of `reml_index_access`, `cursor` being the non-negative `int64_t` loop
counter: `while (node != NULL && cursor > 0) { node = node->tail; cursor--; }`; the result
is the node the loop stops at. A list node `reml_list_node_t` is the payload
`[head, tail]`. -/
def index_walk (h : Heap) : Nat → Nat → Res Nat
  | node, 0 => .ok node
  | node, cursor + 1 =>
    if node = 0 then .ok node
    else
      match readField h node 1 with
      | .error e => .error e
      | .ok tail => index_walk h tail cursor

/-- The function `reml_index_access(target, index)`. A string value `reml_string_t` is the
payload `[data, length]`; the address `data + index` is formed only for
`0 ≤ index < length`. -/
def reml_index_access (h : Heap) (target : Nat) (index : Int) : Res Nat :=
  if target = 0 then .error (.panic "index target is null")
  else if index < 0 then .error (.panic "index out of bounds")
  else
    match getObj h target with
    | none => .error .fault
    | some (_, tag, _) =>
      if tag = REML_TAG_STRING then
        match readField h target 0, readField h target 1 with
        | .ok data, .ok len =>
          if data = 0 then .error (.panic "index target string data is null")
          else if index ≥ toInt64 len then .error (.panic "index out of bounds")
          else .ok (data + index.toNat)
        | _, _ => .error .fault
      else
        match index_walk h target index.toNat with
        | .error e => .error e
        | .ok node =>
          if node = 0 then .error (.panic "index out of bounds")
          else readField h node 0

/-- The pointer `p` is a list whose nodes carry the head pointers `heads`, in order: `p` is
null for the empty list, and otherwise points to a node with the first head whose tail is a
list of the remaining heads. -/
def ListAt (h : Heap) : Nat → List Nat → Prop
  | p, [] => p = 0
  | p, x :: xs =>
    p ≠ 0 ∧ ∃ tail, readField h p 0 = .ok x ∧ readField h p 1 = .ok tail ∧ ListAt h tail xs

/-- A heap with the two-node list `[500, 600]` at payload pointer 24 and a string value of
length 3 with data at 1000 at payload pointer 72. -/
def sampleListHeap : Heap :=
  ⟨[(16, .obj 1 REML_TAG_ADT [500, 48]), (40, .obj 1 REML_TAG_ADT [600, 0]),
    (64, .obj 1 REML_TAG_STRING [1000, 3])], 3, 0, 0, 0, 0⟩


/-! ## Synchronous writes (`os.c`, POSIX branch) -/

def REML_OS_SUCCESS : Nat := 0
def REML_OS_ERROR_INVALID_ARGUMENT : Nat := 1
def REML_OS_ERROR_SYSTEM_FAILURE : Nat := 2
def REML_OS_ERROR_NOT_SUPPORTED : Nat := 3

/-- What a file descriptor has seen: the bytes it accepted, in order, and the number of
`write` calls made on it. -/
structure OsState where
  out : List Nat
  calls : Nat
  deriving DecidableEq, Repr

/-- The host's `write(fd, buf, n)`, given the history of the descriptor and the `n` bytes
offered: `none` is a negative result, `some k` reports `k` bytes written. -/
abbrev HostWrite := OsState → List Nat → Option Nat

/-- A host `write` never reports more bytes than were requested. -/
def HostWriteOK (W : HostWrite) : Prop := ∀ st buf k, W st buf = some k → k ≤ buf.length

/-- The function `reml_os_file_write(file, buffer, buffer_size, bytes_written)`. A pointer
argument is `none` when null; `buffer` holds the `buffer_size` bytes at the pointer and
`bytes_written` the `size_t` it points to. The result is the new descriptor state, the
result code and the content of `*bytes_written`. The last-error record is left out. -/
def reml_os_file_write (W : HostWrite) (st : OsState) (file : Option Nat)
    (buffer : Option (List Nat)) (bytes_written : Option Nat) : OsState × Nat × Option Nat :=
  match file, buffer, bytes_written with
  | some _, some buf, some _ =>
    match W st buf with
    | none => (⟨st.out, st.calls + 1⟩, REML_OS_ERROR_SYSTEM_FAILURE, some 0)
    | some k => (⟨st.out ++ buf.take k, st.calls + 1⟩, REML_OS_SUCCESS, some k)
  | _, _, _ => (st, REML_OS_ERROR_INVALID_ARGUMENT, bytes_written)

/-- The loop of `reml_os_file_write_all` from `total_written` on; one unit of fuel per
iteration. -/
def write_all_loop (W : HostWrite) (file : Option Nat) (bytes : List Nat) :
    Nat → OsState → Nat → Res (OsState × Nat)
  | 0, _, _ => .error .fuel
  | fuel + 1, st, total_written =>
    if total_written < bytes.length then
      match reml_os_file_write W st file (some (bytes.drop total_written)) (some 0) with
      | (st1, result, chunk_written) =>
        if result ≠ REML_OS_SUCCESS then .ok (st1, result)
        else if chunk_written = some 0 then .ok (st1, REML_OS_ERROR_SYSTEM_FAILURE)
        else
          write_all_loop W file bytes fuel st1
            ((total_written + chunk_written.getD 0) % SIZE_MOD)
    else .ok (st, REML_OS_SUCCESS)

/-- The function `reml_os_file_write_all(file, buffer, buffer_size)`; `buffer` holds the
`buffer_size` bytes at the pointer. -/
def reml_os_file_write_all (W : HostWrite) (fuel : Nat) (st : OsState) (file : Option Nat)
    (buffer : Option (List Nat)) : Res (OsState × Nat) :=
  match file, buffer with
  | some _, some bytes => write_all_loop W file bytes fuel st 0
  | _, _ => .ok (st, REML_OS_ERROR_INVALID_ARGUMENT)

/-- How a run of `reml_os_file_write_all` on `bytes` from state `st` ended in state `st1`
with result `r`: the descriptor accepted the first `j` bytes of the buffer and nothing
else; either `j` is the whole buffer and the result is success, or `j` is short of it, the
result is system failure, and the last `write` made, offered the remaining bytes, failed or
reported 0 bytes. -/
def WroteAll (W : HostWrite) (st : OsState) (bytes : List Nat) (st1 : OsState) (r : Nat) :
    Prop :=
  ∃ j, j ≤ bytes.length ∧ st1.out = st.out ++ bytes.take j ∧ st.calls ≤ st1.calls ∧
    ((r = REML_OS_SUCCESS ∧ j = bytes.length) ∨
      (r = REML_OS_ERROR_SYSTEM_FAILURE ∧ j < bytes.length ∧ st.calls < st1.calls ∧
        (W ⟨st1.out, st1.calls - 1⟩ (bytes.drop j) = none ∨
          W ⟨st1.out, st1.calls - 1⟩ (bytes.drop j) = some 0)))

/-- A host `write` that accepts at most two bytes per call and fails from the fourth call
on. -/
def sampleWrite : HostWrite := fun st buf => if st.calls < 3 then some (min 2 buf.length) else none


/-! ## The panic handler (`panic.c`) -/

/-- The bytes of a string literal, without the terminating NUL. -/
def cstr (s : String) : List Nat := s.toList.map Char.toNat

/-- Output of the conversion `%lu`. -/
def decimal (n : Nat) : List Nat := (Nat.toDigits 10 n).map Char.toNat

/-- Output of the conversion `%d`. -/
def decimalInt (v : Int) : List Nat :=
  if v < 0 then 45 :: decimal (-v).toNat else decimal v.toNat

def INT_MAX : Nat := 2 ^ 31 - 1

/-- The call `snprintf(buf, size, ...)` whose complete output would be `text`: the bytes
stored in `buf` (at most `size - 1` bytes of the output, then the terminating NUL), and the
value returned, which is the length of the complete output, or a negative value if that
length is not an `int`. -/
def snprintf (size : Nat) (text : List Nat) : List Nat × Int :=
  (if size = 0 then [] else text.take (size - 1) ++ [0],
    if text.length ≤ INT_MAX then (text.length : Int) else -1)

/-- A constant part of the banner: `reml_os_file_write_all(&stderr_file, s, strlen(s))`,
the result ignored. Standard error is descriptor 2. -/
def panic_put (W : HostWrite) (fuel : Nat) (st : OsState) (bytes : List Nat) : Res OsState :=
  match reml_os_file_write_all W fuel st (some 2) (some bytes) with
  | .ok (st1, _) => .ok st1
  | .error e => .error e

/-- A formatted line of the banner: `snprintf` into `char line_buffer[256]`, then, if the
returned `length` is positive, `reml_os_file_write_all(&stderr_file, line_buffer,
(size_t)length)`, the result ignored. A `length` above the number of bytes `snprintf`
stored makes the write read past the end of `line_buffer`. -/
def panic_line (W : HostWrite) (fuel : Nat) (st : OsState) (text : List Nat) : Res OsState :=
  match snprintf 256 text with
  | (line_buffer, length) =>
    if length > 0 then
      if length.toNat ≤ line_buffer.length then panic_put W fuel st (line_buffer.take length.toNat)
      else .error .fault
    else .ok st

/-- The rule of the banner: 47 characters `=` (code 61). -/
def banner_rule : List Nat := List.replicate 47 61

/-- The string `banner_top`: a newline, the rule, a newline. -/
def banner_top : List Nat := cstr "\n" ++ banner_rule ++ cstr "\n"

/-- The string `banner_mid`: the title line, then the rule and a newline. -/
def banner_mid : List Nat := cstr "PANIC: Runtime Error\n" ++ banner_rule ++ cstr "\n"

/-- The string `banner_bottom`: the rule and two newlines. -/
def banner_bottom : List Nat := banner_rule ++ cstr "\n\n"

/-- How a call that does not return ends: what standard error has seen, and the exit code
of the process. -/
structure ProcessExit where
  stderr : OsState
  code : Nat
  deriving DecidableEq, Repr

/-- The function `panic(msg)`. `time_buf` is the string `reml_format_timestamp` left in
`time_buf` and `pid` the value of `reml_get_process_id()`; `msg` is `none` for a null
pointer and otherwise the bytes of the NUL-terminated string. -/
def panic (W : HostWrite) (fuel : Nat) (time_buf : List Nat) (pid : Nat) (st : OsState)
    (msg : Option (List Nat)) : Res ProcessExit := do
  let st1 ← panic_put W fuel st banner_top
  let st2 ← panic_put W fuel st1 banner_mid
  let st3 ← panic_line W fuel st2 (cstr "Time:    " ++ time_buf ++ cstr "\n")
  let st4 ← panic_line W fuel st3 (cstr "PID:     " ++ decimal pid ++ cstr "\n")
  let st5 ← panic_line W fuel st4 (cstr "Message: " ++ msg.getD (cstr "(null)") ++ cstr "\n")
  let st6 ← panic_put W fuel st5 banner_bottom
  .ok ⟨st6, 1⟩

/-- The function `panic_at(msg, file, line)`. -/
def panic_at (W : HostWrite) (fuel : Nat) (time_buf : List Nat) (pid : Nat) (st : OsState)
    (msg file : Option (List Nat)) (line : Int) : Res ProcessExit := do
  let st1 ← panic_put W fuel st banner_top
  let st2 ← panic_put W fuel st1 banner_mid
  let st3 ← panic_line W fuel st2 (cstr "Time:     " ++ time_buf ++ cstr "\n")
  let st4 ← panic_line W fuel st3 (cstr "PID:      " ++ decimal pid ++ cstr "\n")
  let st5 ← panic_line W fuel st4
    (cstr "Location: " ++ file.getD (cstr "(unknown)") ++ cstr ":" ++ decimalInt line ++ cstr "\n")
  let st6 ← panic_line W fuel st5 (cstr "Message:  " ++ msg.getD (cstr "(null)") ++ cstr "\n")
  let st7 ← panic_put W fuel st6 banner_bottom
  .ok ⟨st7, 1⟩

/-- A host `write` that never reports more than requested, never fails and always makes
progress on a non-empty request. -/
def HostWriteLive (W : HostWrite) : Prop :=
  HostWriteOK W ∧ ∀ st buf, buf ≠ [] → ∃ k, W st buf = some k ∧ 0 < k

/-- A host `write` that accepts every byte offered. -/
def fullWrite : HostWrite := fun _ buf => some buf.length


/-! ## Sets built from `reml_set_new` by insertions -/

/-- The calls `s = reml_set_insert(s, v)` for the values `v` of a list, in order, starting
from the set `s`. -/
def set_chain (H : Host) : Heap → Nat → List Nat → Res (Heap × Nat)
  | h, s, [] => .ok (h, s)
  | h, s, v :: vs =>
    match reml_set_insert H h s v with
    | .error e => .error e
    | .ok (h1, s1) => set_chain H h1 s1 vs

/-- The call `reml_set_new()` followed by one `reml_set_insert` per value of a list, each
on the set the previous call returned. -/
def set_build (H : Host) (h : Heap) (vs : List Nat) : Res (Heap × Nat) :=
  match reml_set_new H h with
  | .error e => .error e
  | .ok (h1, s) => set_chain H h1 s vs

/-- The representation invariant of a set object `s` with stored items `xs`: the tag is
SET, `len` is non-negative and is the number of items, `capacity = len`, the `items`
pointer is null exactly when `len = 0`, slot `i` of the items array holds `xs[i]` for every
`i < len`, and the stored items are pairwise distinct. -/
def SetInv (h : Heap) (s : Nat) (xs : List Nat) : Prop :=
  ∃ rc len cap items, getObj h s = some (rc, REML_TAG_SET, [len, cap, items]) ∧
    0 ≤ toInt64 len ∧ toInt64 len = (xs.length : Int) ∧ cap = len ∧
    (items = 0 ↔ toInt64 len = 0) ∧
    (∀ i (hi : i < xs.length), readSlot h items i = .ok xs[i]) ∧ xs.Nodup


/-! ## Counting objects -/

/-- Whether a looked-up block is an object (a block with a header). -/
def isObj : Option Block → Bool
  | some (.obj _ _ _) => true
  | _ => false

/-- The raw addresses at which an object is allocated. -/
def objKeys (m : Mem) : Finset Nat :=
  (m.map Prod.fst).toFinset.filter (fun k => isObj (memGet k m) = true)

/-- Number of objects allocated and not yet freed. -/
def objCount (h : Heap) : Nat := (objKeys h.mem).card

/-- The counters of `h1` are those of `h` after `d` destructor runs, each followed by its
`mem_free`, and nothing else: `d` objects fewer are allocated, and the destruction and free
counters have moved `d` times. -/
def Destroyed (h h1 : Heap) (d : Nat) : Prop :=
  h1.free_count = countN d h.free_count ∧ h1.destroy_count = countN d h.destroy_count ∧
    objCount h1 + d = objCount h ∧ h1.alloc_count = h.alloc_count ∧
    h1.inc_ref_count = h.inc_ref_count


/-! ## Boxes collected in an array and released -/

/-- The calls `b_i = reml_box_i64(x_i)` for the values of a list, in order: the final state
and the boxes. -/
def box_all (H : Host) : Heap → List Int → Res (Heap × List Nat)
  | h, [] => .ok (h, [])
  | h, x :: xs =>
    match reml_box_i64 H h x with
    | .error e => .error e
    | .ok (h1, b) =>
      match box_all H h1 xs with
      | .error e => .error e
      | .ok (h2, bs) => .ok (h2, b :: bs)

/-- The calls `dec_ref(b_i)` for the pointers of a list, in order. -/
def release_all (fuel : Nat) : Heap → List Nat → Res Heap
  | h, [] => .ok h
  | h, b :: bs =>
    match dec_ref fuel h b with
    | .error e => .error e
    | .ok h1 => release_all fuel h1 bs


/-! ## Reference-count well-formedness -/

/-- The slots of an element array; nothing for any other block. -/
def bufOf : Option Block → List Nat
  | some (.buf bs) => bs
  | _ => []

/-- The slots `items[0 .. len)` a container with fields `len` and `items` owns; none for a
null `items`. -/
def bufSlots (m : Mem) (len items : Nat) : List Nat :=
  if items = 0 then [] else (bufOf (memGet items m)).take (toInt64 len).toNat

/-- The `items` field of a tuple, record, array or set payload; 0 for every other tag. -/
def itemsOf (tag : Nat) (pl : List Nat) : Nat :=
  if tag = REML_TAG_TUPLE ∨ tag = REML_TAG_RECORD ∨ tag = REML_TAG_ARRAY then pl.getD 1 0
  else if tag = REML_TAG_SET then pl.getD 2 0
  else 0

/-- The owning slots of an object with the given tag and payload, that is the pointers its
destructor releases: the items of a tuple, record, array or set, the environment of a
closure, the payload of an ADT value. -/
def ownedSlots (m : Mem) (tag : Nat) (pl : List Nat) : List Nat :=
  if tag = REML_TAG_TUPLE ∨ tag = REML_TAG_RECORD ∨ tag = REML_TAG_ARRAY then
    bufSlots m (pl.getD 0 0) (pl.getD 1 0)
  else if tag = REML_TAG_CLOSURE then [pl.getD 0 0]
  else if tag = REML_TAG_ADT then [pl.getD 1 0]
  else if tag = REML_TAG_SET then bufSlots m (pl.getD 0 0) (pl.getD 2 0)
  else []

/-- Refcount in the header at raw address `k`; 0 if no object is there. -/
def rcAt (m : Mem) (k : Nat) : Nat :=
  match memGet k m with
  | some (.obj rc _ _) => rc
  | _ => 0

/-- Tag in the header at raw address `k`. -/
def tagAt (m : Mem) (k : Nat) : Nat :=
  match memGet k m with
  | some (.obj _ tag _) => tag
  | _ => 0

/-- Payload words of the object at raw address `k`. -/
def plAt (m : Mem) (k : Nat) : List Nat :=
  match memGet k m with
  | some (.obj _ _ pl) => pl
  | _ => []

/-- An object is live while it is allocated and its refcount is positive; an object whose
refcount has dropped to zero is being destroyed. -/
def liveAt (m : Mem) (k : Nat) : Bool :=
  isObj (memGet k m) && decide (1 ≤ rcAt m k)

/-- The owning slots of the object at raw address `k`, if it is live. -/
def slotsAt (m : Mem) (k : Nat) : List Nat :=
  if liveAt m k then ownedSlots m (tagAt m k) (plAt m k) else []

/-- The `items` field of the object at raw address `k`; 0 if there is none. -/
def itemsAt (m : Mem) (k : Nat) : Nat :=
  if isObj (memGet k m) then itemsOf (tagAt m k) (plAt m k) else 0

/-- The raw addresses of all blocks. -/
def keysOf (m : Mem) : Finset Nat := (m.map Prod.fst).toFinset

/-- Number of owning slots of live objects that hold the pointer `q`. -/
def inCount (m : Mem) (q : Nat) : Nat :=
  Finset.sum (keysOf m) (fun k => (slotsAt m k).count q)

/-- Number of live objects. -/
def liveCount (m : Mem) : Nat := ((keysOf m).filter (fun k => liveAt m k = true)).card

/-- A heap is well-formed when every non-null owning slot of a live object points to a
live object, and the refcount of every live object is at least the number of owning slots
of live objects that point to it. -/
def WellFormed (h : Heap) : Prop :=
  ∀ k ∈ keysOf h.mem,
    (∀ x ∈ slotsAt h.mem k, x ≠ 0 → 8 ≤ x ∧ liveAt h.mem (x - 8) = true) ∧
    (liveAt h.mem k = true → inCount h.mem (k + 8) ≤ rcAt h.mem k)

/-- The fields `len` and `items` of a container are usable: a non-null `items` is an
element array with at least `len` slots. -/
def bufOK (m : Mem) (len items : Nat) : Prop :=
  items ≠ 0 → isObj (memGet items m) = false ∧ memGet items m ≠ none ∧
    (toInt64 len).toNat ≤ (bufOf (memGet items m)).length

/-- The payload has the layout of the struct the destructor of the tag reads. -/
def shapeOK (m : Mem) (tag : Nat) (pl : List Nat) : Prop :=
  ((tag = REML_TAG_TUPLE ∨ tag = REML_TAG_RECORD ∨ tag = REML_TAG_ARRAY) →
    2 ≤ pl.length ∧ bufOK m (pl.getD 0 0) (pl.getD 1 0)) ∧
  (tag = REML_TAG_CLOSURE → 1 ≤ pl.length) ∧
  (tag = REML_TAG_ADT → 2 ≤ pl.length) ∧
  (tag = REML_TAG_SET → 3 ≤ pl.length ∧ bufOK m (pl.getD 0 0) (pl.getD 2 0))

/-- What the representation gives for every heap of the runtime: refcounts are 32-bit
values, the payload of an object has the layout of its tag, and no element array belongs
to two objects. -/
def Typed (h : Heap) : Prop :=
  ∀ k ∈ keysOf h.mem, isObj (memGet k h.mem) = true →
    rcAt h.mem k < U32_MOD ∧
    shapeOK h.mem (tagAt h.mem k) (plAt h.mem k) ∧
    (itemsAt h.mem k ≠ 0 → ∀ k2 ∈ keysOf h.mem, itemsAt h.mem k2 = itemsAt h.mem k → k2 = k)

/-- The pointer `x` is the payload pointer of a live object. -/
def LivePtr (m : Mem) (x : Nat) : Prop :=
  8 ≤ x ∧ ∃ rc t pl, memGet (x - 8) m = some (.obj rc t pl) ∧ 1 ≤ rc

/-- The invariant of a release in progress: the heap is typed and well-formed, where in
addition every pointer of the list `owed`, the references still to be released, is null or
points to a live object, and the refcount of a live object covers the owning slots of live
objects that hold it and its occurrences in `owed`. -/
structure RcInv (m : Mem) (owed : List Nat) : Prop where
  rc32 : ∀ k rc t pl, memGet k m = some (.obj rc t pl) → rc < U32_MOD
  shape : ∀ k rc t pl, memGet k m = some (.obj rc t pl) → shapeOK m t pl
  bufs : ∀ k1 k2 rc1 t1 pl1 rc2 t2 pl2, memGet k1 m = some (.obj rc1 t1 pl1) →
    memGet k2 m = some (.obj rc2 t2 pl2) → itemsOf t1 pl1 ≠ 0 →
    itemsOf t1 pl1 = itemsOf t2 pl2 → k1 = k2
  pts : ∀ k, ∀ x ∈ slotsAt m k, x ≠ 0 → LivePtr m x
  owedLive : ∀ x ∈ owed, x ≠ 0 → LivePtr m x
  rcs : ∀ k rc t pl, memGet k m = some (.obj rc t pl) → 1 ≤ rc →
    inCount m (k + 8) + owed.count (k + 8) ≤ rc

/-- A block no release touches: an object whose refcount is zero (it is being destroyed by
a caller), or the element array of such an object. -/
def Dead (m : Mem) (a : Nat) : Prop :=
  (∃ t pl, memGet a m = some (.obj 0 t pl)) ∨
  (∃ bs k t pl, memGet a m = some (.buf bs) ∧ memGet k m = some (.obj 0 t pl) ∧
    itemsOf t pl = a)

/-- What a release leaves alone: dead blocks are untouched, and every object live
afterwards was live before, with the same tag and payload. -/
structure Frame (m m1 : Mem) : Prop where
  dead : ∀ a, Dead m a → memGet a m1 = memGet a m
  sub : ∀ k rc1 t pl, memGet k m1 = some (.obj rc1 t pl) → 1 ≤ rc1 →
    ∃ rc, memGet k m = some (.obj rc t pl) ∧ 1 ≤ rc


/-- Releases are safe in every state with at most `n` live objects: from the invariant with
the released pointer at the head of the owed list, `dec_ref` returns for every fuel from
some bound on, the invariant holds of the rest of the list, and no dead block is touched. -/
def DecOK (n : Nat) : Prop :=
  ∀ (h : Heap) (owed : List Nat) (x : Nat), liveCount h.mem ≤ n → RcInv h.mem (x :: owed) →
    ∃ F h1, (∀ fuel, F ≤ fuel → rcExec fuel h (.dec x) = .ok h1) ∧ RcInv h1.mem owed ∧
      Frame h.mem h1.mem


/-! ## Preservation of well-formedness -/

/-- Every non-null pointer of `S` points to a live object of `m` whose refcount can take one
more reference per occurrence in `S` without wrapping. -/
def Retainable (m : Mem) (S : List Nat) : Prop :=
  ∀ x ∈ S, x ≠ 0 → 8 ≤ x ∧ ∃ rc t pl, memGet (x - 8) m = some (.obj rc t pl) ∧
    1 ≤ rc ∧ rc + S.count x < U32_MOD

instance (h : Heap) : Decidable (WellFormed h) := by
  unfold WellFormed
  infer_instance

instance (m : Mem) (len items : Nat) : Decidable (bufOK m len items) := by
  unfold bufOK
  infer_instance

instance (m : Mem) (tag : Nat) (pl : List Nat) : Decidable (shapeOK m tag pl) := by
  unfold shapeOK
  infer_instance

instance (h : Heap) : Decidable (Typed h) := by
  unfold Typed
  infer_instance

/-- A boxed integer with two references, one of them from the environment slot of a closure,
and an empty set. -/
def envHeap : Heap :=
  ⟨[(16, .obj 2 REML_TAG_INT [7]), (40, .obj 1 REML_TAG_CLOSURE [24, 0]),
    (64, .obj 1 REML_TAG_SET [0, 0, 0])], 3, 0, 1, 0, 0⟩

/-- A closure whose environment is a boxed integer with refcount `UINT32_MAX`. -/
def fullHeap : Heap :=
  ⟨[(16, .obj (U32_MOD - 1) REML_TAG_INT [7]), (40, .obj 1 REML_TAG_CLOSURE [24, 0])],
    2, 0, 1, 0, 0⟩

/-- An array with one external reference whose three slots hold a closure `b` twice and a
closure `x` once; the environment of `b` is a boxed integer held by nobody else, and `x`
forms a reference cycle with a closure `y`, each being the environment of the other. -/
def cascadeHeap : Heap :=
  ⟨[(16, .obj 1 REML_TAG_ARRAY [3, 200]), (200, .buf [48, 48, 96]),
    (40, .obj 2 REML_TAG_CLOSURE [72, 0]), (64, .obj 1 REML_TAG_INT [5]),
    (88, .obj 2 REML_TAG_CLOSURE [120, 0]), (112, .obj 1 REML_TAG_CLOSURE [96, 0])],
    5, 0, 5, 0, 0⟩

/-! ## The part of the heap a release can reach -/

/-- The set `P` of addresses is closed under ownership in `m`: with an object it contains
the element array of the object and every object an owning slot of the object points to. -/
def Closed (P : Nat → Prop) (m : Mem) : Prop :=
  ∀ k rc t pl, P k → memGet k m = some (.obj rc t pl) →
    (itemsOf t pl ≠ 0 → P (itemsOf t pl)) ∧ ∀ x ∈ ownedSlots m t pl, x ≠ 0 → P (x - 8)

/-- The memory `m1` comes from `m` by steps of a release that stay within `P`: the blocks
outside `P` are unchanged, every object of `m1` is an object of `m` with the same tag, the
same or no element array and no further owning slot, and no block has appeared at the null
address. -/
structure Within (P : Nat → Prop) (m m1 : Mem) : Prop where
  out : ∀ b, ¬ P b → memGet b m1 = memGet b m
  shrink : ∀ k rc1 t pl1, memGet k m1 = some (.obj rc1 t pl1) →
    ∃ rc pl, memGet k m = some (.obj rc t pl) ∧
      (itemsOf t pl1 ≠ 0 → itemsOf t pl1 = itemsOf t pl) ∧
      ∀ x ∈ ownedSlots m1 t pl1, x ∈ ownedSlots m t pl
  null : memGet 0 m = none → memGet 0 m1 = none

/-- The object a call of `rcExec` starts from lies in `P`, and an element loop runs on an
object of the kind the loop belongs to. -/
def InFoot (P : Nat → Prop) (h : Heap) : RcCall → Prop
  | .dec x => x ≠ 0 → P (x - 8)
  | .slots p _ => P (p - 8) ∧ ∀ rc t pl, getObj h p = some (rc, t, pl) → slotsTag t
  | .setItems p _ => P (p - 8) ∧ ∀ rc t pl, getObj h p = some (rc, t, pl) → t = REML_TAG_SET


/-! ## Release of a container whose children are containers themselves -/

/-- The list `L` of addresses is closed under ownership in `m`: with an object it contains
the element array of the object and every object an owning slot of the object points to. -/
def closedIn (m : Mem) (L : List Nat) : Prop :=
  ∀ k ∈ L, (itemsAt m k ≠ 0 → itemsAt m k ∈ L) ∧
    ∀ x ∈ ownedSlots m (tagAt m k) (plAt m k), x ≠ 0 → x - 8 ∈ L

instance (m : Mem) (L : List Nat) : Decidable (closedIn m L) := by
  unfold closedIn
  infer_instance

/-- The child `x` of the container `c` with element array `items` and slots `slots` can be
destroyed apart from the rest of `c`: `L` holds what is reachable from `x` through owning
slots, and neither `c`, nor its element array, nor another child of `c` is in it. -/
def Apart (h : Heap) (slots : List Nat) (c items x : Nat) (L : List Nat) : Prop :=
  x - 8 ∈ L ∧ closedIn h.mem L ∧ c - 8 ∉ L ∧ items ∉ L ∧
    ∀ y ∈ slots, y ≠ 0 → y ≠ x → y - 8 ∉ L

instance (h : Heap) (slots : List Nat) (c items x : Nat) (L : List Nat) :
    Decidable (Apart h slots c items x L) := by
  unfold Apart
  infer_instance

/-- What the release of a container assumes of its children when they may be containers
themselves: every non-null slot holds a live object whose 32-bit refcount is at least the
number of slots holding it, and a child whose refcount equals that number (it will be
destroyed) can be destroyed apart from the rest of the container, within `foot x`. -/
def KidsApart (h : Heap) (slots : List Nat) (c items : Nat) (foot : Nat → List Nat) : Prop :=
  ∀ x ∈ slots, x ≠ 0 → ∃ rc t pl, getObj h x = some (rc, t, pl) ∧ slots.count x ≤ rc ∧
    rc < U32_MOD ∧ (slots.count x = rc → Apart h slots c items x (foot x))

/-- State of the tuple / record / array destructor of the container at raw address `raw`
when its loop stands at index `i`, for children that satisfy `KidsApart`: the children have
dropped by their occurrences so far, and what lies outside all of `foot` is unchanged. -/
def CascadeInv (h : Heap) (slots : List Nat) (foot : Nat → List Nat) (raw items tag : Nat)
    (pl : List Nat) (i : Nat) (cur : Heap) : Prop :=
  memGet items cur.mem = some (.buf slots) ∧
  memGet raw cur.mem = some (.obj 0 tag pl) ∧
  Within (fun _ => True) h.mem cur.mem ∧
  (∀ x ∈ slots, x ≠ 0 →
    memGet (x - 8) cur.mem = (memGet (x - 8) h.mem).bind (dropBlock ((slots.take i).count x))) ∧
  (∀ b, b ≠ raw → b ≠ items → b + 8 ∉ slots → (∀ x ∈ slots, x ≠ 0 → b ∉ foot x) →
    memGet b cur.mem = memGet b h.mem)

/-- An array with one external reference whose slots hold an inner array and a tuple. The
inner array is held by nobody else and holds a boxed integer twice; the tuple has a second,
external reference and holds the same boxed integer once. -/
def nestedHeap : Heap :=
  ⟨[(16, .obj 1 REML_TAG_ARRAY [2, 200]), (200, .buf [48, 96]),
    (40, .obj 1 REML_TAG_ARRAY [2, 208]), (208, .buf [72, 72]),
    (88, .obj 2 REML_TAG_TUPLE [1, 216]), (216, .buf [72]),
    (64, .obj 3 REML_TAG_INT [5])], 4, 0, 4, 0, 0⟩

/-- For `nestedHeap`: what is reachable from the inner array, namely the inner array, its
element array and the boxed integer. -/
def nestedFoot (x : Nat) : List Nat :=
  if x = 48 then [40, 208, 64] else []


/-! # Theorems -/

/-! ## Memory table -/

theorem memGet_memSet_same (a : Nat) (b : Block) (m : Mem) :
    memGet a (memSet a b m) = (memGet a m).map (fun _ => b) := by
  induction m with
  | nil => rfl
  | cons e m ih =>
    obtain ⟨k, b0⟩ := e
    by_cases hk : k = a
    · simp [memGet, memSet, hk]
    · simp [memGet, memSet, hk, ih]

theorem memGet_memSet_ne {a c : Nat} (b : Block) (m : Mem) (hne : c ≠ a) :
    memGet c (memSet a b m) = memGet c m := by
  induction m with
  | nil => rfl
  | cons e m ih =>
    obtain ⟨k, b0⟩ := e
    by_cases hk : k = a
    · have hkc : ¬ k = c := fun h => hne (h.symm.trans hk)
      simp [memGet, memSet, hk, hkc]
      rw [if_neg (fun h => hne h.symm), if_neg (fun h => hne h.symm)]
    · by_cases hkc : k = c
      · subst hkc
        simp [memGet, memSet, hk]
      · simp [memGet, memSet, hk, hkc, ih]

theorem memGet_memErase_same (a : Nat) (m : Mem) : memGet a (memErase a m) = none := by
  induction m with
  | nil => rfl
  | cons e m ih =>
    obtain ⟨k, b0⟩ := e
    by_cases hk : k = a
    · simpa [memErase, hk] using ih
    · simp [memErase, hk, memGet, ih]

theorem memGet_memErase_ne {a c : Nat} (m : Mem) (hne : c ≠ a) :
    memGet c (memErase a m) = memGet c m := by
  induction m with
  | nil => rfl
  | cons e m ih =>
    obtain ⟨k, b0⟩ := e
    by_cases hk : k = a
    · have hkc : ¬ k = c := fun h => hne (h.symm.trans hk)
      simp [memErase, hk, memGet, ih]
      rw [if_neg (fun h => hne h.symm)]
    · by_cases hkc : k = c
      · subst hkc
        simp [memErase, hk, memGet]
      · simp [memErase, hk, memGet, hkc, ih]

theorem memErase_of_fresh {a : Nat} {m : Mem} (hf : memGet a m = none) : memErase a m = m := by
  induction m with
  | nil => rfl
  | cons e m ih =>
    obtain ⟨k, b0⟩ := e
    by_cases hk : k = a
    · simp [memGet, hk] at hf
    · simp only [memGet, hk, if_false] at hf
      simp [memErase, hk, ih hf]

theorem memErase_cons_same (a : Nat) (b : Block) (m : Mem) :
    memErase a ((a, b) :: m) = memErase a m := by
  simp [memErase]

theorem memSet_cons_same (a : Nat) (b b0 : Block) (m : Mem) :
    memSet a b ((a, b0) :: m) = (a, b) :: m := by
  simp [memSet]

theorem memGet_cons_same (a : Nat) (b : Block) (m : Mem) : memGet a ((a, b) :: m) = some b := by
  simp [memGet]

theorem memGet_cons_ne {a c : Nat} (b : Block) (m : Mem) (hne : c ≠ a) :
    memGet c ((a, b) :: m) = memGet c m := by
  have : ¬ a = c := fun h => hne h.symm
  simp [memGet, this]

theorem memSet_memSet (a : Nat) (b b1 : Block) (m : Mem) :
    memSet a b (memSet a b1 m) = memSet a b m := by
  induction m with
  | nil => rfl
  | cons e m ih =>
    obtain ⟨k, b0⟩ := e
    by_cases hk : k = a
    · simp [memSet, hk]
    · simp [memSet, hk, ih]

theorem memSet_of_get {a : Nat} {b : Block} {m : Mem} (hg : memGet a m = some b) :
    memSet a b m = m := by
  induction m with
  | nil => rfl
  | cons e m ih =>
    obtain ⟨k, b0⟩ := e
    by_cases hk : k = a
    · simp [memGet, hk] at hg
      simp [memSet, hk, hg]
    · simp only [memGet, hk, if_false] at hg
      simp [memSet, hk, ih hg]

theorem memErase_memSet (a : Nat) (b : Block) (m : Mem) :
    memErase a (memSet a b m) = memErase a m := by
  induction m with
  | nil => rfl
  | cons e m ih =>
    obtain ⟨k, b0⟩ := e
    by_cases hk : k = a
    · simp [memErase, memSet, hk]
    · simp [memErase, memSet, hk, ih]

/-! ## Hosts -/

theorem memGet_of_maxKey_lt {a : Nat} {m : Mem} (hlt : maxKey m < a) : memGet a m = none := by
  induction m with
  | nil => rfl
  | cons e m ih =>
    obtain ⟨k, b0⟩ := e
    simp only [maxKey] at hlt
    have hk : ¬ k = a := by omega
    have hm : maxKey m < a := by omega
    simp [memGet, hk, ih hm]

theorem bumpHost_ok : HostOK bumpHost := by
  intro m n a ha
  simp only [bumpHost, Option.some.injEq] at ha
  subst ha
  exact ⟨by omega, memGet_of_maxKey_lt (by omega)⟩

theorem bumpHost_serves (n : Nat) : HostServes bumpHost n :=
  fun _ => ⟨_, rfl⟩

/-! ## Alignment -/

theorem land_not7 (x : Nat) (hx : x < 2 ^ 64) : x &&& (2 ^ 64 - 8) = 8 * (x / 8) := by
  apply Nat.eq_of_testBit_eq
  intro i
  have h1 : (2 : Nat) ^ 64 - 8 = 2 ^ 3 * (2 ^ 61 - 1) := by norm_num
  have h2 : (8 : Nat) = 2 ^ 3 := by norm_num
  rw [Nat.testBit_land, h1, h2, Nat.testBit_mul_pow_two, Nat.testBit_mul_pow_two,
    Nat.testBit_two_pow_sub_one, ← Nat.shiftRight_eq_div_pow, Nat.testBit_shiftRight]
  by_cases h3 : 3 ≤ i
  · have h5 : 3 + (i - 3) = i := by omega
    by_cases h4 : i - 3 < 61
    · simp [h3, h4, h5]
    · have : x.testBit i = false := by
        apply Nat.testBit_lt_two_pow
        calc x < 2 ^ 64 := hx
          _ ≤ 2 ^ i := Nat.pow_le_pow_right (by norm_num) (by omega)
      simp [h3, h4, this]
  · simp [h3]

theorem align_to_8_eq (size : Nat) : align_to_8 size = 8 * (((size + 7) % 2 ^ 64) / 8) := by
  unfold align_to_8 SIZE_MOD
  exact land_not7 _ (Nat.mod_lt _ (by norm_num))

theorem align_to_8_lt (size : Nat) : align_to_8 size < 2 ^ 64 := by
  rw [align_to_8_eq]
  have := Nat.mod_lt (size + 7) (show 0 < 2 ^ 64 by norm_num)
  omega

/-! ## Objects -/

theorem getObj_some_iff {h : Heap} {p rc tag : Nat} {pl : List Nat} :
    getObj h p = some (rc, tag, pl) ↔ 8 ≤ p ∧ memGet (p - 8) h.mem = some (.obj rc tag pl) := by
  unfold getObj HEADER_SIZE
  by_cases hp : p < 8
  · simp [hp]
  · simp only [hp, if_false]
    constructor
    · intro hg
      refine ⟨by omega, ?_⟩
      split at hg
      · simp only [Option.some.injEq, Prod.mk.injEq] at hg
        obtain ⟨h1, h2, h3⟩ := hg
        subst h1 h2 h3
        assumption
      · exact absurd hg (by simp)
    · rintro ⟨_, hm⟩
      rw [hm]

theorem getObj_congr {h1 h2 : Heap} (hm : h1.mem = h2.mem) (p : Nat) :
    getObj h1 p = getObj h2 p := by
  unfold getObj
  rw [hm]

theorem getObj_putObj_same {h : Heap} {p rc0 t0 : Nat} {pl0 : List Nat} (rc t : Nat)
    (pl : List Nat) (hg : getObj h p = some (rc0, t0, pl0)) :
    getObj (putObj h p rc t pl) p = some (rc, t, pl) := by
  obtain ⟨hp, hm⟩ := getObj_some_iff.mp hg
  apply getObj_some_iff.mpr
  refine ⟨hp, ?_⟩
  simp [putObj, HEADER_SIZE, memGet_memSet_same, hm]

theorem getObj_putObj_ne {h : Heap} {p q : Nat} (rc t : Nat) (pl : List Nat) (hp : 8 ≤ p)
    (hne : q ≠ p) : getObj (putObj h p rc t pl) q = getObj h q := by
  unfold getObj HEADER_SIZE
  by_cases hq : q < 8
  · simp [hq]
  · have : q - 8 ≠ p - 8 := by omega
    simp [hq, putObj, HEADER_SIZE, memGet_memSet_ne _ _ this]

/-! ## Claims on `mem_alloc.c` and the reference counter -/

theorem align_to_8_bounds (size : Nat) :
    align_to_8 size % 8 = 0 ∧
      (size + 7 < 2 ^ 64 → size ≤ align_to_8 size ∧ align_to_8 size < size + 8) := by
  rw [align_to_8_eq]
  refine ⟨by omega, ?_⟩
  intro hs
  rw [Nat.mod_eq_of_lt hs]
  omega

/-- C4, amended: for every requested size with `size + 7 < 2^64` (the sum does not wrap in
`size_t` arithmetic), `align_to_8(size)` is the size rounded up to 8: a multiple of 8, at
least `size` and below `size + 8`. -/
theorem align_to_8_rounds_up (size : Nat) (hs : size + 7 < 2 ^ 64) :
    align_to_8 size % 8 = 0 ∧ size ≤ align_to_8 size ∧ align_to_8 size < size + 8 :=
  ⟨(align_to_8_bounds size).1, (align_to_8_bounds size).2 hs⟩

/-- Witness for C4 (amended): the size 13 is rounded up to 16. -/
theorem align_to_8_rounds_up_witness :
    align_to_8 13 % 8 = 0 ∧ 13 ≤ align_to_8 13 ∧ align_to_8 13 < 13 + 8 :=
  align_to_8_rounds_up 13 (by decide)

/-- C4 as stated fails: `align_to_8(SIZE_MAX)` is `0`, which is below the requested size,
so the rounding property does not hold for every `size_t` value. -/
theorem align_to_8_size_max :
    align_to_8 (2 ^ 64 - 1) = 0 ∧
      ¬ (align_to_8 (2 ^ 64 - 1) % 8 = 0 ∧ 2 ^ 64 - 1 ≤ align_to_8 (2 ^ 64 - 1) ∧
          align_to_8 (2 ^ 64 - 1) < 2 ^ 64 - 1 + 8) := by
  decide

/-- C6: `inc_ref(NULL)`, `dec_ref(NULL)`, `mem_free(NULL)` and `reml_set_type_tag(NULL, t)`
return with the state (every block and every counter) unchanged, and
`reml_get_type_tag(NULL)` returns 0. -/
theorem null_is_noop (h : Heap) (t fuel : Nat) :
    inc_ref h 0 = .ok h ∧ dec_ref (fuel + 1) h 0 = .ok h ∧ mem_free h 0 = .ok h ∧
      reml_set_type_tag h 0 t = .ok h ∧ reml_get_type_tag h 0 = .ok 0 := by
  refine ⟨?_, ?_, ?_, ?_, ?_⟩ <;>
    simp [inc_ref, dec_ref, rcExec, mem_free, reml_set_type_tag, reml_get_type_tag]

/-- What `mem_alloc` returns when it returns: the raw address the host gave, the new state
and the payload pointer. -/
theorem mem_alloc_ok {H : Host} {h h1 : Heap} {size p : Nat}
    (hok : mem_alloc H h size = .ok (h1, p)) :
    ∃ raw, H h.mem ((8 + align_to_8 size) % 2 ^ 64) = some raw ∧ p = raw + 8 ∧
      h1 = { h with
              mem := (raw, .obj 1 0 (List.replicate (align_to_8 size / 8) 0)) :: h.mem
              alloc_count := (h.alloc_count + 1) % SIZE_MOD } := by
  unfold mem_alloc at hok
  simp only [HEADER_SIZE, SIZE_MOD] at hok
  split at hok
  · exact absurd hok (by simp)
  · rename_i raw hraw
    split at hok
    · exact absurd hok (by simp)
    · simp only [Except.ok.injEq, Prod.mk.injEq] at hok
      exact ⟨raw, hraw, hok.2.symm, by rw [← hok.1]; rfl⟩

/-- When `mem_alloc(size)` returns, the payload pointer is non-null and was not live
before, its header has refcount 1 and tag 0, its payload consists of
`align_to_8(size)` zero bytes (`align_to_8(size) / 8` zero words), every block that was
in memory is still there unchanged, and only the allocation counter moved. -/
theorem mem_alloc_state (H : Host) (hH : HostOK H) (h h1 : Heap) (size p : Nat)
    (hok : mem_alloc H h size = .ok (h1, p)) :
    p ≠ 0 ∧ getObj h p = none ∧
      getObj h1 p = some (1, 0, List.replicate (align_to_8 size / 8) 0) ∧
      8 * (List.replicate (align_to_8 size / 8) 0).length = align_to_8 size ∧
      (∀ a b, memGet a h.mem = some b → memGet a h1.mem = some b) ∧
      (∀ q, q ≠ p → getObj h1 q = getObj h q) ∧
      h1.alloc_count = (h.alloc_count + 1) % SIZE_MOD ∧ h1.free_count = h.free_count ∧
      h1.inc_ref_count = h.inc_ref_count ∧ h1.dec_ref_count = h.dec_ref_count ∧
      h1.destroy_count = h.destroy_count := by
  obtain ⟨raw, hraw, hp, hh1⟩ := mem_alloc_ok hok
  obtain ⟨hraw0, hfresh⟩ := hH _ _ _ hraw
  subst hp hh1
  refine ⟨by omega, ?_, ?_, ?_, ?_, ?_, rfl, rfl, rfl, rfl, rfl⟩
  · simp [getObj, HEADER_SIZE, hfresh]
  · simp [getObj, HEADER_SIZE, memGet]
  · have := (align_to_8_bounds size).1
    simp only [List.length_replicate]
    omega
  · intro a b hab
    have hne : a ≠ raw := by
      intro he
      rw [he, hfresh] at hab
      exact absurd hab (by simp)
    simpa [memGet_cons_ne _ _ hne] using hab
  · intro q hq
    unfold getObj HEADER_SIZE
    by_cases hq8 : q < 8
    · simp [hq8]
    · have hne : q - 8 ≠ raw := by omega
      simp [hq8, memGet_cons_ne _ _ hne]

theorem align_to_8_eq_up (size : Nat) (hs : size + 7 < 2 ^ 64) :
    align_to_8 size = align_up_8 size := by
  rw [align_to_8_eq, Nat.mod_eq_of_lt hs]
  unfold align_up_8
  omega

/-- C3 as stated fails: `mem_alloc(SIZE_MAX)` succeeds (the host is asked for the 8 bytes of
the header only), and the payload it returns has `align_to_8(SIZE_MAX) = 0` bytes, not the
`SIZE_MAX` bytes rounded up to 8 of the claim. -/
theorem mem_alloc_size_max_payload :
    ∃ h1 p pl, mem_alloc bumpHost emptyHeap (2 ^ 64 - 1) = .ok (h1, p) ∧
      getObj h1 p = some (1, 0, pl) ∧ 8 * pl.length = 0 ∧
      8 * pl.length ≠ align_up_8 (2 ^ 64 - 1) :=
  ⟨⟨[(16, .obj 1 0 [])], 1, 0, 0, 0, 0⟩, 24, [], by decide, by decide, by decide, by decide⟩

/-- C3, amended: for every size with `size + 7 < 2^64` (the rounding does not wrap in
`size_t` arithmetic), when `mem_alloc(size)` returns, the payload pointer is non-null and was
not live before, its header has refcount 1 and tag 0, its payload consists of zero bytes,
as many as `size` rounded up to 8 (a multiple of 8, at least `size`, below `size + 8`), every
block that was in memory is still there unchanged, and only the allocation counter moved. -/
theorem mem_alloc_spec (H : Host) (hH : HostOK H) (h h1 : Heap) (size p : Nat)
    (hs : size + 7 < 2 ^ 64) (hok : mem_alloc H h size = .ok (h1, p)) :
    p ≠ 0 ∧ getObj h p = none ∧
      getObj h1 p = some (1, 0, List.replicate (align_up_8 size / 8) 0) ∧
      8 * (List.replicate (align_up_8 size / 8) 0).length = align_up_8 size ∧
      align_up_8 size % 8 = 0 ∧ size ≤ align_up_8 size ∧ align_up_8 size < size + 8 ∧
      (∀ a b, memGet a h.mem = some b → memGet a h1.mem = some b) ∧
      (∀ q, q ≠ p → getObj h1 q = getObj h q) ∧
      h1.alloc_count = (h.alloc_count + 1) % SIZE_MOD ∧ h1.free_count = h.free_count ∧
      h1.inc_ref_count = h.inc_ref_count ∧ h1.dec_ref_count = h.dec_ref_count ∧
      h1.destroy_count = h.destroy_count := by
  obtain ⟨a1, a2, a3, a4, a5, a6, a7⟩ := mem_alloc_state H hH h h1 size p hok
  obtain ⟨b1, b2⟩ := align_to_8_bounds size
  rw [align_to_8_eq_up size hs] at a3 a4 b1 b2
  exact ⟨a1, a2, a3, a4, b1, (b2 hs).1, (b2 hs).2, a5, a6, a7⟩

/-- Witness for C3 (amended) on the empty heap with the bump host: 13 bytes are requested
and 16 zero bytes are obtained. -/
theorem mem_alloc_spec_witness :
    getObj emptyHeap 24 = none ∧
      getObj ⟨[(16, .obj 1 0 [0, 0])], 1, 0, 0, 0, 0⟩ 24 = some (1, 0, [0, 0]) ∧
      align_up_8 13 = 16 :=
  have hw := mem_alloc_spec bumpHost bumpHost_ok emptyHeap
    ⟨[(16, .obj 1 0 [0, 0])], 1, 0, 0, 0, 0⟩ 13 24 (by decide) (by decide)
  ⟨hw.2.1, hw.2.2.1, by decide⟩

/-- Effect of `inc_ref` on a live object. -/
theorem inc_ref_live {h : Heap} {p rc tag : Nat} {pl : List Nat}
    (hg : getObj h p = some (rc, tag, pl)) :
    inc_ref h p = .ok { h with
      mem := memSet (p - 8) (.obj ((rc + 1) % U32_MOD) tag pl) h.mem
      inc_ref_count := (h.inc_ref_count + 1) % SIZE_MOD } := by
  have hp := (getObj_some_iff.mp hg).1
  have hp0 : p ≠ 0 := by omega
  simp [inc_ref, hp0, hg, HEADER_SIZE]

/-- Effect of `dec_ref` on a live object whose refcount does not reach zero. -/
theorem dec_ref_live_pos {h : Heap} {p rc tag : Nat} {pl : List Nat} (fuel : Nat)
    (hg : getObj h p = some (rc, tag, pl)) (hrc : (rc + (U32_MOD - 1)) % U32_MOD ≠ 0) :
    dec_ref (fuel + 1) h p = .ok { h with
      mem := memSet (p - 8) (.obj ((rc + (U32_MOD - 1)) % U32_MOD) tag pl) h.mem
      dec_ref_count := (h.dec_ref_count + 1) % SIZE_MOD } := by
  have hp := (getObj_some_iff.mp hg).1
  have hp0 : p ≠ 0 := by omega
  simp only [dec_ref, rcExec, hp0, if_false, hg, HEADER_SIZE]
  rw [if_neg hrc]

/-- Effect of `mem_free` on a live object that does not carry the freed mark. -/
theorem mem_free_live {h : Heap} {p rc tag : Nat} {pl : List Nat}
    (hg : getObj h p = some (rc, tag, pl)) (hrc : rc ≠ 0xDEADBEEF) :
    mem_free h p = .ok { h with
      mem := memErase (p - 8) h.mem
      free_count := (h.free_count + 1) % SIZE_MOD } := by
  have hp := (getObj_some_iff.mp hg).1
  have hp0 : p ≠ 0 := by omega
  simp [mem_free, hp0, hg, hrc, HEADER_SIZE]

theorem readField_of_getObj {h : Heap} {p rc tag i w : Nat} {pl : List Nat}
    (hg : getObj h p = some (rc, tag, pl)) (hw : pl[i]? = some w) : readField h p i = .ok w := by
  simp [readField, hg, hw]

theorem destroy_slots_null {loop : Heap → Nat → Nat → Res Heap} {h : Heap} {p : Nat}
    (hr : readField h p 1 = .ok 0) : destroy_slots loop h p = .ok h := by
  unfold destroy_slots
  by_cases hp : p = 0
  · simp [hp]
  · simp [hp, hr, bind, Except.bind, pure, Except.pure]

theorem destroy_set_null {loop : Heap → Nat → Nat → Res Heap} {h : Heap} {p : Nat}
    (hr : readField h p 2 = .ok 0) : destroy_set loop h p = .ok h := by
  unfold destroy_set
  simp [hr, bind, Except.bind, pure, Except.pure]

/-- The destructor selected by a leaf tag does nothing. -/
theorem destroy_switch_leaf {dec : Heap → Nat → Res Heap}
    {slots setItems : Heap → Nat → Nat → Res Heap} {tag : Nat} (h : Heap) (p : Nat)
    (hleaf : leafTag tag) : destroy_switch dec slots setItems tag h p = .ok h := by
  obtain ⟨h5, h6, h11, h7, h8, h9⟩ := hleaf
  unfold destroy_switch
  simp only [h5, h6, h11, h7, h8, h9, if_false, ite_self]

/-- On a zero-filled payload that covers the payload struct of the tag, the destructor
selected by the tag finds no child and does nothing. -/
theorem destroy_switch_zero {dec : Heap → Nat → Res Heap}
    {slots setItems : Heap → Nat → Nat → Res Heap} {tag k : Nat} (h : Heap) (p : Nat)
    (hfield : ∀ i, i < k → readField h p i = .ok 0) (hsz : payload_struct_size tag ≤ 8 * k) :
    destroy_switch dec slots setItems tag h p = .ok h := by
  unfold destroy_switch
  unfold payload_struct_size at hsz
  by_cases t4 : tag = REML_TAG_STRING
  · rw [if_pos t4]
  rw [if_neg t4]
  by_cases t1 : tag = REML_TAG_INT
  · subst t1; rfl
  rw [if_neg t1] at hsz
  by_cases t2 : tag = REML_TAG_FLOAT
  · subst t2; rfl
  rw [if_neg t2] at hsz
  by_cases t3 : tag = REML_TAG_BOOL
  · subst t3; rfl
  rw [if_neg t3, if_neg t4] at hsz
  by_cases t5 : tag = REML_TAG_TUPLE
  · rw [if_pos t5] at hsz
    rw [if_pos t5, destroy_slots_null (hfield 1 (by omega))]
  rw [if_neg t5] at hsz
  rw [if_neg t5]
  by_cases t6 : tag = REML_TAG_RECORD
  · rw [if_pos t6] at hsz
    rw [if_pos t6, destroy_slots_null (hfield 1 (by omega))]
  rw [if_neg t6] at hsz
  rw [if_neg t6]
  by_cases t11 : tag = REML_TAG_ARRAY
  · rw [if_pos t11, destroy_slots_null (hfield 1 ?_)]
    subst t11
    simp [REML_TAG_ARRAY, REML_TAG_CLOSURE, REML_TAG_ADT, REML_TAG_SET, REML_TAG_CHAR] at hsz
    omega
  rw [if_neg t11]
  by_cases t7 : tag = REML_TAG_CLOSURE
  · rw [if_pos t7] at hsz
    rw [if_pos t7]
    simp [destroy_closure, hfield 0 (by omega)]
  rw [if_neg t7] at hsz
  rw [if_neg t7]
  by_cases t8 : tag = REML_TAG_ADT
  · rw [if_pos t8] at hsz
    rw [if_pos t8]
    simp [destroy_adt, hfield 1 (by omega)]
  rw [if_neg t8] at hsz
  rw [if_neg t8]
  by_cases t9 : tag = REML_TAG_SET
  · rw [if_pos t9] at hsz
    rw [if_pos t9, destroy_set_null (hfield 2 (by omega))]
  rw [if_neg t9]

/-- Effect of the last `dec_ref` on a live object, given that the destructor selected by
its tag leaves the state as it is: the object is freed and nothing else changes. -/
theorem dec_ref_last {h : Heap} {p rc tag : Nat} {pl : List Nat} (fuel : Nat)
    (hg : getObj h p = some (rc, tag, pl)) (hrc : (rc + (U32_MOD - 1)) % U32_MOD = 0)
    (hd : ∀ h2 : Heap, getObj h2 p = some (0, tag, pl) →
      destroy_switch (fun s q => rcExec fuel s (.dec q))
        (fun s q i => rcExec fuel s (.slots q i))
        (fun s q i => rcExec fuel s (.setItems q i)) tag h2 p = .ok h2) :
    dec_ref (fuel + 1) h p = .ok { h with
      mem := memErase (p - 8) h.mem
      free_count := (h.free_count + 1) % SIZE_MOD
      dec_ref_count := (h.dec_ref_count + 1) % SIZE_MOD
      destroy_count := (h.destroy_count + 1) % SIZE_MOD } := by
  obtain ⟨hp, hm⟩ := getObj_some_iff.mp hg
  have hp0 : p ≠ 0 := by omega
  have hg2 : getObj { h with
      mem := memSet (p - 8) (.obj 0 tag pl) h.mem
      dec_ref_count := (h.dec_ref_count + 1) % SIZE_MOD
      destroy_count := (h.destroy_count + 1) % SIZE_MOD } p = some (0, tag, pl) :=
    getObj_some_iff.mpr ⟨hp, by simp [memGet_memSet_same, hm]⟩
  have hfree := mem_free_live hg2 (by decide)
  simp only [memErase_memSet] at hfree
  simp only [dec_ref, rcExec, hp0, if_false, hg, HEADER_SIZE, hrc, if_true, hd _ hg2]
  exact hfree

/-- C1: for a live object `p` with refcount `n`, `1 ≤ n < 2^32 - 1`, `inc_ref(p)` returns
with refcount `n + 1` and every other block unchanged, and a following `dec_ref(p)` returns
with refcount `n` again; the object is still live, nothing was freed, no destructor ran, and
memory is exactly what it was: the final state differs from the initial one in the two call
counters `inc_ref_count` and `dec_ref_count` of the debug build only. -/
theorem inc_ref_dec_ref_roundtrip (h : Heap) (p n tag : Nat) (pl : List Nat) (fuel : Nat)
    (hlive : getObj h p = some (n, tag, pl)) (hn1 : 1 ≤ n) (hn2 : n < 2 ^ 32 - 1) :
    ∃ hi hd, inc_ref h p = .ok hi ∧ getObj hi p = some (n + 1, tag, pl) ∧
      (∀ a, a ≠ p - 8 → memGet a hi.mem = memGet a h.mem) ∧
      dec_ref (fuel + 1) hi p = .ok hd ∧ getObj hd p = some (n, tag, pl) ∧
      hd.mem = h.mem ∧ hd.alloc_count = h.alloc_count ∧ hd.free_count = h.free_count ∧
      hd.destroy_count = h.destroy_count ∧
      hd = { h with inc_ref_count := (h.inc_ref_count + 1) % SIZE_MOD
                    dec_ref_count := (h.dec_ref_count + 1) % SIZE_MOD } := by
  obtain ⟨hp, hm⟩ := getObj_some_iff.mp hlive
  have e1 : (n + 1) % U32_MOD = n + 1 := Nat.mod_eq_of_lt (by unfold U32_MOD; omega)
  have e2 : (n + 1 + (U32_MOD - 1)) % U32_MOD = n := by unfold U32_MOD; omega
  have hmem : memSet (p - 8) (.obj n tag pl) (memSet (p - 8) (.obj (n + 1) tag pl) h.mem)
      = h.mem := by
    rw [memSet_memSet, memSet_of_get hm]
  have hgi : getObj { h with
      mem := memSet (p - 8) (.obj (n + 1) tag pl) h.mem
      inc_ref_count := (h.inc_ref_count + 1) % SIZE_MOD } p = some (n + 1, tag, pl) :=
    getObj_some_iff.mpr ⟨hp, by simp [memGet_memSet_same, hm]⟩
  have hdec := dec_ref_live_pos fuel hgi (by rw [e2]; omega)
  rw [e2] at hdec
  simp only [hmem] at hdec
  refine ⟨_, _, by rw [inc_ref_live hlive, e1], hgi, ?_, hdec, ?_, rfl, rfl, rfl, rfl, rfl⟩
  · intro a ha
    exact memGet_memSet_ne _ _ ha
  · exact getObj_some_iff.mpr ⟨hp, hm⟩

/-- Witness for C1: an object at payload address 24 with refcount 1. -/
theorem inc_ref_dec_ref_roundtrip_witness :
    ∃ hi hd, inc_ref ⟨[(16, .obj 1 0 [0, 0])], 1, 0, 0, 0, 0⟩ 24 = .ok hi ∧
      getObj hi 24 = some (2, 0, [0, 0]) ∧
      dec_ref 1 hi 24 = .ok hd ∧ hd.mem = [(16, .obj 1 0 [0, 0])] :=
  have ⟨hi, hd, h1, h2, _, h4, _, h6, _⟩ :=
    inc_ref_dec_ref_roundtrip ⟨[(16, .obj 1 0 [0, 0])], 1, 0, 0, 0, 0⟩ 24 1 0 [0, 0] 0
      (by decide) (by decide) (by decide)
  ⟨hi, hd, h1, h2, h4, h6⟩

/-- The tag written by `mem_alloc` selects no destructor. -/
theorem leafTag_zero : leafTag 0 := by
  unfold leafTag
  decide

/-- C2, amended: for every size whose rounding and header addition do not wrap
(`size + 15 < 2^64`) and that the host serves, and every tag `t` whose payload struct fits
in `size`, the sequence `p = mem_alloc(size); reml_set_type_tag(p, t); dec_ref(p)` returns
with `p` freed and memory exactly what it was before the allocation: no other block was
touched, and the allocation and free counters each advanced by one (so their difference,
the live-object count, is back to its prior value). -/
theorem alloc_tag_release_restores (H : Host) (hH : HostOK H) (h : Heap) (size t fuel : Nat)
    (hserve : HostServes H (8 + align_to_8 size)) (hsize : size + 15 < 2 ^ 64)
    (ht : payload_struct_size t ≤ size) :
    alloc_tag_release (fuel + 1) H h size t = .ok { h with
      alloc_count := (h.alloc_count + 1) % SIZE_MOD
      free_count := (h.free_count + 1) % SIZE_MOD
      dec_ref_count := (h.dec_ref_count + 1) % SIZE_MOD
      destroy_count := (h.destroy_count + 1) % SIZE_MOD } := by
  obtain ⟨hal8, hal⟩ := align_to_8_bounds size
  obtain ⟨hle, hlt⟩ := hal (by omega)
  have htot : (8 + align_to_8 size) % 2 ^ 64 = 8 + align_to_8 size :=
    Nat.mod_eq_of_lt (by omega)
  obtain ⟨raw, hraw⟩ := hserve h.mem
  obtain ⟨hraw0, hfresh⟩ := hH _ _ _ hraw
  have hma : mem_alloc H h size = .ok ({ h with
      mem := (raw, .obj 1 0 (List.replicate (align_to_8 size / 8) 0)) :: h.mem
      alloc_count := (h.alloc_count + 1) % SIZE_MOD }, raw + 8) := by
    unfold mem_alloc
    simp only [HEADER_SIZE, SIZE_MOD, htot, hraw, lt_irrefl, if_false]
  have hg1 : getObj { h with
      mem := (raw, .obj 1 0 (List.replicate (align_to_8 size / 8) 0)) :: h.mem
      alloc_count := (h.alloc_count + 1) % SIZE_MOD } (raw + 8)
      = some (1, 0, List.replicate (align_to_8 size / 8) 0) :=
    getObj_some_iff.mpr ⟨by omega, by simp [memGet]⟩
  have hg2 : getObj { h with
      mem := (raw, .obj 1 t (List.replicate (align_to_8 size / 8) 0)) :: h.mem
      alloc_count := (h.alloc_count + 1) % SIZE_MOD } (raw + 8)
      = some (1, t, List.replicate (align_to_8 size / 8) 0) :=
    getObj_some_iff.mpr ⟨by omega, by simp [memGet]⟩
  have hdec := dec_ref_last fuel hg2 (by decide) (fun h2 hh2 =>
    destroy_switch_zero (k := align_to_8 size / 8) h2 (raw + 8)
      (fun i hi => readField_of_getObj hh2 (by simp [List.getElem?_replicate, hi]))
      (by omega))
  simp only [Nat.add_sub_cancel, memErase_cons_same, memErase_of_fresh hfresh] at hdec
  have hne : raw + 8 ≠ 0 := by omega
  simp only [alloc_tag_release, hma, bind, Except.bind, reml_set_type_tag, hne, if_false, hg1,
    putObj, HEADER_SIZE, Nat.add_sub_cancel, memSet_cons_same]
  exact hdec

/-- Witness for C2 (amended): 16 bytes tagged TUPLE on the empty heap. -/
theorem alloc_tag_release_restores_witness :
    alloc_tag_release 1 bumpHost emptyHeap 16 REML_TAG_TUPLE = .ok ⟨[], 1, 1, 0, 1, 1⟩ :=
  alloc_tag_release_restores bumpHost bumpHost_ok emptyHeap 16 REML_TAG_TUPLE 0
    (bumpHost_serves _) (by decide) (by decide)

/-- C2 as stated fails: for `size = SIZE_MAX` and tag TUPLE (whose payload struct of 16
bytes fits in `size`) `mem_alloc` returns a payload of `align_to_8(SIZE_MAX) = 0` bytes, and
the following `dec_ref` reads the tuple fields outside the block instead of freeing the
object; for `size = 2^64 - 8` the total size `8 + align_to_8(size)` wraps to 0 and
`mem_alloc` itself writes the header outside the block it obtained. -/
theorem alloc_tag_release_size_max :
    payload_struct_size REML_TAG_TUPLE ≤ 2 ^ 64 - 1 ∧
      mem_alloc bumpHost emptyHeap (2 ^ 64 - 1) = .ok (⟨[(16, .obj 1 0 [])], 1, 0, 0, 0, 0⟩, 24) ∧
      alloc_tag_release 3 bumpHost emptyHeap (2 ^ 64 - 1) REML_TAG_TUPLE = .error .fault ∧
      payload_struct_size REML_TAG_INT ≤ 2 ^ 64 - 8 ∧
      alloc_tag_release 3 bumpHost emptyHeap (2 ^ 64 - 8) REML_TAG_INT = .error .fault := by
  decide

/-! ## The refcount of an object under `inc_ref` / `dec_ref` (C5) -/

/-- After `k` calls of `inc_ref(p)` the 32-bit refcount is the old one plus `k`, modulo
`2^32`. -/
theorem rcRun_inc_replicate (fuel p tag : Nat) (pl : List Nat) (k : Nat) :
    ∀ (h : Heap) (rc : Nat), getObj h p = some (rc, tag, pl) → rc < U32_MOD →
      ∃ h1, rcRun fuel p h (List.replicate k RcOp.inc) = .ok h1 ∧
        getObj h1 p = some ((rc + k) % U32_MOD, tag, pl) := by
  induction k with
  | zero =>
    intro h rc hg hrc
    exact ⟨h, rfl, by simpa [Nat.mod_eq_of_lt hrc] using hg⟩
  | succ k ih =>
    intro h rc hg hrc
    obtain ⟨hp, hm⟩ := getObj_some_iff.mp hg
    have hg1 : getObj { h with
        mem := memSet (p - 8) (.obj ((rc + 1) % U32_MOD) tag pl) h.mem
        inc_ref_count := (h.inc_ref_count + 1) % SIZE_MOD } p
        = some ((rc + 1) % U32_MOD, tag, pl) :=
      getObj_some_iff.mpr ⟨hp, by simp [memGet_memSet_same, hm]⟩
    obtain ⟨h1, hrun, hg2⟩ := ih _ _ hg1 (Nat.mod_lt _ (by decide))
    refine ⟨h1, ?_, ?_⟩
    · simp only [List.replicate_succ, rcRun, rcStep, inc_ref_live hg]
      exact hrun
    · rw [hg2]
      congr 2
      unfold U32_MOD
      omega

/-- C5 as stated fails: after `mem_alloc(16)` and `2^32 - 1` calls of `inc_ref(p)`, none
of them a `dec_ref`, the object is still live and its 32-bit refcount is 0. -/
theorem refcount_wraps_to_zero :
    ∃ h0 p h1, mem_alloc bumpHost emptyHeap 16 = .ok (h0, p) ∧
      rcRun 1 p h0 (List.replicate (2 ^ 32 - 1) RcOp.inc) = .ok h1 ∧
      getObj h1 p = some (0, 0, [0, 0]) ∧ refcountOf h1 p = some 0 := by
  have hg : getObj ⟨[(16, .obj 1 0 [0, 0])], 1, 0, 0, 0, 0⟩ 24 = some (1, 0, [0, 0]) := by
    decide
  obtain ⟨h1, hrun, hg1⟩ := rcRun_inc_replicate 1 24 0 [0, 0] (2 ^ 32 - 1) _ 1 hg (by decide)
  have e : (1 + (2 ^ 32 - 1)) % U32_MOD = 0 := by decide
  rw [e] at hg1
  exact ⟨_, 24, h1, by decide, hrun, hg1, by simp [refcountOf, hg1]⟩

/-- The invariant behind C5: a live object with tag 0 and a positive 32-bit refcount keeps a
positive refcount under `inc_ref` / `dec_ref` until the `dec_ref` that frees it, as long as
no `inc_ref` meets the 32-bit maximum. -/
theorem rcRun_invariant (fuel p f0 : Nat) (ops : List RcOp) :
    ∀ (h h1 : Heap),
      (∃ rc pl, getObj h p = some (rc, 0, pl) ∧ 1 ≤ rc ∧ rc < U32_MOD ∧ h.free_count = f0) →
      rcNoWrap fuel p h ops → rcRun fuel p h ops = .ok h1 →
      (∃ rc pl, getObj h1 p = some (rc, 0, pl) ∧ 1 ≤ rc ∧ rc < U32_MOD ∧ h1.free_count = f0) ∨
        (getObj h1 p = none ∧ h1.free_count = (f0 + 1) % SIZE_MOD) := by
  induction ops with
  | nil =>
    intro h h1 hinv _ hrun
    simp only [rcRun, Except.ok.injEq] at hrun
    subst hrun
    exact Or.inl hinv
  | cons op ops ih =>
    intro h h1 hinv hnw hrun
    obtain ⟨rc, pl, hg, hrc1, hrc2, hf⟩ := hinv
    obtain ⟨hp, hm⟩ := getObj_some_iff.mp hg
    obtain ⟨hnw1, hnw2⟩ := hnw
    cases op with
    | inc =>
      have hne : rc ≠ U32_MOD - 1 := by
        intro he
        apply hnw1 rfl
        simp [refcountOf, hg, he]
      have e1 : (rc + 1) % U32_MOD = rc + 1 := Nat.mod_eq_of_lt (by omega)
      simp only [rcStep, inc_ref_live hg, e1] at hnw2
      simp only [rcRun, rcStep, inc_ref_live hg, e1] at hrun
      refine ih _ _ ?_ hnw2 hrun
      exact ⟨rc + 1, pl, getObj_some_iff.mpr ⟨hp, by simp [memGet_memSet_same, hm]⟩,
        by omega, by omega, hf⟩
    | dec =>
      cases fuel with
      | zero => simp [rcRun, rcStep, dec_ref, rcExec] at hrun
      | succ fuel =>
        by_cases hone : rc = 1
        · subst hone
          have hdec := dec_ref_last fuel hg (by decide)
            (fun h2 _ => destroy_switch_leaf h2 p leafTag_zero)
          simp only [rcRun, rcStep, hdec] at hrun
          cases ops with
          | nil =>
            simp only [rcRun, Except.ok.injEq] at hrun
            subst hrun
            refine Or.inr ⟨?_, by simp [hf]⟩
            simp [getObj, HEADER_SIZE, memGet_memErase_same]
          | cons op2 ops2 =>
            exfalso
            have hp0 : p ≠ 0 := by omega
            cases op2 <;>
              simp [rcRun, rcStep, inc_ref, dec_ref, rcExec, getObj, HEADER_SIZE,
                memGet_memErase_same, hp0] at hrun
        · have e2 : (rc + (U32_MOD - 1)) % U32_MOD = rc - 1 := by
            unfold U32_MOD at hrc2 ⊢
            omega
          have hdec := dec_ref_live_pos fuel hg (by rw [e2]; omega)
          rw [e2] at hdec
          simp only [rcStep, hdec] at hnw2
          simp only [rcRun, rcStep, hdec] at hrun
          refine ih _ _ ?_ hnw2 hrun
          exact ⟨rc - 1, pl, getObj_some_iff.mpr ⟨hp, by simp [memGet_memSet_same, hm]⟩,
            by omega, by omega, hf⟩

/-- C5, amended: for a payload pointer `p` returned by `mem_alloc` and any sequence of
`inc_ref(p)` / `dec_ref(p)` calls in which no `inc_ref` meets a refcount equal to the 32-bit
maximum, in every state the sequence reaches either `p` has not been freed (the free
counter is where it was) and its refcount is at least 1, or `p` has just been freed by a
`dec_ref` (the free counter advanced by one and `p` is no longer live). -/
theorem refcount_positive_until_freed (H : Host) (h h0 h1 : Heap) (size p fuel : Nat)
    (ops : List RcOp) (halloc : mem_alloc H h size = .ok (h0, p))
    (hnw : rcNoWrap fuel p h0 ops) (hrun : rcRun fuel p h0 ops = .ok h1) :
    (∃ rc pl, getObj h1 p = some (rc, 0, pl) ∧ 1 ≤ rc ∧ h1.free_count = h0.free_count) ∨
      (getObj h1 p = none ∧ h1.free_count = (h0.free_count + 1) % SIZE_MOD) := by
  obtain ⟨raw, _, hp, hh0⟩ := mem_alloc_ok halloc
  have hg0 : getObj h0 p = some (1, 0, List.replicate (align_to_8 size / 8) 0) := by
    subst hp hh0
    exact getObj_some_iff.mpr ⟨by omega, by simp [memGet]⟩
  rcases rcRun_invariant fuel p h0.free_count ops h0 h1
      ⟨1, _, hg0, le_refl 1, by decide, rfl⟩ hnw hrun with ⟨rc, pl, hg, h1rc, _, hf⟩ | hfreed
  · exact Or.inl ⟨rc, pl, hg, h1rc, hf⟩
  · exact Or.inr hfreed

/-- Witness for C5 (amended): allocate, retain twice, release once. -/
theorem refcount_positive_until_freed_witness :
    (∃ rc pl, getObj ⟨[(16, .obj 2 0 [0, 0])], 1, 0, 2, 1, 0⟩ 24 = some (rc, 0, pl) ∧ 1 ≤ rc ∧
        (⟨[(16, .obj 2 0 [0, 0])], 1, 0, 2, 1, 0⟩ : Heap).free_count
          = (⟨[(16, .obj 1 0 [0, 0])], 1, 0, 0, 0, 0⟩ : Heap).free_count) ∨
      (getObj ⟨[(16, .obj 2 0 [0, 0])], 1, 0, 2, 1, 0⟩ 24 = none ∧
        (⟨[(16, .obj 2 0 [0, 0])], 1, 0, 2, 1, 0⟩ : Heap).free_count
          = ((⟨[(16, .obj 1 0 [0, 0])], 1, 0, 0, 0, 0⟩ : Heap).free_count + 1) % SIZE_MOD) :=
  refcount_positive_until_freed bumpHost emptyHeap ⟨[(16, .obj 1 0 [0, 0])], 1, 0, 0, 0, 0⟩
    ⟨[(16, .obj 2 0 [0, 0])], 1, 0, 2, 1, 0⟩ 16 24 1 [.inc, .inc, .dec]
    (by decide) (by simp [rcNoWrap, rcStep, inc_ref, dec_ref, rcExec, refcountOf, getObj, memGet,
      memSet, HEADER_SIZE, U32_MOD, SIZE_MOD])
    (by decide)

/-! ## Closures (C10) -/

theorem align_to_8_sizeof_pair : align_to_8 SIZEOF_PAIR = 16 := by decide

/-- `mem_alloc(sizeof(pair struct))` with a host that serves 24 bytes. -/
theorem mem_alloc_pair {H : Host} (hH : HostOK H) (hserve : HostServes H 24) (h : Heap) :
    ∃ raw, raw ≠ 0 ∧ memGet raw h.mem = none ∧
      mem_alloc H h SIZEOF_PAIR = .ok ({ h with
        mem := (raw, .obj 1 0 [0, 0]) :: h.mem
        alloc_count := (h.alloc_count + 1) % SIZE_MOD }, raw + 8) := by
  obtain ⟨raw, hraw⟩ := hserve h.mem
  obtain ⟨hraw0, hfresh⟩ := hH _ _ _ hraw
  refine ⟨raw, hraw0, hfresh, ?_⟩
  unfold mem_alloc
  simp only [align_to_8_sizeof_pair, HEADER_SIZE, SIZE_MOD]
  have e : (8 + 16) % 2 ^ 64 = 24 := by decide
  simp only [e, hraw]
  rfl

/-- Unfolding of `dec_ref` on a live object whose refcount drops to zero: the destructor
selected by the tag runs on the state with the header at 0, then `mem_free`. -/
theorem dec_ref_zero_unfold {h : Heap} {p rc tag : Nat} {pl : List Nat} (fuel : Nat)
    (hg : getObj h p = some (rc, tag, pl)) (hrc : (rc + (U32_MOD - 1)) % U32_MOD = 0) :
    dec_ref (fuel + 1) h p =
      match destroy_switch (fun s q => rcExec fuel s (.dec q))
          (fun s q i => rcExec fuel s (.slots q i))
          (fun s q i => rcExec fuel s (.setItems q i)) tag
          { h with
            mem := memSet (p - 8) (.obj 0 tag pl) h.mem
            dec_ref_count := (h.dec_ref_count + 1) % SIZE_MOD
            destroy_count := (h.destroy_count + 1) % SIZE_MOD } p with
      | .error e => .error e
      | .ok h3 => mem_free h3 p := by
  have hp := (getObj_some_iff.mp hg).1
  have hp0 : p ≠ 0 := by omega
  simp only [dec_ref, rcExec, hp0, if_false, hg, HEADER_SIZE, hrc, if_true]

theorem destroy_switch_closure {dec : Heap → Nat → Res Heap}
    {slots setItems : Heap → Nat → Nat → Res Heap} (h : Heap) (p : Nat) :
    destroy_switch dec slots setItems REML_TAG_CLOSURE h p = destroy_closure dec h p := by
  rfl

/-- The state `reml_closure_new(env, code)` produces for a live `env` and the pointer it
returns. -/
theorem closure_new_live {H : Host} (hH : HostOK H) (hserve : HostServes H 24) (h : Heap)
    (env code n tag : Nat) (pl : List Nat) (hg : getObj h env = some (n, tag, pl)) :
    ∃ raw, raw ≠ 0 ∧ memGet raw h.mem = none ∧ env - 8 ≠ raw ∧
      reml_closure_new H h env code = .ok ({ h with
        mem := (raw, .obj 1 REML_TAG_CLOSURE [env, code]) ::
          memSet (env - 8) (.obj ((n + 1) % U32_MOD) tag pl) h.mem
        alloc_count := (h.alloc_count + 1) % SIZE_MOD
        inc_ref_count := (h.inc_ref_count + 1) % SIZE_MOD }, raw + 8) := by
  obtain ⟨raw, hraw0, hfresh, hma⟩ := mem_alloc_pair hH hserve h
  obtain ⟨henv8, hm⟩ := getObj_some_iff.mp hg
  have hne : env - 8 ≠ raw := by
    intro he
    rw [he, hfresh] at hm
    exact absurd hm (by simp)
  have hne2 : ¬ raw = env - 8 := fun he => hne he.symm
  have henv0 : env ≠ 0 := by omega
  refine ⟨raw, hraw0, hfresh, hne, ?_⟩
  simp [reml_closure_new, hma, bind, Except.bind, reml_set_type_tag, writeField, getObj, putObj,
    memGet, memSet, HEADER_SIZE, henv0, inc_ref, hne2, hm, pure, Except.pure,
    Nat.not_lt.mpr henv8]

/-- The state `reml_closure_new(NULL, code)` produces and the pointer it returns. -/
theorem closure_new_null {H : Host} (hH : HostOK H) (hserve : HostServes H 24) (h : Heap)
    (code : Nat) :
    ∃ raw, raw ≠ 0 ∧ memGet raw h.mem = none ∧
      reml_closure_new H h 0 code = .ok ({ h with
        mem := (raw, .obj 1 REML_TAG_CLOSURE [0, code]) :: h.mem
        alloc_count := (h.alloc_count + 1) % SIZE_MOD }, raw + 8) := by
  obtain ⟨raw, hraw0, hfresh, hma⟩ := mem_alloc_pair hH hserve h
  refine ⟨raw, hraw0, hfresh, ?_⟩
  simp [reml_closure_new, hma, bind, Except.bind, reml_set_type_tag, writeField, getObj, putObj,
    memGet, memSet, HEADER_SIZE, pure, Except.pure]

theorem destroy_closure_env {dec : Heap → Nat → Res Heap} {h : Heap} {p env : Nat}
    (hr : readField h p 0 = .ok env) (henv : env ≠ 0) : destroy_closure dec h p = dec h env := by
  simp [destroy_closure, hr, henv]

theorem destroy_closure_null {dec : Heap → Nat → Res Heap} {h : Heap} {p : Nat}
    (hr : readField h p 0 = .ok 0) : destroy_closure dec h p = .ok h := by
  simp [destroy_closure, hr]

/-- Releasing a closure with refcount 1 that sits at the head of the memory table and whose
environment is a live object with refcount `m + 2` stored below it. -/
theorem dec_ref_closure_head (fuel raw env code m tag : Nat) (pl : List Nat) (mem : Mem)
    (a f i d y : Nat) (henv8 : 8 ≤ env) (hne : env - 8 ≠ raw) (hm2 : m + 2 < U32_MOD)
    (hm : memGet (env - 8) mem = some (.obj (m + 2) tag pl)) :
    dec_ref (fuel + 2) ⟨(raw, .obj 1 REML_TAG_CLOSURE [env, code]) :: mem, a, f, i, d, y⟩
      (raw + 8) =
      .ok ⟨memErase raw (memSet (env - 8) (.obj (m + 1) tag pl) mem), a, (f + 1) % SIZE_MOD, i,
        (((d + 1) % SIZE_MOD) + 1) % SIZE_MOD, (y + 1) % SIZE_MOD⟩ := by
  have hne2 : ¬ raw = env - 8 := fun he => hne he.symm
  have henv0 : env ≠ 0 := by omega
  have hgc : getObj ⟨(raw, .obj 1 REML_TAG_CLOSURE [env, code]) :: mem, a, f, i, d, y⟩ (raw + 8)
      = some (1, REML_TAG_CLOSURE, [env, code]) :=
    getObj_some_iff.mpr ⟨by omega, by simp [memGet]⟩
  rw [dec_ref_zero_unfold (fuel + 1) hgc (by decide), destroy_switch_closure]
  simp only [Nat.add_sub_cancel, memSet_cons_same]
  have hgc2 : getObj ⟨(raw, .obj 0 REML_TAG_CLOSURE [env, code]) :: mem, a, f, i,
      (d + 1) % SIZE_MOD, (y + 1) % SIZE_MOD⟩ (raw + 8)
      = some (0, REML_TAG_CLOSURE, [env, code]) :=
    getObj_some_iff.mpr ⟨by omega, by simp [memGet]⟩
  have hge : getObj ⟨(raw, .obj 0 REML_TAG_CLOSURE [env, code]) :: mem, a, f, i,
      (d + 1) % SIZE_MOD, (y + 1) % SIZE_MOD⟩ env = some (m + 2, tag, pl) :=
    getObj_some_iff.mpr ⟨henv8, by simp [memGet, hne2, hm]⟩
  have e2 : (m + 2 + (U32_MOD - 1)) % U32_MOD = m + 1 := by
    unfold U32_MOD at hm2 ⊢
    omega
  have hdec := dec_ref_live_pos fuel hge (by rw [e2]; omega)
  rw [e2] at hdec
  simp only [dec_ref, memSet, hne2, if_false] at hdec
  rw [destroy_closure_env (readField_of_getObj (w := env) hgc2 rfl) henv0, hdec]
  have hgc3 : getObj ⟨(raw, .obj 0 REML_TAG_CLOSURE [env, code]) ::
      memSet (env - 8) (.obj (m + 1) tag pl) mem, a, f, i,
      ((d + 1) % SIZE_MOD + 1) % SIZE_MOD, (y + 1) % SIZE_MOD⟩ (raw + 8)
      = some (0, REML_TAG_CLOSURE, [env, code]) :=
    getObj_some_iff.mpr ⟨by omega, by simp [memGet]⟩
  simp only [mem_free_live hgc3 (by decide), Nat.add_sub_cancel, memErase_cons_same]

/-- Releasing a closure with refcount 1 and a null environment that sits at the head of the
memory table. -/
theorem dec_ref_closure_head_null (fuel raw code : Nat) (mem : Mem) (a f i d y : Nat) :
    dec_ref (fuel + 1) ⟨(raw, .obj 1 REML_TAG_CLOSURE [0, code]) :: mem, a, f, i, d, y⟩
      (raw + 8) =
      .ok ⟨memErase raw mem, a, (f + 1) % SIZE_MOD, i, (d + 1) % SIZE_MOD,
        (y + 1) % SIZE_MOD⟩ := by
  have hgc : getObj ⟨(raw, .obj 1 REML_TAG_CLOSURE [0, code]) :: mem, a, f, i, d, y⟩ (raw + 8)
      = some (1, REML_TAG_CLOSURE, [0, code]) :=
    getObj_some_iff.mpr ⟨by omega, by simp [memGet]⟩
  rw [dec_ref_zero_unfold fuel hgc (by decide), destroy_switch_closure]
  simp only [Nat.add_sub_cancel, memSet_cons_same]
  have hgc2 : getObj ⟨(raw, .obj 0 REML_TAG_CLOSURE [0, code]) :: mem, a, f, i,
      (d + 1) % SIZE_MOD, (y + 1) % SIZE_MOD⟩ (raw + 8)
      = some (0, REML_TAG_CLOSURE, [0, code]) :=
    getObj_some_iff.mpr ⟨by omega, by simp [memGet]⟩
  rw [destroy_closure_null (readField_of_getObj (w := 0) hgc2 rfl)]
  simp only [mem_free_live hgc2 (by decide), Nat.add_sub_cancel, memErase_cons_same]

theorem closure_accessors {h : Heap} {c env code rc : Nat}
    (hg : getObj h c = some (rc, REML_TAG_CLOSURE, [env, code])) :
    reml_closure_env h c = .ok env ∧ reml_closure_code_ptr h c = .ok code := by
  have hc8 := (getObj_some_iff.mp hg).1
  have hc0 : c ≠ 0 := by omega
  constructor
  · simp [reml_closure_env, reml_get_type_tag, hc0, hg, readField]
  · simp [reml_closure_code_ptr, reml_get_type_tag, hc0, hg, readField]

/-- C10 as stated fails: for an environment whose 32-bit refcount is `2^32 - 1`,
`reml_closure_new` leaves the environment's refcount at 0, not at `n + 1`. -/
theorem closure_new_wraps_env_refcount :
    ∃ h1 c, getObj ⟨[(16, .obj (2 ^ 32 - 1) REML_TAG_INT [0])], 1, 0, 0, 0, 0⟩ 24
        = some (2 ^ 32 - 1, REML_TAG_INT, [0]) ∧
      reml_closure_new bumpHost ⟨[(16, .obj (2 ^ 32 - 1) REML_TAG_INT [0])], 1, 0, 0, 0, 0⟩ 24 0
        = .ok (h1, c) ∧
      refcountOf h1 24 = some 0 ∧ refcountOf h1 24 ≠ some (2 ^ 32 - 1 + 1) :=
  ⟨⟨[(272, .obj 1 REML_TAG_CLOSURE [24, 0]), (16, .obj 0 REML_TAG_INT [0])], 2, 0, 1, 0, 0⟩, 280,
    by decide, by decide, by decide, by decide⟩

/-- C10, amended: for every live object `env` with refcount `n`, `1 ≤ n < 2^32 - 1`, and
every code pointer `code`, when the host serves the allocation `c = reml_closure_new(env,
code)` is a new object with tag CLOSURE and refcount 1, `reml_closure_env(c) = env`,
`reml_closure_code_ptr(c) = code`, the refcount of `env` is `n + 1` and no other block
changed; a following `dec_ref(c)` frees `c`, returns the refcount of `env` to `n` without
freeing it, and leaves memory as it was before the construction. With `env = NULL` the
construction changes no block that was there, calls no `inc_ref`, and the release frees `c`
and leaves memory as it was. -/
theorem closure_new_retains_env (H : Host) (hH : HostOK H) (hserve : HostServes H 24)
    (h : Heap) (env code n tag : Nat) (pl : List Nat) (fuel : Nat)
    (hg : getObj h env = some (n, tag, pl)) (hn1 : 1 ≤ n) (hn2 : n < 2 ^ 32 - 1) :
    (∃ h1 c, reml_closure_new H h env code = .ok (h1, c) ∧ c ≠ 0 ∧ getObj h c = none ∧
      getObj h1 c = some (1, REML_TAG_CLOSURE, [env, code]) ∧
      reml_closure_env h1 c = .ok env ∧ reml_closure_code_ptr h1 c = .ok code ∧
      getObj h1 env = some (n + 1, tag, pl) ∧
      (∀ q, q ≠ c → q ≠ env → getObj h1 q = getObj h q) ∧
      ∃ h2, dec_ref (fuel + 2) h1 c = .ok h2 ∧ getObj h2 c = none ∧
        getObj h2 env = some (n, tag, pl) ∧ h2.mem = h.mem) ∧
    (∃ h1 c, reml_closure_new H h 0 code = .ok (h1, c) ∧ c ≠ 0 ∧ getObj h c = none ∧
      getObj h1 c = some (1, REML_TAG_CLOSURE, [0, code]) ∧
      (∀ q, q ≠ c → getObj h1 q = getObj h q) ∧ h1.inc_ref_count = h.inc_ref_count ∧
      ∃ h2, dec_ref (fuel + 1) h1 c = .ok h2 ∧ getObj h2 c = none ∧ h2.mem = h.mem ∧
        h2.inc_ref_count = h.inc_ref_count ∧
        h2.dec_ref_count = (h.dec_ref_count + 1) % SIZE_MOD) := by
  obtain ⟨henv8, hm⟩ := getObj_some_iff.mp hg
  constructor
  · obtain ⟨raw, hraw0, hfresh, hne, hnew⟩ := closure_new_live hH hserve h env code n tag pl hg
    have e1 : (n + 1) % U32_MOD = n + 1 := Nat.mod_eq_of_lt (by unfold U32_MOD; omega)
    rw [e1] at hnew
    have hne2 : ¬ raw = env - 8 := fun he => hne he.symm
    have hgc : getObj (⟨(raw, .obj 1 REML_TAG_CLOSURE [env, code]) ::
        memSet (env - 8) (.obj (n + 1) tag pl) h.mem, (h.alloc_count + 1) % SIZE_MOD,
        h.free_count, (h.inc_ref_count + 1) % SIZE_MOD, h.dec_ref_count, h.destroy_count⟩ : Heap)
        (raw + 8) = some (1, REML_TAG_CLOSURE, [env, code]) :=
      getObj_some_iff.mpr ⟨by omega, by simp [memGet]⟩
    have hset : memGet (env - 8) (memSet (env - 8) (.obj (n + 1) tag pl) h.mem)
        = some (.obj (n - 1 + 2) tag pl) := by
      rw [memGet_memSet_same, hm]
      simp
      omega
    have hrel := dec_ref_closure_head fuel raw env code (n - 1) tag pl
      (memSet (env - 8) (.obj (n + 1) tag pl) h.mem) ((h.alloc_count + 1) % SIZE_MOD)
      h.free_count ((h.inc_ref_count + 1) % SIZE_MOD) h.dec_ref_count h.destroy_count
      henv8 hne (by unfold U32_MOD; omega) hset
    have en : n - 1 + 1 = n := by omega
    rw [en, memSet_memSet, memSet_of_get hm, memErase_of_fresh hfresh] at hrel
    refine ⟨_, _, hnew, by omega, ?_, hgc, (closure_accessors hgc).1, (closure_accessors hgc).2,
      ?_, ?_, _, hrel, ?_, hg, rfl⟩
    · simp [getObj, HEADER_SIZE, hfresh]
    · exact getObj_some_iff.mpr ⟨henv8, by simp [memGet, hne2, memGet_memSet_same, hm]⟩
    · intro q hqc hqe
      unfold getObj HEADER_SIZE
      by_cases hq8 : q < 8
      · simp [hq8]
      · have h1 : q - 8 ≠ raw := by omega
        have h2 : q - 8 ≠ env - 8 := by omega
        simp [hq8, memGet_cons_ne _ _ h1, memGet_memSet_ne _ _ h2]
    · simp [getObj, HEADER_SIZE, hfresh]
  · obtain ⟨raw, hraw0, hfresh, hnew⟩ := closure_new_null hH hserve h code
    have hgc : getObj (⟨(raw, .obj 1 REML_TAG_CLOSURE [0, code]) :: h.mem,
        (h.alloc_count + 1) % SIZE_MOD, h.free_count, h.inc_ref_count, h.dec_ref_count,
        h.destroy_count⟩ : Heap) (raw + 8) = some (1, REML_TAG_CLOSURE, [0, code]) :=
      getObj_some_iff.mpr ⟨by omega, by simp [memGet]⟩
    have hrel := dec_ref_closure_head_null fuel raw code h.mem ((h.alloc_count + 1) % SIZE_MOD)
      h.free_count h.inc_ref_count h.dec_ref_count h.destroy_count
    rw [memErase_of_fresh hfresh] at hrel
    refine ⟨_, _, hnew, by omega, ?_, hgc, ?_, rfl, _, hrel, ?_, rfl, rfl, rfl⟩
    · simp [getObj, HEADER_SIZE, hfresh]
    · intro q hqc
      unfold getObj HEADER_SIZE
      by_cases hq8 : q < 8
      · simp [hq8]
      · have h1 : q - 8 ≠ raw := by omega
        simp [hq8, memGet_cons_ne _ _ h1]
    · simp [getObj, HEADER_SIZE, hfresh]

/-- Witness for C10 (amended): an INT-tagged environment with refcount 1 at payload address
24, as in `test_destructor_closure`. -/
theorem closure_new_retains_env_witness :
    (∃ h1 c, reml_closure_new bumpHost ⟨[(16, .obj 1 REML_TAG_INT [0])], 1, 0, 0, 0, 0⟩ 24 0
        = .ok (h1, c) ∧ getObj h1 24 = some (1 + 1, REML_TAG_INT, [0]) ∧
      ∃ h2, dec_ref 2 h1 c = .ok h2 ∧ getObj h2 24 = some (1, REML_TAG_INT, [0])) :=
  have ⟨⟨h1, c, hnew, _, _, _, _, _, henv, _, h2, hrel, _, henv2, _⟩, _⟩ :=
    closure_new_retains_env bumpHost bumpHost_ok (bumpHost_serves 24)
      ⟨[(16, .obj 1 REML_TAG_INT [0])], 1, 0, 0, 0, 0⟩ 24 0 1 REML_TAG_INT [0] 0
      (by decide) (by decide) (by decide)
  ⟨h1, c, hnew, henv, h2, hrel, henv2⟩

/-! ## `reml_array_from` and `reml_record_from` (C8) -/

theorem take_append_zeros_set (vs : List Nat) (i : Nat) (hi : i < vs.length) :
    (vs.take i ++ List.replicate (vs.length - i) 0).set i vs[i]
      = vs.take (i + 1) ++ List.replicate (vs.length - (i + 1)) 0 := by
  apply List.ext_getElem
  · simp
    omega
  · intro j h1 h2
    simp only [List.getElem_set, List.getElem_append, List.length_take, List.getElem_take,
      List.getElem_replicate]
    by_cases hji : i = j
    · subst hji
      simp [hi]
    · simp only [hji, if_false]
      by_cases hlt : j < i
      · have h3 : j < min i vs.length := by omega
        have h4 : j < min (i + 1) vs.length := by omega
        simp [h3, h4]
      · have h3 : ¬ j < min i vs.length := by omega
        have h4 : ¬ j < min (i + 1) vs.length := by omega
        simp [h3, h4]

theorem take_succ_eq (vs : List Nat) (i : Nat) (hi : i < vs.length) :
    vs.take (i + 1) = vs.take i ++ [vs[i]] := by
  rw [List.take_succ, List.getElem?_eq_getElem hi]
  rfl

theorem count_take_succ (vs : List Nat) (i : Nat) (hi : i < vs.length) (x : Nat) :
    (vs.take (i + 1)).count x = (vs.take i).count x + if vs[i] = x then 1 else 0 := by
  rw [take_succ_eq vs i hi, List.count_append, List.count_singleton]
  by_cases h : vs[i] = x
  · simp [h]
  · have h2 : ¬ x = vs[i] := fun e => h e.symm
    simp [h, h2]

theorem nonNull_take_succ (vs : List Nat) (i : Nat) (hi : i < vs.length) :
    nonNull (vs.take (i + 1)) = nonNull (vs.take i) + if vs[i] = 0 then 0 else 1 := by
  unfold nonNull
  rw [take_succ_eq vs i hi, List.filter_append, List.length_append]
  by_cases h : vs[i] = 0 <;> simp [h, List.filter]

theorem writeSlot_ok {h : Heap} {a i w : Nat} {slots : List Nat}
    (hb : memGet a h.mem = some (.buf slots)) (hi : i < slots.length) :
    writeSlot h a i w = .ok { h with mem := memSet a (.buf (slots.set i w)) h.mem } := by
  simp [writeSlot, hb, hi]

/-- One pass of the constructor loop keeps `FromInv`, and the loop returns. -/
theorem from_loop_inv (h : Heap) (vs : List Nat) (raw a tag : Nat)
    (hra : raw ≠ a) (hfa : memGet a h.mem = none) (hfr : memGet raw h.mem = none)
    (hvalid : ∀ v ∈ vs, v ≠ 0 → 8 ≤ v ∧ ∃ rc t pl, memGet (v - 8) h.mem = some (.obj rc t pl)) :
    ∀ k i cur, i + k = vs.length → FromInv h vs raw a tag i cur →
      ∃ fin, from_loop (raw + 8) k cur i (vs.drop i) = .ok fin ∧
        FromInv h vs raw a tag vs.length fin := by
  intro k
  induction k with
  | zero =>
    intro i cur hik hinv
    have : i = vs.length := by omega
    subst this
    exact ⟨cur, rfl, hinv⟩
  | succ k ih =>
    intro i cur hik hinv
    have hi : i < vs.length := by omega
    obtain ⟨hbuf, hobj, hrest, hc1, hc2, hc3, hc4, hc5⟩ := hinv
    have hgc : getObj cur (raw + 8) = some (1, tag, [vs.length, a]) :=
      getObj_some_iff.mpr ⟨by omega, by simpa using hobj⟩
    have hrd : readField cur (raw + 8) 1 = .ok a := readField_of_getObj (w := a) hgc rfl
    have hws := writeSlot_ok (i := i) (w := vs[i]) hbuf (by simp; omega)
    rw [take_append_zeros_set vs i hi] at hws
    rw [List.drop_eq_getElem_cons hi]
    simp only [from_loop, hrd, hws]
    by_cases hx : vs[i] = 0
    · simp only [hx, ne_eq, not_true_eq_false, if_false]
      apply ih (i + 1) _ (by omega)
      refine ⟨by simp [memGet_memSet_same, hbuf], ?_, ?_, hc1, hc2, ?_, hc4, hc5⟩
      · simpa [memGet_memSet_ne _ _ hra] using hobj
      · intro b hba hbr
        rw [memGet_memSet_ne _ _ hba, hrest b hba hbr, count_take_succ vs i hi]
        have : ¬ vs[i] = b + 8 := by omega
        simp [this]
      · simp [nonNull_take_succ vs i hi, hx, hc3]
    · obtain ⟨hx8, rc, t, pl, hxm⟩ := hvalid vs[i] (List.getElem_mem hi) hx
      have hxa : vs[i] - 8 ≠ a := by
        intro he
        rw [he, hfa] at hxm
        exact absurd hxm (by simp)
      have hxr : vs[i] - 8 ≠ raw := by
        intro he
        rw [he, hfr] at hxm
        exact absurd hxm (by simp)
      have hcur := hrest _ hxa hxr
      rw [hxm] at hcur
      simp only [Option.map_some', bumpBlock] at hcur
      have hgx : getObj { cur with
          mem := memSet a (.buf (vs.take (i + 1) ++ List.replicate (vs.length - (i + 1)) 0))
            cur.mem } vs[i]
          = some (incN ((vs.take i).count (vs[i] - 8 + 8)) rc, t, pl) :=
        getObj_some_iff.mpr ⟨hx8, by simpa [memGet_memSet_ne _ _ hxa] using hcur⟩
      simp only [hx, ne_eq, not_false_eq_true, if_true, inc_ref_live hgx]
      apply ih (i + 1) _ (by omega)
      refine ⟨?_, ?_, ?_, hc1, hc2, ?_, hc4, hc5⟩
      · simp [memGet_memSet_ne _ _ (Ne.symm hxa), memGet_memSet_same, hbuf]
      · simpa [memGet_memSet_ne _ _ (Ne.symm hxr), memGet_memSet_ne _ _ hra] using hobj
      · intro b hba hbr
        by_cases hbx : b = vs[i] - 8
        · subst hbx
          have e : vs[i] - 8 + 8 = vs[i] := by omega
          simp [memGet_memSet_same, memGet_memSet_ne _ _ hxa, hcur, hxm, bumpBlock,
            count_take_succ vs i hi, e, incN]
        · have : ¬ vs[i] = b + 8 := by omega
          simp [memGet_memSet_ne _ _ hbx, memGet_memSet_ne _ _ hba, hrest b hba hbr,
            count_take_succ vs i hi, this]
      · simp [nonNull_take_succ vs i hi, hx, hc3, countN]

theorem bumpBlock_zero (b : Block) : bumpBlock 0 b = b := by
  cases b <;> rfl

theorem map_bumpBlock_zero (o : Option Block) : o.map (bumpBlock 0) = o := by
  cases o with
  | none => rfl
  | some b => simp [bumpBlock_zero]

theorem ofInt64_natCast (n : Nat) (hn : n < 2 ^ 64) : ofInt64 (n : Int) = n := by
  unfold ofInt64
  have h : ((n : Int) % 2 ^ 64) = (n : Int) := Int.emod_eq_of_lt (by omega) (by omega)
  rw [h]
  simp

/-- What `reml_array_from` / `reml_record_from` build from `vs.length` arguments `vs`, each
null or a live object: the call returns a new container `c`; block by block, the final
memory is the memory at entry with each header bumped once per occurrence of its payload
pointer in `vs`, plus the container and (for a non-empty list) its element array. -/
theorem container_from_ok (tag : Nat) (negMsg allocMsg : String) (H : Host) (hH : HostOK H)
    (h : Heap) (vs : List Nat) (hs1 : HostServes H 24) (hs2 : HostServes H (vs.length * 8))
    (hn : vs.length * 8 < 2 ^ 64)
    (hvalid : ∀ v ∈ vs, v ≠ 0 → 8 ≤ v ∧ ∃ rc t pl, memGet (v - 8) h.mem = some (.obj rc t pl)) :
    ∃ h1 raw items, container_from tag negMsg allocMsg H h (vs.length : Int) vs
        = .ok (h1, raw + 8) ∧
      raw ≠ 0 ∧ memGet raw h.mem = none ∧
      memGet raw h1.mem = some (.obj 1 tag [vs.length, items]) ∧
      (vs.length = 0 → items = 0) ∧
      (0 < vs.length → items ≠ 0 ∧ items ≠ raw ∧ memGet items h.mem = none ∧
        memGet items h1.mem = some (.buf vs)) ∧
      (∀ b, b ≠ raw → (0 < vs.length → b ≠ items) →
        memGet b h1.mem = (memGet b h.mem).map (bumpBlock (vs.count (b + 8)))) ∧
      h1.alloc_count = (h.alloc_count + 1) % SIZE_MOD ∧ h1.free_count = h.free_count ∧
      h1.inc_ref_count = countN (nonNull vs) h.inc_ref_count ∧
      h1.dec_ref_count = h.dec_ref_count ∧ h1.destroy_count = h.destroy_count := by
  obtain ⟨raw, hraw0, hfresh, hma⟩ := mem_alloc_pair hH hs1 h
  have hlen : ¬ ((vs.length : Int) < 0) := by omega
  have hof : ofInt64 (vs.length : Int) = vs.length := ofInt64_natCast _ (by omega)
  by_cases hz : vs.length = 0
  · have hvs : vs = [] := List.length_eq_zero.mp hz
    subst hvs
    refine ⟨⟨(raw, .obj 1 tag [0, 0]) :: h.mem, (h.alloc_count + 1) % SIZE_MOD, h.free_count,
      h.inc_ref_count, h.dec_ref_count, h.destroy_count⟩, raw, 0, ?_, hraw0, hfresh, ?_,
      fun _ => rfl, fun hp => absurd hp (by simp), ?_, rfl, rfl, rfl, rfl, rfl⟩
    · simp [container_from, hma, bind, Except.bind, reml_set_type_tag, writeField, getObj,
        putObj, memGet, memSet, HEADER_SIZE, pure, Except.pure, alloc_items, from_loop, ofInt64]
    · simp [memGet]
    · intro b hb _
      simp [memGet_cons_ne _ _ hb, map_bumpBlock_zero]
  · have hpos : 0 < vs.length := by omega
    obtain ⟨a, ha⟩ := hs2 ((raw, .obj 1 tag [vs.length, 0]) :: h.mem)
    obtain ⟨ha0, hafresh⟩ := hH _ _ _ ha
    have har : a ≠ raw := by
      intro he
      rw [he] at hafresh
      simp [memGet] at hafresh
    have hra : ¬ raw = a := fun he => har he.symm
    have hfa : memGet a h.mem = none := by
      rwa [memGet_cons_ne _ _ har] at hafresh
    have hinv : FromInv h vs raw a tag 0
        ⟨(a, .buf (List.replicate vs.length 0)) :: (raw, .obj 1 tag [vs.length, a]) :: h.mem,
          (h.alloc_count + 1) % SIZE_MOD, h.free_count, h.inc_ref_count, h.dec_ref_count,
          h.destroy_count⟩ := by
      refine ⟨by simp [memGet], by simp [memGet, har], ?_, rfl, rfl, rfl, rfl, rfl⟩
      intro b hba hbr
      simp [memGet_cons_ne _ _ hba, memGet_cons_ne _ _ hbr, map_bumpBlock_zero]
    obtain ⟨fin, hloop, hfin⟩ := from_loop_inv h vs raw a tag (fun he => har he.symm) hfa hfresh
      hvalid vs.length 0 _ (by omega) hinv
    obtain ⟨hbuf, hobj, hrest, hc1, hc2, hc3, hc4, hc5⟩ := hfin
    simp only [List.take_length, Nat.sub_self, List.replicate_zero, List.append_nil] at hbuf hrest hc3
    simp only [List.drop_zero] at hloop
    refine ⟨fin, raw, a, ?_, hraw0, hfresh, hobj, fun he => absurd he hz,
      fun _ => ⟨ha0, har, hfa, hbuf⟩, fun b hb hba => hrest b (hba hpos) hb,
      hc1, hc2, hc3, hc4, hc5⟩
    have hle : ¬ ((vs.length : Int) ≤ 0) := by omega
    have hsz : ¬ (SIZE_MOD ≤ vs.length * 8) := by unfold SIZE_MOD; omega
    simp [container_from, hma, bind, Except.bind, reml_set_type_tag, writeField, getObj,
      putObj, memGet, memSet, HEADER_SIZE, pure, Except.pure, alloc_items, hof, hle, hostCalloc,
      hsz, ha, hra, har, hloop]

theorem incN_eq (j rc : Nat) (hrc : rc < U32_MOD) : incN j rc = (rc + j) % U32_MOD := by
  induction j with
  | zero => simp [incN, Nat.mod_eq_of_lt hrc]
  | succ j ih =>
    simp only [incN, ih]
    unfold U32_MOD
    omega

theorem valid_args_mem {h : Heap} {vs : List Nat}
    (hvalid : ∀ v ∈ vs, v ≠ 0 → ∃ rc t pl, getObj h v = some (rc, t, pl)) :
    ∀ v ∈ vs, v ≠ 0 → 8 ≤ v ∧ ∃ rc t pl, memGet (v - 8) h.mem = some (.obj rc t pl) := by
  intro v hv hv0
  obtain ⟨rc, t, pl, hg⟩ := hvalid v hv hv0
  obtain ⟨h8, hm⟩ := getObj_some_iff.mp hg
  exact ⟨h8, rc, t, pl, hm⟩

/-- The postcondition `Built` holds of the shared constructor body. -/
theorem container_from_built (tag : Nat) (negMsg allocMsg : String) (H : Host) (hH : HostOK H)
    (h : Heap) (vs : List Nat) (hs1 : HostServes H 24) (hs2 : HostServes H (vs.length * 8))
    (hn : vs.length * 8 < 2 ^ 64)
    (hvalid : ∀ v ∈ vs, v ≠ 0 → ∃ rc t pl, getObj h v = some (rc, t, pl)) :
    Built h vs tag (container_from tag negMsg allocMsg H h (vs.length : Int) vs) := by
  obtain ⟨h1, raw, items, hok, hraw0, hfresh, hobj, hz, hpos, hrest, hc1, hc2, hc3, hc4, hc5⟩ :=
    container_from_ok tag negMsg allocMsg H hH h vs hs1 hs2 hn (valid_args_mem hvalid)
  refine ⟨h1, raw + 8, items, hok, by omega, ?_, ?_, hz, ?_, ?_, ?_, hc3, hc1, hc2, hc4, hc5⟩
  · simp [getObj, HEADER_SIZE, hfresh]
  · exact getObj_some_iff.mpr ⟨by omega, by simpa using hobj⟩
  · intro hp
    obtain ⟨h1', _, h3, h4⟩ := hpos hp
    exact ⟨h1', h3, h4⟩
  · intro v rc t pl hv hv0 hg hrc
    obtain ⟨h8, hm⟩ := getObj_some_iff.mp hg
    have hvr : v - 8 ≠ raw := by
      intro he
      rw [he, hfresh] at hm
      exact absurd hm (by simp)
    have hvi : 0 < vs.length → v - 8 ≠ items := by
      intro hp he
      rw [he, (hpos hp).2.2.1] at hm
      exact absurd hm (by simp)
    have e : v - 8 + 8 = v := by omega
    have := hrest (v - 8) hvr hvi
    rw [hm, e] at this
    simp only [Option.map_some', bumpBlock, incN_eq _ _ hrc] at this
    exact getObj_some_iff.mpr ⟨h8, this⟩
  · intro b hb hbi hbv
    have hb' : b ≠ raw := by simpa using hb
    rw [hrest b hb' (fun _ => hbi), List.count_eq_zero_of_not_mem hbv, map_bumpBlock_zero]

/-- C8: for every list `v0..v(n-1)` of child pointers, each null or a live object (with
`n * 8` fitting `size_t`, and a host that serves the two allocations),
`reml_array_from(n, v0, ...)` and `reml_record_from(n, v0, ...)` return a new object with
refcount 1, tag ARRAY resp. RECORD, length field `n` and an element array whose slot `i`
holds exactly `vi` in argument order (a null element-array pointer when `n = 0`); each
non-null `vi` has been retained once per occurrence (`Built`); and both constructors panic
on every negative length. -/
theorem array_record_from_spec (H : Host) (hH : HostOK H) (h : Heap) (vs : List Nat)
    (hs1 : HostServes H 24) (hs2 : HostServes H (vs.length * 8)) (hn : vs.length * 8 < 2 ^ 64)
    (hvalid : ∀ v ∈ vs, v ≠ 0 → ∃ rc t pl, getObj h v = some (rc, t, pl)) :
    Built h vs REML_TAG_ARRAY (reml_array_from H h (vs.length : Int) vs) ∧
      Built h vs REML_TAG_RECORD (reml_record_from H h (vs.length : Int) vs) ∧
      ∀ (len : Int) (args : List Nat), len < 0 →
        reml_array_from H h len args = .error (.panic "array length is negative") ∧
        reml_record_from H h len args = .error (.panic "record field_count is negative") := by
  refine ⟨container_from_built _ _ _ H hH h vs hs1 hs2 hn hvalid,
    container_from_built _ _ _ H hH h vs hs1 hs2 hn hvalid, ?_⟩
  intro len args hlen
  simp [reml_array_from, reml_record_from, container_from, hlen]

/-- Witness for C8: two occurrences of one INT box and a null argument. -/
theorem array_record_from_spec_witness :
    Built ⟨[(16, .obj 1 REML_TAG_INT [7])], 1, 0, 0, 0, 0⟩ [24, 0, 24] REML_TAG_ARRAY
      (reml_array_from bumpHost ⟨[(16, .obj 1 REML_TAG_INT [7])], 1, 0, 0, 0, 0⟩
        (([24, 0, 24] : List Nat).length : Int) [24, 0, 24]) :=
  (array_record_from_spec bumpHost bumpHost_ok ⟨[(16, .obj 1 REML_TAG_INT [7])], 1, 0, 0, 0, 0⟩
    [24, 0, 24] (bumpHost_serves _) (bumpHost_serves _) (by decide)
    (by
      intro v hv hv0
      simp only [List.mem_cons, List.mem_singleton, List.not_mem_nil, or_false] at hv
      rcases hv with rfl | rfl | rfl
      · exact ⟨1, REML_TAG_INT, [7], by decide⟩
      · exact absurd rfl hv0
      · exact ⟨1, REML_TAG_INT, [7], by decide⟩)).1

/-! ## Destruction of tuples, records and arrays (C7) -/

theorem count_take_lt (slots : List Nat) (i : Nat) (hi : i < slots.length) :
    (slots.take i).count slots[i] + 1 ≤ slots.count slots[i] := by
  have h1 := count_take_succ slots i hi slots[i]
  simp only [if_true] at h1
  have h2 : slots.count slots[i]
      = (slots.take (i + 1)).count slots[i] + (slots.drop (i + 1)).count slots[i] := by
    rw [← List.count_append, List.take_append_drop]
  omega

theorem destroy_switch_slots {dec : Heap → Nat → Res Heap}
    {slots setItems : Heap → Nat → Nat → Res Heap} {tag : Nat} (h : Heap) (p : Nat)
    (ht : slotsTag tag) : destroy_switch dec slots setItems tag h p = destroy_slots slots h p := by
  rcases ht with rfl | rfl | rfl <;> rfl

theorem not_leafTag_of_slotsTag {tag : Nat} (ht : slotsTag tag) : ¬ leafTag tag := by
  rintro ⟨h5, h6, h11, _⟩
  rcases ht with h | h | h
  · exact h5 h
  · exact h6 h
  · exact h11 h

theorem readSlot_ok {h : Heap} {a i w : Nat} {slots : List Nat}
    (hb : memGet a h.mem = some (.buf slots)) (hw : slots[i]? = some w) :
    readSlot h a i = .ok w := by
  simp [readSlot, hb, hw]

theorem toInt64_of_lt {w : Nat} (hw : w < 2 ^ 63) : toInt64 w = (w : Int) := by
  unfold toInt64
  have h1 : w % 2 ^ 64 = w := Nat.mod_eq_of_lt (by omega)
  rw [h1, if_pos hw]

theorem dropBlock_zero (b : Block) : dropBlock 0 b = some b := by
  cases b <;> simp [dropBlock]

theorem bind_dropBlock_zero (o : Option Block) : o.bind (dropBlock 0) = o := by
  cases o with
  | none => rfl
  | some b => simp [dropBlock_zero]

theorem dropBlock_obj_lt {j rc : Nat} (tag : Nat) (pl : List Nat) (hj : j < rc) :
    dropBlock j (.obj rc tag pl) = some (.obj (rc - j) tag pl) := by
  by_cases h0 : j = 0
  · subst h0
    simp [dropBlock]
  · simp [dropBlock, h0, hj]

theorem dropBlock_obj_ge {j rc : Nat} (tag : Nat) (pl : List Nat) (h0 : 0 < j) (hj : ¬ j < rc) :
    dropBlock j (.obj rc tag pl) = none := by
  have : j ≠ 0 := by omega
  simp [dropBlock, this, hj]

theorem slots_step_done {h : Heap} {p i len : Nat} (fuel : Nat)
    (h0 : readField h p 0 = .ok len) (hc : ¬ (i : Int) < toInt64 len) :
    rcExec (fuel + 1) h (.slots p i) = .ok h := by
  simp only [rcExec, h0, hc, if_false]

theorem slots_step_null {h : Heap} {p i len items : Nat} (fuel : Nat)
    (h0 : readField h p 0 = .ok len) (hc : (i : Int) < toInt64 len)
    (h1 : readField h p 1 = .ok items) (hs : readSlot h items i = .ok 0) :
    rcExec (fuel + 1) h (.slots p i) = rcExec fuel h (.slots p (i + 1)) := by
  simp only [rcExec, h0, hc, if_true, h1, hs, ne_eq, not_true_eq_false, if_false]

theorem slots_step_dec {h hd : Heap} {p i len items x : Nat} (fuel : Nat)
    (h0 : readField h p 0 = .ok len) (hc : (i : Int) < toInt64 len)
    (h1 : readField h p 1 = .ok items) (hs : readSlot h items i = .ok x) (hx : x ≠ 0)
    (hdec : dec_ref fuel h x = .ok hd) :
    rcExec (fuel + 1) h (.slots p i) = rcExec fuel hd (.slots p (i + 1)) := by
  simp only [dec_ref] at hdec
  simp only [rcExec, h0, hc, if_true, h1, hs, ne_eq, hx, not_false_eq_true, hdec]

/-- The element loop of the tuple / record / array destructor returns and keeps
`DestroyInv`; `k` slots are left and `fuel` exceeds `k`. -/
theorem slots_loop_inv (h : Heap) (slots : List Nat) (raw items tag len : Nat) (pl : List Nat)
    (ht : slotsTag tag) (hobj0 : memGet raw h.mem = some (.obj 1 tag pl))
    (hbuf0 : memGet items h.mem = some (.buf slots))
    (hl0 : pl[0]? = some len) (hl1 : pl[1]? = some items)
    (hlen : toInt64 len = (slots.length : Int)) (hch : ChildrenOK h slots) :
    ∀ k i fuel cur, i + k = slots.length → k + 1 ≤ fuel →
      DestroyInv h slots raw items tag pl i cur →
      ∃ fin, rcExec fuel cur (.slots (raw + 8) i) = .ok fin ∧
        DestroyInv h slots raw items tag pl slots.length fin := by
  intro k
  induction k with
  | zero =>
    intro i fuel cur hik hfuel hinv
    have hi : i = slots.length := by omega
    subst hi
    obtain ⟨fuel, rfl⟩ : ∃ f, fuel = f + 1 := ⟨fuel - 1, by omega⟩
    have hgc : getObj cur (raw + 8) = some (0, tag, pl) :=
      getObj_some_iff.mpr ⟨by omega, by simpa using hinv.2.1⟩
    exact ⟨cur, slots_step_done fuel (readField_of_getObj hgc hl0) (by rw [hlen]; omega), hinv⟩
  | succ k ih =>
    intro i fuel cur hik hfuel hinv
    have hi : i < slots.length := by omega
    obtain ⟨fuel, rfl⟩ : ∃ f, fuel = f + 1 := ⟨fuel - 1, by omega⟩
    obtain ⟨fuel, rfl⟩ : ∃ f, fuel = f + 1 := ⟨fuel - 1, by omega⟩
    obtain ⟨hbuf, hobj, hrest, hc1, hc2, hc3⟩ := hinv
    have hgc : getObj cur (raw + 8) = some (0, tag, pl) :=
      getObj_some_iff.mpr ⟨by omega, by simpa using hobj⟩
    have hcond : (i : Int) < toInt64 len := by rw [hlen]; omega
    have hrs : readSlot cur items i = .ok slots[i] :=
      readSlot_ok hbuf (List.getElem?_eq_getElem hi)
    have hr0 := readField_of_getObj hgc hl0
    have hr1 := readField_of_getObj hgc hl1
    by_cases hx : slots[i] = 0
    · rw [slots_step_null (fuel + 1) hr0 hcond hr1 (by rw [hrs, hx])]
      apply ih (i + 1) (fuel + 1) cur (by omega) (by omega)
      refine ⟨hbuf, hobj, ?_, hc1, hc2, ?_⟩
      · intro b hba hbr
        rw [hrest b hba hbr, count_take_succ slots i hi]
        have : ¬ slots[i] = b + 8 := by omega
        simp [this]
      · simp [nonNull_take_succ slots i hi, hx, hc3]
    · obtain ⟨rc, t, plx, hgx, hcnt, hrc, hleaf⟩ := hch slots[i] (List.getElem_mem hi) hx
      obtain ⟨hx8, hxm⟩ := getObj_some_iff.mp hgx
      have hxa : slots[i] - 8 ≠ items := by
        intro he
        rw [he, hbuf0] at hxm
        exact absurd hxm (by simp)
      have hlt := count_take_lt slots i hi
      have hxr : slots[i] - 8 ≠ raw := by
        intro he
        rw [he, hobj0] at hxm
        simp only [Option.some.injEq, Block.obj.injEq] at hxm
        obtain ⟨h1, h2, _⟩ := hxm
        subst h1 h2
        exact not_leafTag_of_slotsTag ht (hleaf (by omega))
      have e : slots[i] - 8 + 8 = slots[i] := by omega
      have hcur := hrest _ hxa hxr
      rw [hxm, e] at hcur
      have hjlt : (slots.take i).count slots[i] < rc := by omega
      simp only [Option.some_bind, dropBlock_obj_lt _ _ hjlt] at hcur
      have hgx2 : getObj cur slots[i] = some (rc - (slots.take i).count slots[i], t, plx) :=
        getObj_some_iff.mpr ⟨hx8, hcur⟩
      by_cases hlast : rc - (slots.take i).count slots[i] = 1
      · have hdec := dec_ref_last fuel hgx2 (by rw [hlast]; decide)
          (fun h2 _ => destroy_switch_leaf h2 _ (hleaf (by omega)))
        rw [slots_step_dec (fuel + 1) hr0 hcond hr1 hrs hx hdec]
        apply ih (i + 1) (fuel + 1) _ (by omega) (by omega)
        refine ⟨?_, ?_, ?_, hc1, hc2, ?_⟩
        · simpa [memGet_memErase_ne _ (Ne.symm hxa)] using hbuf
        · simpa [memGet_memErase_ne _ (Ne.symm hxr)] using hobj
        · intro b hba hbr
          by_cases hbx : b = slots[i] - 8
          · subst hbx
            have : ¬ ((slots.take i).count slots[i] + 1 < rc) := by omega
            simp [memGet_memErase_same, hxm, count_take_succ slots i hi, e,
              dropBlock_obj_ge _ _ (Nat.succ_pos _) this]
          · have : ¬ slots[i] = b + 8 := by omega
            simp [memGet_memErase_ne _ hbx, hrest b hba hbr, count_take_succ slots i hi, this]
        · simp [nonNull_take_succ slots i hi, hx, hc3, countN]
      · have e2 : (rc - (slots.take i).count slots[i] + (U32_MOD - 1)) % U32_MOD
            = rc - (slots.take i).count slots[i] - 1 := by
          unfold U32_MOD at hrc ⊢
          omega
        have hdec := dec_ref_live_pos fuel hgx2 (by rw [e2]; omega)
        rw [e2] at hdec
        rw [slots_step_dec (fuel + 1) hr0 hcond hr1 hrs hx hdec]
        apply ih (i + 1) (fuel + 1) _ (by omega) (by omega)
        refine ⟨?_, ?_, ?_, hc1, hc2, ?_⟩
        · simpa [memGet_memSet_ne _ _ (Ne.symm hxa)] using hbuf
        · simpa [memGet_memSet_ne _ _ (Ne.symm hxr)] using hobj
        · intro b hba hbr
          by_cases hbx : b = slots[i] - 8
          · subst hbx
            have h3 : (slots.take i).count slots[i] + 1 < rc := by omega
            have h4 : rc - (slots.take i).count slots[i] - 1
                = rc - ((slots.take i).count slots[i] + 1) := by omega
            simp [memGet_memSet_same, hcur, hxm, count_take_succ slots i hi, e,
              dropBlock_obj_lt _ _ h3, h4]
          · have : ¬ slots[i] = b + 8 := by omega
            simp [memGet_memSet_ne _ _ hbx, hrest b hba hbr, count_take_succ slots i hi, this]
        · simp [nonNull_take_succ slots i hi, hx, hc3, countN]

theorem destroy_slots_run {loop : Heap → Nat → Nat → Res Heap} {h h1 h2 : Heap}
    {p items items1 : Nat} (hp : p ≠ 0) (hr : readField h p 1 = .ok items) (hi : items ≠ 0)
    (hl : loop h p 0 = .ok h1) (hr1 : readField h1 p 1 = .ok items1)
    (hf : hostFree h1 items1 = .ok h2) :
    destroy_slots loop h p = writeField h2 p 1 0 := by
  simp [destroy_slots, hp, hr, hi, hl, hr1, hf, bind, Except.bind]

/-- Releasing the last reference to a tuple, record or array whose children satisfy
`ChildrenOK`: the call returns; the container and its element array are gone; block by
block, every other header has dropped by the number of slots holding its payload pointer,
and a block whose refcount was exhausted is gone. -/
theorem dec_ref_container (h : Heap) (slots : List Nat) (c items tag len : Nat) (pl : List Nat)
    (ht : slotsTag tag) (hg : getObj h c = some (1, tag, pl))
    (hl0 : pl[0]? = some len) (hl1 : pl[1]? = some items) (hi0 : items ≠ 0)
    (hbuf0 : memGet items h.mem = some (.buf slots))
    (hlen : toInt64 len = (slots.length : Int)) (hch : ChildrenOK h slots) (extra : Nat) :
    ∃ h1, dec_ref (slots.length + 2 + extra) h c = .ok h1 ∧
      memGet (c - 8) h1.mem = none ∧ memGet items h1.mem = none ∧
      (∀ b, b ≠ c - 8 → b ≠ items →
        memGet b h1.mem = (memGet b h.mem).bind (dropBlock (slots.count (b + 8)))) ∧
      h1.alloc_count = h.alloc_count ∧ h1.inc_ref_count = h.inc_ref_count ∧
      h1.dec_ref_count = countN (nonNull slots + 1) h.dec_ref_count := by
  obtain ⟨hc8, hobj0⟩ := getObj_some_iff.mp hg
  obtain ⟨raw, rfl⟩ : ∃ r, c = r + 8 := ⟨c - 8, by omega⟩
  simp only [Nat.add_sub_cancel] at hobj0 ⊢
  have hir : items ≠ raw := by
    intro he
    rw [he, hobj0] at hbuf0
    exact absurd hbuf0 (by simp)
  have hfuel : slots.length + 2 + extra = (slots.length + 1 + extra) + 1 := by omega
  rw [hfuel, dec_ref_zero_unfold _ hg (by decide), destroy_switch_slots _ _ ht]
  simp only [Nat.add_sub_cancel]
  have hinv : DestroyInv h slots raw items tag pl 0
      { h with
        mem := memSet raw (.obj 0 tag pl) h.mem
        dec_ref_count := (h.dec_ref_count + 1) % SIZE_MOD
        destroy_count := (h.destroy_count + 1) % SIZE_MOD } := by
    refine ⟨by simpa [memGet_memSet_ne _ _ hir] using hbuf0,
      by simp [memGet_memSet_same, hobj0], ?_, rfl, rfl, by simp [nonNull, countN]⟩
    intro b _ hbr
    simp [memGet_memSet_ne _ _ hbr, bind_dropBlock_zero]
  obtain ⟨fin, hloop, hfin⟩ := slots_loop_inv h slots raw items tag len pl ht hobj0 hbuf0 hl0 hl1
    hlen hch slots.length 0 (slots.length + 1 + extra) _ (by omega) (by omega) hinv
  obtain ⟨hbuf, hobj, hrest, hc1, hc2, hc3⟩ := hfin
  simp only [List.take_length] at hrest hc3
  have hg2 : getObj { h with
      mem := memSet raw (.obj 0 tag pl) h.mem
      dec_ref_count := (h.dec_ref_count + 1) % SIZE_MOD
      destroy_count := (h.destroy_count + 1) % SIZE_MOD } (raw + 8) = some (0, tag, pl) :=
    getObj_some_iff.mpr ⟨by omega, by simp [memGet_memSet_same, hobj0]⟩
  have hgf : getObj fin (raw + 8) = some (0, tag, pl) :=
    getObj_some_iff.mpr ⟨by omega, by simpa using hobj⟩
  have hfree : hostFree fin items = .ok { fin with mem := memErase items fin.mem } := by
    simp [hostFree, hbuf]
  rw [destroy_slots_run (by omega) (readField_of_getObj hg2 hl1) hi0 hloop
    (readField_of_getObj hgf hl1) hfree]
  have hge : getObj { fin with mem := memErase items fin.mem } (raw + 8) = some (0, tag, pl) :=
    getObj_some_iff.mpr ⟨by omega, by simpa [memGet_memErase_ne _ (Ne.symm hir)] using hobj⟩
  have hl : 1 < pl.length := by
    rcases Nat.lt_or_ge 1 pl.length with h | h
    · exact h
    · rw [List.getElem?_eq_none h] at hl1
      exact absurd hl1 (by simp)
  have hwf : writeField { fin with mem := memErase items fin.mem } (raw + 8) 1 0
      = .ok (putObj { fin with mem := memErase items fin.mem } (raw + 8) 0 tag (pl.set 1 0)) := by
    simp [writeField, hge, hl]
  rw [hwf]
  have hgw : getObj (putObj { fin with mem := memErase items fin.mem } (raw + 8) 0 tag
      (pl.set 1 0)) (raw + 8) = some (0, tag, pl.set 1 0) :=
    getObj_putObj_same _ _ _ hge
  simp only [mem_free_live hgw (by decide)]
  refine ⟨_, rfl, ?_, ?_, ?_, hc1, hc2, hc3⟩
  · simp [memGet_memErase_same]
  · simp [putObj, HEADER_SIZE, memGet_memErase_ne _ hir, memGet_memSet_ne _ _ hir,
      memGet_memErase_same]
  · intro b hbr hbi
    simp [putObj, HEADER_SIZE, memGet_memErase_ne _ hbr, memGet_memSet_ne _ _ hbr,
      memGet_memErase_ne _ hbi, hrest b hbi hbr]

/-- Releasing the last reference to a tuple, record or array with a non-null element array
of its declared length whose children satisfy `ChildrenOK` (a child whose refcount is
exhausted has a tag whose destructor releases nothing): `dec_ref(c)` returns, lowers the
refcount of each child by exactly the number of slots of `c` that hold it, frees the element
array and frees `c`; a child whose refcount stays positive is not freed, a child whose
refcount is exhausted is freed, and no other block changes. -/
theorem container_release_leaf (h : Heap) (slots : List Nat) (c items tag len : Nat)
    (pl : List Nat) (extra : Nat) (ht : slotsTag tag) (hg : getObj h c = some (1, tag, pl))
    (hl0 : pl[0]? = some len) (hl1 : pl[1]? = some items) (hi0 : items ≠ 0)
    (hbuf0 : memGet items h.mem = some (.buf slots))
    (hlen : toInt64 len = (slots.length : Int)) (hch : ChildrenOK h slots) :
    ∃ h1, dec_ref (slots.length + 2 + extra) h c = .ok h1 ∧
      getObj h1 c = none ∧ memGet items h1.mem = none ∧
      (∀ x rc t plx, x ∈ slots → x ≠ 0 → getObj h x = some (rc, t, plx) →
        (slots.count x < rc → getObj h1 x = some (rc - slots.count x, t, plx)) ∧
        (slots.count x = rc → getObj h1 x = none)) ∧
      (∀ b, b ≠ c - 8 → b ≠ items → b + 8 ∉ slots → memGet b h1.mem = memGet b h.mem) ∧
      h1.dec_ref_count = countN (nonNull slots + 1) h.dec_ref_count := by
  obtain ⟨h1, hok, hc, hit, hrest, _, _, hcnt⟩ :=
    dec_ref_container h slots c items tag len pl ht hg hl0 hl1 hi0 hbuf0 hlen hch extra
  obtain ⟨hc8, hobj0⟩ := getObj_some_iff.mp hg
  refine ⟨h1, hok, ?_, hit, ?_, ?_, hcnt⟩
  · simp [getObj, HEADER_SIZE, hc]
  · intro x rc t plx hx hx0 hgx
    obtain ⟨hx8, hxm⟩ := getObj_some_iff.mp hgx
    obtain ⟨rc2, t2, pl2, hgx2, hle, _, hleaf⟩ := hch x hx hx0
    rw [hgx] at hgx2
    simp only [Option.some.injEq, Prod.mk.injEq] at hgx2
    obtain ⟨rfl, rfl, rfl⟩ := hgx2
    have hpos : 0 < slots.count x := List.count_pos_iff.mpr hx
    have hxi : x - 8 ≠ items := by
      intro he
      rw [he, hbuf0] at hxm
      exact absurd hxm (by simp)
    have hxc : x - 8 ≠ c - 8 := by
      intro he
      rw [he, hobj0] at hxm
      simp only [Option.some.injEq, Block.obj.injEq] at hxm
      obtain ⟨h1', h2', _⟩ := hxm
      subst h1' h2'
      exact not_leafTag_of_slotsTag ht (hleaf (by omega))
    have e : x - 8 + 8 = x := by omega
    have hb := hrest (x - 8) hxc hxi
    rw [hxm, e] at hb
    constructor
    · intro hlt
      rw [Option.some_bind, dropBlock_obj_lt _ _ hlt] at hb
      exact getObj_some_iff.mpr ⟨hx8, hb⟩
    · intro heq
      rw [Option.some_bind, dropBlock_obj_ge _ _ hpos (by omega)] at hb
      simp [getObj, HEADER_SIZE, hb]
  · intro b hbc hbi hb
    rw [hrest b hbc hbi, List.count_eq_zero_of_not_mem hb, bind_dropBlock_zero]

/-! ## Construction followed by release (C9) -/

/-- Bumping a block `j` times and dropping it `j` times gives the block back, when its
refcount is positive and the bumps do not wrap. -/
theorem drop_bump_block (j : Nat) (b : Block)
    (hb : ∀ rc t pl, b = .obj rc t pl → 0 < j → 1 ≤ rc ∧ rc + j < U32_MOD) :
    dropBlock j (bumpBlock j b) = some b := by
  cases b with
  | buf s => simp [bumpBlock, dropBlock]
  | obj rc t pl =>
    by_cases hj : j = 0
    · subst hj
      simp [bumpBlock, incN, dropBlock]
    · obtain ⟨h1, h2⟩ := hb rc t pl rfl (by omega)
      have e : incN j rc = rc + j := by
        rw [incN_eq _ _ (by omega), Nat.mod_eq_of_lt h2]
      simp only [bumpBlock, e]
      rw [dropBlock_obj_lt _ _ (by omega)]
      simp

/-- The shared constructor body followed by `dec_ref` of its result, on children that are
null or live with a positive refcount that does not wrap during construction: both calls
return, the container and its element array are freed, and every block of memory is what
it was before the construction. -/
theorem container_from_release (tag : Nat) (negMsg allocMsg : String) (ht : slotsTag tag)
    (H : Host) (hH : HostOK H) (h : Heap) (vs : List Nat) (hs1 : HostServes H 24)
    (hs2 : HostServes H (vs.length * 8)) (hn : vs.length * 8 < 2 ^ 64)
    (hvalid : ∀ v ∈ vs, v ≠ 0 → ∃ rc t pl, getObj h v = some (rc, t, pl) ∧ 1 ≤ rc ∧
      rc + vs.count v < U32_MOD) (extra : Nat) :
    ∃ h1 c items h2, container_from tag negMsg allocMsg H h (vs.length : Int) vs = .ok (h1, c) ∧
      getObj h c = none ∧ getObj h1 c = some (1, tag, [vs.length, items]) ∧
      (0 < vs.length → memGet items h1.mem = some (.buf vs)) ∧
      dec_ref (vs.length + 2 + extra) h1 c = .ok h2 ∧
      getObj h2 c = none ∧ (0 < vs.length → memGet items h2.mem = none) ∧
      (∀ b, memGet b h2.mem = memGet b h.mem) := by
  have hvalid1 : ∀ v ∈ vs, v ≠ 0 → ∃ rc t pl, getObj h v = some (rc, t, pl) := by
    intro v hv hv0
    obtain ⟨rc, t, pl, hg, _⟩ := hvalid v hv hv0
    exact ⟨rc, t, pl, hg⟩
  obtain ⟨h1, raw, items, hok, hraw0, hfresh, hobj, hz, hpos, hrest, _⟩ :=
    container_from_ok tag negMsg allocMsg H hH h vs hs1 hs2 hn (valid_args_mem hvalid1)
  have hgc : getObj h1 (raw + 8) = some (1, tag, [vs.length, items]) :=
    getObj_some_iff.mpr ⟨by omega, by simpa using hobj⟩
  have hgc0 : getObj h (raw + 8) = none := by simp [getObj, HEADER_SIZE, hfresh]
  have hback : ∀ b, b ≠ raw → (0 < vs.length → b ≠ items) →
      (memGet b h1.mem).bind (dropBlock (vs.count (b + 8))) = memGet b h.mem := by
    intro b hbr hbi
    rw [hrest b hbr hbi]
    cases hm : memGet b h.mem with
    | none => rfl
    | some blk =>
      simp only [Option.map_some', Option.some_bind]
      apply drop_bump_block
      intro rc t pl hblk hj
      have hmem : b + 8 ∈ vs := List.count_pos_iff.mp hj
      obtain ⟨rc2, t2, pl2, hg, h1rc, h2rc⟩ := hvalid (b + 8) hmem (by omega)
      have hm2 := (getObj_some_iff.mp hg).2
      rw [Nat.add_sub_cancel, hm, hblk] at hm2
      simp only [Option.some.injEq, Block.obj.injEq] at hm2
      obtain ⟨rfl, _, _⟩ := hm2
      exact ⟨h1rc, h2rc⟩
  by_cases hzero : vs.length = 0
  · have hi0 := hz hzero
    subst hi0
    obtain ⟨f, hf⟩ : ∃ f, vs.length + 2 + extra = f + 1 := ⟨vs.length + 1 + extra, by omega⟩
    have hdec := dec_ref_last f hgc (by decide) (fun h2 hh2 => by
      rw [destroy_switch_slots _ _ ht]
      exact destroy_slots_null (readField_of_getObj (w := 0) hh2 rfl))
    rw [← hf] at hdec
    refine ⟨h1, raw + 8, 0, _, hok, hgc0, hgc, fun hp => absurd hp (by omega), hdec, ?_,
      fun hp => absurd hp (by omega), ?_⟩
    · simp [getObj, HEADER_SIZE, memGet_memErase_same]
    · intro b
      by_cases hbr : b = raw
      · subst hbr
        simp [memGet_memErase_same, hfresh]
      · have hvs : vs = [] := List.length_eq_zero.mp hzero
        have := hback b hbr (fun hp => absurd hp (by omega))
        simp only [hvs, List.count_nil, bind_dropBlock_zero] at this
        simpa [memGet_memErase_ne _ hbr] using this
  · have hp : 0 < vs.length := by omega
    obtain ⟨hi0, hir, hifresh, hbuf⟩ := hpos hp
    have hch : ChildrenOK h1 vs := by
      intro x hx hx0
      obtain ⟨rc, t, pl, hg, h1rc, h2rc⟩ := hvalid x hx hx0
      obtain ⟨hx8, hxm⟩ := getObj_some_iff.mp hg
      have hxr : x - 8 ≠ raw := by
        intro he
        rw [he, hfresh] at hxm
        exact absurd hxm (by simp)
      have hxi : x - 8 ≠ items := by
        intro he
        rw [he, hifresh] at hxm
        exact absurd hxm (by simp)
      have e : x - 8 + 8 = x := by omega
      have hb := hrest (x - 8) hxr (fun _ => hxi)
      rw [hxm, e] at hb
      simp only [Option.map_some', bumpBlock, incN_eq _ _ (show rc < U32_MOD by omega),
        Nat.mod_eq_of_lt h2rc] at hb
      exact ⟨rc + vs.count x, t, pl, getObj_some_iff.mpr ⟨hx8, hb⟩, by omega, h2rc,
        fun he => absurd he (by omega)⟩
    obtain ⟨h2, hdec, hc2, hi2, hrest2, _⟩ := dec_ref_container h1 vs (raw + 8) items tag
      vs.length [vs.length, items] ht hgc rfl rfl hi0 hbuf (toInt64_of_lt (by omega)) hch extra
    simp only [Nat.add_sub_cancel] at hc2 hrest2
    refine ⟨h1, raw + 8, items, h2, hok, hgc0, hgc, fun _ => hbuf, hdec, ?_, fun _ => hi2, ?_⟩
    · simp [getObj, HEADER_SIZE, hc2]
    · intro b
      by_cases hbr : b = raw
      · subst hbr
        rw [hc2, hfresh]
      · by_cases hbi : b = items
        · subst hbi
          rw [hi2, hifresh]
        · rw [hrest2 b hbr hbi, hback b hbr (fun _ => hbi)]

/-- C9 as stated fails: an INT box whose 32-bit refcount is `2^32 - 1` is passed twice to
`reml_array_from`, which wraps its refcount to 1; releasing the array then destroys and
frees the box at the first slot and releases freed memory at the second. -/
theorem array_from_release_frees_child :
    ∃ h1 c,
      reml_array_from bumpHost ⟨[(16, .obj (2 ^ 32 - 1) REML_TAG_INT [7])], 1, 0, 0, 0, 0⟩ 2
        [24, 24] = .ok (h1, c) ∧
      getObj h1 24 = some (1, REML_TAG_INT, [7]) ∧ dec_ref 5 h1 c = .error .fault :=
  ⟨⟨[(4368, .buf [24, 24]), (272, .obj 1 REML_TAG_ARRAY [2, 4368]),
      (16, .obj 1 REML_TAG_INT [7])], 2, 0, 2, 0, 0⟩, 280, by decide, by decide, by decide⟩

/-- C9, amended: for every call `reml_array_from(n, children)` or
`reml_record_from(n, children)` on children that are null or live with a refcount of at
least 1 that stays below `2^32` when the child's number of occurrences is added (the same
child may occur several times; the host serves the two allocations), immediately calling
`dec_ref` on the result releases each non-null child exactly once per slot: both calls
return, afterwards every block of memory, in particular every child's header, is what it
was before the construction, no child has been freed, and the container and its element
array are freed. -/
theorem from_then_release_restores (H : Host) (hH : HostOK H) (h : Heap) (vs : List Nat)
    (hs1 : HostServes H 24) (hs2 : HostServes H (vs.length * 8)) (hn : vs.length * 8 < 2 ^ 64)
    (hvalid : ∀ v ∈ vs, v ≠ 0 → ∃ rc t pl, getObj h v = some (rc, t, pl) ∧ 1 ≤ rc ∧
      rc + vs.count v < U32_MOD) (extra : Nat) :
    (∃ h1 c items h2, reml_array_from H h (vs.length : Int) vs = .ok (h1, c) ∧
      getObj h c = none ∧ getObj h1 c = some (1, REML_TAG_ARRAY, [vs.length, items]) ∧
      (0 < vs.length → memGet items h1.mem = some (.buf vs)) ∧
      dec_ref (vs.length + 2 + extra) h1 c = .ok h2 ∧
      getObj h2 c = none ∧ (0 < vs.length → memGet items h2.mem = none) ∧
      (∀ v ∈ vs, v ≠ 0 → getObj h2 v = getObj h v ∧ getObj h2 v ≠ none) ∧
      (∀ b, memGet b h2.mem = memGet b h.mem)) ∧
    (∃ h1 c items h2, reml_record_from H h (vs.length : Int) vs = .ok (h1, c) ∧
      getObj h c = none ∧ getObj h1 c = some (1, REML_TAG_RECORD, [vs.length, items]) ∧
      (0 < vs.length → memGet items h1.mem = some (.buf vs)) ∧
      dec_ref (vs.length + 2 + extra) h1 c = .ok h2 ∧
      getObj h2 c = none ∧ (0 < vs.length → memGet items h2.mem = none) ∧
      (∀ v ∈ vs, v ≠ 0 → getObj h2 v = getObj h v ∧ getObj h2 v ≠ none) ∧
      (∀ b, memGet b h2.mem = memGet b h.mem)) := by
  have key : ∀ (h2 : Heap), (∀ b, memGet b h2.mem = memGet b h.mem) →
      ∀ v ∈ vs, v ≠ 0 → getObj h2 v = getObj h v ∧ getObj h2 v ≠ none := by
    intro h2 hall v hv hv0
    obtain ⟨rc, t, pl, hg, _⟩ := hvalid v hv hv0
    have he : getObj h2 v = getObj h v := by
      unfold getObj
      rw [hall]
    exact ⟨he, by rw [he, hg]; simp⟩
  constructor
  · obtain ⟨h1, c, items, h2, a1, a2, a3, a4, a5, a6, a7, a8⟩ :=
      container_from_release REML_TAG_ARRAY "array length is negative" "Array allocation failed"
        (Or.inr (Or.inr rfl)) H hH h vs hs1 hs2 hn hvalid extra
    exact ⟨h1, c, items, h2, a1, a2, a3, a4, a5, a6, a7, key h2 a8, a8⟩
  · obtain ⟨h1, c, items, h2, a1, a2, a3, a4, a5, a6, a7, a8⟩ :=
      container_from_release REML_TAG_RECORD "record field_count is negative"
        "Record allocation failed" (Or.inr (Or.inl rfl)) H hH h vs hs1 hs2 hn hvalid extra
    exact ⟨h1, c, items, h2, a1, a2, a3, a4, a5, a6, a7, key h2 a8, a8⟩

/-- Witness for C9 (amended): an array of one INT box, twice, and a null pointer. -/
theorem from_then_release_restores_witness :
    ∃ h1 c items h2,
      reml_array_from bumpHost ⟨[(16, .obj 1 REML_TAG_INT [7])], 1, 0, 0, 0, 0⟩
        (([24, 0, 24] : List Nat).length : Int) [24, 0, 24] = .ok (h1, c) ∧
      getObj h1 c = some (1, REML_TAG_ARRAY, [([24, 0, 24] : List Nat).length, items]) ∧
      dec_ref (([24, 0, 24] : List Nat).length + 2 + 0) h1 c = .ok h2 ∧
      ∀ b, memGet b h2.mem = memGet b [(16, .obj 1 REML_TAG_INT [7])] :=
  have ⟨⟨h1, c, items, h2, a1, _, a3, _, a5, _, _, _, a9⟩, _⟩ :=
    from_then_release_restores bumpHost bumpHost_ok
      ⟨[(16, .obj 1 REML_TAG_INT [7])], 1, 0, 0, 0, 0⟩ [24, 0, 24] (bumpHost_serves _)
      (bumpHost_serves _) (by decide)
      (by
        intro v hv hv0
        simp only [List.mem_cons, List.mem_singleton, List.not_mem_nil, or_false] at hv
        rcases hv with rfl | rfl | rfl
        · exact ⟨1, REML_TAG_INT, [7], by decide, by decide, by decide⟩
        · exact absurd rfl hv0
        · exact ⟨1, REML_TAG_INT, [7], by decide, by decide, by decide⟩) 0
  ⟨h1, c, items, h2, a1, a3, a5, a9⟩

/-! ## Objects without owned children (C12) -/

/-- The tags INT, FLOAT, BOOL, CHAR, STRING, 0 and every value above 11 select no
destructor with an effect. -/
theorem leafTag_of_primitive {tag : Nat}
    (ht : tag = REML_TAG_INT ∨ tag = REML_TAG_FLOAT ∨ tag = REML_TAG_BOOL ∨
      tag = REML_TAG_CHAR ∨ tag = REML_TAG_STRING ∨ tag = 0 ∨ 11 < tag) : leafTag tag := by
  unfold leafTag REML_TAG_TUPLE REML_TAG_RECORD REML_TAG_ARRAY REML_TAG_CLOSURE REML_TAG_ADT
    REML_TAG_SET
  unfold REML_TAG_INT REML_TAG_FLOAT REML_TAG_BOOL REML_TAG_CHAR REML_TAG_STRING at ht
  omega

/-- C12: for every object `p` with refcount 1 whose tag is INT, FLOAT, BOOL, CHAR, STRING
or a value outside 1..11, whatever words its payload `pl` holds, `dec_ref(p)` returns after
exactly one `dec_ref` call and one `mem_free`: `p` is freed, and the header and payload of
every other block are unchanged; in particular the words of the payload (a string box's
data pointer among them) are not released or freed, also when they are the address of a
live object. -/
theorem leaf_release_spec (h : Heap) (p tag : Nat) (pl : List Nat) (fuel : Nat)
    (hg : getObj h p = some (1, tag, pl))
    (ht : tag = REML_TAG_INT ∨ tag = REML_TAG_FLOAT ∨ tag = REML_TAG_BOOL ∨
      tag = REML_TAG_CHAR ∨ tag = REML_TAG_STRING ∨ tag = 0 ∨ 11 < tag) :
    ∃ h1, dec_ref (fuel + 1) h p = .ok h1 ∧ getObj h1 p = none ∧
      h1.mem = memErase (p - 8) h.mem ∧
      (∀ b, b ≠ p - 8 → memGet b h1.mem = memGet b h.mem) ∧
      (∀ q, q ≠ p → getObj h1 q = getObj h q) ∧
      h1.free_count = (h.free_count + 1) % SIZE_MOD ∧
      h1.dec_ref_count = (h.dec_ref_count + 1) % SIZE_MOD ∧
      h1.destroy_count = (h.destroy_count + 1) % SIZE_MOD ∧
      h1.alloc_count = h.alloc_count ∧ h1.inc_ref_count = h.inc_ref_count := by
  have hp8 := (getObj_some_iff.mp hg).1
  have hdec := dec_ref_last fuel hg (by decide)
    (fun h2 _ => destroy_switch_leaf h2 p (leafTag_of_primitive ht))
  refine ⟨_, hdec, ?_, rfl, ?_, ?_, rfl, rfl, rfl, rfl, rfl⟩
  · simp [getObj, HEADER_SIZE, memGet_memErase_same]
  · intro b hb
    exact memGet_memErase_ne _ hb
  · intro q hq
    unfold getObj HEADER_SIZE
    by_cases hq8 : q < 8
    · simp [hq8]
    · have hne : q - 8 ≠ p - 8 := by omega
      simp [hq8, memGet_memErase_ne _ hne]

/-- Witness for C12: a string box whose data pointer is the address 24 of a live INT box. -/
theorem leaf_release_spec_witness :
    ∃ h1, dec_ref 1 ⟨[(40, .obj 1 REML_TAG_STRING [24, 3]), (16, .obj 1 REML_TAG_INT [7])],
        2, 0, 0, 0, 0⟩ 48 = .ok h1 ∧
      getObj h1 48 = none ∧ getObj h1 24 = some (1, REML_TAG_INT, [7]) :=
  have ⟨h1, hok, hp, _, _, hq, _⟩ := leaf_release_spec
    ⟨[(40, .obj 1 REML_TAG_STRING [24, 3]), (16, .obj 1 REML_TAG_INT [7])], 2, 0, 0, 0, 0⟩
    48 REML_TAG_STRING [24, 3] 0 (by decide) (Or.inr (Or.inr (Or.inr (Or.inr (Or.inl rfl)))))
  ⟨h1, hok, hp, (hq 24 (by decide)).trans (by decide)⟩

/-! ## ADT objects (C11) -/

theorem memSet_comm {a c : Nat} (x y : Block) (m : Mem) (hne : a ≠ c) :
    memSet a x (memSet c y m) = memSet c y (memSet a x m) := by
  induction m with
  | nil => rfl
  | cons e m ih =>
    obtain ⟨k, b0⟩ := e
    by_cases hka : k = a
    · subst hka
      simp [memSet, hne]
    · by_cases hkc : k = c
      · subst hkc
        simp [memSet, hka]
      · simp [memSet, hka, hkc, ih]

theorem memErase_memSet_ne {a c : Nat} (x : Block) (m : Mem) (hne : c ≠ a) :
    memErase c (memSet a x m) = memSet a x (memErase c m) := by
  induction m with
  | nil => rfl
  | cons e m ih =>
    obtain ⟨k, b0⟩ := e
    by_cases hka : k = a
    · subst hka
      have : ¬ k = c := fun h => hne h.symm
      simp [memSet, memErase, this]
    · by_cases hkc : k = c
      · subst hkc
        simp [memSet, memErase, hka, ih]
      · simp [memSet, memErase, hka, hkc, ih]

theorem memErase_comm (a c : Nat) (m : Mem) :
    memErase a (memErase c m) = memErase c (memErase a m) := by
  induction m with
  | nil => rfl
  | cons e m ih =>
    obtain ⟨k, b0⟩ := e
    by_cases hka : k = a
    · subst hka
      by_cases hkc : k = c
      · subst hkc
        simp [memErase]
      · simp [memErase, hkc, ih]
    · by_cases hkc : k = c
      · subst hkc
        simp [memErase, hka, ih]
      · simp [memErase, hka, hkc, ih]

theorem destroy_switch_adt {dec : Heap → Nat → Res Heap}
    {slots setItems : Heap → Nat → Nat → Res Heap} (h : Heap) (p : Nat) :
    destroy_switch dec slots setItems REML_TAG_ADT h p = destroy_adt dec h p := by
  rfl

/-- Releasing the last reference to an ADT object: `dec_ref` on its payload pointer if that
is non-null, then `mem_free`. -/
theorem dec_ref_adt_unfold {h : Heap} {a payload : Nat} {pl : List Nat} (fuel : Nat)
    (hg : getObj h a = some (1, REML_TAG_ADT, pl)) (hp : pl[1]? = some payload) :
    dec_ref (fuel + 1) h a =
      match (if payload ≠ 0 then
          dec_ref fuel { h with
            mem := memSet (a - 8) (.obj 0 REML_TAG_ADT pl) h.mem
            dec_ref_count := (h.dec_ref_count + 1) % SIZE_MOD
            destroy_count := (h.destroy_count + 1) % SIZE_MOD } payload
        else .ok { h with
            mem := memSet (a - 8) (.obj 0 REML_TAG_ADT pl) h.mem
            dec_ref_count := (h.dec_ref_count + 1) % SIZE_MOD
            destroy_count := (h.destroy_count + 1) % SIZE_MOD }) with
      | .error e => .error e
      | .ok h3 => mem_free h3 a := by
  obtain ⟨ha8, hm⟩ := getObj_some_iff.mp hg
  have hg2 : getObj { h with
      mem := memSet (a - 8) (.obj 0 REML_TAG_ADT pl) h.mem
      dec_ref_count := (h.dec_ref_count + 1) % SIZE_MOD
      destroy_count := (h.destroy_count + 1) % SIZE_MOD } a = some (0, REML_TAG_ADT, pl) :=
    getObj_some_iff.mpr ⟨ha8, by simp [memGet_memSet_same, hm]⟩
  rw [dec_ref_zero_unfold fuel hg (by decide), destroy_switch_adt]
  simp only [destroy_adt, readField_of_getObj hg2 hp, dec_ref]
  try rfl

/-- Releasing an ADT object with refcount 1 and a null payload pointer. -/
theorem dec_ref_adt_null {h : Heap} {a : Nat} {pl : List Nat} (fuel : Nat)
    (hg : getObj h a = some (1, REML_TAG_ADT, pl)) (hp : pl[1]? = some 0) :
    dec_ref (fuel + 1) h a = .ok { h with
      mem := memErase (a - 8) h.mem
      free_count := (h.free_count + 1) % SIZE_MOD
      dec_ref_count := (h.dec_ref_count + 1) % SIZE_MOD
      destroy_count := (h.destroy_count + 1) % SIZE_MOD } := by
  obtain ⟨ha8, hm⟩ := getObj_some_iff.mp hg
  have hg2 : getObj { h with
      mem := memSet (a - 8) (.obj 0 REML_TAG_ADT pl) h.mem
      dec_ref_count := (h.dec_ref_count + 1) % SIZE_MOD
      destroy_count := (h.destroy_count + 1) % SIZE_MOD } a = some (0, REML_TAG_ADT, pl) :=
    getObj_some_iff.mpr ⟨ha8, by simp [memGet_memSet_same, hm]⟩
  rw [dec_ref_adt_unfold fuel hg hp]
  simp only [ne_eq, not_true_eq_false, if_false, mem_free_live hg2 (by decide), memErase_memSet]

/-- Releasing an ADT object with refcount 1 whose payload is a live object with refcount
`n ≥ 2`: the payload's header drops to `n - 1` and the ADT object is freed. -/
theorem dec_ref_adt_shared {h : Heap} {a payload n tag : Nat} {pl plp : List Nat} (fuel : Nat)
    (hg : getObj h a = some (1, REML_TAG_ADT, pl)) (hp : pl[1]? = some payload)
    (hgp : getObj h payload = some (n, tag, plp)) (hn2 : 2 ≤ n) (hn : n < U32_MOD) :
    dec_ref (fuel + 2) h a = .ok { h with
      mem := memErase (a - 8) (memSet (payload - 8) (.obj (n - 1) tag plp) h.mem)
      free_count := (h.free_count + 1) % SIZE_MOD
      dec_ref_count := ((h.dec_ref_count + 1) % SIZE_MOD + 1) % SIZE_MOD
      destroy_count := (h.destroy_count + 1) % SIZE_MOD } := by
  obtain ⟨ha8, hm⟩ := getObj_some_iff.mp hg
  obtain ⟨hp8, hmp⟩ := getObj_some_iff.mp hgp
  have hne : payload - 8 ≠ a - 8 := by
    intro he
    rw [he, hm] at hmp
    simp only [Option.some.injEq, Block.obj.injEq] at hmp
    omega
  have hp0 : payload ≠ 0 := by omega
  have hgp2 : getObj { h with
      mem := memSet (a - 8) (.obj 0 REML_TAG_ADT pl) h.mem
      dec_ref_count := (h.dec_ref_count + 1) % SIZE_MOD
      destroy_count := (h.destroy_count + 1) % SIZE_MOD } payload = some (n, tag, plp) :=
    getObj_some_iff.mpr ⟨hp8, by simpa [memGet_memSet_ne _ _ hne] using hmp⟩
  have e2 : (n + (U32_MOD - 1)) % U32_MOD = n - 1 := by
    unfold U32_MOD at hn ⊢
    omega
  have hdec := dec_ref_live_pos fuel hgp2 (by rw [e2]; omega)
  rw [e2] at hdec
  have hg3 : getObj { h with
      mem := memSet (payload - 8) (.obj (n - 1) tag plp)
        (memSet (a - 8) (.obj 0 REML_TAG_ADT pl) h.mem)
      dec_ref_count := ((h.dec_ref_count + 1) % SIZE_MOD + 1) % SIZE_MOD
      destroy_count := (h.destroy_count + 1) % SIZE_MOD } a = some (0, REML_TAG_ADT, pl) :=
    getObj_some_iff.mpr ⟨ha8, by
      simp [memGet_memSet_ne _ _ (Ne.symm hne), memGet_memSet_same, hm]⟩
  rw [dec_ref_adt_unfold (fuel + 1) hg hp]
  simp only [ne_eq, hp0, not_false_eq_true, if_true, hdec, mem_free_live hg3 (by decide)]
  rw [memSet_comm _ _ _ hne, memErase_memSet]

/-- Releasing an ADT object with refcount 1 whose payload is a live object with refcount 1
and a tag without an effective destructor: both are freed. -/
theorem dec_ref_adt_last_leaf {h : Heap} {a payload tag : Nat} {pl plp : List Nat} (fuel : Nat)
    (hg : getObj h a = some (1, REML_TAG_ADT, pl)) (hp : pl[1]? = some payload)
    (hgp : getObj h payload = some (1, tag, plp)) (hleaf : leafTag tag) :
    dec_ref (fuel + 2) h a = .ok { h with
      mem := memErase (a - 8) (memErase (payload - 8) h.mem)
      free_count := ((h.free_count + 1) % SIZE_MOD + 1) % SIZE_MOD
      dec_ref_count := ((h.dec_ref_count + 1) % SIZE_MOD + 1) % SIZE_MOD
      destroy_count := ((h.destroy_count + 1) % SIZE_MOD + 1) % SIZE_MOD } := by
  obtain ⟨ha8, hm⟩ := getObj_some_iff.mp hg
  obtain ⟨hp8, hmp⟩ := getObj_some_iff.mp hgp
  have hne : payload - 8 ≠ a - 8 := by
    intro he
    rw [he, hm] at hmp
    simp only [Option.some.injEq, Block.obj.injEq] at hmp
    obtain ⟨_, ht, _⟩ := hmp
    subst ht
    exact hleaf.2.2.2.2.1 rfl
  have hp0 : payload ≠ 0 := by omega
  have hgp2 : getObj { h with
      mem := memSet (a - 8) (.obj 0 REML_TAG_ADT pl) h.mem
      dec_ref_count := (h.dec_ref_count + 1) % SIZE_MOD
      destroy_count := (h.destroy_count + 1) % SIZE_MOD } payload = some (1, tag, plp) :=
    getObj_some_iff.mpr ⟨hp8, by simpa [memGet_memSet_ne _ _ hne] using hmp⟩
  have hdec := dec_ref_last fuel hgp2 (by decide) (fun h2 _ => destroy_switch_leaf h2 _ hleaf)
  have hg3 : getObj { h with
      mem := memErase (payload - 8) (memSet (a - 8) (.obj 0 REML_TAG_ADT pl) h.mem)
      free_count := (h.free_count + 1) % SIZE_MOD
      dec_ref_count := ((h.dec_ref_count + 1) % SIZE_MOD + 1) % SIZE_MOD
      destroy_count := ((h.destroy_count + 1) % SIZE_MOD + 1) % SIZE_MOD } a
      = some (0, REML_TAG_ADT, pl) :=
    getObj_some_iff.mpr ⟨ha8, by
      simp [memGet_memErase_ne _ (Ne.symm hne), memGet_memSet_same, hm]⟩
  rw [dec_ref_adt_unfold (fuel + 1) hg hp]
  simp only [ne_eq, hp0, not_false_eq_true, if_true, hdec, mem_free_live hg3 (by decide)]
  rw [memErase_memSet_ne _ _ hne, memErase_comm, memErase_memSet, memErase_comm]

/-- C11: for every ADT-tagged object `a` with refcount 1 and payload pointer `payload`
(word 1 of its payload; word 0 holds the integer tag): if `payload` is null, `dec_ref(a)`
frees `a` and nothing else changes; if `payload` is a live object with refcount `n ≥ 2`,
`dec_ref(a)` frees `a`, leaves the payload object live with refcount `n - 1` and changes
nothing else; if it is a live object with refcount 1 whose destructor releases nothing, both
are freed; in general `dec_ref(a)` is one `dec_ref` of the non-null payload pointer followed
by `mem_free(a)`. Overwriting the integer tag field of `a` does not change the outcome. -/
theorem adt_release_spec (h : Heap) (a payload : Nat) (pl : List Nat) (fuel : Nat)
    (hg : getObj h a = some (1, REML_TAG_ADT, pl)) (hp : pl[1]? = some payload) :
    (payload = 0 → ∃ h1, dec_ref (fuel + 2) h a = .ok h1 ∧ getObj h1 a = none ∧
      ∀ b, b ≠ a - 8 → memGet b h1.mem = memGet b h.mem) ∧
    (∀ n tag plp, getObj h payload = some (n, tag, plp) → 2 ≤ n → n < U32_MOD →
      ∃ h1, dec_ref (fuel + 2) h a = .ok h1 ∧ getObj h1 a = none ∧
        getObj h1 payload = some (n - 1, tag, plp) ∧
        ∀ b, b ≠ a - 8 → b ≠ payload - 8 → memGet b h1.mem = memGet b h.mem) ∧
    (∀ tag plp, getObj h payload = some (1, tag, plp) → leafTag tag →
      ∃ h1, dec_ref (fuel + 2) h a = .ok h1 ∧ getObj h1 a = none ∧ getObj h1 payload = none ∧
        ∀ b, b ≠ a - 8 → b ≠ payload - 8 → memGet b h1.mem = memGet b h.mem) ∧
    (dec_ref (fuel + 2) h a =
      match (if payload ≠ 0 then
          dec_ref (fuel + 1) { h with
            mem := memSet (a - 8) (.obj 0 REML_TAG_ADT pl) h.mem
            dec_ref_count := (h.dec_ref_count + 1) % SIZE_MOD
            destroy_count := (h.destroy_count + 1) % SIZE_MOD } payload
        else .ok { h with
            mem := memSet (a - 8) (.obj 0 REML_TAG_ADT pl) h.mem
            dec_ref_count := (h.dec_ref_count + 1) % SIZE_MOD
            destroy_count := (h.destroy_count + 1) % SIZE_MOD }) with
      | .error e => .error e
      | .ok h3 => mem_free h3 a) ∧
    (∀ t0 h', writeField h a 0 t0 = .ok h' →
      (payload = 0 ∨ ∃ n tag plp, getObj h payload = some (n, tag, plp) ∧
        ((2 ≤ n ∧ n < U32_MOD) ∨ (n = 1 ∧ leafTag tag))) →
      dec_ref (fuel + 2) h' a = dec_ref (fuel + 2) h a) := by
  obtain ⟨ha8, hm⟩ := getObj_some_iff.mp hg
  refine ⟨?_, ?_, ?_, dec_ref_adt_unfold (fuel + 1) hg hp, ?_⟩
  · intro h0
    subst h0
    refine ⟨_, dec_ref_adt_null (fuel + 1) hg hp, ?_, ?_⟩
    · simp [getObj, HEADER_SIZE, memGet_memErase_same]
    · intro b hb
      exact memGet_memErase_ne _ hb
  · intro n tag plp hgp hn2 hn
    obtain ⟨hp8, hmp⟩ := getObj_some_iff.mp hgp
    have hne : a - 8 ≠ payload - 8 := by
      intro he
      rw [← he, hm] at hmp
      simp only [Option.some.injEq, Block.obj.injEq] at hmp
      omega
    refine ⟨_, dec_ref_adt_shared fuel hg hp hgp hn2 hn, ?_, ?_, ?_⟩
    · simp [getObj, HEADER_SIZE, memGet_memErase_same]
    · exact getObj_some_iff.mpr ⟨hp8, by
        simp [memGet_memErase_ne _ (Ne.symm hne), memGet_memSet_same, hmp]⟩
    · intro b hba hbp
      simp [memGet_memErase_ne _ hba, memGet_memSet_ne _ _ hbp]
  · intro tag plp hgp hleaf
    refine ⟨_, dec_ref_adt_last_leaf fuel hg hp hgp hleaf, ?_, ?_, ?_⟩
    · simp [getObj, HEADER_SIZE, memGet_memErase_same]
    · simp only [getObj, HEADER_SIZE]
      rw [memErase_comm]
      simp [memGet_memErase_same]
    · intro b hba hbp
      simp [memGet_memErase_ne _ hba, memGet_memErase_ne _ hbp]
  · intro t0 h' hw hcase
    have hl : 0 < pl.length := by
      rcases Nat.lt_or_ge 1 pl.length with hlt | hge
      · omega
      · rw [List.getElem?_eq_none hge] at hp
        exact absurd hp (by simp)
    have hh' : h' = putObj h a 1 REML_TAG_ADT (pl.set 0 t0) := by
      simp only [writeField, hg, hl, if_true, Except.ok.injEq] at hw
      exact hw.symm
    have hg' : getObj h' a = some (1, REML_TAG_ADT, pl.set 0 t0) := by
      rw [hh']
      exact getObj_putObj_same _ _ _ hg
    have hp' : (pl.set 0 t0)[1]? = some payload := by
      rw [List.getElem?_set_ne (by omega)]
      exact hp
    have hmem' : h'.mem = memSet (a - 8) (.obj 1 REML_TAG_ADT (pl.set 0 t0)) h.mem := by
      rw [hh']
      rfl
    have hcnt : h'.alloc_count = h.alloc_count ∧ h'.free_count = h.free_count ∧
        h'.inc_ref_count = h.inc_ref_count ∧ h'.dec_ref_count = h.dec_ref_count ∧
        h'.destroy_count = h.destroy_count := by
      rw [hh']
      exact ⟨rfl, rfl, rfl, rfl, rfl⟩
    obtain ⟨c1, c2, c3, c4, c5⟩ := hcnt
    rcases hcase with h0 | ⟨n, tag, plp, hgp, hc⟩
    · subst h0
      rw [dec_ref_adt_null (fuel + 1) hg' hp', dec_ref_adt_null (fuel + 1) hg hp, hmem',
        memErase_memSet, c1, c2, c3, c4, c5]
    · obtain ⟨hp8, hmp⟩ := getObj_some_iff.mp hgp
      have hne : payload - 8 ≠ a - 8 := by
        intro he
        rw [he, hm] at hmp
        simp only [Option.some.injEq, Block.obj.injEq] at hmp
        obtain ⟨h1, h2, _⟩ := hmp
        rcases hc with ⟨h3, _⟩ | ⟨_, h4⟩
        · omega
        · subst h2
          exact h4.2.2.2.2.1 rfl
      have hgp' : getObj h' payload = some (n, tag, plp) :=
        getObj_some_iff.mpr ⟨hp8, by rw [hmem', memGet_memSet_ne _ _ hne]; exact hmp⟩
      rcases hc with ⟨hn2, hn⟩ | ⟨h1, hleaf⟩
      · rw [dec_ref_adt_shared fuel hg' hp' hgp' hn2 hn, dec_ref_adt_shared fuel hg hp hgp hn2 hn,
          hmem', memSet_comm _ _ _ hne, memErase_memSet, c1, c2, c3, c4, c5]
      · subst h1
        rw [dec_ref_adt_last_leaf fuel hg' hp' hgp' hleaf,
          dec_ref_adt_last_leaf fuel hg hp hgp hleaf, hmem', memErase_memSet_ne _ _ hne,
          memErase_memSet, c1, c2, c3, c4, c5]

/-- Witness for C11, the scenario of `test_destructor_adt`: an ADT object with integer tag
42 whose payload is an INT box at refcount 2. -/
theorem adt_release_spec_witness :
    ∃ h1, dec_ref (0 + 2) ⟨[(40, .obj 1 REML_TAG_ADT [42, 24]), (16, .obj 2 REML_TAG_INT [7])],
        2, 0, 1, 0, 0⟩ 48 = .ok h1 ∧
      getObj h1 48 = none ∧ getObj h1 24 = some (2 - 1, REML_TAG_INT, [7]) :=
  have ⟨h1, hok, ha, hpay, _⟩ := (adt_release_spec
    ⟨[(40, .obj 1 REML_TAG_ADT [42, 24]), (16, .obj 2 REML_TAG_INT [7])], 2, 0, 1, 0, 0⟩
    48 24 [42, 24] 0 (by decide) (by decide)).2.1 2 REML_TAG_INT [7] (by decide) (by decide)
    (by decide)
  ⟨h1, hok, ha, hpay⟩

/-! ## Boxing (C13 to C16) -/

theorem align_to_8_small {size : Nat} (h1 : 1 ≤ size) (h8 : size ≤ 8) : align_to_8 size = 8 := by
  interval_cases size <;> decide

/-- `mem_alloc(size)` for `1 ≤ size ≤ 8` with a host that serves 16 bytes. -/
theorem mem_alloc_word {H : Host} (hH : HostOK H) (hserve : HostServes H 16) (h : Heap)
    {size : Nat} (h1 : 1 ≤ size) (h8 : size ≤ 8) :
    ∃ raw, raw ≠ 0 ∧ memGet raw h.mem = none ∧
      mem_alloc H h size = .ok ({ h with
        mem := (raw, .obj 1 0 [0]) :: h.mem
        alloc_count := (h.alloc_count + 1) % SIZE_MOD }, raw + 8) := by
  obtain ⟨raw, hraw⟩ := hserve h.mem
  obtain ⟨hraw0, hfresh⟩ := hH _ _ _ hraw
  refine ⟨raw, hraw0, hfresh, ?_⟩
  unfold mem_alloc
  simp only [align_to_8_small h1 h8, HEADER_SIZE, SIZE_MOD]
  have e : (8 + 8) % 2 ^ 64 = 16 := by decide
  simp only [e, hraw]
  rfl

theorem newBox_cons (h : Heap) {raw : Nat} (hfresh : memGet raw h.mem = none) (tag : Nat)
    (pl : List Nat) (ac : Nat) :
    NewBox h { h with mem := (raw, .obj 1 tag pl) :: h.mem, alloc_count := ac } (raw + 8) tag pl := by
  refine ⟨by omega, ?_, ?_, ?_⟩
  · simp [getObj, HEADER_SIZE, hfresh]
  · simp [getObj, HEADER_SIZE, memGet]
  · intro b hb
    have hb2 : ¬ raw = b := by
      intro he
      apply hb
      simp [HEADER_SIZE, he]
    simp [memGet, hb2]

theorem toInt64_ofInt64 {v : Int} (hlo : -2 ^ 63 ≤ v) (hhi : v < 2 ^ 63) :
    toInt64 (ofInt64 v) = v := by
  unfold toInt64 ofInt64
  have hpos : (0 : Int) ≤ v % 2 ^ 64 := Int.emod_nonneg _ (by norm_num)
  have hlt : v % 2 ^ 64 < 2 ^ 64 := Int.emod_lt_of_pos _ (by norm_num)
  have hcast : (((v % 2 ^ 64).toNat : Nat) : Int) = v % 2 ^ 64 := Int.toNat_of_nonneg hpos
  have hm : (v % 2 ^ 64).toNat % 2 ^ 64 = (v % 2 ^ 64).toNat := by
    apply Nat.mod_eq_of_lt
    omega
  rw [hm]
  by_cases hv : 0 ≤ v
  · have e : v % 2 ^ 64 = v := Int.emod_eq_of_lt hv (by omega)
    rw [if_pos (by omega), hcast, e]
  · have e : v % 2 ^ 64 = v + 2 ^ 64 := by
      have := Int.emod_emod_of_dvd v (dvd_refl (2 ^ 64 : Int))
      have h2 : (v + 2 ^ 64) % 2 ^ 64 = v % 2 ^ 64 := by simp
      rw [← h2]
      exact Int.emod_eq_of_lt (by omega) (by omega)
    rw [if_neg (by omega), hcast, e]
    ring

theorem typed_access_null {α : Type} (nullMsg misMsg : String) (tag : Nat)
    (read : Heap → Nat → Res α) (h : Heap) :
    typed_access nullMsg misMsg tag read h 0 = .error (.panic nullMsg) := by
  simp [typed_access]

theorem typed_access_live {α : Type} (nullMsg misMsg : String) (tag : Nat)
    (read : Heap → Nat → Res α) {h : Heap} {p rc t : Nat} {pl : List Nat}
    (hg : getObj h p = some (rc, t, pl)) :
    typed_access nullMsg misMsg tag read h p =
      if t ≠ tag then .error (.panic misMsg) else read h p := by
  have hp8 := (getObj_some_iff.mp hg).1
  have hp0 : p ≠ 0 := by omega
  simp only [typed_access, reml_get_type_tag, hp0, if_false, hg]

theorem reml_closure_env_eq :
    reml_closure_env = typed_access "closure env target is null" "closure env type tag mismatch"
      REML_TAG_CLOSURE (fun s p => readField s p 0) := rfl

theorem reml_closure_code_ptr_eq :
    reml_closure_code_ptr = typed_access "closure code_ptr target is null"
      "closure code_ptr type tag mismatch" REML_TAG_CLOSURE (fun s p => readField s p 1) := rfl

/-- The state `reml_box_i64(v)` produces and the pointer it returns. -/
theorem box_i64_ok {H : Host} (hH : HostOK H) (hserve : HostServes H 16) (h : Heap) (v : Int) :
    ∃ raw, raw ≠ 0 ∧ memGet raw h.mem = none ∧
      reml_box_i64 H h v = .ok ({ h with
        mem := (raw, .obj 1 REML_TAG_INT [ofInt64 v]) :: h.mem
        alloc_count := (h.alloc_count + 1) % SIZE_MOD }, raw + 8) := by
  obtain ⟨raw, hraw0, hfresh, hma⟩ := mem_alloc_word hH hserve h (by decide : 1 ≤ 8) (le_refl 8)
  refine ⟨raw, hraw0, hfresh, ?_⟩
  simp [reml_box_i64, hma, bind, Except.bind, reml_set_type_tag, writeField, getObj, putObj,
    memGet, memSet, HEADER_SIZE, pure, Except.pure]

/-- The state `reml_box_float(bits)` produces and the pointer it returns. -/
theorem box_float_ok {H : Host} (hH : HostOK H) (hserve : HostServes H 16) (h : Heap)
    (bits : Nat) :
    ∃ raw, raw ≠ 0 ∧ memGet raw h.mem = none ∧
      reml_box_float H h bits = .ok ({ h with
        mem := (raw, .obj 1 REML_TAG_FLOAT [bits]) :: h.mem
        alloc_count := (h.alloc_count + 1) % SIZE_MOD }, raw + 8) := by
  obtain ⟨raw, hraw0, hfresh, hma⟩ := mem_alloc_word hH hserve h (by decide : 1 ≤ 8) (le_refl 8)
  refine ⟨raw, hraw0, hfresh, ?_⟩
  simp [reml_box_float, hma, bind, Except.bind, reml_set_type_tag, writeField, getObj, putObj,
    memGet, memSet, HEADER_SIZE, pure, Except.pure]

/-- The state `reml_box_bool(v)` produces and the pointer it returns. -/
theorem box_bool_ok {H : Host} (hH : HostOK H) (hserve : HostServes H 16) (h : Heap) (v : Nat) :
    ∃ raw, raw ≠ 0 ∧ memGet raw h.mem = none ∧
      reml_box_bool H h v = .ok ({ h with
        mem := (raw, .obj 1 REML_TAG_BOOL [if v ≠ 0 then 1 else 0]) :: h.mem
        alloc_count := (h.alloc_count + 1) % SIZE_MOD }, raw + 8) := by
  obtain ⟨raw, hraw0, hfresh, hma⟩ := mem_alloc_word hH hserve h (by decide : 1 ≤ 1)
    (by decide : 1 ≤ 8)
  refine ⟨raw, hraw0, hfresh, ?_⟩
  by_cases hv : v = 0
  · simp [reml_box_bool, hma, bind, Except.bind, reml_set_type_tag, writeField, readField,
      getObj, putObj, memGet, memSet, HEADER_SIZE, pure, Except.pure, storeU8, hv]
  · simp [reml_box_bool, hma, bind, Except.bind, reml_set_type_tag, writeField, readField,
      getObj, putObj, memGet, memSet, HEADER_SIZE, pure, Except.pure, storeU8, hv]

/-- The state `reml_box_char(v)` produces for a valid scalar value and the pointer it
returns. -/
theorem box_char_ok {H : Host} (hH : HostOK H) (hserve : HostServes H 16) (h : Heap) (v : Nat)
    (hv : reml_char_is_valid v = true) :
    ∃ raw, raw ≠ 0 ∧ memGet raw h.mem = none ∧
      reml_box_char H h v = .ok ({ h with
        mem := (raw, .obj 1 REML_TAG_CHAR [v]) :: h.mem
        alloc_count := (h.alloc_count + 1) % SIZE_MOD }, raw + 8) := by
  obtain ⟨raw, hraw0, hfresh, hma⟩ := mem_alloc_word hH hserve h (by decide : 1 ≤ 4)
    (by decide : 4 ≤ 8)
  refine ⟨raw, hraw0, hfresh, ?_⟩
  have hlt : v < 2 ^ 32 := by
    unfold reml_char_is_valid at hv
    by_cases hc : v > 0x10FFFF
    · simp [hc] at hv
    · omega
  have hm : v % 4294967296 = v := Nat.mod_eq_of_lt (by omega)
  simp [reml_box_char, hv, hma, bind, Except.bind, reml_set_type_tag, writeField, readField,
    getObj, putObj, memGet, memSet, HEADER_SIZE, pure, Except.pure, storeU32, hm]

/-- Outcome of `reml_box_char(v)` for an invalid scalar value, whatever the host. -/
theorem box_char_invalid (H : Host) (h : Heap) (v : Nat) (hv : reml_char_is_valid v = false) :
    reml_box_char H h v = .error (.panic "char scalar value out of range") := by
  simp [reml_box_char, hv]

/-- The state `reml_box_string(s)` produces and the pointer it returns. -/
theorem box_string_ok {H : Host} (hH : HostOK H) (hserve : HostServes H 24) (h : Heap)
    (s : reml_string_t) :
    ∃ raw, raw ≠ 0 ∧ memGet raw h.mem = none ∧
      reml_box_string H h s = .ok ({ h with
        mem := (raw, .obj 1 REML_TAG_STRING [s.data, ofInt64 s.length]) :: h.mem
        alloc_count := (h.alloc_count + 1) % SIZE_MOD }, raw + 8) := by
  obtain ⟨raw, hraw0, hfresh, hma⟩ := mem_alloc_pair hH hserve h
  refine ⟨raw, hraw0, hfresh, ?_⟩
  simp [reml_box_string, hma, bind, Except.bind, reml_set_type_tag, writeField, getObj, putObj,
    memGet, memSet, HEADER_SIZE, pure, Except.pure]

/-- A typed accessor built from `typed_access` meets `AccessorSpec` as soon as its payload
read returns the stored value on every live object holding one. -/
theorem accessorSpec_typed {α : Type} (nullMsg misMsg : String) (tag : Nat)
    (read : Heap → Nat → Res α) (stored : List Nat → Option α)
    (hread : ∀ h p rc t pl v, getObj h p = some (rc, t, pl) → stored pl = some v →
      read h p = .ok v) :
    AccessorSpec (typed_access nullMsg misMsg tag read) nullMsg misMsg tag stored := by
  intro h
  refine ⟨typed_access_null _ _ _ _ _, ?_⟩
  intro p rc t pl hg
  rw [typed_access_live nullMsg misMsg tag read hg]
  refine ⟨fun ht => by rw [if_pos ht], fun v ht hs => ?_, fun v hs => ?_⟩
  · rw [if_neg (not_not.mpr ht)]
    exact hread h p rc t pl v hg hs
  · by_cases ht : t = tag
    · rw [if_neg (not_not.mpr ht), hread h p rc t pl v hg hs]
      constructor
      · rintro ⟨msg, hm⟩
        cases hm
      · intro hne
        exact absurd ht hne
    · rw [if_pos ht]
      exact ⟨fun _ => ht, fun _ => ⟨misMsg, rfl⟩⟩

theorem unbox_i64_spec :
    AccessorSpec reml_unbox_i64 "i64 unbox target is null" "i64 unbox type tag mismatch"
      REML_TAG_INT (fun pl => pl[0]?.map toInt64) := by
  apply accessorSpec_typed
  intro h p rc t pl v hg hs
  cases hw : pl[0]? with
  | none => simp [hw] at hs
  | some w =>
    simp only [hw, Option.map_some', Option.some.injEq] at hs
    simp only [readField_of_getObj hg hw, hs]

theorem unbox_bool_spec :
    AccessorSpec reml_unbox_bool "bool unbox target is null" "bool unbox type tag mismatch"
      REML_TAG_BOOL (fun pl => pl[0]?.map (fun w => if loadU8 w ≠ 0 then 1 else 0)) := by
  apply accessorSpec_typed
  intro h p rc t pl v hg hs
  cases hw : pl[0]? with
  | none => simp [hw] at hs
  | some w =>
    simp only [hw, Option.map_some', Option.some.injEq] at hs
    simp only [readField_of_getObj hg hw, hs]

theorem unbox_float_spec :
    AccessorSpec reml_unbox_float "float unbox target is null" "float unbox type tag mismatch"
      REML_TAG_FLOAT (fun pl => pl[0]?) := by
  apply accessorSpec_typed
  intro h p rc t pl v hg hs
  exact readField_of_getObj hg hs

theorem unbox_char_spec :
    AccessorSpec reml_unbox_char "char unbox target is null" "char unbox type tag mismatch"
      REML_TAG_CHAR (fun pl => pl[0]?.map loadU32) := by
  apply accessorSpec_typed
  intro h p rc t pl v hg hs
  cases hw : pl[0]? with
  | none => simp [hw] at hs
  | some w =>
    simp only [hw, Option.map_some', Option.some.injEq] at hs
    simp only [readField_of_getObj hg hw, hs]

theorem unbox_string_spec :
    AccessorSpec reml_unbox_string "string unbox target is null"
      "string unbox type tag mismatch" REML_TAG_STRING
      (fun pl => pl[0]?.bind (fun d => pl[1]?.map (fun l => ⟨d, toInt64 l⟩))) := by
  apply accessorSpec_typed
  intro h p rc t pl v hg hs
  cases hd : pl[0]? with
  | none => simp [hd] at hs
  | some d =>
    cases hl : pl[1]? with
    | none => simp [hd, hl] at hs
    | some l =>
      simp only [hd, hl, Option.some_bind, Option.map_some', Option.some.injEq] at hs
      simp only [readField_of_getObj hg hd, readField_of_getObj hg hl, hs]

theorem closure_env_spec :
    AccessorSpec reml_closure_env "closure env target is null" "closure env type tag mismatch"
      REML_TAG_CLOSURE (fun pl => pl[0]?) := by
  rw [reml_closure_env_eq]
  apply accessorSpec_typed
  intro h p rc t pl v hg hs
  exact readField_of_getObj hg hs

theorem closure_code_ptr_spec :
    AccessorSpec reml_closure_code_ptr "closure code_ptr target is null"
      "closure code_ptr type tag mismatch" REML_TAG_CLOSURE (fun pl => pl[1]?) := by
  rw [reml_closure_code_ptr_eq]
  apply accessorSpec_typed
  intro h p rc t pl v hg hs
  exact readField_of_getObj hg hs

/-- On a live object with tag `t`, every typed accessor expecting another tag panics with
its tag-mismatch message. -/
theorem mismatchPanics_of_live {h : Heap} {p rc t : Nat} {pl : List Nat}
    (hg : getObj h p = some (rc, t, pl)) : MismatchPanics h p t :=
  ⟨((unbox_i64_spec h).2 p rc t pl hg).1, ((unbox_bool_spec h).2 p rc t pl hg).1,
    ((unbox_float_spec h).2 p rc t pl hg).1, ((unbox_char_spec h).2 p rc t pl hg).1,
    ((unbox_string_spec h).2 p rc t pl hg).1,
    fun ht => ⟨((closure_env_spec h).2 p rc t pl hg).1 ht,
      ((closure_code_ptr_spec h).2 p rc t pl hg).1 ht⟩⟩

/-- Round trip through `reml_box_i64` and `reml_unbox_i64`. -/
theorem box_i64_roundtrip {H : Host} (hH : HostOK H) (hserve : HostServes H 16) (h : Heap)
    (v : Int) (hlo : -2 ^ 63 ≤ v) (hhi : v < 2 ^ 63) :
    ∃ h1 p, reml_box_i64 H h v = .ok (h1, p) ∧ NewBox h h1 p REML_TAG_INT [ofInt64 v] ∧
      reml_unbox_i64 h1 p = .ok v := by
  obtain ⟨raw, _, hfresh, hbox⟩ := box_i64_ok hH hserve h v
  have hnew := newBox_cons h hfresh REML_TAG_INT [ofInt64 v] ((h.alloc_count + 1) % SIZE_MOD)
  refine ⟨_, _, hbox, hnew, ?_⟩
  have := ((unbox_i64_spec _).2 _ _ _ _ hnew.2.2.1).2.1 (toInt64 (ofInt64 v)) rfl rfl
  rw [this, toInt64_ofInt64 hlo hhi]

/-- Round trip through `reml_box_float` and `reml_unbox_float`. -/
theorem box_float_roundtrip {H : Host} (hH : HostOK H) (hserve : HostServes H 16) (h : Heap)
    (bits : Nat) :
    ∃ h1 p, reml_box_float H h bits = .ok (h1, p) ∧ NewBox h h1 p REML_TAG_FLOAT [bits] ∧
      reml_unbox_float h1 p = .ok bits := by
  obtain ⟨raw, _, hfresh, hbox⟩ := box_float_ok hH hserve h bits
  have hnew := newBox_cons h hfresh REML_TAG_FLOAT [bits] ((h.alloc_count + 1) % SIZE_MOD)
  exact ⟨_, _, hbox, hnew, ((unbox_float_spec _).2 _ _ _ _ hnew.2.2.1).2.1 bits rfl rfl⟩

theorem char_valid_lt {v : Nat} (hv : reml_char_is_valid v = true) : v < 2 ^ 32 := by
  unfold reml_char_is_valid at hv
  by_cases hc : v > 0x10FFFF
  · simp [hc] at hv
  · omega

theorem char_valid_iff (v : Nat) :
    reml_char_is_valid v = false ↔ (v > 0x10FFFF ∨ (0xD800 ≤ v ∧ v ≤ 0xDFFF)) := by
  unfold reml_char_is_valid
  by_cases hc : v > 0x10FFFF
  · rw [if_pos hc]
    exact ⟨fun _ => Or.inl hc, fun _ => rfl⟩
  · rw [if_neg hc]
    by_cases hs : v ≥ 0xD800 ∧ v ≤ 0xDFFF
    · rw [if_pos hs]
      exact ⟨fun _ => Or.inr hs, fun _ => rfl⟩
    · rw [if_neg hs]
      constructor
      · intro hf
        cases hf
      · rintro (h1 | h2)
        · exact absurd h1 hc
        · exact absurd h2 hs

/-- Round trip through `reml_box_char` and `reml_unbox_char` for a valid scalar value. -/
theorem box_char_roundtrip {H : Host} (hH : HostOK H) (hserve : HostServes H 16) (h : Heap)
    (v : Nat) (hv : reml_char_is_valid v = true) :
    ∃ h1 p, reml_box_char H h v = .ok (h1, p) ∧ NewBox h h1 p REML_TAG_CHAR [v] ∧
      reml_unbox_char h1 p = .ok v := by
  obtain ⟨raw, _, hfresh, hbox⟩ := box_char_ok hH hserve h v hv
  have hnew := newBox_cons h hfresh REML_TAG_CHAR [v] ((h.alloc_count + 1) % SIZE_MOD)
  refine ⟨_, _, hbox, hnew, ?_⟩
  have := ((unbox_char_spec _).2 _ _ _ _ hnew.2.2.1).2.1 (loadU32 v) rfl rfl
  rw [this]
  have hlt := char_valid_lt hv
  simp only [loadU32, Nat.mod_eq_of_lt hlt]

/-- Round trip through `reml_box_string` and `reml_unbox_string`. -/
theorem box_string_roundtrip {H : Host} (hH : HostOK H) (hserve : HostServes H 24) (h : Heap)
    (s : reml_string_t) (hlo : -2 ^ 63 ≤ s.length) (hhi : s.length < 2 ^ 63) :
    ∃ h1 p, reml_box_string H h s = .ok (h1, p) ∧
      NewBox h h1 p REML_TAG_STRING [s.data, ofInt64 s.length] ∧
      reml_unbox_string h1 p = .ok s := by
  obtain ⟨raw, _, hfresh, hbox⟩ := box_string_ok hH hserve h s
  have hnew := newBox_cons h hfresh REML_TAG_STRING [s.data, ofInt64 s.length]
    ((h.alloc_count + 1) % SIZE_MOD)
  refine ⟨_, _, hbox, hnew, ?_⟩
  have := ((unbox_string_spec _).2 _ _ _ _ hnew.2.2.1).2.1
    ⟨s.data, toInt64 (ofInt64 s.length)⟩ rfl rfl
  rw [this, toInt64_ofInt64 hlo hhi]

/-- Round trip through `reml_box_bool` and `reml_unbox_bool`: the value comes back
normalised to 0 or 1. -/
theorem box_bool_normalised {H : Host} (hH : HostOK H) (hserve : HostServes H 16) (h : Heap)
    (v : Nat) :
    ∃ h1 p, reml_box_bool H h v = .ok (h1, p) ∧
      NewBox h h1 p REML_TAG_BOOL [if v ≠ 0 then 1 else 0] ∧
      reml_unbox_bool h1 p = .ok (if v ≠ 0 then 1 else 0) := by
  obtain ⟨raw, _, hfresh, hbox⟩ := box_bool_ok hH hserve h v
  have hnew := newBox_cons h hfresh REML_TAG_BOOL [if v ≠ 0 then 1 else 0]
    ((h.alloc_count + 1) % SIZE_MOD)
  refine ⟨_, _, hbox, hnew, ?_⟩
  have := ((unbox_bool_spec _).2 _ _ _ _ hnew.2.2.1).2.1 _ rfl rfl
  rw [this]
  by_cases hv : v = 0
  · simp [hv, loadU8]
  · simp [hv, loadU8]

/-- C13: with a host allocator that serves the requests, for every `int64_t` value `v`,
every 64-bit pattern `bits` of a `double`, every valid Unicode scalar value `c` and every
string value `s` (data pointer and `int64_t` length), `reml_box_i64`, `reml_box_float`,
`reml_box_char` and `reml_box_string` return a new object with refcount 1 and tag INT,
FLOAT, CHAR, STRING respectively, all other blocks unchanged (`NewBox`), and the matching
`reml_unbox_*` applied to the returned pointer returns exactly the value that was boxed. -/
theorem boxing_roundtrip {H : Host} (hH : HostOK H) (hs16 : HostServes H 16)
    (hs24 : HostServes H 24) (h : Heap) :
    (∀ v : Int, -2 ^ 63 ≤ v → v < 2 ^ 63 →
      ∃ h1 p, reml_box_i64 H h v = .ok (h1, p) ∧ NewBox h h1 p REML_TAG_INT [ofInt64 v] ∧
        reml_unbox_i64 h1 p = .ok v) ∧
    (∀ bits : Nat, bits < 2 ^ 64 →
      ∃ h1 p, reml_box_float H h bits = .ok (h1, p) ∧ NewBox h h1 p REML_TAG_FLOAT [bits] ∧
        reml_unbox_float h1 p = .ok bits) ∧
    (∀ c : Nat, reml_char_is_valid c = true →
      ∃ h1 p, reml_box_char H h c = .ok (h1, p) ∧ NewBox h h1 p REML_TAG_CHAR [c] ∧
        reml_unbox_char h1 p = .ok c) ∧
    (∀ s : reml_string_t, s.data < 2 ^ 64 → -2 ^ 63 ≤ s.length → s.length < 2 ^ 63 →
      ∃ h1 p, reml_box_string H h s = .ok (h1, p) ∧
        NewBox h h1 p REML_TAG_STRING [s.data, ofInt64 s.length] ∧
        reml_unbox_string h1 p = .ok s) :=
  ⟨fun v hlo hhi => box_i64_roundtrip hH hs16 h v hlo hhi,
    fun bits _ => box_float_roundtrip hH hs16 h bits,
    fun c hc => box_char_roundtrip hH hs16 h c hc,
    fun s _ hlo hhi => box_string_roundtrip hH hs24 h s hlo hhi⟩

/-- Witness for C13: the negative value -5 boxed on the empty heap. -/
theorem boxing_roundtrip_witness :
    ∃ h1 p, reml_box_i64 bumpHost emptyHeap (-5) = .ok (h1, p) ∧
      NewBox emptyHeap h1 p REML_TAG_INT [ofInt64 (-5)] ∧ reml_unbox_i64 h1 p = .ok (-5) :=
  (boxing_roundtrip bumpHost_ok (bumpHost_serves 16) (bumpHost_serves 24) emptyHeap).1 (-5)
    (by decide) (by decide)

/-- C14 as stated fails: the 8-bit value 2 passed to `reml_box_bool` is stored as 1, and
`reml_unbox_bool` of the box returns 1, not 2. -/
theorem box_bool_two_unboxes_one :
    ∃ h1 p, reml_box_bool bumpHost emptyHeap 2 = .ok (h1, p) ∧
      getObj h1 p = some (1, REML_TAG_BOOL, [1]) ∧
      reml_unbox_bool h1 p = .ok 1 ∧ reml_unbox_bool h1 p ≠ .ok 2 :=
  ⟨⟨[(16, .obj 1 REML_TAG_BOOL [1])], 1, 0, 0, 0, 0⟩, 24, by decide, by decide, by decide,
    by decide⟩

/-- C14, amended: with a host allocator that serves the request, for every 8-bit value `v`
passed to `reml_box_bool`, the call returns a new object with refcount 1 and tag BOOL, and
`reml_unbox_bool` of it returns 1 if `v` is not 0 and 0 otherwise; so it returns `v` itself
exactly when `v` is 0 or 1. -/
theorem box_bool_roundtrip {H : Host} (hH : HostOK H) (hs16 : HostServes H 16) (h : Heap)
    (v : Nat) (hv : v < 2 ^ 8) :
    ∃ h1 p, reml_box_bool H h v = .ok (h1, p) ∧
      NewBox h h1 p REML_TAG_BOOL [if v ≠ 0 then 1 else 0] ∧
      reml_unbox_bool h1 p = .ok (if v ≠ 0 then 1 else 0) ∧
      (reml_unbox_bool h1 p = .ok v ↔ v ≤ 1) := by
  obtain ⟨h1, p, hbox, hnew, hun⟩ := box_bool_normalised hH hs16 h v
  refine ⟨h1, p, hbox, hnew, hun, ?_⟩
  rw [hun]
  by_cases hv0 : v = 0
  · simp [hv0]
  · simp only [ne_eq, hv0, not_false_eq_true, if_true, Except.ok.injEq]
    omega

/-- Witness for C14: the value 255 boxed on the empty heap. -/
theorem box_bool_roundtrip_witness :
    ∃ h1 p, reml_box_bool bumpHost emptyHeap 255 = .ok (h1, p) ∧
      NewBox emptyHeap h1 p REML_TAG_BOOL [if 255 ≠ 0 then 1 else 0] ∧
      reml_unbox_bool h1 p = .ok (if 255 ≠ 0 then 1 else 0) ∧
      (reml_unbox_bool h1 p = .ok 255 ↔ 255 ≤ 1) :=
  box_bool_roundtrip bumpHost_ok (bumpHost_serves 16) emptyHeap 255 (by decide)

/-- C15: for every value `v` (every 32-bit value in particular) and a host allocator that
serves the request,
`reml_box_char(v)` panics if and only if `v > 0x10FFFF` or `0xD800 ≤ v ≤ 0xDFFF`; in that
case the panic message is "char scalar value out of range" and the outcome is the same for
every host allocator (the check precedes the allocation, which is never requested); for
every other `v` the call returns a new object with refcount 1 and tag CHAR whose payload
holds `v`, and `reml_unbox_char` of it returns `v`. -/
theorem box_char_validity {H : Host} (hH : HostOK H) (hs16 : HostServes H 16) (h : Heap)
    (v : Nat) :
    ((∃ msg, reml_box_char H h v = .error (.panic msg)) ↔
        (v > 0x10FFFF ∨ (0xD800 ≤ v ∧ v ≤ 0xDFFF))) ∧
      ((v > 0x10FFFF ∨ (0xD800 ≤ v ∧ v ≤ 0xDFFF)) → ∀ H2 : Host,
        reml_box_char H2 h v = .error (.panic "char scalar value out of range")) ∧
      (¬ (v > 0x10FFFF ∨ (0xD800 ≤ v ∧ v ≤ 0xDFFF)) →
        ∃ h1 p, reml_box_char H h v = .ok (h1, p) ∧ NewBox h h1 p REML_TAG_CHAR [v] ∧
          reml_unbox_char h1 p = .ok v) := by
  have hbad : (v > 0x10FFFF ∨ (0xD800 ≤ v ∧ v ≤ 0xDFFF)) → ∀ H2 : Host,
      reml_box_char H2 h v = .error (.panic "char scalar value out of range") :=
    fun hb H2 => box_char_invalid H2 h v ((char_valid_iff v).mpr hb)
  have hgood : ¬ (v > 0x10FFFF ∨ (0xD800 ≤ v ∧ v ≤ 0xDFFF)) →
      ∃ h1 p, reml_box_char H h v = .ok (h1, p) ∧ NewBox h h1 p REML_TAG_CHAR [v] ∧
        reml_unbox_char h1 p = .ok v := by
    intro hg
    have hval : reml_char_is_valid v = true := by
      cases hc : reml_char_is_valid v with
      | true => rfl
      | false => exact absurd ((char_valid_iff v).mp hc) hg
    exact box_char_roundtrip hH hs16 h v hval
  refine ⟨⟨?_, fun hb => ⟨_, hbad hb H⟩⟩, hbad, hgood⟩
  rintro ⟨msg, hm⟩
  by_contra hg
  obtain ⟨h1, p, hok, _⟩ := hgood hg
  rw [hok] at hm
  cases hm

/-- Witness for C15: the surrogate 0xD800 is refused, whatever the host. -/
theorem box_char_validity_witness :
    reml_box_char nullHost emptyHeap 0xD800 = .error (.panic "char scalar value out of range") :=
  (box_char_validity bumpHost_ok (bumpHost_serves 16) emptyHeap 0xD800).2.1
    (Or.inr ⟨by decide, by decide⟩) nullHost

/-- C16: each of the seven typed accessors (`reml_unbox_i64`, `reml_unbox_bool`,
`reml_unbox_float`, `reml_unbox_char`, `reml_unbox_string`, `reml_closure_env`,
`reml_closure_code_ptr`) meets `AccessorSpec` for its expected tag and its two messages: on
the null pointer it panics with "<kind> target is null"; on a live object whose tag differs
from the expected one it panics with "<kind> type tag mismatch"; on a live object with the
expected tag it returns the stored payload value; an accessor returns a value only, so the
state is the one it was called in. In particular, on a pointer returned by `reml_box_X`
every accessor expecting another tag panics with its tag-mismatch message
(`MismatchPanics`). -/
theorem typed_accessors_spec {H : Host} (hH : HostOK H) (hs16 : HostServes H 16)
    (hs24 : HostServes H 24) :
    AccessorSpec reml_unbox_i64 "i64 unbox target is null" "i64 unbox type tag mismatch"
        REML_TAG_INT (fun pl => pl[0]?.map toInt64) ∧
      AccessorSpec reml_unbox_bool "bool unbox target is null" "bool unbox type tag mismatch"
        REML_TAG_BOOL (fun pl => pl[0]?.map (fun w => if loadU8 w ≠ 0 then 1 else 0)) ∧
      AccessorSpec reml_unbox_float "float unbox target is null"
        "float unbox type tag mismatch" REML_TAG_FLOAT (fun pl => pl[0]?) ∧
      AccessorSpec reml_unbox_char "char unbox target is null" "char unbox type tag mismatch"
        REML_TAG_CHAR (fun pl => pl[0]?.map loadU32) ∧
      AccessorSpec reml_unbox_string "string unbox target is null"
        "string unbox type tag mismatch" REML_TAG_STRING
        (fun pl => pl[0]?.bind (fun d => pl[1]?.map (fun l => ⟨d, toInt64 l⟩))) ∧
      AccessorSpec reml_closure_env "closure env target is null"
        "closure env type tag mismatch" REML_TAG_CLOSURE (fun pl => pl[0]?) ∧
      AccessorSpec reml_closure_code_ptr "closure code_ptr target is null"
        "closure code_ptr type tag mismatch" REML_TAG_CLOSURE (fun pl => pl[1]?) ∧
      ∀ (h h1 : Heap) (p : Nat),
        ((∃ v, reml_box_i64 H h v = .ok (h1, p)) → MismatchPanics h1 p REML_TAG_INT) ∧
        ((∃ v, reml_box_bool H h v = .ok (h1, p)) → MismatchPanics h1 p REML_TAG_BOOL) ∧
        ((∃ v, reml_box_float H h v = .ok (h1, p)) → MismatchPanics h1 p REML_TAG_FLOAT) ∧
        ((∃ v, reml_box_char H h v = .ok (h1, p)) → MismatchPanics h1 p REML_TAG_CHAR) ∧
        ((∃ v, reml_box_string H h v = .ok (h1, p)) → MismatchPanics h1 p REML_TAG_STRING) := by
  refine ⟨unbox_i64_spec, unbox_bool_spec, unbox_float_spec, unbox_char_spec,
    unbox_string_spec, closure_env_spec, closure_code_ptr_spec, ?_⟩
  intro h h1 p
  refine ⟨?_, ?_, ?_, ?_, ?_⟩
  · rintro ⟨v, hv⟩
    obtain ⟨raw, _, hfresh, hbox⟩ := box_i64_ok hH hs16 h v
    rw [hbox] at hv
    cases hv
    exact mismatchPanics_of_live (newBox_cons h hfresh _ _ _).2.2.1
  · rintro ⟨v, hv⟩
    obtain ⟨raw, _, hfresh, hbox⟩ := box_bool_ok hH hs16 h v
    rw [hbox] at hv
    cases hv
    exact mismatchPanics_of_live (newBox_cons h hfresh _ _ _).2.2.1
  · rintro ⟨v, hv⟩
    obtain ⟨raw, _, hfresh, hbox⟩ := box_float_ok hH hs16 h v
    rw [hbox] at hv
    cases hv
    exact mismatchPanics_of_live (newBox_cons h hfresh _ _ _).2.2.1
  · rintro ⟨v, hv⟩
    cases hc : reml_char_is_valid v with
    | false =>
      rw [box_char_invalid H h v hc] at hv
      cases hv
    | true =>
      obtain ⟨raw, _, hfresh, hbox⟩ := box_char_ok hH hs16 h v hc
      rw [hbox] at hv
      cases hv
      exact mismatchPanics_of_live (newBox_cons h hfresh _ _ _).2.2.1
  · rintro ⟨v, hv⟩
    obtain ⟨raw, _, hfresh, hbox⟩ := box_string_ok hH hs24 h v
    rw [hbox] at hv
    cases hv
    exact mismatchPanics_of_live (newBox_cons h hfresh _ _ _).2.2.1

/-- Witness for C16: `reml_unbox_string` on a box produced by `reml_box_i64`. -/
theorem typed_accessors_spec_witness :
    reml_unbox_string ⟨[(16, .obj 1 REML_TAG_INT [7])], 1, 0, 0, 0, 0⟩ 24
      = .error (.panic "string unbox type tag mismatch") :=
  (((typed_accessors_spec bumpHost_ok (bumpHost_serves 16) (bumpHost_serves 24)).2.2.2.2.2.2.2
    emptyHeap ⟨[(16, .obj 1 REML_TAG_INT [7])], 1, 0, 0, 0, 0⟩ 24).1
      ⟨7, by decide⟩).2.2.2.2.1 (by decide)

/-! ## Sets (C17 to C20) -/

theorem align_to_8_sizeof_set : align_to_8 SIZEOF_SET = 24 := by decide

/-- `mem_alloc(sizeof(reml_set_t))` with a host that serves 32 bytes. -/
theorem mem_alloc_set {H : Host} (hH : HostOK H) (hserve : HostServes H 32) (h : Heap) :
    ∃ raw, raw ≠ 0 ∧ memGet raw h.mem = none ∧
      mem_alloc H h SIZEOF_SET = .ok ({ h with
        mem := (raw, .obj 1 0 [0, 0, 0]) :: h.mem
        alloc_count := (h.alloc_count + 1) % SIZE_MOD }, raw + 8) := by
  obtain ⟨raw, hraw⟩ := hserve h.mem
  obtain ⟨hraw0, hfresh⟩ := hH _ _ _ hraw
  refine ⟨raw, hraw0, hfresh, ?_⟩
  unfold mem_alloc
  simp only [align_to_8_sizeof_set, HEADER_SIZE, SIZE_MOD]
  have e : (8 + 24) % 2 ^ 64 = 32 := by decide
  simp only [e, hraw]
  rfl

theorem slot_of_take {slots xs : List Nat} (ht : slots.take xs.length = xs) {i : Nat}
    (hi : i < xs.length) : slots[i]? = some xs[i] := by
  have h1 : (slots.take xs.length)[i]? = xs[i]? := by rw [ht]
  rw [List.getElem?_take_of_lt hi] at h1
  rw [h1, List.getElem?_eq_getElem hi]

theorem toInt64_length {n : Nat} (hn : n < 2 ^ 63) : toInt64 n = (n : Int) :=
  toInt64_of_lt hn

/-- The scan over a set with item sequence `xs`, started at index `i`, returns whether the
value occurs at an index from `i` on. -/
theorem set_scan_spec {h : Heap} {s rc tag cap items : Nat} {xs : List Nat} (v : Nat)
    (hg : getObj h s = some (rc, tag, [xs.length, cap, items])) (hlen : xs.length < 2 ^ 63)
    (hb : xs ≠ [] → ∃ slots, memGet items h.mem = some (.buf slots) ∧
      slots.take xs.length = xs) :
    ∀ k i, i + k = xs.length → set_scan h s v k i = .ok (decide (v ∈ xs.drop i)) := by
  have hr0 : readField h s 0 = .ok xs.length := readField_of_getObj (w := xs.length) hg rfl
  have hr2 : readField h s 2 = .ok items := readField_of_getObj (w := items) hg rfl
  intro k
  induction k with
  | zero =>
    intro i hik
    have hi : i = xs.length := by omega
    subst hi
    simp [set_scan, hr0, toInt64_length hlen]
  | succ k ih =>
    intro i hik
    have hi : i < xs.length := by omega
    have hne : xs ≠ [] := by
      intro he
      rw [he] at hi
      simp at hi
    obtain ⟨slots, hbuf, htake⟩ := hb hne
    have hrs : readSlot h items i = .ok xs[i] := readSlot_ok hbuf (slot_of_take htake hi)
    have hlt : (i : Int) < (xs.length : Int) := by omega
    simp only [set_scan, hr0, toInt64_length hlen, hlt, if_true, hr2, hrs]
    by_cases hx : xs[i] = v
    · have hm : v ∈ xs.drop i := by
        rw [List.drop_eq_getElem_cons hi, hx]
        exact List.mem_cons_self _ _
      simp [hx, hm]
    · rw [if_neg hx, ih (i + 1) (by omega)]
      have hx2 : ¬ v = xs[i] := fun e => hx e.symm
      have hiff : v ∈ xs.drop (i + 1) ↔ v ∈ xs.drop i := by
        constructor
        · intro hm
          rw [List.drop_eq_getElem_cons hi]
          exact List.mem_cons_of_mem _ hm
        · intro hm
          rw [List.drop_eq_getElem_cons hi] at hm
          rcases List.mem_cons.mp hm with e | e
          · exact absurd e hx2
          · exact e
      simp [hiff]

/-- What `reml_set_contains` returns on a live object laid out as a set with item sequence
`xs`. -/
theorem set_contains_spec {h : Heap} {s rc tag cap items : Nat} {xs : List Nat} (v : Nat)
    (hg : getObj h s = some (rc, tag, [xs.length, cap, items])) (hlen : xs.length < 2 ^ 63)
    (hb : xs ≠ [] → ∃ slots, memGet items h.mem = some (.buf slots) ∧
      slots.take xs.length = xs) :
    reml_set_contains h s v = .ok (if v ∈ xs then 1 else 0) := by
  have hs8 := (getObj_some_iff.mp hg).1
  have hs0 : s ≠ 0 := by omega
  have hr0 : readField h s 0 = .ok xs.length := readField_of_getObj (w := xs.length) hg rfl
  have hscan := set_scan_spec v hg hlen hb xs.length 0 (by omega)
  simp only [reml_set_contains, hs0, if_false, hr0, toInt64_length hlen, Int.toNat_ofNat, hscan,
    List.drop_zero]
  by_cases hv : v ∈ xs <;> simp [hv]

/-- What `reml_set_len` returns on a live object laid out as a set with item sequence
`xs`. -/
theorem set_len_spec {h : Heap} {s rc tag cap items : Nat} {xs : List Nat}
    (hg : getObj h s = some (rc, tag, [xs.length, cap, items])) (hlen : xs.length < 2 ^ 63) :
    reml_set_len h s = .ok (xs.length : Int) := by
  have hs8 := (getObj_some_iff.mp hg).1
  have hs0 : s ≠ 0 := by omega
  have hr0 : readField h s 0 = .ok xs.length := readField_of_getObj (w := xs.length) hg rfl
  simp only [reml_set_len, hs0, if_false, hr0, toInt64_length hlen]

theorem take_append_zeros_set_le (xs : List Nat) (n i : Nat) (hi : i < xs.length)
    (hn : xs.length ≤ n) :
    (xs.take i ++ List.replicate (n - i) 0).set i xs[i]
      = xs.take (i + 1) ++ List.replicate (n - (i + 1)) 0 := by
  apply List.ext_getElem
  · simp
    omega
  · intro j h1 h2
    simp only [List.getElem_set, List.getElem_append, List.length_take, List.getElem_take,
      List.getElem_replicate]
    by_cases hji : i = j
    · subst hji
      simp [hi]
    · simp only [hji, if_false]
      by_cases hlt : j < i
      · have h3 : j < min i xs.length := by omega
        have h4 : j < min (i + 1) xs.length := by omega
        simp [h3, h4]
      · have h3 : ¬ j < min i xs.length := by omega
        have h4 : ¬ j < min (i + 1) xs.length := by omega
        simp [h3, h4]

theorem take_succ_append_get (xs : List Nat) (m i : Nat) (hi : i < xs.length) :
    (xs.take (i + 1) ++ List.replicate m 0)[i]? = some xs[i] := by
  have hl : i < (xs.take (i + 1)).length := by
    simp
    omega
  rw [List.getElem?_append_left hl, List.getElem?_take_of_lt (by omega),
    List.getElem?_eq_getElem hi]

theorem inc_ref_null (h : Heap) : inc_ref h 0 = .ok h := by
  simp [inc_ref]

/-- One pass of the copy loop of `reml_set_insert` keeps `CopyInv`, and the loop returns. -/
theorem set_copy_loop_inv (h : Heap) (xs : List Nat) (raw a n s rc tag cap sitems : Nat)
    (hra : raw ≠ a) (hfa : memGet a h.mem = none) (hfr : memGet raw h.mem = none)
    (hs8 : 8 ≤ s) (hsm : memGet (s - 8) h.mem = some (.obj rc tag [xs.length, cap, sitems]))
    (hlen : xs.length < 2 ^ 63) (hn : xs.length ≤ n)
    (hb : xs ≠ [] → ∃ slots, memGet sitems h.mem = some (.buf slots) ∧
      slots.take xs.length = xs)
    (hvalid : ∀ v ∈ xs, v ≠ 0 → 8 ≤ v ∧ ∃ rc t pl, memGet (v - 8) h.mem = some (.obj rc t pl)) :
    ∀ k i cur, i + k = xs.length → CopyInv h xs raw a n i cur →
      ∃ fin, set_copy_loop s (raw + 8) k cur i = .ok fin ∧
        CopyInv h xs raw a n xs.length fin := by
  have hsa : s - 8 ≠ a := by
    intro he
    rw [he, hfa] at hsm
    exact absurd hsm (by simp)
  have hsr : s - 8 ≠ raw := by
    intro he
    rw [he, hfr] at hsm
    exact absurd hsm (by simp)
  have hsrc : ∀ i cur, CopyInv h xs raw a n i cur →
      ∃ rc2, getObj cur s = some (rc2, tag, [xs.length, cap, sitems]) := by
    intro i cur hinv
    have := hinv.2.2.1 _ hsa hsr
    rw [hsm] at this
    exact ⟨_, getObj_some_iff.mpr ⟨hs8, by simpa [bumpBlock] using this⟩⟩
  intro k
  induction k with
  | zero =>
    intro i cur hik hinv
    have hi : i = xs.length := by omega
    subst hi
    obtain ⟨rc2, hgs⟩ := hsrc _ _ hinv
    have hr0 : readField cur s 0 = .ok xs.length := readField_of_getObj (w := xs.length) hgs rfl
    exact ⟨cur, by simp [set_copy_loop, hr0, toInt64_length hlen], hinv⟩
  | succ k ih =>
    intro i cur hik hinv
    have hi : i < xs.length := by omega
    obtain ⟨rc2, hgs⟩ := hsrc _ _ hinv
    obtain ⟨hbuf, hobj, hrest, hc1, hc2, hc3, hc4, hc5⟩ := hinv
    have hr0 : readField cur s 0 = .ok xs.length := readField_of_getObj (w := xs.length) hgs rfl
    have hr2 : readField cur s 2 = .ok sitems := readField_of_getObj (w := sitems) hgs rfl
    have hne : xs ≠ [] := by
      intro he
      rw [he] at hi
      simp at hi
    obtain ⟨slots, hsbuf, htake⟩ := hb hne
    have hia : sitems ≠ a := by
      intro he
      rw [he, hfa] at hsbuf
      exact absurd hsbuf (by simp)
    have hir : sitems ≠ raw := by
      intro he
      rw [he, hfr] at hsbuf
      exact absurd hsbuf (by simp)
    have hsbuf2 : memGet sitems cur.mem = some (.buf slots) := by
      rw [hrest _ hia hir, hsbuf]
      rfl
    have hrs : readSlot cur sitems i = .ok xs[i] := readSlot_ok hsbuf2 (slot_of_take htake hi)
    have hgc : getObj cur (raw + 8) = some (1, REML_TAG_SET, [n, n, a]) :=
      getObj_some_iff.mpr ⟨by omega, by simpa using hobj⟩
    have hrn : readField cur (raw + 8) 2 = .ok a := readField_of_getObj (w := a) hgc rfl
    have hws := writeSlot_ok (i := i) (w := xs[i]) hbuf (by simp; omega)
    rw [take_append_zeros_set_le xs n i hi hn] at hws
    have hm2 : memGet a ({ cur with
        mem := memSet a (.buf (xs.take (i + 1) ++ List.replicate (n - (i + 1)) 0))
          cur.mem } : Heap).mem
        = some (.buf (xs.take (i + 1) ++ List.replicate (n - (i + 1)) 0)) := by
      simp [memGet_memSet_same, hbuf]
    have hrs2 : readSlot { cur with
        mem := memSet a (.buf (xs.take (i + 1) ++ List.replicate (n - (i + 1)) 0)) cur.mem }
        a i = .ok xs[i] :=
      readSlot_ok hm2 (take_succ_append_get xs (n - (i + 1)) i hi)
    have hlt : (i : Int) < (xs.length : Int) := by omega
    simp only [set_copy_loop, hr0, toInt64_length hlen, hlt, if_true, hr2, hrs, hrn, hws, hrs2]
    by_cases hx : xs[i] = 0
    · simp only [hx, inc_ref_null]
      apply ih (i + 1) _ (by omega)
      refine ⟨by simp [memGet_memSet_same, hbuf], ?_, ?_, hc1, hc2, ?_, hc4, hc5⟩
      · simpa [memGet_memSet_ne _ _ hra] using hobj
      · intro b hba hbr
        rw [memGet_memSet_ne _ _ hba, hrest b hba hbr, count_take_succ xs i hi]
        have : ¬ xs[i] = b + 8 := by omega
        simp [this]
      · simp [nonNull_take_succ xs i hi, hx, hc3]
    · obtain ⟨hx8, rcx, t, pl, hxm⟩ := hvalid xs[i] (List.getElem_mem hi) hx
      have hxa : xs[i] - 8 ≠ a := by
        intro he
        rw [he, hfa] at hxm
        exact absurd hxm (by simp)
      have hxr : xs[i] - 8 ≠ raw := by
        intro he
        rw [he, hfr] at hxm
        exact absurd hxm (by simp)
      have hcur := hrest _ hxa hxr
      rw [hxm] at hcur
      simp only [Option.map_some', bumpBlock] at hcur
      have hgx : getObj { cur with
          mem := memSet a (.buf (xs.take (i + 1) ++ List.replicate (n - (i + 1)) 0))
            cur.mem } xs[i]
          = some (incN ((xs.take i).count (xs[i] - 8 + 8)) rcx, t, pl) :=
        getObj_some_iff.mpr ⟨hx8, by simpa [memGet_memSet_ne _ _ hxa] using hcur⟩
      simp only [inc_ref_live hgx]
      apply ih (i + 1) _ (by omega)
      refine ⟨?_, ?_, ?_, hc1, hc2, ?_, hc4, hc5⟩
      · simp [memGet_memSet_ne _ _ (Ne.symm hxa), memGet_memSet_same, hbuf]
      · simpa [memGet_memSet_ne _ _ (Ne.symm hxr), memGet_memSet_ne _ _ hra] using hobj
      · intro b hba hbr
        by_cases hbx : b = xs[i] - 8
        · subst hbx
          have e : xs[i] - 8 + 8 = xs[i] := by omega
          simp [memGet_memSet_same, memGet_memSet_ne _ _ hxa, hcur, hxm, bumpBlock,
            count_take_succ xs i hi, e, incN]
        · have : ¬ xs[i] = b + 8 := by omega
          simp [memGet_memSet_ne _ _ hbx, memGet_memSet_ne _ _ hba, hrest b hba hbr,
            count_take_succ xs i hi, this]
      · simp [nonNull_take_succ xs i hi, hx, hc3, countN]

theorem insertItems_pos (xs : List Nat) (v : Nat) : 0 < (insertItems xs v).length := by
  unfold insertItems
  by_cases hv : v ∈ xs
  · rw [if_pos hv]
    exact List.length_pos_of_mem hv
  · rw [if_neg hv]
    simp

theorem length_le_insertItems (xs : List Nat) (v : Nat) :
    xs.length ≤ (insertItems xs v).length := by
  unfold insertItems
  by_cases hv : v ∈ xs
  · rw [if_pos hv]
  · rw [if_neg hv]
    simp

theorem mem_insertItems (xs : List Nat) (v : Nat) : v ∈ insertItems xs v := by
  unfold insertItems
  by_cases hv : v ∈ xs
  · rw [if_pos hv]
    exact hv
  · rw [if_neg hv]
    simp

theorem mem_insertItems_of_mem {xs : List Nat} {x : Nat} (v : Nat) (hx : x ∈ xs) :
    x ∈ insertItems xs v := by
  unfold insertItems
  by_cases hv : v ∈ xs
  · rw [if_pos hv]
    exact hx
  · rw [if_neg hv]
    simp [hx]

/-- The copy loop of `reml_set_insert` run from the state right after the two allocations. -/
theorem set_insert_copy (H : Host) (hH : HostOK H) (h : Heap) (s v rc tag cap sitems : Nat)
    (xs : List Nat) (hs1 : HostServes H 32)
    (hs2 : HostServes H ((insertItems xs v).length * 8))
    (hn : (insertItems xs v).length * 8 < 2 ^ 64)
    (hg : getObj h s = some (rc, tag, [xs.length, cap, sitems]))
    (hb : xs ≠ [] → ∃ slots, memGet sitems h.mem = some (.buf slots) ∧
      slots.take xs.length = xs)
    (hvalid : ∀ x ∈ insertItems xs v, x ≠ 0 →
      8 ≤ x ∧ ∃ rc t pl, memGet (x - 8) h.mem = some (.obj rc t pl)) :
    ∃ raw a fin, raw ≠ 0 ∧ memGet raw h.mem = none ∧ a ≠ 0 ∧ a ≠ raw ∧ memGet a h.mem = none ∧
      mem_alloc H h SIZEOF_SET = .ok ({ h with
        mem := (raw, .obj 1 0 [0, 0, 0]) :: h.mem
        alloc_count := (h.alloc_count + 1) % SIZE_MOD }, raw + 8) ∧
      H ((raw, .obj 1 REML_TAG_SET
        [(insertItems xs v).length, (insertItems xs v).length, 0]) :: h.mem)
        ((insertItems xs v).length * 8) = some a ∧
      set_copy_loop s (raw + 8) xs.length
        ⟨(a, .buf (List.replicate (insertItems xs v).length 0)) ::
          (raw, .obj 1 REML_TAG_SET [(insertItems xs v).length, (insertItems xs v).length, a]) ::
          h.mem, (h.alloc_count + 1) % SIZE_MOD, h.free_count, h.inc_ref_count,
          h.dec_ref_count, h.destroy_count⟩ 0 = .ok fin ∧
      CopyInv h xs raw a (insertItems xs v).length xs.length fin := by
  obtain ⟨raw, hraw0, hfresh, hma⟩ := mem_alloc_set hH hs1 h
  obtain ⟨a, ha⟩ := hs2 ((raw, .obj 1 REML_TAG_SET
    [(insertItems xs v).length, (insertItems xs v).length, 0]) :: h.mem)
  obtain ⟨ha0, hafresh⟩ := hH _ _ _ ha
  have har : a ≠ raw := by
    intro he
    rw [he] at hafresh
    simp [memGet] at hafresh
  have hfa : memGet a h.mem = none := by
    rwa [memGet_cons_ne _ _ har] at hafresh
  obtain ⟨hs8, hsm⟩ := getObj_some_iff.mp hg
  have hle := length_le_insertItems xs v
  have hinv : CopyInv h xs raw a (insertItems xs v).length 0
      ⟨(a, .buf (List.replicate (insertItems xs v).length 0)) ::
        (raw, .obj 1 REML_TAG_SET [(insertItems xs v).length, (insertItems xs v).length, a]) ::
        h.mem, (h.alloc_count + 1) % SIZE_MOD, h.free_count, h.inc_ref_count,
        h.dec_ref_count, h.destroy_count⟩ := by
    refine ⟨by simp [memGet], by simp [memGet, har], ?_, rfl, rfl, rfl, rfl, rfl⟩
    intro b hba hbr
    simp [memGet_cons_ne _ _ hba, memGet_cons_ne _ _ hbr, map_bumpBlock_zero]
  obtain ⟨fin, hloop, hfin⟩ := set_copy_loop_inv h xs raw a (insertItems xs v).length s rc tag
    cap sitems (fun he => har he.symm) hfa hfresh hs8 hsm (by omega) hle hb
    (fun x hx hx0 => hvalid x (mem_insertItems_of_mem v hx) hx0) xs.length 0 _ (by omega) hinv
  exact ⟨raw, a, fin, hraw0, hfresh, ha0, har, hfa, hma, ha, hloop, hfin⟩

/-- What `reml_set_insert(s, v)` builds when `v` is already an item of `s`. -/
theorem set_insert_found (H : Host) (hH : HostOK H) (h : Heap) (s v rc tag cap sitems : Nat)
    (xs : List Nat) (hs1 : HostServes H 32)
    (hs2 : HostServes H ((insertItems xs v).length * 8))
    (hn : (insertItems xs v).length * 8 < 2 ^ 64)
    (hg : getObj h s = some (rc, tag, [xs.length, cap, sitems]))
    (hb : xs ≠ [] → ∃ slots, memGet sitems h.mem = some (.buf slots) ∧
      slots.take xs.length = xs)
    (hvalid : ∀ x ∈ insertItems xs v, x ≠ 0 →
      8 ≤ x ∧ ∃ rc t pl, memGet (x - 8) h.mem = some (.obj rc t pl))
    (hv : v ∈ xs) :
    ∃ h1 raw a, reml_set_insert H h s v = .ok (h1, raw + 8) ∧
      raw ≠ 0 ∧ memGet raw h.mem = none ∧ a ≠ 0 ∧ a ≠ raw ∧ memGet a h.mem = none ∧
      CopyInv h xs raw a xs.length xs.length h1 := by
  obtain ⟨raw, a, fin, hraw0, hfresh, ha0, har, hfa, hma, ha, hloop, hfin⟩ :=
    set_insert_copy H hH h s v rc tag cap sitems xs hs1 hs2 hn hg hb hvalid
  have hys : insertItems xs v = xs := by simp [insertItems, hv]
  rw [hys] at hn ha hloop hfin
  refine ⟨fin, raw, a, ?_, hraw0, hfresh, ha0, har, hfa, hfin⟩
  have hs8 := (getObj_some_iff.mp hg).1
  have hs0 : s ≠ 0 := by omega
  have hlen : xs.length < 2 ^ 63 := by omega
  have hr0 : readField h s 0 = .ok xs.length := readField_of_getObj (w := xs.length) hg rfl
  have hscan : set_scan h s v xs.length 0 = .ok true := by
    rw [set_scan_spec v hg hlen hb xs.length 0 (by omega)]
    simp [hv]
  have hof : ofInt64 (xs.length : Int) = xs.length := ofInt64_natCast _ (by omega)
  have hpos : 0 < xs.length := List.length_pos_of_mem hv
  have hle : ¬ ((xs.length : Int) ≤ 0) := by omega
  have hov : ¬ ((2 : Int) ^ 63 ≤ (xs.length : Int)) := by omega
  have hsz : ¬ (SIZE_MOD ≤ xs.length * 8) := by unfold SIZE_MOD; omega
  have hra : ¬ raw = a := fun he => har he.symm
  have hovn : ¬ (9223372036854775808 ≤ xs.length) := by omega
  obtain ⟨_, hsm⟩ := getObj_some_iff.mp hg
  have hsa : s - 8 ≠ a := by
    intro he
    rw [he, hfa] at hsm
    exact absurd hsm (by simp)
  have hsr : s - 8 ≠ raw := by
    intro he
    rw [he, hfresh] at hsm
    exact absurd hsm (by simp)
  have hr6 : readField (⟨(a, .buf (List.replicate xs.length 0)) ::
      (raw, .obj 1 REML_TAG_SET [xs.length, xs.length, a]) :: h.mem,
      (h.alloc_count + 1) % SIZE_MOD, h.free_count, h.inc_ref_count, h.dec_ref_count,
      h.destroy_count⟩ : Heap) s 0 = .ok xs.length :=
    readField_of_getObj (w := xs.length) (getObj_some_iff.mpr ⟨hs8, by
      simpa [memGet_cons_ne _ _ hsa, memGet_cons_ne _ _ hsr] using hsm⟩) rfl
  simp [reml_set_insert, hs0, hr0, bind, Except.bind, toInt64_length hlen, hscan, hov, hma,
    reml_set_type_tag, writeField, getObj, putObj, memGet, memSet, HEADER_SIZE, pure,
    Except.pure, reml_set_alloc_items, alloc_items, hof, hle, hostCalloc, hsz, ha, hra, har,
    hovn, hr6, hloop]

theorem set_append_last (xs : List Nat) (v : Nat) : (xs ++ [0]).set xs.length v = xs ++ [v] := by
  induction xs with
  | nil => rfl
  | cons x xs ih => simp [List.set, ih]

theorem nonNull_append_one (xs : List Nat) (v : Nat) :
    nonNull (xs ++ [v]) = nonNull xs + if v = 0 then 0 else 1 := by
  unfold nonNull
  rw [List.filter_append, List.length_append]
  by_cases h : v = 0 <;> simp [h, List.filter]

/-- What `reml_set_insert(s, v)` builds when `v` is not an item of `s`. -/
theorem set_insert_fresh (H : Host) (hH : HostOK H) (h : Heap) (s v rc tag cap sitems : Nat)
    (xs : List Nat) (hs1 : HostServes H 32)
    (hs2 : HostServes H ((insertItems xs v).length * 8))
    (hn : (insertItems xs v).length * 8 < 2 ^ 64)
    (hg : getObj h s = some (rc, tag, [xs.length, cap, sitems]))
    (hb : xs ≠ [] → ∃ slots, memGet sitems h.mem = some (.buf slots) ∧
      slots.take xs.length = xs)
    (hvalid : ∀ x ∈ insertItems xs v, x ≠ 0 →
      8 ≤ x ∧ ∃ rc t pl, memGet (x - 8) h.mem = some (.obj rc t pl))
    (hv : v ∉ xs) :
    ∃ h1 raw a, reml_set_insert H h s v = .ok (h1, raw + 8) ∧
      raw ≠ 0 ∧ memGet raw h.mem = none ∧ a ≠ 0 ∧ a ≠ raw ∧ memGet a h.mem = none ∧
      CopyInv h (xs ++ [v]) raw a (xs.length + 1) (xs.length + 1) h1 := by
  obtain ⟨raw, a, fin, hraw0, hfresh, ha0, har, hfa, hma, ha, hloop, hfin⟩ :=
    set_insert_copy H hH h s v rc tag cap sitems xs hs1 hs2 hn hg hb hvalid
  have hvv := hvalid v (mem_insertItems xs v)
  have hys : insertItems xs v = xs ++ [v] := by simp [insertItems, hv]
  rw [hys] at hn ha hloop hfin
  simp only [List.length_append, List.length_singleton] at hn ha hloop hfin
  obtain ⟨hbuf, hobj, hrest, hc1, hc2, hc3, hc4, hc5⟩ := hfin
  simp only [List.take_length, Nat.add_sub_cancel_left, List.replicate_one] at hbuf hrest hc3
  have hs8 := (getObj_some_iff.mp hg).1
  have hs0 : s ≠ 0 := by omega
  have hlen : xs.length < 2 ^ 63 := by omega
  have hr0 : readField h s 0 = .ok xs.length := readField_of_getObj (w := xs.length) hg rfl
  have hscan : set_scan h s v xs.length 0 = .ok false := by
    rw [set_scan_spec v hg hlen hb xs.length 0 (by omega)]
    simp [hv]
  have hof : ofInt64 ((xs.length : Int) + 1) = xs.length + 1 := by
    have := ofInt64_natCast (xs.length + 1) (by omega)
    push_cast at this
    exact this
  have hle : ¬ ((xs.length : Int) + 1 ≤ 0) := by omega
  have hsz : ¬ (SIZE_MOD ≤ (xs.length + 1) * 8) := by unfold SIZE_MOD; omega
  have hra : ¬ raw = a := fun he => har he.symm
  have hovn : ¬ (9223372036854775808 ≤ (xs.length : Int) + 1) := by omega
  have htn : ((xs.length : Int) + 1).toNat = xs.length + 1 := by omega
  obtain ⟨_, hsm⟩ := getObj_some_iff.mp hg
  have hsa : s - 8 ≠ a := by
    intro he
    rw [he, hfa] at hsm
    exact absurd hsm (by simp)
  have hsr : s - 8 ≠ raw := by
    intro he
    rw [he, hfresh] at hsm
    exact absurd hsm (by simp)
  have hr6 : readField (⟨(a, .buf (List.replicate (xs.length + 1) 0)) ::
      (raw, .obj 1 REML_TAG_SET [xs.length + 1, xs.length + 1, a]) :: h.mem,
      (h.alloc_count + 1) % SIZE_MOD, h.free_count, h.inc_ref_count, h.dec_ref_count,
      h.destroy_count⟩ : Heap) s 0 = .ok xs.length :=
    readField_of_getObj (w := xs.length) (getObj_some_iff.mpr ⟨hs8, by
      simpa [memGet_cons_ne _ _ hsa, memGet_cons_ne _ _ hsr] using hsm⟩) rfl
  have hgn : getObj fin (raw + 8)
      = some (1, REML_TAG_SET, [xs.length + 1, xs.length + 1, a]) :=
    getObj_some_iff.mpr ⟨by omega, by simpa using hobj⟩
  have hrn : readField fin (raw + 8) 2 = .ok a := readField_of_getObj (w := a) hgn rfl
  have hgs : ∃ rc2, getObj fin s = some (rc2, tag, [xs.length, cap, sitems]) := by
    have := hrest _ hsa hsr
    rw [hsm] at this
    exact ⟨_, getObj_some_iff.mpr ⟨hs8, by simpa [bumpBlock] using this⟩⟩
  obtain ⟨rc2, hgs⟩ := hgs
  have hrf : readField fin s 0 = .ok xs.length := readField_of_getObj (w := xs.length) hgs rfl
  have hneg : ¬ ((xs.length : Int) < 0) := by omega
  have hws := writeSlot_ok (i := xs.length) (w := v) hbuf (by simp)
  rw [set_append_last] at hws
  have hins : ∀ h9, inc_ref { fin with mem := memSet a (.buf (xs ++ [v])) fin.mem } v = .ok h9 →
      reml_set_insert H h s v = .ok (h9, raw + 8) := by
    intro h9 hinc
    simp [reml_set_insert, hs0, hr0, bind, Except.bind, toInt64_length hlen, hscan, hma,
      reml_set_type_tag, writeField, getObj, putObj, memGet, memSet, HEADER_SIZE, pure,
      Except.pure, reml_set_alloc_items, alloc_items, hof, hle, hostCalloc, hsz, ha, hra, har,
      hovn, htn, hr6, hloop, hrn, hrf, hneg, hws, hinc]
  have hbuf2 : memGet a (memSet a (.buf (xs ++ [v])) fin.mem) = some (.buf (xs ++ [v])) := by
    simp [memGet_memSet_same, hbuf]
  have hobj2 : memGet raw (memSet a (.buf (xs ++ [v])) fin.mem)
      = some (.obj 1 REML_TAG_SET [xs.length + 1, xs.length + 1, a]) := by
    simpa [memGet_memSet_ne _ _ (fun he => har he.symm)] using hobj
  have e : List.take (xs.length + 1) (xs ++ [v]) = xs ++ [v] :=
    List.take_of_length_le (by simp)
  have ez : xs.length + 1 - (xs.length + 1) = 0 := by omega
  by_cases hv0 : v = 0
  · have hinc : inc_ref { fin with mem := memSet a (.buf (xs ++ [v])) fin.mem } v
        = .ok { fin with mem := memSet a (.buf (xs ++ [v])) fin.mem } := by
      rw [hv0]
      exact inc_ref_null _
    refine ⟨_, raw, a, hins _ hinc, hraw0, hfresh, ha0, har, hfa, ?_⟩
    unfold CopyInv
    rw [e, ez]
    refine ⟨?_, hobj2, ?_, hc1, hc2, ?_, hc4, hc5⟩
    · simpa using hbuf2
    · intro b hba hbr
      have hcnt : List.count (b + 8) (xs ++ [v]) = List.count (b + 8) xs := by
        rw [List.count_append, List.count_singleton]
        have h1 : ¬ b + 8 = v := by omega
        have h2 : ¬ v = b + 8 := by omega
        simp [h1, h2]
      rw [hcnt]
      show memGet b (memSet a (.buf (xs ++ [v])) fin.mem) = _
      rw [memGet_memSet_ne _ _ hba, hrest b hba hbr]
    · rw [nonNull_append_one, if_pos hv0]
      exact hc3
  · obtain ⟨hv8, rcv, tv, plv, hvm⟩ := hvv hv0
    have hva : v - 8 ≠ a := by
      intro he
      rw [he, hfa] at hvm
      exact absurd hvm (by simp)
    have hvr : v - 8 ≠ raw := by
      intro he
      rw [he, hfresh] at hvm
      exact absurd hvm (by simp)
    have hcv : List.count (v - 8 + 8) xs = 0 := by
      have e8 : v - 8 + 8 = v := by omega
      rw [e8]
      exact List.count_eq_zero_of_not_mem hv
    have hfv : memGet (v - 8) fin.mem = some (.obj rcv tv plv) := by
      rw [hrest _ hva hvr, hvm, hcv]
      rfl
    have hgv : getObj { fin with mem := memSet a (.buf (xs ++ [v])) fin.mem } v
        = some (rcv, tv, plv) :=
      getObj_some_iff.mpr ⟨hv8, by simpa [memGet_memSet_ne _ _ hva] using hfv⟩
    refine ⟨_, raw, a, hins _ (inc_ref_live hgv), hraw0, hfresh, ha0, har, hfa, ?_⟩
    unfold CopyInv
    rw [e, ez]
    refine ⟨?_, ?_, ?_, hc1, hc2, ?_, hc4, hc5⟩
    · simpa [memGet_memSet_ne _ _ (Ne.symm hva)] using hbuf2
    · simpa [memGet_memSet_ne _ _ (Ne.symm hvr)] using hobj2
    · intro b hba hbr
      show memGet b (memSet (v - 8) (.obj ((rcv + 1) % U32_MOD) tv plv)
        (memSet a (.buf (xs ++ [v])) fin.mem)) = _
      by_cases hbv : b = v - 8
      · subst hbv
        have e8 : v - 8 + 8 = v := by omega
        have hm : memGet (v - 8) (memSet a (.buf (xs ++ [v])) fin.mem)
            = some (.obj rcv tv plv) := by
          rw [memGet_memSet_ne _ _ hva, hfv]
        rw [memGet_memSet_same, hm, hvm, e8, List.count_append,
          List.count_eq_zero_of_not_mem hv]
        simp [bumpBlock, incN]
      · have hcnt : List.count (b + 8) (xs ++ [v]) = List.count (b + 8) xs := by
          rw [List.count_append, List.count_singleton]
          have h1 : ¬ b + 8 = v := by omega
          have h2 : ¬ v = b + 8 := by omega
          simp [h1, h2]
        rw [hcnt, memGet_memSet_ne _ _ hbv, memGet_memSet_ne _ _ hba, hrest b hba hbr]
    · rw [nonNull_append_one, if_neg hv0]
      show (fin.inc_ref_count + 1) % SIZE_MOD = _
      rw [hc3]
      rfl

/-- What `reml_set_insert(s, v)` builds on a live object laid out as a set with item
sequence `xs`, block by block: the final memory is the memory at entry with each header
bumped once per slot of the result holding its payload pointer, plus the new set and its
element array. -/
theorem set_insert_ok (H : Host) (hH : HostOK H) (h : Heap) (s v rc tag cap sitems : Nat)
    (xs : List Nat) (hs1 : HostServes H 32)
    (hs2 : HostServes H ((insertItems xs v).length * 8))
    (hn : (insertItems xs v).length * 8 < 2 ^ 64)
    (hg : getObj h s = some (rc, tag, [xs.length, cap, sitems]))
    (hb : xs ≠ [] → ∃ slots, memGet sitems h.mem = some (.buf slots) ∧
      slots.take xs.length = xs)
    (hvalid : ∀ x ∈ insertItems xs v, x ≠ 0 →
      8 ≤ x ∧ ∃ rc t pl, memGet (x - 8) h.mem = some (.obj rc t pl)) :
    ∃ h1 raw a, reml_set_insert H h s v = .ok (h1, raw + 8) ∧
      raw ≠ 0 ∧ memGet raw h.mem = none ∧ a ≠ 0 ∧ a ≠ raw ∧ memGet a h.mem = none ∧
      memGet a h1.mem = some (.buf (insertItems xs v)) ∧
      memGet raw h1.mem = some (.obj 1 REML_TAG_SET
        [(insertItems xs v).length, (insertItems xs v).length, a]) ∧
      (∀ b, b ≠ a → b ≠ raw → memGet b h1.mem
        = (memGet b h.mem).map (bumpBlock ((insertItems xs v).count (b + 8)))) ∧
      h1.alloc_count = (h.alloc_count + 1) % SIZE_MOD ∧ h1.free_count = h.free_count ∧
      h1.inc_ref_count = countN (nonNull (insertItems xs v)) h.inc_ref_count ∧
      h1.dec_ref_count = h.dec_ref_count ∧ h1.destroy_count = h.destroy_count := by
  by_cases hv : v ∈ xs
  · obtain ⟨h1, raw, a, hok, hraw0, hfresh, ha0, har, hfa, hinv⟩ :=
      set_insert_found H hH h s v rc tag cap sitems xs hs1 hs2 hn hg hb hvalid hv
    have hys : insertItems xs v = xs := by simp [insertItems, hv]
    rw [hys]
    unfold CopyInv at hinv
    simp only [List.take_length, Nat.sub_self, List.replicate_zero, List.append_nil] at hinv
    exact ⟨h1, raw, a, hok, hraw0, hfresh, ha0, har, hfa, hinv⟩
  · obtain ⟨h1, raw, a, hok, hraw0, hfresh, ha0, har, hfa, hinv⟩ :=
      set_insert_fresh H hH h s v rc tag cap sitems xs hs1 hs2 hn hg hb hvalid hv
    have hys : insertItems xs v = xs ++ [v] := by simp [insertItems, hv]
    have e : List.take (xs.length + 1) (xs ++ [v]) = xs ++ [v] :=
      List.take_of_length_le (by simp)
    rw [hys]
    unfold CopyInv at hinv
    simp only [e, Nat.sub_self, List.replicate_zero, List.append_nil] at hinv
    simp only [List.length_append, List.length_singleton]
    exact ⟨h1, raw, a, hok, hraw0, hfresh, ha0, har, hfa, hinv⟩


/-- The postcondition `Inserted` holds of `reml_set_insert` on a set whose elements, and
the inserted value, are null or live objects, and the result is a set with the item
sequence `insertItems xs v`. -/
theorem set_insert_inserted (H : Host) (hH : HostOK H) (h : Heap) (s v : Nat) (xs : List Nat)
    (hs1 : HostServes H 32) (hs2 : HostServes H ((insertItems xs v).length * 8))
    (hn : (insertItems xs v).length * 8 < 2 ^ 64) (hset : IsSet h s xs)
    (hvalid : ∀ x ∈ insertItems xs v, x ≠ 0 → ∃ rc t pl, getObj h x = some (rc, t, pl)) :
    Inserted h (insertItems xs v) (reml_set_insert H h s v) ∧
      ∃ h1 p, reml_set_insert H h s v = .ok (h1, p) ∧ p ≠ s ∧
        IsSet h1 p (insertItems xs v) := by
  obtain ⟨rc, cap, sitems, hg, hlen, hb⟩ := hset
  obtain ⟨h1, raw, a, hok, hraw0, hfresh, ha0, har, hfa, hbuf, hobj, hrest, hc1, hc2, hc3, hc4,
    hc5⟩ := set_insert_ok H hH h s v rc REML_TAG_SET cap sitems xs hs1 hs2 hn hg hb
      (valid_args_mem hvalid)
  have hgp : getObj h1 (raw + 8) = some (1, REML_TAG_SET,
      [(insertItems xs v).length, (insertItems xs v).length, a]) :=
    getObj_some_iff.mpr ⟨by omega, by simpa using hobj⟩
  have hgn : getObj h (raw + 8) = none := by simp [getObj, HEADER_SIZE, hfresh]
  refine ⟨⟨h1, raw + 8, a, hok, by omega, hgn, hgp, ha0, hfa, hbuf, ?_, ?_, ?_, hc3, hc1, hc2,
    hc4, hc5⟩, h1, raw + 8, hok, ?_, ?_⟩
  · intro x rcx t pl hgx hrc
    obtain ⟨h8, hm⟩ := getObj_some_iff.mp hgx
    have hxr : x - 8 ≠ raw := by
      intro he
      rw [he, hfresh] at hm
      exact absurd hm (by simp)
    have hxa : x - 8 ≠ a := by
      intro he
      rw [he, hfa] at hm
      exact absurd hm (by simp)
    have e : x - 8 + 8 = x := by omega
    have := hrest (x - 8) hxa hxr
    rw [hm, e] at this
    simp only [Option.map_some', bumpBlock, incN_eq _ _ hrc] at this
    exact getObj_some_iff.mpr ⟨h8, this⟩
  · intro b slots hm
    have hbr : b ≠ raw := by
      intro he
      rw [he, hfresh] at hm
      exact absurd hm (by simp)
    have hba : b ≠ a := by
      intro he
      rw [he, hfa] at hm
      exact absurd hm (by simp)
    rw [hrest b hba hbr, hm]
    rfl
  · intro b hb1 hb2 hbv
    have hb' : b ≠ raw := by simpa using hb1
    rw [hrest b hb2 hb', List.count_eq_zero_of_not_mem hbv, map_bumpBlock_zero]
  · intro he
    rw [← he, hgn] at hg
    exact absurd hg (by simp)
  · refine ⟨1, (insertItems xs v).length, a, hgp, ?_, fun _ => ⟨_, hbuf, List.take_length _⟩⟩
    omega

theorem insertItems_length_le (xs : List Nat) (v : Nat) :
    (insertItems xs v).length ≤ xs.length + 1 := by
  unfold insertItems
  by_cases hv : v ∈ xs
  · rw [if_pos hv]
    omega
  · rw [if_neg hv]
    simp

theorem insertItems_serves {H : Host} {xs : List Nat} (v : Nat)
    (hs2 : HostServes H (xs.length * 8)) (hs3 : HostServes H ((xs.length + 1) * 8)) :
    HostServes H ((insertItems xs v).length * 8) := by
  unfold insertItems
  by_cases hv : v ∈ xs
  · rw [if_pos hv]
    exact hs2
  · rw [if_neg hv]
    simpa using hs3

theorem insertItems_valid {h : Heap} {xs : List Nat} {v : Nat}
    (hxs : ∀ x ∈ xs, x ≠ 0 → ∃ rc t pl, getObj h x = some (rc, t, pl))
    (hv : v ≠ 0 → ∃ rc t pl, getObj h v = some (rc, t, pl)) :
    ∀ x ∈ insertItems xs v, x ≠ 0 → ∃ rc t pl, getObj h x = some (rc, t, pl) := by
  intro x hx hx0
  unfold insertItems at hx
  by_cases hvx : v ∈ xs
  · rw [if_pos hvx] at hx
    exact hxs x hx hx0
  · rw [if_neg hvx] at hx
    rcases List.mem_append.mp hx with h1 | h1
    · exact hxs x h1 hx0
    · rw [List.mem_singleton] at h1
      subst h1
      exact hv hx0

theorem insertItems_idem (xs : List Nat) (v : Nat) :
    insertItems (insertItems xs v) v = insertItems xs v := by
  have hm := mem_insertItems xs v
  generalize insertItems xs v = ys at hm
  unfold insertItems
  rw [if_pos hm]

theorem mem_iff_slot (xs : List Nat) (w : Nat) :
    w ∈ xs ↔ ∃ i, i < xs.length ∧ xs[i]? = some w := by
  rw [List.mem_iff_getElem?]
  constructor
  · rintro ⟨i, hi⟩
    exact ⟨i, (List.getElem?_eq_some_iff.mp hi).1, hi⟩
  · rintro ⟨i, _, hi⟩
    exact ⟨i, hi⟩

theorem set_contains_isSet {h : Heap} {s : Nat} {xs : List Nat} (hset : IsSet h s xs) (w : Nat) :
    reml_set_contains h s w = .ok (if w ∈ xs then 1 else 0) := by
  obtain ⟨rc, cap, items, hg, hlen, hb⟩ := hset
  exact set_contains_spec w hg hlen hb

theorem set_len_isSet {h : Heap} {s : Nat} {xs : List Nat} (hset : IsSet h s xs) :
    reml_set_len h s = .ok (xs.length : Int) := by
  obtain ⟨rc, cap, items, hg, hlen, _⟩ := hset
  exact set_len_spec hg hlen

/-- The call `reml_set_insert(s, v)` on a set with item sequence `xs` whose elements, and
`v`, are null or live objects: it meets `Inserted` for the item sequence
`insertItems xs v`, its result is a set with that item sequence and is not `s`, and every
object live before the call is live after it. -/
theorem set_insert_spec (H : Host) (hH : HostOK H) (h : Heap) (s v : Nat) (xs : List Nat)
    (hs1 : HostServes H 32) (hs2 : HostServes H (xs.length * 8))
    (hs3 : HostServes H ((xs.length + 1) * 8)) (hn : (xs.length + 1) * 8 < 2 ^ 64)
    (hset : IsSet h s xs)
    (hxs : ∀ x ∈ xs, x ≠ 0 → ∃ rc t pl, getObj h x = some (rc, t, pl))
    (hv : v ≠ 0 → ∃ rc t pl, getObj h v = some (rc, t, pl)) :
    Inserted h (insertItems xs v) (reml_set_insert H h s v) ∧
      ∃ h1 p, reml_set_insert H h s v = .ok (h1, p) ∧ p ≠ s ∧
        IsSet h1 p (insertItems xs v) ∧
        (∀ x, (∃ rc t pl, getObj h x = some (rc, t, pl)) →
          ∃ rc t pl, getObj h1 x = some (rc, t, pl)) ∧
        (∀ x rc t pl, getObj h x = some (rc, t, pl) →
          memGet (x - 8) h1.mem
            = some (bumpBlock ((insertItems xs v).count x) (.obj rc t pl))) := by
  have hle := insertItems_length_le xs v
  have hn2 : (insertItems xs v).length * 8 < 2 ^ 64 := by omega
  have hsv := insertItems_serves v hs2 hs3
  have hval := insertItems_valid hxs hv
  obtain ⟨hins, _⟩ := set_insert_inserted H hH h s v xs hs1 hsv hn2 hset hval
  refine ⟨hins, ?_⟩
  obtain ⟨rc, cap, sitems, hg, hlen, hb⟩ := hset
  obtain ⟨h1, raw, a, hok, hraw0, hfresh, ha0, har, hfa, hbuf, hobj, hrest, hc1, hc2, hc3, hc4,
    hc5⟩ := set_insert_ok H hH h s v rc REML_TAG_SET cap sitems xs hs1 hsv hn2 hg hb
      (valid_args_mem hval)
  have hgp : getObj h1 (raw + 8) = some (1, REML_TAG_SET,
      [(insertItems xs v).length, (insertItems xs v).length, a]) :=
    getObj_some_iff.mpr ⟨by omega, by simpa using hobj⟩
  have hgn : getObj h (raw + 8) = none := by simp [getObj, HEADER_SIZE, hfresh]
  have hbump : ∀ x rc t pl, getObj h x = some (rc, t, pl) →
      memGet (x - 8) h1.mem = some (bumpBlock ((insertItems xs v).count x) (.obj rc t pl)) := by
    intro x rcx t pl hgx
    obtain ⟨h8, hm⟩ := getObj_some_iff.mp hgx
    have hxr : x - 8 ≠ raw := by
      intro he
      rw [he, hfresh] at hm
      exact absurd hm (by simp)
    have hxa : x - 8 ≠ a := by
      intro he
      rw [he, hfa] at hm
      exact absurd hm (by simp)
    have e : x - 8 + 8 = x := by omega
    rw [hrest (x - 8) hxa hxr, hm, e]
    rfl
  refine ⟨h1, raw + 8, hok, ?_, ?_, ?_, hbump⟩
  · intro he
    rw [← he, hgn] at hg
    exact absurd hg (by simp)
  · refine ⟨1, (insertItems xs v).length, a, hgp, ?_, fun _ => ⟨_, hbuf, List.take_length _⟩⟩
    omega
  · rintro x ⟨rcx, t, pl, hgx⟩
    have h8 := (getObj_some_iff.mp hgx).1
    exact ⟨_, t, pl, getObj_some_iff.mpr ⟨h8, by simpa [bumpBlock] using hbump x rcx t pl hgx⟩⟩

/-- Inserting the same pointer a second time returns, and the result has the length of
the first result. -/
theorem set_insert_again (H : Host) (hH : HostOK H) (h : Heap) (s v : Nat) (xs : List Nat)
    (hs1 : HostServes H 32) (hs2 : HostServes H (xs.length * 8))
    (hs3 : HostServes H ((xs.length + 1) * 8)) (hn : (xs.length + 1) * 8 < 2 ^ 64)
    (hset : IsSet h s xs)
    (hxs : ∀ x ∈ xs, x ≠ 0 → ∃ rc t pl, getObj h x = some (rc, t, pl))
    (hv : v ≠ 0 → ∃ rc t pl, getObj h v = some (rc, t, pl)) :
    ∃ h1 r, reml_set_insert H h s v = .ok (h1, r) ∧
      reml_set_len h1 r = .ok ((insertItems xs v).length : Int) ∧
      reml_set_contains h1 r v = .ok 1 ∧
      ∃ h2 r2, reml_set_insert H h1 r v = .ok (h2, r2) ∧ r2 ≠ r ∧
        reml_set_len h2 r2 = .ok ((insertItems xs v).length : Int) ∧
        reml_set_contains h2 r2 v = .ok 1 := by
  have hle := insertItems_length_le xs v
  have hn2 : (insertItems xs v).length * 8 < 2 ^ 64 := by omega
  have hsv := insertItems_serves v hs2 hs3
  have hval := insertItems_valid hxs hv
  obtain ⟨_, h1, r, hok, _, hset1, hlive, _⟩ :=
    set_insert_spec H hH h s v xs hs1 hs2 hs3 hn hset hxs hv
  have hmem := mem_insertItems xs v
  have hc1 : reml_set_contains h1 r v = .ok 1 := by
    rw [set_contains_isSet hset1, if_pos hmem]
  have hval1 : ∀ x ∈ insertItems (insertItems xs v) v, x ≠ 0 →
      ∃ rc t pl, getObj h1 x = some (rc, t, pl) := by
    intro x hx hx0
    rw [insertItems_idem] at hx
    exact hlive x (hval x hx hx0)
  have hsv1 : HostServes H ((insertItems (insertItems xs v) v).length * 8) := by
    rw [insertItems_idem]
    exact hsv
  have hn1 : (insertItems (insertItems xs v) v).length * 8 < 2 ^ 64 := by
    rw [insertItems_idem]
    exact hn2
  obtain ⟨_, h2, r2, hok2, hne2, hset2⟩ :=
    set_insert_inserted H hH h1 r v (insertItems xs v) hs1 hsv1 hn1 hset1 hval1
  rw [insertItems_idem] at hset2
  refine ⟨h1, r, hok, set_len_isSet hset1, hc1, h2, r2, hok2, hne2, set_len_isSet hset2, ?_⟩
  rw [set_contains_isSet hset2, if_pos hmem]

theorem sampleSetHeap_isSet : IsSet sampleSetHeap 56 [24] :=
  ⟨1, 1, 64, by decide, by decide, fun _ => ⟨[24], by decide, by decide⟩⟩

theorem sampleSetHeap_items :
    ∀ x ∈ [24], x ≠ 0 → ∃ rc t pl, getObj sampleSetHeap x = some (rc, t, pl) := by
  intro x hx _
  rw [List.mem_singleton] at hx
  subst hx
  exact ⟨1, REML_TAG_INT, [7], by decide⟩

/-- After `reml_set_insert(s, v)` the source `s` is still a set with item sequence `xs`;
its header and payload are as before except that its refcount has grown by the number of
slots of the result that hold `s` itself. -/
theorem set_insert_source (H : Host) (hH : HostOK H) (h : Heap) (s v : Nat) (xs : List Nat)
    (hs1 : HostServes H 32) (hs2 : HostServes H (xs.length * 8))
    (hs3 : HostServes H ((xs.length + 1) * 8)) (hn : (xs.length + 1) * 8 < 2 ^ 64)
    (hset : IsSet h s xs)
    (hxs : ∀ x ∈ xs, x ≠ 0 → ∃ rc t pl, getObj h x = some (rc, t, pl))
    (hv : v ≠ 0 → ∃ rc t pl, getObj h v = some (rc, t, pl))
    (rc tag : Nat) (pl : List Nat) (hg : getObj h s = some (rc, tag, pl)) (hrc : rc < U32_MOD) :
    ∃ h1 r, reml_set_insert H h s v = .ok (h1, r) ∧ r ≠ s ∧ IsSet h1 s xs ∧
      getObj h1 s = some ((rc + (insertItems xs v).count s) % U32_MOD, tag, pl) ∧
      (s ∉ insertItems xs v → getObj h1 s = getObj h s) := by
  obtain ⟨hins, h1, r, hok, hne, _, _, _⟩ :=
    set_insert_spec H hH h s v xs hs1 hs2 hs3 hn hset hxs hv
  obtain ⟨h1', p, items, hok', _, _, _, _, _, _, hlive, hbufs, _⟩ := hins
  rw [hok] at hok'
  cases hok'
  have hs' := hlive s rc tag pl hg hrc
  obtain ⟨rc0, cap, sitems, hg0, hlen, hb⟩ := hset
  rw [hg] at hg0
  cases hg0
  refine ⟨h1, r, hok, hne, ⟨_, cap, sitems, hs', hlen, ?_⟩, hs', ?_⟩
  · intro hx
    obtain ⟨slots, hm, ht⟩ := hb hx
    exact ⟨slots, hbufs _ _ hm, ht⟩
  · intro hns
    rw [hs', hg, List.count_eq_zero_of_not_mem hns, Nat.add_zero, Nat.mod_eq_of_lt hrc]

/-- C17: for every set `s` with item sequence `xs` (elements null or live objects) and every
pointer `v` (null or a live object), with a host allocator that serves the two
allocations, `reml_set_insert(s, v)` returns a set `r` with
`reml_set_contains(r, v) = 1`; and for every pointer `w`, `reml_set_contains(s, w)` returns
1 when some slot `i < len` of `s` holds `w`, and 0 otherwise. -/
theorem set_insert_contains (H : Host) (hH : HostOK H) (h : Heap) (s v : Nat) (xs : List Nat)
    (hs1 : HostServes H 32) (hs2 : HostServes H (xs.length * 8))
    (hs3 : HostServes H ((xs.length + 1) * 8)) (hn : (xs.length + 1) * 8 < 2 ^ 64)
    (hset : IsSet h s xs)
    (hxs : ∀ x ∈ xs, x ≠ 0 → ∃ rc t pl, getObj h x = some (rc, t, pl))
    (hv : v ≠ 0 → ∃ rc t pl, getObj h v = some (rc, t, pl)) :
    (∃ h1 r, reml_set_insert H h s v = .ok (h1, r) ∧ reml_set_contains h1 r v = .ok 1) ∧
      ∀ w, ((∃ i, i < xs.length ∧ xs[i]? = some w) → reml_set_contains h s w = .ok 1) ∧
        ((¬ ∃ i, i < xs.length ∧ xs[i]? = some w) → reml_set_contains h s w = .ok 0) := by
  obtain ⟨h1, r, hok, _, hc, _⟩ := set_insert_again H hH h s v xs hs1 hs2 hs3 hn hset hxs hv
  refine ⟨⟨h1, r, hok, hc⟩, fun w => ⟨fun hw => ?_, fun hw => ?_⟩⟩
  · rw [set_contains_isSet hset, if_pos ((mem_iff_slot xs w).mpr hw)]
  · rw [set_contains_isSet hset, if_neg (fun hm => hw ((mem_iff_slot xs w).mp hm))]

/-- Witness for C17: the null pointer inserted into a set holding one INT box. -/
theorem set_insert_contains_witness :
    ∃ h1 r, reml_set_insert bumpHost sampleSetHeap 56 0 = .ok (h1, r) ∧
      reml_set_contains h1 r 0 = .ok 1 :=
  (set_insert_contains bumpHost bumpHost_ok sampleSetHeap 56 0 [24] (bumpHost_serves _)
    (bumpHost_serves _) (bumpHost_serves _) (by decide) sampleSetHeap_isSet sampleSetHeap_items
    (fun h0 => absurd rfl h0)).1

/-- C18: for every set `s` with item sequence `xs` and every pointer `v` (elements and `v`
null or live objects, a host allocator that serves the allocations),
`reml_set_len(reml_set_insert(s, v))` is `reml_set_len(s)` when
`reml_set_contains(s, v) = 1` and `reml_set_len(s) + 1` otherwise; and inserting `v` into
the result once more returns a set of the same length as the result. -/
theorem set_insert_len (H : Host) (hH : HostOK H) (h : Heap) (s v : Nat) (xs : List Nat)
    (hs1 : HostServes H 32) (hs2 : HostServes H (xs.length * 8))
    (hs3 : HostServes H ((xs.length + 1) * 8)) (hn : (xs.length + 1) * 8 < 2 ^ 64)
    (hset : IsSet h s xs)
    (hxs : ∀ x ∈ xs, x ≠ 0 → ∃ rc t pl, getObj h x = some (rc, t, pl))
    (hv : v ≠ 0 → ∃ rc t pl, getObj h v = some (rc, t, pl)) :
    ∃ h1 r len, reml_set_insert H h s v = .ok (h1, r) ∧ reml_set_len h s = .ok len ∧
      (reml_set_contains h s v = .ok 1 → reml_set_len h1 r = .ok len) ∧
      (reml_set_contains h s v ≠ .ok 1 → reml_set_len h1 r = .ok (len + 1)) ∧
      ∃ h2 r2, reml_set_insert H h1 r v = .ok (h2, r2) ∧
        reml_set_len h2 r2 = reml_set_len h1 r := by
  obtain ⟨h1, r, hok, hl1, _, h2, r2, hok2, _, hl2, _⟩ :=
    set_insert_again H hH h s v xs hs1 hs2 hs3 hn hset hxs hv
  refine ⟨h1, r, (xs.length : Int), hok, set_len_isSet hset, ?_, ?_, h2, r2, hok2, ?_⟩
  · intro hc
    by_cases hm : v ∈ xs
    · rw [hl1]
      simp [insertItems, hm]
    · rw [set_contains_isSet hset, if_neg hm] at hc
      cases hc
  · intro hc
    by_cases hm : v ∈ xs
    · rw [set_contains_isSet hset, if_pos hm] at hc
      exact absurd rfl hc
    · rw [hl1]
      simp [insertItems, hm]
  · rw [hl1, hl2]

/-- Witness for C18: the box already in the set is inserted again. -/
theorem set_insert_len_witness :
    ∃ h1 r len, reml_set_insert bumpHost sampleSetHeap 56 24 = .ok (h1, r) ∧
      reml_set_len sampleSetHeap 56 = .ok len ∧
      (reml_set_contains sampleSetHeap 56 24 = .ok 1 → reml_set_len h1 r = .ok len) ∧
      (reml_set_contains sampleSetHeap 56 24 ≠ .ok 1 → reml_set_len h1 r = .ok (len + 1)) ∧
      ∃ h2 r2, reml_set_insert bumpHost h1 r 24 = .ok (h2, r2) ∧
        reml_set_len h2 r2 = reml_set_len h1 r :=
  set_insert_len bumpHost bumpHost_ok sampleSetHeap 56 24 [24] (bumpHost_serves _)
    (bumpHost_serves _) (bumpHost_serves _) (by decide) sampleSetHeap_isSet sampleSetHeap_items
    (fun _ => ⟨1, REML_TAG_INT, [7], by decide⟩)

/-- C19 as stated fails: `reml_set_insert(s, s)` on the empty set `s` with refcount 1
stores `s` in the result and retains it, so `s` has refcount 2 after the call, not 1. -/
theorem set_insert_self_retains_source :
    IsSet ⟨[(16, .obj 1 REML_TAG_SET [0, 0, 0])], 1, 0, 0, 0, 0⟩ 24 [] ∧
      ∃ h1 r, reml_set_insert bumpHost ⟨[(16, .obj 1 REML_TAG_SET [0, 0, 0])], 1, 0, 0, 0, 0⟩
          24 24 = .ok (h1, r) ∧
        refcountOf ⟨[(16, .obj 1 REML_TAG_SET [0, 0, 0])], 1, 0, 0, 0, 0⟩ 24 = some 1 ∧
        refcountOf h1 24 = some 2 :=
  ⟨⟨1, 0, 0, by decide, by decide, fun hx => absurd rfl hx⟩,
    ⟨[(4368, .buf [24]), (272, .obj 1 REML_TAG_SET [1, 1, 4368]),
      (16, .obj 2 REML_TAG_SET [0, 0, 0])], 2, 0, 1, 0, 0⟩, 280, by decide, by decide,
    by decide⟩

/-- C19, amended: for every set `s` with item sequence `xs` and 32-bit refcount `rc`, and
every pointer `v` (elements and `v` null or live objects, a host allocator that serves the
allocations), `r = reml_set_insert(s, v)` is a new object, distinct from `s`, with tag SET
and refcount 1 (`Inserted`); after the call `s` is still a set with item sequence `xs`,
with the same tag and payload (len, capacity, items pointer) and an unchanged element
array; its refcount is `rc` plus the number of slots of `r` that hold `s` itself, so it is
unchanged unless `s` is one of the elements stored in `r`; every other change to the heap
is a refcount increment on an element stored in `r`, once per slot holding it. -/
theorem set_insert_frame (H : Host) (hH : HostOK H) (h : Heap) (s v : Nat) (xs : List Nat)
    (hs1 : HostServes H 32) (hs2 : HostServes H (xs.length * 8))
    (hs3 : HostServes H ((xs.length + 1) * 8)) (hn : (xs.length + 1) * 8 < 2 ^ 64)
    (hset : IsSet h s xs)
    (hxs : ∀ x ∈ xs, x ≠ 0 → ∃ rc t pl, getObj h x = some (rc, t, pl))
    (hv : v ≠ 0 → ∃ rc t pl, getObj h v = some (rc, t, pl))
    (rc tag : Nat) (pl : List Nat) (hg : getObj h s = some (rc, tag, pl)) (hrc : rc < U32_MOD) :
    Inserted h (insertItems xs v) (reml_set_insert H h s v) ∧
      ∃ h1 r, reml_set_insert H h s v = .ok (h1, r) ∧ r ≠ s ∧ IsSet h1 s xs ∧
        getObj h1 s = some ((rc + (insertItems xs v).count s) % U32_MOD, tag, pl) ∧
        (s ∉ insertItems xs v → getObj h1 s = getObj h s) :=
  ⟨(set_insert_spec H hH h s v xs hs1 hs2 hs3 hn hset hxs hv).1,
    set_insert_source H hH h s v xs hs1 hs2 hs3 hn hset hxs hv rc tag pl hg hrc⟩

/-- Witness for C19 (amended): the null pointer is inserted; the source is not stored in
the result and keeps its refcount. -/
theorem set_insert_frame_witness :
    ∃ h1 r, reml_set_insert bumpHost sampleSetHeap 56 0 = .ok (h1, r) ∧ r ≠ 56 ∧
      IsSet h1 56 [24] ∧
      getObj h1 56 = some ((1 + (insertItems [24] 0).count 56) % U32_MOD, REML_TAG_SET,
        [1, 1, 64]) ∧
      (56 ∉ insertItems [24] 0 → getObj h1 56 = getObj sampleSetHeap 56) :=
  (set_insert_frame bumpHost bumpHost_ok sampleSetHeap 56 0 [24] (bumpHost_serves _)
    (bumpHost_serves _) (bumpHost_serves _) (by decide) sampleSetHeap_isSet sampleSetHeap_items
    (fun h0 => absurd rfl h0) 1 REML_TAG_SET [1, 1, 64] (by decide) (by decide)).2

/-- C20: for every set `s` with item sequence `xs` and every pointer `v` (elements and `v`
null or live objects, a host allocator that serves the allocations): if some item of `s`
equals `v`, `reml_set_insert(s, v)` returns a set whose item sequence is `xs` (a copy, same
order); otherwise it returns a set whose item sequence is `xs` followed by `v`; in both
cases (`Inserted`) every live object has been retained exactly once per slot of the result
that holds it, and `inc_ref` was called once per non-null slot. -/
theorem set_insert_items (H : Host) (hH : HostOK H) (h : Heap) (s v : Nat) (xs : List Nat)
    (hs1 : HostServes H 32) (hs2 : HostServes H (xs.length * 8))
    (hs3 : HostServes H ((xs.length + 1) * 8)) (hn : (xs.length + 1) * 8 < 2 ^ 64)
    (hset : IsSet h s xs)
    (hxs : ∀ x ∈ xs, x ≠ 0 → ∃ rc t pl, getObj h x = some (rc, t, pl))
    (hv : v ≠ 0 → ∃ rc t pl, getObj h v = some (rc, t, pl)) :
    (v ∈ xs → Inserted h xs (reml_set_insert H h s v)) ∧
      (v ∉ xs → Inserted h (xs ++ [v]) (reml_set_insert H h s v)) := by
  have hins := (set_insert_spec H hH h s v xs hs1 hs2 hs3 hn hset hxs hv).1
  constructor
  · intro hm
    have e : insertItems xs v = xs := by simp [insertItems, hm]
    rwa [e] at hins
  · intro hm
    have e : insertItems xs v = xs ++ [v] := by simp [insertItems, hm]
    rwa [e] at hins

/-- Witness for C20: inserting the box the set already holds copies the item sequence. -/
theorem set_insert_items_witness :
    Inserted sampleSetHeap [24] (reml_set_insert bumpHost sampleSetHeap 56 24) :=
  (set_insert_items bumpHost bumpHost_ok sampleSetHeap 56 24 [24] (bumpHost_serves _)
    (bumpHost_serves _) (bumpHost_serves _) (by decide) sampleSetHeap_isSet sampleSetHeap_items
    (fun _ => ⟨1, REML_TAG_INT, [7], by decide⟩)).1 (by decide)

/-! ## String comparison (C21 to C23) -/

theorem loadBytes_length {m : ByteMem} : ∀ {n p : Nat} {xs : List Nat},
    loadBytes m p n = some xs → xs.length = n := by
  intro n
  induction n with
  | zero =>
    intro p xs h
    simp only [loadBytes, Option.some.injEq] at h
    subst h
    rfl
  | succ n ih =>
    intro p xs h
    unfold loadBytes at h
    cases hb : m p with
    | none => simp [hb] at h
    | some b =>
      cases hr : loadBytes m (p + 1) n with
      | none => simp [hb, hr] at h
      | some bs =>
        simp only [hb, hr, Option.some.injEq] at h
        subst h
        simp [ih hr]

theorem loadBytes_take {m : ByteMem} : ∀ {n p : Nat} {xs : List Nat},
    loadBytes m p n = some xs → ∀ k, k ≤ n → loadBytes m p k = some (xs.take k) := by
  intro n
  induction n with
  | zero =>
    intro p xs h k hk
    have : k = 0 := by omega
    subst this
    simp [loadBytes]
  | succ n ih =>
    intro p xs h k hk
    unfold loadBytes at h
    cases hb : m p with
    | none => simp [hb] at h
    | some b =>
      cases hr : loadBytes m (p + 1) n with
      | none => simp [hb, hr] at h
      | some bs =>
        simp only [hb, hr, Option.some.injEq] at h
        subst h
        cases k with
        | zero => simp [loadBytes]
        | succ k =>
          simp only [loadBytes, hb, ih hr k (by omega), List.take_succ_cons]

theorem loadBytes_get {m : ByteMem} : ∀ {n p : Nat} {xs : List Nat},
    loadBytes m p n = some xs → ∀ i, i < n → m (p + i) = xs[i]? := by
  intro n
  induction n with
  | zero =>
    intro p xs h i hi
    omega
  | succ n ih =>
    intro p xs h i hi
    unfold loadBytes at h
    cases hb : m p with
    | none => simp [hb] at h
    | some b =>
      cases hr : loadBytes m (p + 1) n with
      | none => simp [hb, hr] at h
      | some bs =>
        simp only [hb, hr, Option.some.injEq] at h
        subst h
        cases i with
        | zero => simp [hb]
        | succ i =>
          have := ih hr i (by omega)
          have e : p + (i + 1) = p + 1 + i := by omega
          rw [e, this]
          simp

/-- Two readable regions of the same length hold the same byte sequence exactly when they
agree at every index. -/
theorem loadBytes_eq_iff {m : ByteMem} {n p q : Nat} {xs ys : List Nat}
    (hx : loadBytes m p n = some xs) (hy : loadBytes m q n = some ys) :
    xs = ys ↔ ∀ i, i < n → m (p + i) = m (q + i) := by
  have hlx := loadBytes_length hx
  have hly := loadBytes_length hy
  constructor
  · intro he i hi
    rw [loadBytes_get hx i hi, loadBytes_get hy i hi, he]
  · intro hall
    apply List.ext_getElem?
    intro i
    by_cases hi : i < n
    · rw [← loadBytes_get hx i hi, ← loadBytes_get hy i hi]
      exact hall i hi
    · rw [List.getElem?_eq_none (by omega), List.getElem?_eq_none (by omega)]

theorem firstDiff_self (xs : List Nat) : firstDiff xs xs = 0 := by
  induction xs with
  | nil => rfl
  | cons x xs ih => simp [firstDiff, ih]

theorem firstDiff_antisymm : ∀ xs ys : List Nat, firstDiff ys xs = -firstDiff xs ys
  | [], [] => rfl
  | [], _ :: _ => rfl
  | _ :: _, [] => rfl
  | x :: xs, y :: ys => by
    simp only [firstDiff]
    by_cases h1 : x < y
    · have h2 : ¬ y < x := by omega
      simp [h1, h2]
    · by_cases h2 : y < x
      · simp [h1, h2]
      · simp only [h1, h2, if_false]
        exact firstDiff_antisymm xs ys

theorem firstDiff_range : ∀ xs ys : List Nat,
    firstDiff xs ys = -1 ∨ firstDiff xs ys = 0 ∨ firstDiff xs ys = 1
  | [], [] => Or.inr (Or.inl rfl)
  | [], _ :: _ => Or.inr (Or.inl rfl)
  | _ :: _, [] => Or.inr (Or.inl rfl)
  | x :: xs, y :: ys => by
    simp only [firstDiff]
    by_cases h1 : x < y
    · simp [h1]
    · by_cases h2 : y < x
      · simp [h1, h2]
      · simp only [h1, h2, if_false]
        exact firstDiff_range xs ys

theorem firstDiff_eq_zero_iff : ∀ xs ys : List Nat, xs.length = ys.length →
    (firstDiff xs ys = 0 ↔ xs = ys)
  | [], [], _ => by simp [firstDiff]
  | [], _ :: _, h => by simp at h
  | _ :: _, [], h => by simp at h
  | x :: xs, y :: ys, h => by
    have hl : xs.length = ys.length := by simpa using h
    simp only [firstDiff]
    by_cases h1 : x < y
    · have : x ≠ y := by omega
      simp [h1, this]
    · by_cases h2 : y < x
      · have : x ≠ y := by omega
        simp [h1, h2, this]
      · have hxy : x = y := by omega
        rw [if_neg h1, if_neg h2, firstDiff_eq_zero_iff xs ys hl]
        simp [hxy]

theorem memcmp_ok (L : Libc) {m : ByteMem} {p q n : Nat} {xs ys : List Nat}
    (hx : loadBytes m p n = some xs) (hy : loadBytes m q n = some ys) :
    memcmp L m p q n = .ok (firstDiff xs ys * ((L xs ys % (2 ^ 31 - 1) : Nat) + 1)) := by
  simp only [memcmp, hx, hy]

theorem mul_mag_eq_zero_iff (d : Int) (k : Nat) : d * ((k : Int) + 1) = 0 ↔ d = 0 := by
  constructor
  · intro h
    rcases Int.mul_eq_zero.mp h with h1 | h1
    · exact h1
    · omega
  · intro h
    simp [h]

theorem sign_mul_mag (d : Int) (k : Nat) : Int.sign (d * ((k : Int) + 1)) = Int.sign d := by
  have hk : Int.sign ((k : Int) + 1) = 1 := Int.sign_eq_one_of_pos (by omega)
  rw [Int.sign_mul, hk, Int.mul_one]

theorem sign_firstDiff (xs ys : List Nat) : Int.sign (firstDiff xs ys) = firstDiff xs ys := by
  rcases firstDiff_range xs ys with h | h | h <;> rw [h] <;> rfl

theorem strBytes_cast {m : ByteMem} {s : reml_string_t} {bs : List Nat}
    (h : StrBytes m s bs) : ofInt64 s.length = s.length.toNat ∧ bs.length = s.length.toNat ∧
      (s.length.toNat : Int) = s.length := by
  obtain ⟨h0, h1, hl⟩ := h
  have hc : (s.length.toNat : Int) = s.length := Int.toNat_of_nonneg h0
  refine ⟨?_, loadBytes_length hl, hc⟩
  rw [← hc]
  exact ofInt64_natCast _ (by omega)

/-- What `string_eq` returns on two non-null arguments with byte sequences `xs` and `ys`. -/
theorem string_eq_some (L : Libc) {m : ByteMem} {a b : reml_string_t} {xs ys : List Nat}
    (ha : StrBytes m a xs) (hb : StrBytes m b ys) :
    string_eq L m (some a) (some b) = .ok (if xs = ys then 1 else 0) := by
  obtain ⟨hca, hla, hia⟩ := strBytes_cast ha
  obtain ⟨hcb, hlb, hib⟩ := strBytes_cast hb
  unfold string_eq
  by_cases hne : a.length ≠ b.length
  · have : xs ≠ ys := by
      intro he
      apply hne
      rw [← hia, ← hib, ← hla, ← hlb, he]
    simp [hne, this]
  · have heq : a.length = b.length := not_not.mp hne
    by_cases hz : a.length = 0
    · have hx : xs = [] := List.length_eq_zero.mp (by rw [hla, hz]; rfl)
      have hy : ys = [] := List.length_eq_zero.mp (by rw [hlb, ← heq, hz]; rfl)
      simp [heq.symm, hz, hx, hy]
    · have hyl : loadBytes m b.data a.length.toNat = some ys := by
        rw [heq]
        exact hb.2.2
      have hlen : xs.length = ys.length := by rw [hla, hlb, heq]
      simp only [hne, if_false, hz, hca, memcmp_ok L ha.2.2 hyl, mul_mag_eq_zero_iff,
        firstDiff_eq_zero_iff xs ys hlen]

theorem firstDiff_take_min : ∀ xs ys : List Nat,
    firstDiff (xs.take (min xs.length ys.length)) (ys.take (min xs.length ys.length))
      = firstDiff xs ys
  | [], [] => rfl
  | [], _ :: _ => by simp [firstDiff]
  | _ :: _, [] => by simp [firstDiff]
  | x :: xs, y :: ys => by
    have e : min (x :: xs).length (y :: ys).length = min xs.length ys.length + 1 := by
      simp only [List.length_cons]
      omega
    rw [e, List.take_succ_cons, List.take_succ_cons]
    simp only [firstDiff, firstDiff_take_min xs ys]

/-- The reference comparison is the sign of the first differing byte of the shared prefix,
and the comparison of the lengths when no byte of the shared prefix differs. -/
theorem lexCompareRef_eq : ∀ xs ys : List Nat,
    lexCompareRef xs ys =
      if firstDiff xs ys ≠ 0 then firstDiff xs ys
      else if xs.length < ys.length then -1
      else if ys.length < xs.length then 1
      else 0
  | [], [] => rfl
  | [], _ :: _ => by simp [lexCompareRef, firstDiff]
  | _ :: _, [] => by simp [lexCompareRef, firstDiff]
  | x :: xs, y :: ys => by
    simp only [lexCompareRef, firstDiff]
    by_cases h1 : x < y
    · simp [h1]
    · by_cases h2 : y < x
      · simp [h1, h2]
      · simp only [h1, h2, if_false, lexCompareRef_eq xs ys, List.length_cons,
          Nat.add_lt_add_iff_right]

theorem lexCompareRef_self (xs : List Nat) : lexCompareRef xs xs = 0 := by
  induction xs with
  | nil => rfl
  | cons x xs ih => simp [lexCompareRef, ih]

theorem lexCompareRef_antisymm : ∀ xs ys : List Nat,
    lexCompareRef ys xs = -lexCompareRef xs ys
  | [], [] => rfl
  | [], _ :: _ => rfl
  | _ :: _, [] => rfl
  | x :: xs, y :: ys => by
    simp only [lexCompareRef]
    by_cases h1 : x < y
    · have h2 : ¬ y < x := by omega
      simp [h1, h2]
    · by_cases h2 : y < x
      · simp [h1, h2]
      · simp only [h1, h2, if_false]
        exact lexCompareRef_antisymm xs ys

theorem lexCompareRef_range : ∀ xs ys : List Nat,
    lexCompareRef xs ys = -1 ∨ lexCompareRef xs ys = 0 ∨ lexCompareRef xs ys = 1
  | [], [] => Or.inr (Or.inl rfl)
  | [], _ :: _ => Or.inl rfl
  | _ :: _, [] => Or.inr (Or.inr rfl)
  | x :: xs, y :: ys => by
    simp only [lexCompareRef]
    by_cases h1 : x < y
    · simp [h1]
    · by_cases h2 : y < x
      · simp [h1, h2]
      · simp only [h1, h2, if_false]
        exact lexCompareRef_range xs ys

theorem sign_lexCompareRef (xs ys : List Nat) :
    Int.sign (lexCompareRef xs ys) = lexCompareRef xs ys := by
  rcases lexCompareRef_range xs ys with h | h | h <;> rw [h] <;> rfl

/-- What `string_compare` returns on two non-null arguments with byte sequences `xs` and
`ys`: a value whose sign is the reference comparison of `xs` and `ys`. -/
theorem string_compare_some (L : Libc) {m : ByteMem} {a b : reml_string_t} {xs ys : List Nat}
    (ha : StrBytes m a xs) (hb : StrBytes m b ys) :
    ∃ r, string_compare L m (some a) (some b) = .ok r ∧ Int.sign r = lexCompareRef xs ys := by
  obtain ⟨hca, hla, hia⟩ := strBytes_cast ha
  obtain ⟨hcb, hlb, hib⟩ := strBytes_cast hb
  have hmin : ofInt64 (if a.length < b.length then a.length else b.length)
      = min xs.length ys.length := by
    by_cases hlt : a.length < b.length
    · rw [if_pos hlt, hca, hla, hlb]
      omega
    · rw [if_neg hlt, hcb, hla, hlb]
      omega
  have hxk := loadBytes_take ha.2.2 (min xs.length ys.length) (by omega)
  have hyk := loadBytes_take hb.2.2 (min xs.length ys.length) (by omega)
  have hlx : (xs.length : Int) = a.length := by rw [hla, hia]
  have hly : (ys.length : Int) = b.length := by rw [hlb, hib]
  unfold string_compare
  simp only [hmin, memcmp_ok L hxk hyk, firstDiff_take_min, ne_eq, mul_mag_eq_zero_iff]
  rw [lexCompareRef_eq]
  by_cases hd : firstDiff xs ys = 0
  · simp only [hd, not_true_eq_false, if_false, gt_iff_lt]
    by_cases h1 : a.length < b.length
    · have h1' : xs.length < ys.length := by omega
      exact ⟨_, by rw [if_pos h1], by rw [if_pos h1']; rfl⟩
    · by_cases h2 : b.length < a.length
      · have h1' : ¬ xs.length < ys.length := by omega
        have h2' : ys.length < xs.length := by omega
        exact ⟨_, by rw [if_neg h1, if_pos h2], by rw [if_neg h1', if_pos h2']; rfl⟩
      · have h1' : ¬ xs.length < ys.length := by omega
        have h2' : ¬ ys.length < xs.length := by omega
        exact ⟨_, by rw [if_neg h1, if_neg h2], by rw [if_neg h1', if_neg h2']; rfl⟩
  · simp only [hd, not_false_eq_true, if_true]
    exact ⟨_, rfl, by rw [sign_mul_mag, sign_firstDiff, if_pos hd]⟩

theorem string_compare_self (L : Libc) {m : ByteMem} {a : reml_string_t} {xs : List Nat}
    (ha : StrBytes m a xs) : string_compare L m (some a) (some a) = .ok 0 := by
  obtain ⟨hca, hla, hia⟩ := strBytes_cast ha
  unfold string_compare
  simp only [lt_irrefl, if_false, hca, memcmp_ok L ha.2.2 ha.2.2, firstDiff_self, zero_mul,
    ne_eq, not_true_eq_false, gt_iff_lt]

theorem sampleBytes_abc : StrBytes sampleBytes ⟨100, 3⟩ [97, 98, 99] :=
  ⟨by decide, by decide, by decide⟩

theorem sampleBytes_abd : StrBytes sampleBytes ⟨200, 3⟩ [97, 98, 100] :=
  ⟨by decide, by decide, by decide⟩

theorem strArgOK_none (m : ByteMem) : StrArgOK m none := by
  intro s hs
  cases hs

theorem strArgOK_some {m : ByteMem} {s : reml_string_t} {bs : List Nat} (h : StrBytes m s bs) :
    StrArgOK m (some s) := by
  intro t ht
  cases ht
  exact ⟨bs, h⟩

/-- C21: for all string arguments `a`, `b`, each a null pointer or a string value with a
non-negative length whose data is readable for that many bytes, `string_eq(a, b)` returns 1
or 0; it returns 1 if and only if both are null, or both are non-null with equal lengths
and the same byte at every index below the length; and `string_eq(a, a) = 1`. -/
theorem string_eq_spec (L : Libc) (m : ByteMem) (a b : Option reml_string_t)
    (ha : StrArgOK m a) (hb : StrArgOK m b) :
    (string_eq L m a b = .ok 1 ∨ string_eq L m a b = .ok 0) ∧
      (string_eq L m a b = .ok 1 ↔
        (a = none ∧ b = none) ∨
          ∃ sa sb, a = some sa ∧ b = some sb ∧ sa.length = sb.length ∧
            ∀ i, i < sa.length.toNat → m (sa.data + i) = m (sb.data + i)) ∧
      string_eq L m a a = .ok 1 := by
  cases a with
  | none =>
    cases b with
    | none => exact ⟨Or.inl rfl, ⟨fun _ => Or.inl ⟨rfl, rfl⟩, fun _ => rfl⟩, rfl⟩
    | some sb =>
      refine ⟨Or.inr rfl, ⟨fun h => ?_, fun h => ?_⟩, rfl⟩
      · cases h
      · rcases h with ⟨_, h2⟩ | ⟨_, _, h1, _⟩
        · cases h2
        · cases h1
  | some sa =>
    obtain ⟨xs, hxs⟩ := ha sa rfl
    have hself : string_eq L m (some sa) (some sa) = .ok 1 := by
      rw [string_eq_some L hxs hxs, if_pos rfl]
    cases b with
    | none =>
      refine ⟨Or.inr rfl, ⟨fun h => ?_, fun h => ?_⟩, hself⟩
      · cases h
      · rcases h with ⟨h1, _⟩ | ⟨_, _, _, h2, _⟩
        · cases h1
        · cases h2
    | some sb =>
      obtain ⟨ys, hys⟩ := hb sb rfl
      rw [string_eq_some L hxs hys]
      obtain ⟨_, hla, hia⟩ := strBytes_cast hxs
      obtain ⟨_, hlb, hib⟩ := strBytes_cast hys
      refine ⟨?_, ⟨fun h => ?_, fun h => ?_⟩, hself⟩
      · by_cases he : xs = ys
        · exact Or.inl (by rw [if_pos he])
        · exact Or.inr (by rw [if_neg he])
      · have he : xs = ys := by
          by_contra hne
          rw [if_neg hne] at h
          cases h
        have hlen : sa.length = sb.length := by
          rw [← hia, ← hib, ← hla, ← hlb, he]
        have hys2 : loadBytes m sb.data sa.length.toNat = some ys := by
          rw [hlen]
          exact hys.2.2
        exact Or.inr ⟨sa, sb, rfl, rfl, hlen, (loadBytes_eq_iff hxs.2.2 hys2).mp he⟩
      · rcases h with ⟨h1, _⟩ | ⟨sa2, sb2, h1, h2, hlen, hall⟩
        · cases h1
        · cases h1
          cases h2
          have hys2 : loadBytes m sb.data sa.length.toNat = some ys := by
            rw [hlen]
            exact hys.2.2
          rw [if_pos ((loadBytes_eq_iff hxs.2.2 hys2).mpr hall)]

/-- Witness for C21: "abc" and "abd" differ at index 2. -/
theorem string_eq_spec_witness :
    string_eq (fun _ _ => 0) sampleBytes (some ⟨100, 3⟩) (some ⟨200, 3⟩) = .ok 1 ∨
      string_eq (fun _ _ => 0) sampleBytes (some ⟨100, 3⟩) (some ⟨200, 3⟩) = .ok 0 :=
  (string_eq_spec (fun _ _ => 0) sampleBytes (some ⟨100, 3⟩) (some ⟨200, 3⟩)
    (strArgOK_some sampleBytes_abc) (strArgOK_some sampleBytes_abd)).1

/-- C22: for all string arguments `a`, `b`, each null or a string value with a non-negative
length and readable data, whatever magnitude the library's `memcmp` returns:
`string_compare(a, a) = 0`, both `string_compare(a, b)` and `string_compare(b, a)` return,
and the sign of the one is the negated sign of the other. -/
theorem string_compare_antisymm (L : Libc) (m : ByteMem) (a b : Option reml_string_t)
    (ha : StrArgOK m a) (hb : StrArgOK m b) :
    string_compare L m a a = .ok 0 ∧
      ∃ r1 r2, string_compare L m a b = .ok r1 ∧ string_compare L m b a = .ok r2 ∧
        Int.sign r1 = -Int.sign r2 := by
  cases a with
  | none =>
    cases b with
    | none => exact ⟨rfl, 0, 0, rfl, rfl, rfl⟩
    | some sb => exact ⟨rfl, -1, 1, rfl, rfl, rfl⟩
  | some sa =>
    obtain ⟨xs, hxs⟩ := ha sa rfl
    refine ⟨string_compare_self L hxs, ?_⟩
    cases b with
    | none => exact ⟨1, -1, rfl, rfl, rfl⟩
    | some sb =>
      obtain ⟨ys, hys⟩ := hb sb rfl
      obtain ⟨r1, h1, hs1⟩ := string_compare_some L hxs hys
      obtain ⟨r2, h2, hs2⟩ := string_compare_some L hys hxs
      exact ⟨r1, r2, h1, h2, by rw [hs1, hs2, lexCompareRef_antisymm xs ys, neg_neg]⟩

/-- Witness for C22: "abc" against "abd", with a `memcmp` that returns magnitude 6. -/
theorem string_compare_antisymm_witness :
    ∃ r1 r2, string_compare (fun _ _ => 5) sampleBytes (some ⟨100, 3⟩) (some ⟨200, 3⟩) = .ok r1 ∧
      string_compare (fun _ _ => 5) sampleBytes (some ⟨200, 3⟩) (some ⟨100, 3⟩) = .ok r2 ∧
      Int.sign r1 = -Int.sign r2 :=
  (string_compare_antisymm (fun _ _ => 5) sampleBytes (some ⟨100, 3⟩) (some ⟨200, 3⟩)
    (strArgOK_some sampleBytes_abc) (strArgOK_some sampleBytes_abd)).2

/-- C23: for all non-null strings `a`, `b` with non-negative lengths and readable data,
whose byte sequences are `xs` and `ys`, `string_compare(a, b)` returns a value whose sign
is the sign of the reference lexicographic comparison `lexCompareRef xs ys`; and a null
argument compares equal to null (0), less than every non-null argument (-1), the other way
round greater (1). -/
theorem string_compare_lexicographic (L : Libc) (m : ByteMem) (a b : reml_string_t)
    (xs ys : List Nat) (ha : StrBytes m a xs) (hb : StrBytes m b ys) :
    (∃ r, string_compare L m (some a) (some b) = .ok r ∧
        Int.sign r = Int.sign (lexCompareRef xs ys)) ∧
      string_compare L m none none = .ok 0 ∧
      string_compare L m none (some b) = .ok (-1) ∧
      string_compare L m (some a) none = .ok 1 := by
  obtain ⟨r, hr, hs⟩ := string_compare_some L ha hb
  exact ⟨⟨r, hr, by rw [hs, sign_lexCompareRef]⟩, rfl, rfl, rfl⟩

/-- Witness for C23: "abc" is smaller than "abd". -/
theorem string_compare_lexicographic_witness :
    ∃ r, string_compare (fun _ _ => 5) sampleBytes (some ⟨100, 3⟩) (some ⟨200, 3⟩) = .ok r ∧
      Int.sign r = Int.sign (lexCompareRef [97, 98, 99] [97, 98, 100]) :=
  (string_compare_lexicographic (fun _ _ => 5) sampleBytes ⟨100, 3⟩ ⟨200, 3⟩ [97, 98, 99]
    [97, 98, 100] sampleBytes_abc sampleBytes_abd).1

/-! ## The FFI bridge (C24 to C30) -/

theorem ofInt64_toNat {v : Int} (h0 : 0 ≤ v) (h1 : v < 2 ^ 63) : ofInt64 v = v.toNat := by
  have hc : (v.toNat : Int) = v := Int.toNat_of_nonneg h0
  rw [← hc]
  simp only [Int.toNat_ofNat]
  exact ofInt64_natCast _ (by omega)

theorem toInt64_toNat {v : Int} (h0 : 0 ≤ v) (h1 : v < 2 ^ 63) : toInt64 v.toNat = v := by
  rw [toInt64_of_lt (by omega)]
  exact Int.toNat_of_nonneg h0

/-- The span `reml_ffi_box_string` builds from a string with non-null data. -/
theorem box_string_span (s : reml_string_t) (hd : s.data ≠ 0) (h1 : s.length < 2 ^ 63) :
    reml_ffi_box_string (some s) = ⟨s.data, s.length.toNat⟩ := by
  unfold reml_ffi_box_string reml_ffi_make_span
  by_cases hp : s.length > 0
  · simp only [hd, if_false, hp, if_true, ofInt64_toNat (le_of_lt hp) h1]
  · have hz : s.length.toNat = 0 := by omega
    simp only [hd, if_false, hp, hz]

/-- What `reml_ffi_unbox_span` returns on a span with non-null data. -/
theorem unbox_span_data (sp : reml_span_t) (hd : sp.data ≠ 0) (hl : sp.length < 2 ^ 64) :
    reml_ffi_unbox_span (some sp) = ⟨sp.data, ((min sp.length INT64_MAX : Nat) : Int)⟩ := by
  unfold reml_ffi_unbox_span
  by_cases hgt : sp.length > INT64_MAX
  · have hm : min sp.length INT64_MAX = INT64_MAX := by
      unfold INT64_MAX at hgt ⊢
      omega
    simp only [hd, if_false, hgt, if_true, hm]
  · have hm : min sp.length INT64_MAX = sp.length := by
      unfold INT64_MAX at hgt ⊢
      omega
    have hlt : sp.length < 2 ^ 63 := by
      unfold INT64_MAX at hgt
      omega
    simp only [hd, if_false, hgt, hm, toInt64_of_lt hlt]

/-- C28: for every string `s` with non-null data and a length `0 ≤ length < 2^63`, the
span `reml_ffi_box_string(s)` is `{data, length}`, and `reml_ffi_unbox_span` of it is `s`
again: the same data pointer and the same length. -/
theorem span_roundtrip (s : reml_string_t) (hd : s.data ≠ 0) (h0 : 0 ≤ s.length)
    (h1 : s.length < 2 ^ 63) :
    reml_ffi_box_string (some s) = ⟨s.data, s.length.toNat⟩ ∧
      ((reml_ffi_box_string (some s)).length : Int) = s.length ∧
      reml_ffi_unbox_span (some (reml_ffi_box_string (some s))) = s := by
  have hb := box_string_span s hd h1
  have hc : (s.length.toNat : Int) = s.length := Int.toNat_of_nonneg h0
  refine ⟨hb, by rw [hb]; exact hc, ?_⟩
  rw [hb, unbox_span_data _ hd (by show s.length.toNat < 2 ^ 64; omega)]
  have hm : min s.length.toNat INT64_MAX = s.length.toNat := by
    unfold INT64_MAX
    omega
  show (⟨s.data, ((min s.length.toNat INT64_MAX : Nat) : Int)⟩ : reml_string_t) = s
  rw [hm, hc]

/-- Witness for C28: the string of `test_string_span_conversion`, 9 bytes at address
4096. -/
theorem span_roundtrip_witness :
    reml_ffi_box_string (some ⟨4096, 9⟩) = ⟨4096, (9 : Int).toNat⟩ ∧
      ((reml_ffi_box_string (some ⟨4096, 9⟩)).length : Int) = 9 ∧
      reml_ffi_unbox_span (some (reml_ffi_box_string (some ⟨4096, 9⟩))) = ⟨4096, 9⟩ :=
  span_roundtrip ⟨4096, 9⟩ (by decide) (by decide) (by decide)

/-- C29: `reml_ffi_make_span(NULL, n)` has length 0 for every `n`; `reml_ffi_box_string`
returns a span of length 0 when the source pointer is null, when the source's data pointer
is null, and when the source's length is negative; for non-null data and a length
`0 ≤ length < 2^63` the span's length is the string's length. -/
theorem empty_span_rule (s : reml_string_t) (h1 : s.length < 2 ^ 63) :
    (∀ n, (reml_ffi_make_span 0 n).length = 0) ∧
      (reml_ffi_box_string none).length = 0 ∧
      (s.data = 0 → (reml_ffi_box_string (some s)).length = 0) ∧
      (s.length < 0 → (reml_ffi_box_string (some s)).length = 0) ∧
      (s.data ≠ 0 → 0 ≤ s.length → ((reml_ffi_box_string (some s)).length : Int) = s.length) := by
  refine ⟨fun n => rfl, rfl, fun hd => ?_, fun hneg => ?_, fun hd h0 => ?_⟩
  · simp [reml_ffi_box_string, reml_ffi_make_span, hd]
  · by_cases hd : s.data = 0
    · simp [reml_ffi_box_string, reml_ffi_make_span, hd]
    · rw [box_string_span s hd h1]
      show s.length.toNat = 0
      omega
  · rw [box_string_span s hd h1]
    exact Int.toNat_of_nonneg h0

/-- Witness for C29: a string with non-null data and length -1. -/
theorem empty_span_rule_witness : (reml_ffi_box_string (some ⟨4096, -1⟩)).length = 0 :=
  (empty_span_rule ⟨4096, -1⟩ (by decide)).2.2.2.1 (by decide)

/-- C30: `reml_ffi_unbox_span` returns `{NULL, 0}` when the span pointer is null and when
the span's data is null; otherwise it returns the span's data pointer with the length
`min(span.length, INT64_MAX)`, which is never negative. -/
theorem unbox_span_clamps (sp : reml_span_t) (hl : sp.length < 2 ^ 64) :
    reml_ffi_unbox_span none = ⟨0, 0⟩ ∧
      (sp.data = 0 → reml_ffi_unbox_span (some sp) = ⟨0, 0⟩) ∧
      (sp.data ≠ 0 →
        (reml_ffi_unbox_span (some sp)).data = sp.data ∧
        (reml_ffi_unbox_span (some sp)).length = ((min sp.length INT64_MAX : Nat) : Int) ∧
        0 ≤ (reml_ffi_unbox_span (some sp)).length ∧
        (reml_ffi_unbox_span (some sp)).length ≤ 2 ^ 63 - 1) := by
  refine ⟨rfl, fun hd => ?_, fun hd => ?_⟩
  · simp [reml_ffi_unbox_span, hd]
  · rw [unbox_span_data sp hd hl]
    refine ⟨rfl, rfl, ?_, ?_⟩
    · show (0 : Int) ≤ ((min sp.length INT64_MAX : Nat) : Int)
      omega
    · show ((min sp.length INT64_MAX : Nat) : Int) ≤ 2 ^ 63 - 1
      unfold INT64_MAX
      omega

/-- Witness for C30: the largest `size_t` length is clamped to `INT64_MAX`. -/
theorem unbox_span_clamps_witness :
    (reml_ffi_unbox_span (some ⟨4096, 2 ^ 64 - 1⟩)).data = 4096 ∧
      (reml_ffi_unbox_span (some ⟨4096, 2 ^ 64 - 1⟩)).length
        = ((min (2 ^ 64 - 1) INT64_MAX : Nat) : Int) ∧
      0 ≤ (reml_ffi_unbox_span (some ⟨4096, 2 ^ 64 - 1⟩)).length ∧
      (reml_ffi_unbox_span (some ⟨4096, 2 ^ 64 - 1⟩)).length ≤ 2 ^ 63 - 1 :=
  (unbox_span_clamps ⟨4096, 2 ^ 64 - 1⟩ (by decide)).2.2 (by decide)

/-! ### Borrow and transfer helpers (C27) -/

/-- The helper `reml_ffi_release_transferred` is `dec_ref`, the null pointer included. -/
theorem release_transferred_eq (fuel : Nat) (h : Heap) (v : Nat) :
    reml_ffi_release_transferred (fuel + 1) h v = dec_ref (fuel + 1) h v := by
  unfold reml_ffi_release_transferred
  by_cases hv : v = 0
  · simp [hv, dec_ref, rcExec]
  · simp [hv]

theorem acquire_borrowed_live {h : Heap} {v n tag : Nat} {pl : List Nat}
    (hg : getObj h v = some (n, tag, pl)) :
    reml_ffi_acquire_borrowed h v = .ok ({ h with
      mem := memSet (v - 8) (.obj ((n + 1) % U32_MOD) tag pl) h.mem
      inc_ref_count := (h.inc_ref_count + 1) % SIZE_MOD }, v) := by
  have hv8 := (getObj_some_iff.mp hg).1
  have hv0 : v ≠ 0 := by omega
  simp only [reml_ffi_acquire_borrowed, hv0, ne_eq, not_false_eq_true, if_true, inc_ref_live hg]

/-- C27 as stated fails: for a live object whose 32-bit refcount is `2^32 - 1`,
`reml_ffi_acquire_borrowed` leaves the refcount at 0, not at `n + 1`. -/
theorem acquire_borrowed_wraps_refcount :
    ∃ h1, getObj ⟨[(16, .obj (2 ^ 32 - 1) REML_TAG_INT [7])], 1, 0, 0, 0, 0⟩ 24
        = some (2 ^ 32 - 1, REML_TAG_INT, [7]) ∧
      reml_ffi_acquire_borrowed ⟨[(16, .obj (2 ^ 32 - 1) REML_TAG_INT [7])], 1, 0, 0, 0, 0⟩ 24
        = .ok (h1, 24) ∧
      refcountOf h1 24 = some 0 ∧ refcountOf h1 24 ≠ some (2 ^ 32 - 1 + 1) :=
  ⟨⟨[(16, .obj 0 REML_TAG_INT [7])], 1, 0, 1, 0, 0⟩, by decide, by decide, by decide, by decide⟩

/-- C27, amended: for every live object `v` with refcount `n`, `1 ≤ n < 2^32 - 1`:
`reml_ffi_acquire_borrowed(v)` returns `v` and leaves its refcount at `n + 1`, every other
block unchanged; `reml_ffi_acquire_transferred(v)` returns `v` and leaves the state as it
is; `reml_ffi_release_transferred` is `dec_ref` on every state and pointer; and
`reml_ffi_acquire_borrowed` followed by `reml_ffi_release_transferred` restores memory.
On the null pointer the three helpers return it and leave the state as it is. -/
theorem borrow_helpers_spec (h : Heap) (v n tag : Nat) (pl : List Nat) (fuel : Nat)
    (hlive : getObj h v = some (n, tag, pl)) (hn1 : 1 ≤ n) (hn2 : n < 2 ^ 32 - 1) :
    (∃ hi, reml_ffi_acquire_borrowed h v = .ok (hi, v) ∧
        getObj hi v = some (n + 1, tag, pl) ∧
        (∀ a, a ≠ v - 8 → memGet a hi.mem = memGet a h.mem) ∧
        ∃ hd, reml_ffi_release_transferred (fuel + 1) hi v = .ok hd ∧ hd.mem = h.mem ∧
          getObj hd v = some (n, tag, pl)) ∧
      reml_ffi_acquire_transferred h v = (h, v) ∧
      (∀ (h2 : Heap) (w : Nat),
        reml_ffi_release_transferred (fuel + 1) h2 w = dec_ref (fuel + 1) h2 w) ∧
      reml_ffi_acquire_borrowed h 0 = .ok (h, 0) ∧
      reml_ffi_acquire_transferred h 0 = (h, 0) ∧
      reml_ffi_release_transferred (fuel + 1) h 0 = .ok h := by
  obtain ⟨hp, hm⟩ := getObj_some_iff.mp hlive
  have e1 : (n + 1) % U32_MOD = n + 1 := Nat.mod_eq_of_lt (by unfold U32_MOD; omega)
  have e2 : (n + 1 + (U32_MOD - 1)) % U32_MOD = n := by unfold U32_MOD; omega
  have hmem : memSet (v - 8) (.obj n tag pl) (memSet (v - 8) (.obj (n + 1) tag pl) h.mem)
      = h.mem := by
    rw [memSet_memSet, memSet_of_get hm]
  have hgi : getObj { h with
      mem := memSet (v - 8) (.obj (n + 1) tag pl) h.mem
      inc_ref_count := (h.inc_ref_count + 1) % SIZE_MOD } v = some (n + 1, tag, pl) :=
    getObj_some_iff.mpr ⟨hp, by simp [memGet_memSet_same, hm]⟩
  have hdec := dec_ref_live_pos fuel hgi (by rw [e2]; omega)
  rw [e2] at hdec
  simp only [hmem] at hdec
  have hrel := release_transferred_eq fuel { h with
      mem := memSet (v - 8) (.obj (n + 1) tag pl) h.mem
      inc_ref_count := (h.inc_ref_count + 1) % SIZE_MOD } v
  rw [hdec] at hrel
  refine ⟨⟨_, by rw [acquire_borrowed_live hlive, e1], hgi, ?_, _, hrel, rfl, ?_⟩, rfl,
    fun h2 w => release_transferred_eq fuel h2 w, by simp [reml_ffi_acquire_borrowed], rfl,
    by simp [reml_ffi_release_transferred]⟩
  · intro a ha
    exact memGet_memSet_ne _ _ ha
  · exact getObj_some_iff.mpr ⟨hp, hm⟩

/-- Witness for C27 (amended): an INT box with refcount 1, as in `test_borrow_helpers`. -/
theorem borrow_helpers_spec_witness :
    ∃ hi, reml_ffi_acquire_borrowed ⟨[(16, .obj 1 REML_TAG_INT [7])], 1, 0, 0, 0, 0⟩ 24
        = .ok (hi, 24) ∧
      getObj hi 24 = some (1 + 1, REML_TAG_INT, [7]) ∧
      (∀ a, a ≠ 24 - 8 → memGet a hi.mem
        = memGet a (⟨[(16, .obj 1 REML_TAG_INT [7])], 1, 0, 0, 0, 0⟩ : Heap).mem) ∧
      ∃ hd, reml_ffi_release_transferred (0 + 1) hi 24 = .ok hd ∧
        hd.mem = (⟨[(16, .obj 1 REML_TAG_INT [7])], 1, 0, 0, 0, 0⟩ : Heap).mem ∧
        getObj hd 24 = some (1, REML_TAG_INT, [7]) :=
  (borrow_helpers_spec ⟨[(16, .obj 1 REML_TAG_INT [7])], 1, 0, 0, 0, 0⟩ 24 1 REML_TAG_INT [7] 0
    (by decide) (by decide) (by decide)).1

/-! ### The `double` model -/

/-- The rounded integer is within one half of the exact quotient. -/
theorem roundHalfEven_near (num den : Nat) (hd : 0 < den) :
    2 * num ≤ 2 * (roundHalfEven num den * den) + den ∧
      2 * (roundHalfEven num den * den) ≤ 2 * num + den := by
  have hdm := Nat.div_add_mod num den
  have hr := Nat.mod_lt num hd
  have hq : den * (num / den) = num / den * den := Nat.mul_comm _ _
  rw [hq] at hdm
  have hs : (num / den + 1) * den = num / den * den + den := Nat.succ_mul _ _
  unfold roundHalfEven
  simp only
  by_cases h1 : 2 * (num % den) < den
  · rw [if_pos h1]
    omega
  · rw [if_neg h1]
    by_cases h2 : den < 2 * (num % den)
    · rw [if_pos h2, hs]
      omega
    · rw [if_neg h2]
      rcases Nat.mod_two_eq_zero_or_one (num / den) with h0 | h0
      · rw [h0, Nat.add_zero]
        omega
      · rw [h0, hs]
        omega

/-- The quotient 1.0 / 3.0 is rounded to `6004799503160661 * 2^-54`, and 2.0 / 3.0 to
`6004799503160661 * 2^-53`. -/
theorem double_div_thirds :
    double_div (u64_to_double 1) (u64_to_double 3) = ⟨6004799503160661, -54⟩ ∧
      double_div (u64_to_double 2) (u64_to_double 3) = ⟨6004799503160661, -53⟩ := by
  decide

/-- Conversions of `uint64_t` values: exact below `2^53`, to the nearest `double` (ties to
even) above. -/
theorem u64_to_double_samples :
    u64_to_double 0 = ⟨0, 0⟩ ∧ u64_to_double 1 = DOUBLE_ONE ∧
      u64_to_double 3 = ⟨3 * 2 ^ 51, -51⟩ ∧
      u64_to_double (2 ^ 53 + 1) = ⟨2 ^ 52, 1⟩ ∧ u64_to_double (2 ^ 53 + 3) = ⟨2 ^ 52 + 2, 1⟩ ∧
      u64_to_double (2 ^ 64 - 1) = ⟨2 ^ 52, 12⟩ := by
  decide

theorem log2Fuel_spec : ∀ (f n : Nat), 0 < n → n ≤ f →
    2 ^ log2Fuel f n ≤ n ∧ n < 2 ^ (log2Fuel f n + 1) := by
  intro f
  induction f with
  | zero =>
    intro n hn hf
    omega
  | succ f ih =>
    intro n hn hf
    unfold log2Fuel
    by_cases h2 : n < 2
    · rw [if_pos h2]
      have : n = 1 := by omega
      subst this
      decide
    · rw [if_neg h2]
      obtain ⟨h1, h3⟩ := ih (n / 2) (by omega) (by omega)
      rw [pow_succ] at h3 ⊢
      rw [pow_succ]
      constructor <;> omega

theorem ilog2_spec (n : Nat) (hn : 0 < n) : 2 ^ ilog2 n ≤ n ∧ n < 2 ^ (ilog2 n + 1) :=
  log2Fuel_spec n n hn (le_refl n)

theorem reachesPow_iff (a b : Nat) (hb : 0 < b) (d : Int) :
    reachesPow a b d = true ↔ (2 : ℚ) ^ d ≤ (a : ℚ) / b := by
  have hbq : (0 : ℚ) < b := by exact_mod_cast hb
  unfold reachesPow
  by_cases hd : 0 ≤ d
  · obtain ⟨k, rfl⟩ := Int.eq_ofNat_of_zero_le hd
    simp only [hd, if_true, decide_eq_true_eq, Int.toNat_ofNat, zpow_natCast]
    rw [le_div_iff₀ hbq]
    constructor
    · intro h
      have : ((b * 2 ^ k : Nat) : ℚ) ≤ (a : ℚ) := by exact_mod_cast h
      push_cast at this
      linarith
    · intro h
      have : ((b * 2 ^ k : Nat) : ℚ) ≤ (a : ℚ) := by
        push_cast
        linarith
      exact_mod_cast this
  · have hneg : 0 ≤ -d := by omega
    obtain ⟨k, hk⟩ := Int.eq_ofNat_of_zero_le hneg
    have hdk : d = -(k : Int) := by omega
    subst hdk
    simp only [hd, if_false, decide_eq_true_eq, neg_neg, Int.toNat_ofNat, zpow_neg, zpow_natCast]
    have hpk : (0 : ℚ) < 2 ^ k := by positivity
    rw [le_div_iff₀ hbq, inv_mul_le_iff₀ hpk]
    constructor
    · intro h
      have : ((b : Nat) : ℚ) ≤ ((a * 2 ^ k : Nat) : ℚ) := by exact_mod_cast h
      push_cast at this
      linarith
    · intro h
      have : ((b : Nat) : ℚ) ≤ ((a * 2 ^ k : Nat) : ℚ) := by
        push_cast
        linarith
      exact_mod_cast this

theorem ratio_log_bounds (a b : Nat) (ha : 0 < a) (hb : 0 < b) :
    (2 : ℚ) ^ ((ilog2 a : Int) - (ilog2 b : Int) - 1) ≤ (a : ℚ) / b ∧
      (a : ℚ) / b < (2 : ℚ) ^ ((ilog2 a : Int) - (ilog2 b : Int) + 1) := by
  obtain ⟨ha1, ha2⟩ := ilog2_spec a ha
  obtain ⟨hb1, hb2⟩ := ilog2_spec b hb
  have hbq : (0 : ℚ) < b := by exact_mod_cast hb
  have ha1q : (2 : ℚ) ^ ilog2 a ≤ a := by exact_mod_cast ha1
  have ha2q : (a : ℚ) < 2 ^ (ilog2 a + 1) := by exact_mod_cast ha2
  have hb1q : (2 : ℚ) ^ ilog2 b ≤ b := by exact_mod_cast hb1
  have hb2q : (b : ℚ) < 2 ^ (ilog2 b + 1) := by exact_mod_cast hb2
  have h2 : (2 : ℚ) ≠ 0 := two_ne_zero
  have e1 : (2 : ℚ) ^ ((ilog2 a : Int) - (ilog2 b : Int) - 1)
      = 2 ^ ilog2 a / 2 ^ (ilog2 b + 1) := by
    have : (ilog2 a : Int) - (ilog2 b : Int) - 1 = (ilog2 a : Int) - ((ilog2 b + 1 : Nat) : Int) := by
      push_cast
      ring
    rw [this, zpow_sub₀ h2, zpow_natCast, zpow_natCast]
  have e2 : (2 : ℚ) ^ ((ilog2 a : Int) - (ilog2 b : Int) + 1)
      = 2 ^ (ilog2 a + 1) / 2 ^ ilog2 b := by
    have : (ilog2 a : Int) - (ilog2 b : Int) + 1 = ((ilog2 a + 1 : Nat) : Int) - (ilog2 b : Int) := by
      push_cast
      ring
    rw [this, zpow_sub₀ h2, zpow_natCast, zpow_natCast]
  have hp1 : (0 : ℚ) < 2 ^ (ilog2 b + 1) := by positivity
  have hp2 : (0 : ℚ) < 2 ^ ilog2 b := by positivity
  have hp3 : (0 : ℚ) ≤ 2 ^ ilog2 a := by positivity
  rw [e1, e2]
  constructor
  · rw [div_le_div_iff₀ hp1 hbq]
    have := mul_le_mul ha1q (le_of_lt hb2q) (le_of_lt hbq) (by linarith)
    linarith
  · rw [div_lt_div_iff₀ hbq hp2]
    have := mul_lt_mul ha2q hb1q hp2 (by positivity)
    linarith

theorem roundHalfEven_near_rat (num den : Nat) (hd : 0 < den) :
    |(num : ℚ) / den - (roundHalfEven num den : ℚ)| ≤ 1 / 2 := by
  obtain ⟨h1, h2⟩ := roundHalfEven_near num den hd
  have hdq : (0 : ℚ) < den := by exact_mod_cast hd
  have h1q : (2 : ℚ) * num ≤ 2 * ((roundHalfEven num den : ℚ) * den) + den := by exact_mod_cast h1
  have h2q : (2 : ℚ) * ((roundHalfEven num den : ℚ) * den) ≤ 2 * num + den := by exact_mod_cast h2
  rw [abs_le]
  constructor
  · rw [le_sub_iff_add_le, le_div_iff₀ hdq]
    nlinarith
  · rw [sub_le_iff_le_add, div_le_iff₀ hdq]
    nlinarith

theorem scaledRound_near (a b : Nat) (hb : 0 < b) (e : Int) :
    |(a : ℚ) / b / (2 : ℚ) ^ e - (scaledRound a b e : ℚ)| ≤ 1 / 2 := by
  have hbq : (b : ℚ) ≠ 0 := by
    have : (0 : ℚ) < b := by exact_mod_cast hb
    exact ne_of_gt this
  unfold scaledRound
  by_cases he : 0 ≤ e
  · obtain ⟨k, rfl⟩ := Int.eq_ofNat_of_zero_le he
    simp only [he, if_true, Int.toNat_ofNat, zpow_natCast]
    have := roundHalfEven_near_rat a (b * 2 ^ k) (by positivity)
    have e1 : (a : ℚ) / b / 2 ^ k = (a : ℚ) / ((b * 2 ^ k : Nat) : ℚ) := by
      push_cast
      rw [div_div]
    rw [e1]
    exact this
  · have hneg : 0 ≤ -e := by omega
    obtain ⟨k, hk⟩ := Int.eq_ofNat_of_zero_le hneg
    have hek : e = -(k : Int) := by omega
    subst hek
    simp only [he, if_false, neg_neg, Int.toNat_ofNat, zpow_neg, zpow_natCast]
    have := roundHalfEven_near_rat (a * 2 ^ k) b hb
    have e1 : (a : ℚ) / b / (2 ^ k)⁻¹ = ((a * 2 ^ k : Nat) : ℚ) / b := by
      push_cast
      field_simp
    rw [e1]
    exact this

/-- The exponent `roundRatio` selects brackets the quotient: `2^l ≤ a / b < 2^(l+1)`. -/
theorem ratio_exponent (a b : Nat) (ha : 0 < a) (hb : 0 < b) (l : Int)
    (hl : l = if reachesPow a b ((ilog2 a : Int) - (ilog2 b : Int)) then
      (ilog2 a : Int) - (ilog2 b : Int) else (ilog2 a : Int) - (ilog2 b : Int) - 1) :
    (2 : ℚ) ^ l ≤ (a : ℚ) / b ∧ (a : ℚ) / b < (2 : ℚ) ^ (l + 1) := by
  obtain ⟨h1, h2⟩ := ratio_log_bounds a b ha hb
  by_cases hr : reachesPow a b ((ilog2 a : Int) - (ilog2 b : Int)) = true
  · rw [if_pos hr] at hl
    subst hl
    exact ⟨(reachesPow_iff a b hb _).mp hr, h2⟩
  · rw [if_neg hr] at hl
    subst hl
    refine ⟨h1, ?_⟩
    have := (reachesPow_iff a b hb ((ilog2 a : Int) - (ilog2 b : Int))).not.mp hr
    have e : (ilog2 a : Int) - (ilog2 b : Int) - 1 + 1 = (ilog2 a : Int) - (ilog2 b : Int) := by
      ring
    rw [e]
    exact lt_of_not_le this

/-- Correct rounding of the `double` model: for `a, b > 0` the result of `roundRatio a b`
has a 53-bit significand with the leading bit set, and its value differs from `a / b` by at
most half a unit in the last place. -/
theorem roundRatio_near (a b : Nat) (ha : 0 < a) (hb : 0 < b) :
    2 ^ 52 ≤ (roundRatio a b).mant ∧ (roundRatio a b).mant < 2 ^ 53 ∧
      |(a : ℚ) / b - doubleValue (roundRatio a b)| ≤ (2 : ℚ) ^ ((roundRatio a b).exp - 1) := by
  obtain ⟨l, hl⟩ : ∃ l : Int, l = if reachesPow a b ((ilog2 a : Int) - (ilog2 b : Int)) then
      (ilog2 a : Int) - (ilog2 b : Int) else (ilog2 a : Int) - (ilog2 b : Int) - 1 := ⟨_, rfl⟩
  obtain ⟨hlo, hhi⟩ := ratio_exponent a b ha hb l hl
  have hnear := scaledRound_near a b hb (l - 52)
  have ha0 : a ≠ 0 := by omega
  have hp : (0 : ℚ) < (2 : ℚ) ^ (l - 52) := by positivity
  have h2 : (2 : ℚ) ≠ 0 := two_ne_zero
  -- the scaled quotient lies in [2^52, 2^53)
  have hx1 : (2 : ℚ) ^ (52 : Nat) ≤ (a : ℚ) / b / (2 : ℚ) ^ (l - 52) := by
    rw [le_div_iff₀ hp]
    have : (2 : ℚ) ^ (52 : Nat) * 2 ^ (l - 52) = 2 ^ l := by
      rw [← zpow_natCast, ← zpow_add₀ h2]
      congr 1
      push_cast
      ring
    rw [this]
    exact hlo
  have hx2 : (a : ℚ) / b / (2 : ℚ) ^ (l - 52) < (2 : ℚ) ^ (53 : Nat) := by
    rw [div_lt_iff₀ hp]
    have : (2 : ℚ) ^ (53 : Nat) * 2 ^ (l - 52) = 2 ^ (l + 1) := by
      rw [← zpow_natCast, ← zpow_add₀ h2]
      congr 1
      push_cast
      ring
    rw [this]
    exact hhi
  obtain ⟨hn1, hn2⟩ := abs_le.mp hnear
  have hm1 : 2 ^ 52 ≤ scaledRound a b (l - 52) := by
    have : ((2 ^ 52 : Nat) : ℚ) < (scaledRound a b (l - 52) : ℚ) + 1 := by
      push_cast
      linarith
    have : 2 ^ 52 < scaledRound a b (l - 52) + 1 := by exact_mod_cast this
    omega
  have hm2 : scaledRound a b (l - 52) ≤ 2 ^ 53 := by
    have : (scaledRound a b (l - 52) : ℚ) < ((2 ^ 53 : Nat) : ℚ) + 1 := by
      push_cast
      linarith
    have : scaledRound a b (l - 52) < 2 ^ 53 + 1 := by exact_mod_cast this
    omega
  -- distance to the quotient, scaled back
  have hdist : |(a : ℚ) / b - (scaledRound a b (l - 52) : ℚ) * (2 : ℚ) ^ (l - 52)|
      ≤ (2 : ℚ) ^ (l - 52 - 1) := by
    have e1 : (a : ℚ) / b - (scaledRound a b (l - 52) : ℚ) * (2 : ℚ) ^ (l - 52)
        = ((a : ℚ) / b / (2 : ℚ) ^ (l - 52) - (scaledRound a b (l - 52) : ℚ))
          * (2 : ℚ) ^ (l - 52) := by
      rw [sub_mul, div_mul_cancel₀ _ (ne_of_gt hp)]
    have e2 : (2 : ℚ) ^ (l - 52 - 1) = 1 / 2 * (2 : ℚ) ^ (l - 52) := by
      rw [zpow_sub_one₀ h2]
      ring
    rw [e1, abs_mul, abs_of_pos hp, e2]
    exact mul_le_mul_of_nonneg_right hnear (le_of_lt hp)
  have hrr : roundRatio a b = if scaledRound a b (l - 52) = 2 ^ 53 then ⟨2 ^ 52, l - 52 + 1⟩
      else ⟨scaledRound a b (l - 52), l - 52⟩ := by
    unfold roundRatio
    rw [if_neg ha0]
    simp only
    rw [← hl]
  rw [hrr]
  by_cases hm : scaledRound a b (l - 52) = 2 ^ 53
  · rw [if_pos hm]
    refine ⟨le_refl _, (by decide : 2 ^ 52 < 2 ^ 53), ?_⟩
    have e3 : doubleValue ⟨2 ^ 52, l - 52 + 1⟩
        = (scaledRound a b (l - 52) : ℚ) * (2 : ℚ) ^ (l - 52) := by
      unfold doubleValue
      rw [hm, zpow_add_one₀ h2]
      push_cast
      ring
    rw [e3]
    show _ ≤ (2 : ℚ) ^ (l - 52 + 1 - 1)
    have e4 : (2 : ℚ) ^ (l - 52 - 1) ≤ (2 : ℚ) ^ (l - 52 + 1 - 1) :=
      zpow_le_zpow_right₀ (by norm_num) (by omega)
    exact le_trans hdist e4
  · rw [if_neg hm]
    exact ⟨hm1, by show scaledRound a b (l - 52) < 2 ^ 53; omega, hdist⟩

theorem roundHalfEven_one (num : Nat) : roundHalfEven num 1 = num := by
  unfold roundHalfEven
  simp only [Nat.div_one, Nat.mod_one]
  rfl

/-- The conversion of a `uint64_t` below `2^53` is exact. -/
theorem u64_to_double_exact (n : Nat) (h53 : n < 2 ^ 53) :
    doubleValue (u64_to_double n) = (n : ℚ) := by
  by_cases hn : n = 0
  · subst hn
    simp [u64_to_double, roundRatio, doubleValue]
  have hpos : 0 < n := Nat.pos_of_ne_zero hn
  obtain ⟨l, hl⟩ : ∃ l : Int, l = if reachesPow n 1 ((ilog2 n : Int) - (ilog2 1 : Int)) then
      (ilog2 n : Int) - (ilog2 1 : Int) else (ilog2 n : Int) - (ilog2 1 : Int) - 1 := ⟨_, rfl⟩
  obtain ⟨hlo, hhi⟩ := ratio_exponent n 1 hpos (by decide) l hl
  have h2 : (2 : ℚ) ≠ 0 := two_ne_zero
  simp only [Nat.cast_one, div_one] at hlo hhi
  -- l ≤ 52
  have hl52 : l ≤ 52 := by
    by_contra hgt
    have h53' : (53 : Int) ≤ l := by omega
    have : (2 : ℚ) ^ (53 : Int) ≤ (2 : ℚ) ^ l := zpow_le_zpow_right₀ (by norm_num) h53'
    have hn53 : (n : ℚ) < (2 : ℚ) ^ (53 : Int) := by
      have h1 : (n : ℚ) < ((2 ^ 53 : Nat) : ℚ) := by exact_mod_cast h53
      have h3 : ((2 ^ 53 : Nat) : ℚ) = (2 : ℚ) ^ (53 : Int) := by norm_num
      rw [h3] at h1
      exact h1
    linarith
  obtain ⟨k, hk⟩ := Int.eq_ofNat_of_zero_le (show (0 : Int) ≤ 52 - l by omega)
  have hneg : ¬ (0 : Int) ≤ l - 52 ∨ l - 52 = 0 := by omega
  have hsr : scaledRound n 1 (l - 52) = n * 2 ^ k := by
    unfold scaledRound
    by_cases h0 : (0 : Int) ≤ l - 52
    · have hz : l - 52 = 0 := by omega
      have hk0 : k = 0 := by omega
      rw [if_pos h0, hz, hk0]
      simp [roundHalfEven_one]
    · rw [if_neg h0, roundHalfEven_one]
      have : (-(l - 52)).toNat = k := by omega
      rw [this]
  have hx2 : (n : ℚ) * 2 ^ k < 2 ^ 53 := by
    have e : (2 : ℚ) ^ (l + 1) * 2 ^ k = 2 ^ 53 := by
      rw [← zpow_natCast (2 : ℚ) k, ← zpow_add₀ h2]
      have : l + 1 + (k : Int) = ((53 : Nat) : Int) := by omega
      rw [this, zpow_natCast]
    have hk0 : (0 : ℚ) < 2 ^ k := by positivity
    calc (n : ℚ) * 2 ^ k < (2 : ℚ) ^ (l + 1) * 2 ^ k := mul_lt_mul_of_pos_right hhi hk0
      _ = 2 ^ 53 := e
  have hm : ¬ n * 2 ^ k = 2 ^ 53 := by
    intro he
    have : ((n * 2 ^ k : Nat) : ℚ) = ((2 ^ 53 : Nat) : ℚ) := by rw [he]
    push_cast at this
    linarith
  unfold u64_to_double roundRatio
  rw [if_neg hn]
  simp only
  rw [← hl, hsr, if_neg hm]
  unfold doubleValue
  show ((n * 2 ^ k : Nat) : ℚ) * (2 : ℚ) ^ (l - 52) = n
  have e2 : l - 52 = -(k : Int) := by omega
  rw [e2, zpow_neg, zpow_natCast]
  push_cast
  have hk0 : (2 : ℚ) ^ k ≠ 0 := by positivity
  field_simp

/-- Correct rounding of the quotient of two non-zero `double` values. -/
theorem double_div_near (x y : reml_double) (hx : 0 < x.mant) (hy : 0 < y.mant) :
    2 ^ 52 ≤ (double_div x y).mant ∧ (double_div x y).mant < 2 ^ 53 ∧
      |doubleValue x / doubleValue y - doubleValue (double_div x y)|
        ≤ (2 : ℚ) ^ ((double_div x y).exp - 1) := by
  have h2 : (2 : ℚ) ≠ 0 := two_ne_zero
  have hyq : (y.mant : ℚ) ≠ 0 := by
    have : (0 : ℚ) < y.mant := by exact_mod_cast hy
    exact ne_of_gt this
  unfold double_div
  by_cases ht : 0 ≤ x.exp - y.exp
  · rw [if_pos ht]
    obtain ⟨k, hk⟩ := Int.eq_ofNat_of_zero_le ht
    have hkn : (x.exp - y.exp).toNat = k := by omega
    rw [hkn]
    have hr := roundRatio_near (x.mant * 2 ^ k) y.mant (by positivity) hy
    have e : doubleValue x / doubleValue y = ((x.mant * 2 ^ k : Nat) : ℚ) / y.mant := by
      unfold doubleValue
      have hxe : x.exp = y.exp + (k : Int) := by omega
      rw [hxe, zpow_add₀ h2, zpow_natCast]
      push_cast
      have : (2 : ℚ) ^ y.exp ≠ 0 := zpow_ne_zero _ h2
      field_simp
      ring
    rw [e]
    exact hr
  · rw [if_neg ht]
    obtain ⟨k, hk⟩ := Int.eq_ofNat_of_zero_le (show (0 : Int) ≤ y.exp - x.exp by omega)
    have hkn : (y.exp - x.exp).toNat = k := by omega
    rw [hkn]
    have hr := roundRatio_near x.mant (y.mant * 2 ^ k) hx (by positivity)
    have e : doubleValue x / doubleValue y = (x.mant : ℚ) / ((y.mant * 2 ^ k : Nat) : ℚ) := by
      unfold doubleValue
      have hye : y.exp = x.exp + (k : Int) := by omega
      rw [hye, zpow_add₀ h2, zpow_natCast]
      push_cast
      have : (2 : ℚ) ^ x.exp ≠ 0 := zpow_ne_zero _ h2
      field_simp
      ring
    rw [e]
    exact hr

/-- The quotient `(double)s / (double)t` of two counters below `2^53`, `s` and `t` not
zero, is `s / t` rounded to a nearest `double`. -/
theorem counter_ratio_near (s t : Nat) (hs : 0 < s) (ht : 0 < t) (hs53 : s < 2 ^ 53)
    (ht53 : t < 2 ^ 53) :
    2 ^ 52 ≤ (double_div (u64_to_double s) (u64_to_double t)).mant ∧
      (double_div (u64_to_double s) (u64_to_double t)).mant < 2 ^ 53 ∧
      |(s : ℚ) / t - doubleValue (double_div (u64_to_double s) (u64_to_double t))|
        ≤ (2 : ℚ) ^ ((double_div (u64_to_double s) (u64_to_double t)).exp - 1) := by
  have hms : 0 < (u64_to_double s).mant :=
    lt_of_lt_of_le (by decide) (roundRatio_near s 1 hs (by decide)).1
  have hmt : 0 < (u64_to_double t).mant :=
    lt_of_lt_of_le (by decide) (roundRatio_near t 1 ht (by decide)).1
  have h := double_div_near _ _ hms hmt
  rw [u64_to_double_exact s hs53, u64_to_double_exact t ht53] at h
  exact h

/-! ### Metrics (C24 to C26) -/

/-- C26: for every pointer `v`, `reml_ffi_acquire_borrowed_result(v)` and
`reml_ffi_acquire_transferred_result(v)` return `v`; they are functions of the five
counters and the pointer only, so no heap object is read or written; the call adds one (in
`uint64_t` arithmetic) to `null_results` when `v` is null and otherwise to
`borrowed_results` resp. `transferred_results`, and the other four counters,
`total_calls` and `success_calls` among them, keep their values. -/
theorem acquire_result_spec (c : BridgeCounters) (v : Nat) :
    (reml_ffi_acquire_borrowed_result c v).2 = v ∧
      (reml_ffi_acquire_transferred_result c v).2 = v ∧
      (v = 0 →
        reml_ffi_bridge_get_metrics (reml_ffi_acquire_borrowed_result c v).1
          = { reml_ffi_bridge_get_metrics c with
              null_results := ((reml_ffi_bridge_get_metrics c).null_results + 1) % U64_MOD } ∧
        reml_ffi_bridge_get_metrics (reml_ffi_acquire_transferred_result c v).1
          = { reml_ffi_bridge_get_metrics c with
              null_results := ((reml_ffi_bridge_get_metrics c).null_results + 1) % U64_MOD }) ∧
      (v ≠ 0 →
        reml_ffi_bridge_get_metrics (reml_ffi_acquire_borrowed_result c v).1
          = { reml_ffi_bridge_get_metrics c with
              borrowed_results :=
                ((reml_ffi_bridge_get_metrics c).borrowed_results + 1) % U64_MOD } ∧
        reml_ffi_bridge_get_metrics (reml_ffi_acquire_transferred_result c v).1
          = { reml_ffi_bridge_get_metrics c with
              transferred_results :=
                ((reml_ffi_bridge_get_metrics c).transferred_results + 1) % U64_MOD }) := by
  by_cases hv : v = 0
  · subst hv
    exact ⟨rfl, rfl, fun _ => ⟨rfl, rfl⟩, fun h => absurd rfl h⟩
  · refine ⟨?_, ?_, fun h => absurd h hv, fun _ => ⟨?_, ?_⟩⟩ <;>
      simp [reml_ffi_acquire_borrowed_result, reml_ffi_acquire_transferred_result, hv,
        reml_ffi_bridge_get_metrics]

/-- Witness for C26: a non-null pointer after a reset, as in `test_return_metrics`. -/
theorem acquire_result_spec_witness :
    reml_ffi_bridge_get_metrics (reml_ffi_acquire_borrowed_result bridgeInit 24).1
        = { reml_ffi_bridge_get_metrics bridgeInit with
            borrowed_results :=
              ((reml_ffi_bridge_get_metrics bridgeInit).borrowed_results + 1) % U64_MOD } ∧
      reml_ffi_bridge_get_metrics (reml_ffi_acquire_transferred_result bridgeInit 24).1
        = { reml_ffi_bridge_get_metrics bridgeInit with
            transferred_results :=
              ((reml_ffi_bridge_get_metrics bridgeInit).transferred_results + 1) % U64_MOD } :=
  (acquire_result_spec bridgeInit 24).2.2.2 (by decide)

/-- The counters after a run of `reml_ffi_bridge_record_status` calls: `total_calls` has
advanced by the number of calls and `success_calls` by the number of SUCCESS statuses, both
in `uint64_t` arithmetic; the other counters keep their values. -/
theorem bridgeRun_records (rs : List Nat) :
    ∀ c : BridgeCounters, c.bridge_total_calls < U64_MOD → c.bridge_success_calls < U64_MOD →
      bridgeRun c (recordOps rs) = { c with
        bridge_total_calls := (c.bridge_total_calls + rs.length) % U64_MOD
        bridge_success_calls :=
          (c.bridge_success_calls + rs.count REML_FFI_BRIDGE_STATUS_SUCCESS) % U64_MOD } := by
  induction rs with
  | nil =>
    intro c h1 h2
    simp [recordOps, bridgeRun, Nat.mod_eq_of_lt h1, Nat.mod_eq_of_lt h2]
  | cons r rs ih =>
    intro c h1 h2
    have hM : 0 < U64_MOD := by decide
    have e1 : ((c.bridge_total_calls + 1) % U64_MOD + rs.length) % U64_MOD
        = (c.bridge_total_calls + (rs.length + 1)) % U64_MOD := by
      unfold U64_MOD
      omega
    by_cases hr : r = REML_FFI_BRIDGE_STATUS_SUCCESS
    · have e2 : ((c.bridge_success_calls + 1) % U64_MOD
          + rs.count REML_FFI_BRIDGE_STATUS_SUCCESS) % U64_MOD
          = (c.bridge_success_calls + (rs.count REML_FFI_BRIDGE_STATUS_SUCCESS + 1))
            % U64_MOD := by
        unfold U64_MOD
        omega
      have hstep : bridgeStep c (.record_status r) = { c with
          bridge_total_calls := (c.bridge_total_calls + 1) % U64_MOD
          bridge_success_calls := (c.bridge_success_calls + 1) % U64_MOD } := by
        simp [bridgeStep, reml_ffi_bridge_record_status, hr]
      have := ih _ (show ({ c with
          bridge_total_calls := (c.bridge_total_calls + 1) % U64_MOD
          bridge_success_calls := (c.bridge_success_calls + 1) % U64_MOD }
          : BridgeCounters).bridge_total_calls < U64_MOD from Nat.mod_lt _ hM)
        (Nat.mod_lt _ hM)
      simp only [recordOps, List.map_cons, bridgeRun, hstep] at this ⊢
      rw [this]
      simp only [e1, e2, List.length_cons, hr, List.count_cons_self]
    · have hstep : bridgeStep c (.record_status r) = { c with
          bridge_total_calls := (c.bridge_total_calls + 1) % U64_MOD } := by
        simp [bridgeStep, reml_ffi_bridge_record_status, hr]
      have := ih _ (show ({ c with
          bridge_total_calls := (c.bridge_total_calls + 1) % U64_MOD }
          : BridgeCounters).bridge_total_calls < U64_MOD from Nat.mod_lt _ hM) h2
      have hc : (r :: rs).count REML_FFI_BRIDGE_STATUS_SUCCESS
          = rs.count REML_FFI_BRIDGE_STATUS_SUCCESS :=
        List.count_cons_of_ne (fun e => hr e.symm) rs
      simp only [recordOps, List.map_cons, bridgeRun, hstep] at this ⊢
      rw [this]
      simp only [e1, List.length_cons, hc]

/-- The counters after a reset and a run of status records. -/
theorem bridgeRun_records_reset (c0 : BridgeCounters) (rs : List Nat) :
    bridgeRun (reml_ffi_bridge_reset_metrics c0) (recordOps rs)
      = ⟨rs.length % U64_MOD, rs.count REML_FFI_BRIDGE_STATUS_SUCCESS % U64_MOD, 0, 0, 0⟩ := by
  have hz : (0 : Nat) < U64_MOD := by decide
  rw [bridgeRun_records rs (reml_ffi_bridge_reset_metrics c0) hz hz]
  simp [reml_ffi_bridge_reset_metrics]

theorem count_replicate_failure (k : Nat) :
    (List.replicate k REML_FFI_BRIDGE_STATUS_FAILURE).count REML_FFI_BRIDGE_STATUS_SUCCESS
      = 0 := by
  apply List.count_eq_zero_of_not_mem
  intro hm
  have := List.eq_of_mem_replicate hm
  exact absurd this (by decide)

/-- The counters after a reset and `k` FAILURE records. -/
theorem bridgeRun_failures (c0 : BridgeCounters) (k : Nat) :
    bridgeRun (reml_ffi_bridge_reset_metrics c0)
        (recordOps (List.replicate k REML_FFI_BRIDGE_STATUS_FAILURE))
      = ⟨k % U64_MOD, 0, 0, 0, 0⟩ := by
  rw [bridgeRun_records_reset, count_replicate_failure, List.length_replicate]
  rfl

/-- The counters after a reset, one SUCCESS record and `k` FAILURE records. -/
theorem bridgeRun_success_failures (c0 : BridgeCounters) (k : Nat) :
    bridgeRun (reml_ffi_bridge_reset_metrics c0)
        (recordOps (REML_FFI_BRIDGE_STATUS_SUCCESS ::
          List.replicate k REML_FFI_BRIDGE_STATUS_FAILURE))
      = ⟨(k + 1) % U64_MOD, 1, 0, 0, 0⟩ := by
  rw [bridgeRun_records_reset, List.count_cons_self, count_replicate_failure,
    List.length_cons, List.length_replicate]
  rfl

/-- C24 as stated fails: after a reset and `2^64` FAILURE records (`s = 0`, `f = 2^64`)
the 64-bit counter `total_calls` is 0, not `s + f`, and `reml_ffi_bridge_pass_rate()` is
1.0 although no call succeeded. -/
theorem pass_rate_after_wrap :
    reml_ffi_bridge_get_metrics (bridgeRun (reml_ffi_bridge_reset_metrics bridgeInit)
        (recordOps (List.replicate (2 ^ 64) REML_FFI_BRIDGE_STATUS_FAILURE)))
        = ⟨0, 0, 0, 0, 0⟩ ∧
      reml_ffi_bridge_pass_rate (bridgeRun (reml_ffi_bridge_reset_metrics bridgeInit)
        (recordOps (List.replicate (2 ^ 64) REML_FFI_BRIDGE_STATUS_FAILURE))) = DOUBLE_ONE ∧
      (0 : Nat) ≠ 0 + 2 ^ 64 ∧
      double_div (u64_to_double 0) (u64_to_double (0 + 2 ^ 64)) ≠ DOUBLE_ONE := by
  rw [bridgeRun_failures]
  have e : 2 ^ 64 % U64_MOD = 0 := by decide
  rw [e]
  exact ⟨rfl, rfl, by decide, by decide⟩

/-- C24, amended: after `reml_ffi_bridge_reset_metrics` all five counters are zero and
`reml_ffi_bridge_pass_rate()` is 1.0; after a reset followed by status records of which `s`
are SUCCESS and `f` are not, in any order, with `s + f < 2^64`: `total_calls = s + f`,
`success_calls = s`, the other counters are zero, and for `s + f > 0` the pass rate is the
`double` quotient `(double)s / (double)(s + f)`, which is 0.5 for `s = f = 1`; for
`0 < s` and `s + f < 2^53` it is `s / (s + f)` rounded to a nearest `double` (a 53-bit
significand, at most half a unit in the last place away). -/
theorem pass_rate_after_records (c0 : BridgeCounters) (rs : List Nat) (s f : Nat)
    (hs : rs.count REML_FFI_BRIDGE_STATUS_SUCCESS = s) (hf : rs.length = s + f)
    (hlt : s + f < 2 ^ 64) :
    reml_ffi_bridge_get_metrics (reml_ffi_bridge_reset_metrics c0) = ⟨0, 0, 0, 0, 0⟩ ∧
      reml_ffi_bridge_pass_rate (reml_ffi_bridge_reset_metrics c0) = DOUBLE_ONE ∧
      reml_ffi_bridge_get_metrics
        (bridgeRun (reml_ffi_bridge_reset_metrics c0) (recordOps rs)) = ⟨s + f, s, 0, 0, 0⟩ ∧
      (0 < s + f →
        reml_ffi_bridge_pass_rate (bridgeRun (reml_ffi_bridge_reset_metrics c0) (recordOps rs))
          = double_div (u64_to_double s) (u64_to_double (s + f))) ∧
      (s = 1 → f = 1 →
        reml_ffi_bridge_pass_rate (bridgeRun (reml_ffi_bridge_reset_metrics c0) (recordOps rs))
          = DOUBLE_HALF) ∧
      (0 < s → s + f < 2 ^ 53 →
        2 ^ 52 ≤ (reml_ffi_bridge_pass_rate
          (bridgeRun (reml_ffi_bridge_reset_metrics c0) (recordOps rs))).mant ∧
        (reml_ffi_bridge_pass_rate
          (bridgeRun (reml_ffi_bridge_reset_metrics c0) (recordOps rs))).mant < 2 ^ 53 ∧
        |(s : ℚ) / ((s + f : Nat) : ℚ) - doubleValue (reml_ffi_bridge_pass_rate
            (bridgeRun (reml_ffi_bridge_reset_metrics c0) (recordOps rs)))|
          ≤ (2 : ℚ) ^ ((reml_ffi_bridge_pass_rate
            (bridgeRun (reml_ffi_bridge_reset_metrics c0) (recordOps rs))).exp - 1)) := by
  have hrun : bridgeRun (reml_ffi_bridge_reset_metrics c0) (recordOps rs) = ⟨s + f, s, 0, 0, 0⟩ := by
    rw [bridgeRun_records_reset, hs, hf, Nat.mod_eq_of_lt (show s + f < U64_MOD from hlt),
      Nat.mod_eq_of_lt (show s < U64_MOD from by unfold U64_MOD; omega)]
  have hpr : 0 < s + f →
      reml_ffi_bridge_pass_rate (bridgeRun (reml_ffi_bridge_reset_metrics c0) (recordOps rs))
        = double_div (u64_to_double s) (u64_to_double (s + f)) := by
    intro hpos
    rw [hrun]
    unfold reml_ffi_bridge_pass_rate
    simp only [if_neg (Nat.pos_iff_ne_zero.mp hpos)]
  refine ⟨rfl, rfl, by rw [hrun]; rfl, hpr, ?_, ?_⟩
  · intro h1 h2
    rw [hpr (by omega), h1, h2]
    decide
  · intro h1 h2
    rw [hpr (by omega)]
    exact counter_ratio_near s (s + f) h1 (by omega) (by omega) h2

/-- Witness for C24 (amended): one success and one failure, as in
`test_metrics_tracking`. -/
theorem pass_rate_after_records_witness :
    reml_ffi_bridge_get_metrics (bridgeRun (reml_ffi_bridge_reset_metrics bridgeInit)
        (recordOps [REML_FFI_BRIDGE_STATUS_SUCCESS, REML_FFI_BRIDGE_STATUS_FAILURE]))
        = ⟨1 + 1, 1, 0, 0, 0⟩ ∧
      reml_ffi_bridge_pass_rate (bridgeRun (reml_ffi_bridge_reset_metrics bridgeInit)
        (recordOps [REML_FFI_BRIDGE_STATUS_SUCCESS, REML_FFI_BRIDGE_STATUS_FAILURE]))
        = DOUBLE_HALF :=
  have h := pass_rate_after_records bridgeInit
    [REML_FFI_BRIDGE_STATUS_SUCCESS, REML_FFI_BRIDGE_STATUS_FAILURE] 1 1 (by decide) (by decide)
    (by decide)
  ⟨h.2.2.1, h.2.2.2.2.1 rfl rfl⟩

theorem bridgeStep_bound {c : BridgeCounters} {n : Nat} (hb : BridgeBound c n)
    (hn : n + 1 < 2 ^ 64) (op : BridgeOp) :
    BridgeBound (bridgeStep c op) (n + 1) ∧
      (op ≠ .reset_metrics →
        MetricsLE (reml_ffi_bridge_get_metrics c)
          (reml_ffi_bridge_get_metrics (bridgeStep c op))) := by
  obtain ⟨h1, h2, h3, h4, h5⟩ := hb
  have m1 : ∀ x, x ≤ n → (x + 1) % U64_MOD = x + 1 := by
    intro x hx
    exact Nat.mod_eq_of_lt (by unfold U64_MOD; omega)
  cases op with
  | record_status r =>
    by_cases hr : r = REML_FFI_BRIDGE_STATUS_SUCCESS
    · simp only [bridgeStep, reml_ffi_bridge_record_status, hr, if_true, BridgeBound, MetricsLE,
        reml_ffi_bridge_get_metrics, m1 _ h2, m1 _ (le_trans h1 h2)]
      exact ⟨⟨by omega, by omega, by omega, by omega, by omega⟩,
        fun _ => ⟨by omega, by omega, le_refl _, le_refl _, le_refl _⟩⟩
    · simp only [bridgeStep, reml_ffi_bridge_record_status, hr, if_false, BridgeBound, MetricsLE,
        reml_ffi_bridge_get_metrics, m1 _ h2]
      exact ⟨⟨by omega, by omega, by omega, by omega, by omega⟩,
        fun _ => ⟨by omega, le_refl _, le_refl _, le_refl _, le_refl _⟩⟩
  | acquire_borrowed_result v =>
    by_cases hv : v = 0
    · simp only [bridgeStep, reml_ffi_acquire_borrowed_result, hv, if_true, BridgeBound,
        MetricsLE, reml_ffi_bridge_get_metrics, m1 _ h5]
      exact ⟨⟨h1, by omega, by omega, by omega, by omega⟩,
        fun _ => ⟨le_refl _, le_refl _, le_refl _, le_refl _, by omega⟩⟩
    · simp only [bridgeStep, reml_ffi_acquire_borrowed_result, hv, if_false, BridgeBound,
        MetricsLE, reml_ffi_bridge_get_metrics, m1 _ h3]
      exact ⟨⟨h1, by omega, by omega, by omega, by omega⟩,
        fun _ => ⟨le_refl _, le_refl _, by omega, le_refl _, le_refl _⟩⟩
  | acquire_transferred_result v =>
    by_cases hv : v = 0
    · simp only [bridgeStep, reml_ffi_acquire_transferred_result, hv, if_true, BridgeBound,
        MetricsLE, reml_ffi_bridge_get_metrics, m1 _ h5]
      exact ⟨⟨h1, by omega, by omega, by omega, by omega⟩,
        fun _ => ⟨le_refl _, le_refl _, le_refl _, le_refl _, by omega⟩⟩
    · simp only [bridgeStep, reml_ffi_acquire_transferred_result, hv, if_false, BridgeBound,
        MetricsLE, reml_ffi_bridge_get_metrics, m1 _ h4]
      exact ⟨⟨h1, by omega, by omega, by omega, by omega⟩,
        fun _ => ⟨le_refl _, le_refl _, le_refl _, by omega, le_refl _⟩⟩
  | reset_metrics =>
    refine ⟨⟨le_refl _, ?_, ?_, ?_, ?_⟩, fun h => absurd rfl h⟩ <;>
      simp [bridgeStep, reml_ffi_bridge_reset_metrics]

theorem bridgeRun_bound (ops : List BridgeOp) :
    ∀ (c : BridgeCounters) (n : Nat), BridgeBound c n → n + ops.length < 2 ^ 64 →
      BridgeBound (bridgeRun c ops) (n + ops.length) := by
  induction ops with
  | nil =>
    intro c n hb _
    exact hb
  | cons op ops ih =>
    intro c n hb hn
    simp only [List.length_cons] at hn
    have hstep := (bridgeStep_bound hb (by omega) op).1
    have := ih _ _ hstep (by omega)
    simp only [bridgeRun, List.length_cons]
    have e : n + (ops.length + 1) = n + 1 + ops.length := by omega
    rw [e]
    exact this

theorem bridgeInit_bound : BridgeBound bridgeInit 0 :=
  ⟨le_refl _, le_refl _, le_refl _, le_refl _, le_refl _⟩

/-- C25 as stated fails: after one SUCCESS record and `2^64 - 1` FAILURE records from the
initial state, `total_calls` has wrapped to 0 while `success_calls` is 1; the last of these
calls, which is not a reset, lowered `total_calls` from `2^64 - 1` to 0. -/
theorem total_calls_wraps_below_success :
    (reml_ffi_bridge_get_metrics (bridgeRun bridgeInit
        (recordOps (REML_FFI_BRIDGE_STATUS_SUCCESS ::
          List.replicate (2 ^ 64 - 1) REML_FFI_BRIDGE_STATUS_FAILURE)))).total_calls
      < (reml_ffi_bridge_get_metrics (bridgeRun bridgeInit
        (recordOps (REML_FFI_BRIDGE_STATUS_SUCCESS ::
          List.replicate (2 ^ 64 - 1) REML_FFI_BRIDGE_STATUS_FAILURE)))).success_calls ∧
      (reml_ffi_bridge_get_metrics (bridgeStep (bridgeRun bridgeInit
        (recordOps (REML_FFI_BRIDGE_STATUS_SUCCESS ::
          List.replicate (2 ^ 64 - 2) REML_FFI_BRIDGE_STATUS_FAILURE)))
        (.record_status REML_FFI_BRIDGE_STATUS_FAILURE))).total_calls
      < (reml_ffi_bridge_get_metrics (bridgeRun bridgeInit
        (recordOps (REML_FFI_BRIDGE_STATUS_SUCCESS ::
          List.replicate (2 ^ 64 - 2) REML_FFI_BRIDGE_STATUS_FAILURE)))).total_calls := by
  have h1 := bridgeRun_success_failures bridgeInit (2 ^ 64 - 1)
  have h2 := bridgeRun_success_failures bridgeInit (2 ^ 64 - 2)
  have e0 : reml_ffi_bridge_reset_metrics bridgeInit = bridgeInit := rfl
  rw [e0] at h1 h2
  have e1 : (2 ^ 64 - 1 + 1) % U64_MOD = 0 := by decide
  have e2 : (2 ^ 64 - 2 + 1) % U64_MOD = 2 ^ 64 - 1 := by decide
  rw [e1] at h1
  rw [e2] at h2
  rw [h1, h2]
  exact ⟨by decide, by decide⟩

/-- C25, amended: in every state of the five counters reached from the initial all-zero
state by fewer than `2^64` calls of `record_status`, `acquire_borrowed_result`,
`acquire_transferred_result` and `reset_metrics`, `total_calls ≥ success_calls`; and if the
state was reached by fewer than `2^64 - 1` calls, a further call other than `reset_metrics`
lowers no counter. -/
theorem bridge_counters_monotone (ops : List BridgeOp) (hlen : ops.length < 2 ^ 64) :
    (reml_ffi_bridge_get_metrics (bridgeRun bridgeInit ops)).success_calls
        ≤ (reml_ffi_bridge_get_metrics (bridgeRun bridgeInit ops)).total_calls ∧
      ∀ op, op ≠ .reset_metrics → ops.length + 1 < 2 ^ 64 →
        MetricsLE (reml_ffi_bridge_get_metrics (bridgeRun bridgeInit ops))
          (reml_ffi_bridge_get_metrics (bridgeStep (bridgeRun bridgeInit ops) op)) := by
  have hb := bridgeRun_bound ops bridgeInit 0 bridgeInit_bound (by omega)
  rw [Nat.zero_add] at hb
  exact ⟨hb.1, fun op hop hn => (bridgeStep_bound hb hn op).2 hop⟩

/-- Witness for C25 (amended): a success, a borrowed result, a reset and a failure. -/
theorem bridge_counters_monotone_witness :
    (reml_ffi_bridge_get_metrics (bridgeRun bridgeInit
        [.record_status 0, .acquire_borrowed_result 24, .reset_metrics,
          .record_status 1])).success_calls
      ≤ (reml_ffi_bridge_get_metrics (bridgeRun bridgeInit
        [.record_status 0, .acquire_borrowed_result 24, .reset_metrics,
          .record_status 1])).total_calls :=
  (bridge_counters_monotone
    [.record_status 0, .acquire_borrowed_result 24, .reset_metrics, .record_status 1]
    (by decide)).1

/-! ## Equality and ordering of strings agree (C40) -/

theorem lexCompareRef_eq_zero_iff : ∀ xs ys : List Nat, lexCompareRef xs ys = 0 ↔ xs = ys
  | [], [] => by simp [lexCompareRef]
  | [], _ :: _ => by simp [lexCompareRef]
  | _ :: _, [] => by simp [lexCompareRef]
  | x :: xs, y :: ys => by
    simp only [lexCompareRef]
    by_cases h1 : x < y
    · have : x ≠ y := by omega
      simp [h1, this]
    · by_cases h2 : y < x
      · have : x ≠ y := by omega
        simp [h1, h2, this]
      · have hxy : x = y := by omega
        rw [if_neg h1, if_neg h2, lexCompareRef_eq_zero_iff xs ys]
        simp [hxy]

/-- On two non-null arguments `string_eq` returns 1 exactly when `string_compare`
returns 0, and both return. -/
theorem string_eq_compare_some (L : Libc) {m : ByteMem} {a b : reml_string_t}
    {xs ys : List Nat} (ha : StrBytes m a xs) (hb : StrBytes m b ys) :
    ∃ e c, string_eq L m (some a) (some b) = .ok e ∧
      string_compare L m (some a) (some b) = .ok c ∧ (e = 1 ↔ c = 0) := by
  obtain ⟨r, hr, hs⟩ := string_compare_some L ha hb
  refine ⟨_, r, string_eq_some L ha hb, hr, ?_⟩
  have hz : r = 0 ↔ xs = ys := by
    rw [← lexCompareRef_eq_zero_iff, ← hs, Int.sign_eq_zero_iff_zero]
  rw [hz]
  by_cases he : xs = ys
  · simp [he]
  · simp [he]

/-- C40: for all string arguments `a`, `b`, each a null pointer or a string value with a
non-negative length whose data is readable for that many bytes, and whatever magnitude the
library's `memcmp` returns: `string_eq(a, b)` and `string_compare(a, b)` both return, and
`string_eq(a, b) = 1` if and only if `string_compare(a, b) = 0`. -/
theorem string_eq_iff_compare_zero (L : Libc) (m : ByteMem) (a b : Option reml_string_t)
    (ha : StrArgOK m a) (hb : StrArgOK m b) :
    ∃ e c, string_eq L m a b = .ok e ∧ string_compare L m a b = .ok c ∧ (e = 1 ↔ c = 0) := by
  cases a with
  | none =>
    cases b with
    | none => exact ⟨1, 0, rfl, rfl, by decide⟩
    | some sb => exact ⟨0, -1, rfl, rfl, by decide⟩
  | some sa =>
    cases b with
    | none => exact ⟨0, 1, rfl, rfl, by decide⟩
    | some sb =>
      obtain ⟨xs, hxs⟩ := ha sa rfl
      obtain ⟨ys, hys⟩ := hb sb rfl
      exact string_eq_compare_some L hxs hys

/-- Witness for C40: "abc" against "abd", where `string_eq` gives 0 and `string_compare`
a negative value. -/
theorem string_eq_iff_compare_zero_witness :
    ∃ e c, string_eq (fun _ _ => 6) sampleBytes (some ⟨100, 3⟩) (some ⟨200, 3⟩) = .ok e ∧
      string_compare (fun _ _ => 6) sampleBytes (some ⟨100, 3⟩) (some ⟨200, 3⟩) = .ok c ∧
      (e = 1 ↔ c = 0) :=
  string_eq_iff_compare_zero (fun _ _ => 6) sampleBytes (some ⟨100, 3⟩) (some ⟨200, 3⟩)
    (strArgOK_some sampleBytes_abc) (strArgOK_some sampleBytes_abd)

/-! ## The index intrinsic (C34) -/

/-- The list walk stops at the node `c` tails away while `c` is below the number of
nodes, and at the null terminator otherwise. -/
theorem index_walk_spec (h : Heap) : ∀ (heads : List Nat) (p c : Nat), ListAt h p heads →
    (∀ hc : c < heads.length, ∃ q, index_walk h p c = .ok q ∧ q ≠ 0 ∧
      readField h q 0 = .ok heads[c]) ∧
    (heads.length ≤ c → index_walk h p c = .ok 0)
  | [], p, c, hl => by
    have hp : p = 0 := hl
    subst hp
    refine ⟨fun hc => absurd hc (by simp), fun _ => ?_⟩
    cases c <;> simp [index_walk]
  | x :: xs, p, 0, hl => by
    obtain ⟨hp, tail, h0, h1, ht⟩ := hl
    refine ⟨fun _ => ⟨p, rfl, hp, by simpa using h0⟩, fun hc => absurd hc (by simp)⟩
  | x :: xs, p, c + 1, hl => by
    obtain ⟨hp, tail, h0, h1, ht⟩ := hl
    have ih := index_walk_spec h xs tail c ht
    have e : index_walk h p (c + 1) = index_walk h tail c := by
      simp [index_walk, hp, h1]
    rw [e]
    refine ⟨fun hc => ?_, fun hc => ih.2 (by simpa using hc)⟩
    obtain ⟨q, hq, hq0, hr⟩ := ih.1 (by simpa using hc)
    exact ⟨q, hq, hq0, by simpa using hr⟩

theorem index_access_null (h : Heap) (i : Int) :
    reml_index_access h 0 i = .error (.panic "index target is null") := by
  simp [reml_index_access]

theorem index_access_negative (h : Heap) (target : Nat) (i : Int) (ht : target ≠ 0)
    (hi : i < 0) : reml_index_access h target i = .error (.panic "index out of bounds") := by
  simp [reml_index_access, ht, hi]

theorem index_access_list_hit (h : Heap) (target rc tag : Nat) (pl heads : List Nat) (k : Nat)
    (hl : ListAt h target heads) (hg : getObj h target = some (rc, tag, pl))
    (htag : tag ≠ REML_TAG_STRING) (hk : k < heads.length) :
    reml_index_access h target (k : Int) = .ok heads[k] := by
  have ht : target ≠ 0 := by
    intro h0
    subst h0
    simp [getObj, HEADER_SIZE] at hg
  obtain ⟨q, hq, hq0, hr⟩ := (index_walk_spec h heads target k hl).1 hk
  have hneg : ¬ ((k : Int) < 0) := by omega
  simp [reml_index_access, ht, hneg, hg, htag, hq, hq0, hr]

theorem index_access_list_miss (h : Heap) (target rc tag : Nat) (pl heads : List Nat) (i : Int)
    (ht : target ≠ 0) (hl : ListAt h target heads) (hg : getObj h target = some (rc, tag, pl))
    (htag : tag ≠ REML_TAG_STRING) (hi : ¬ (0 ≤ i ∧ i < heads.length)) :
    reml_index_access h target i = .error (.panic "index out of bounds") := by
  by_cases hneg : i < 0
  · exact index_access_negative h target i ht hneg
  · have hge : heads.length ≤ i.toNat := by omega
    have hw := (index_walk_spec h heads target i.toNat hl).2 hge
    simp [reml_index_access, ht, hneg, hg, htag, hw]

theorem index_access_string (h : Heap) (target rc data len : Nat) (rest : List Nat) (i : Int)
    (hg : getObj h target = some (rc, REML_TAG_STRING, data :: len :: rest))
    (hd : data ≠ 0) :
    reml_index_access h target i =
      if 0 ≤ i ∧ i < toInt64 len then .ok (data + i.toNat)
      else .error (.panic "index out of bounds") := by
  have ht : target ≠ 0 := by
    intro h0
    subst h0
    simp [getObj, HEADER_SIZE] at hg
  have h0 : readField h target 0 = .ok data := readField_of_getObj hg rfl
  have h1 : readField h target 1 = .ok len := readField_of_getObj hg (by simp)
  by_cases hneg : i < 0
  · have : ¬ (0 ≤ i ∧ i < toInt64 len) := by omega
    rw [if_neg this]
    exact index_access_negative h target i ht hneg
  · by_cases hlt : i < toInt64 len
    · have hc : 0 ≤ i ∧ i < toInt64 len := ⟨by omega, hlt⟩
      have hge : ¬ (i ≥ toInt64 len) := by omega
      rw [if_pos hc]
      simp [reml_index_access, ht, hneg, hg, h0, h1, hd, hge]
    · have hc : ¬ (0 ≤ i ∧ i < toInt64 len) := by omega
      have hge : i ≥ toInt64 len := by omega
      rw [if_neg hc]
      simp [reml_index_access, ht, hneg, hg, h0, h1, hd, hge]

theorem sampleListHeap_list : ListAt sampleListHeap 24 [500, 600] :=
  ⟨by decide, 48, by decide, by decide, by decide, 0, by decide, by decide, rfl⟩

/-- C34: `reml_index_access(target, i)` panics for a null target, and for a negative index
on a non-null target. For a non-null list target of `n ≥ 1` nodes whose first node is an
object not tagged STRING, it returns the head pointer of the node reached by following
`tail` `i` times when `0 ≤ i < n`, and panics otherwise. For a STRING-tagged target with
non-null data it returns the address `data + i` when `0 ≤ i < length`, and panics
otherwise. -/
theorem index_access_spec (h : Heap) (target : Nat) (i : Int) :
    (target = 0 → ∃ msg, reml_index_access h target i = .error (.panic msg)) ∧
    (i < 0 → ∃ msg, reml_index_access h target i = .error (.panic msg)) ∧
    (∀ heads rc tag pl, target ≠ 0 → heads ≠ [] → ListAt h target heads →
      getObj h target = some (rc, tag, pl) → tag ≠ REML_TAG_STRING →
      (∀ k (hk : k < heads.length), i = (k : Int) →
        reml_index_access h target i = .ok heads[k]) ∧
      (¬ (0 ≤ i ∧ i < heads.length) →
        ∃ msg, reml_index_access h target i = .error (.panic msg))) ∧
    (∀ rc data len rest, getObj h target = some (rc, REML_TAG_STRING, data :: len :: rest) →
      data ≠ 0 →
      (0 ≤ i → i < toInt64 len → reml_index_access h target i = .ok (data + i.toNat)) ∧
      (¬ (0 ≤ i ∧ i < toInt64 len) →
        ∃ msg, reml_index_access h target i = .error (.panic msg))) := by
  refine ⟨?_, ?_, ?_, ?_⟩
  · intro ht
    subst ht
    exact ⟨_, index_access_null h i⟩
  · intro hi
    by_cases ht : target = 0
    · subst ht
      exact ⟨_, index_access_null h i⟩
    · exact ⟨_, index_access_negative h target i ht hi⟩
  · intro heads rc tag pl ht _ hl hg htag
    refine ⟨?_, fun hi => ⟨_, index_access_list_miss h target rc tag pl heads i ht hl hg htag hi⟩⟩
    intro k hk hik
    subst hik
    exact index_access_list_hit h target rc tag pl heads k hl hg htag hk
  · intro rc data len rest hg hd
    have hs := index_access_string h target rc data len rest i hg hd
    refine ⟨fun h0 h1 => ?_, fun hi => ⟨"index out of bounds", ?_⟩⟩
    · rw [hs, if_pos ⟨h0, h1⟩]
    · rw [hs, if_neg hi]

/-- Witness for C34: index 1 of the two-node list `[500, 600]` is 600, index 2 panics, and
index 2 of the string with data at 1000 is the address 1002. -/
theorem index_access_spec_witness :
    reml_index_access sampleListHeap 24 1 = .ok 600 ∧
      (∃ msg, reml_index_access sampleListHeap 24 2 = .error (.panic msg)) ∧
      reml_index_access sampleListHeap 72 2 = .ok 1002 :=
  ⟨((index_access_spec sampleListHeap 24 1).2.2.1 [500, 600] 1 REML_TAG_ADT [500, 48]
      (by decide) (by decide) sampleListHeap_list (by decide) (by decide)).1 1 (by decide) rfl,
    ((index_access_spec sampleListHeap 24 2).2.2.1 [500, 600] 1 REML_TAG_ADT [500, 48]
      (by decide) (by decide) sampleListHeap_list (by decide) (by decide)).2 (by decide),
    ((index_access_spec sampleListHeap 72 2).2.2.2 1 1000 3 [] (by decide)
      (by decide)).1 (by decide) (by decide)⟩

/-! ## `reml_os_file_write_all` (C33) -/

theorem write_all_loop_spec (W : HostWrite) (hW : HostWriteOK W) (fd : Nat) (bytes : List Nat)
    (st0 : OsState) (hlen : bytes.length < SIZE_MOD) :
    ∀ k fuel st total, total + k = bytes.length → k + 1 ≤ fuel →
      st.out = st0.out ++ bytes.take total → st0.calls ≤ st.calls →
      ∃ st1 r, write_all_loop W (some fd) bytes fuel st total = .ok (st1, r) ∧
        WroteAll W st0 bytes st1 r := by
  intro k
  induction k using Nat.strong_induction_on with
  | _ k ih =>
    intro fuel st total htk hfuel hout hcalls
    obtain ⟨fuel, rfl⟩ : ∃ f, fuel = f + 1 := ⟨fuel - 1, by omega⟩
    by_cases hlt : total < bytes.length
    · cases hw : W st (bytes.drop total) with
      | none =>
        refine ⟨⟨st.out, st.calls + 1⟩, REML_OS_ERROR_SYSTEM_FAILURE, ?_, total, by omega,
          hout, by simp; omega, Or.inr ⟨rfl, hlt, by simp; omega, Or.inl ?_⟩⟩
        · simp [write_all_loop, hlt, reml_os_file_write, hw, REML_OS_ERROR_SYSTEM_FAILURE,
            REML_OS_SUCCESS]
        · simpa using hw
      | some c =>
        have hc : c ≤ bytes.length - total := by
          have := hW st _ c hw
          simpa using this
        by_cases hc0 : c = 0
        · subst hc0
          refine ⟨⟨st.out, st.calls + 1⟩, REML_OS_ERROR_SYSTEM_FAILURE, ?_, total, by omega,
            by simpa using hout, by simp; omega, Or.inr ⟨rfl, hlt, by simp; omega, Or.inr ?_⟩⟩
          · simp [write_all_loop, hlt, reml_os_file_write, hw, REML_OS_SUCCESS]
          · simpa using hw
        · have hmod : (total + c) % SIZE_MOD = total + c := Nat.mod_eq_of_lt (by omega)
          have hstep : write_all_loop W (some fd) bytes (fuel + 1) st total
              = write_all_loop W (some fd) bytes fuel
                  ⟨st.out ++ (bytes.drop total).take c, st.calls + 1⟩ (total + c) := by
            simp [write_all_loop, hlt, reml_os_file_write, hw, REML_OS_SUCCESS, hc0, hmod]
          rw [hstep]
          apply ih (k - c) (by omega) fuel _ (total + c) (by omega) (by omega)
          · simp only [hout, List.append_assoc, List.append_cancel_left_eq]
            rw [List.take_add]
          · simp only
            omega
    · refine ⟨st, REML_OS_SUCCESS, ?_, bytes.length, le_refl _, ?_, hcalls, Or.inl ⟨rfl, rfl⟩⟩
      · simp [write_all_loop, hlt]
      · have : total = bytes.length := by omega
        rw [hout, this]

/-- With fuel above the buffer size `reml_os_file_write_all` returns, and the run ended as
`WroteAll` describes. -/
theorem write_all_ok (W : HostWrite) (hW : HostWriteOK W) (fd : Nat) (bytes : List Nat)
    (st : OsState) (hlen : bytes.length < SIZE_MOD) (extra : Nat) :
    ∃ st1 r, reml_os_file_write_all W (bytes.length + 1 + extra) st (some fd) (some bytes)
        = .ok (st1, r) ∧ WroteAll W st bytes st1 r := by
  simp only [reml_os_file_write_all]
  exact write_all_loop_spec W hW fd bytes st hlen bytes.length _ st 0 (by omega) (by omega)
    (by simp) (le_refl _)

theorem write_all_invalid (W : HostWrite) (fuel : Nat) (st : OsState) (file : Option Nat)
    (buffer : Option (List Nat)) (hn : file = none ∨ buffer = none) :
    reml_os_file_write_all W fuel st file buffer = .ok (st, REML_OS_ERROR_INVALID_ARGUMENT) := by
  rcases hn with rfl | rfl
  · rfl
  · cases file <;> rfl

theorem write_all_empty (W : HostWrite) (fuel : Nat) (st : OsState) (fd : Nat) :
    reml_os_file_write_all W (fuel + 1) st (some fd) (some []) = .ok (st, REML_OS_SUCCESS) := by
  simp [reml_os_file_write_all, write_all_loop]

theorem sampleWrite_ok : HostWriteOK sampleWrite := by
  intro st buf k hk
  unfold sampleWrite at hk
  by_cases h : st.calls < 3
  · rw [if_pos h] at hk
    cases hk
    omega
  · rw [if_neg h] at hk
    cases hk

/-- C33: for every buffer of `buffer_size < 2^64` bytes and every behaviour of the
underlying `write` that never reports more bytes than requested, `reml_os_file_write_all`
on a non-null file and buffer returns; the descriptor has then accepted exactly a prefix of
the buffer, chunk after chunk in order; the result is success if and only if that prefix is
the whole buffer; otherwise the result is system failure and the last `write` made either
failed or reported 0 bytes, the function returning right after it. A null file or buffer
gives invalid argument, and `buffer_size = 0` gives success, both without a `write`. -/
theorem write_all_spec (W : HostWrite) (hW : HostWriteOK W) (fd : Nat) (bytes : List Nat)
    (st : OsState) (hlen : bytes.length < SIZE_MOD) (extra : Nat) :
    (∃ st1 r, reml_os_file_write_all W (bytes.length + 1 + extra) st (some fd) (some bytes)
        = .ok (st1, r) ∧ WroteAll W st bytes st1 r ∧
        (r = REML_OS_SUCCESS ↔ st1.out = st.out ++ bytes)) ∧
      (∀ file buffer, file = none ∨ buffer = none →
        reml_os_file_write_all W (bytes.length + 1 + extra) st file buffer
          = .ok (st, REML_OS_ERROR_INVALID_ARGUMENT)) ∧
      reml_os_file_write_all W (extra + 1) st (some fd) (some []) = .ok (st, REML_OS_SUCCESS) := by
  refine ⟨?_, fun file buffer hn => write_all_invalid W _ st file buffer hn,
    write_all_empty W extra st fd⟩
  obtain ⟨st1, r, hr, hw⟩ := write_all_ok W hW fd bytes st hlen extra
  refine ⟨st1, r, hr, hw, ?_⟩
  obtain ⟨j, hj, hout, _, hcase⟩ := hw
  rcases hcase with ⟨hr1, hj1⟩ | ⟨hr1, hj1, _, _⟩
  · refine ⟨fun _ => ?_, fun _ => hr1⟩
    rw [hout, hj1, List.take_length]
  · refine ⟨fun hs => ?_, fun ho => ?_⟩
    · rw [hr1] at hs
      cases hs
    · rw [hout] at ho
      have h1 := congrArg List.length (List.append_cancel_left ho)
      rw [List.length_take] at h1
      omega

/-- Witness for C33: five bytes offered to a `write` that takes two bytes per call are
written in three calls; seven bytes are cut short by the failure of the fourth call. -/
theorem write_all_spec_witness :
    reml_os_file_write_all sampleWrite 6 ⟨[], 0⟩ (some 2) (some [1, 2, 3, 4, 5])
        = .ok (⟨[1, 2, 3, 4, 5], 3⟩, REML_OS_SUCCESS) ∧
      reml_os_file_write_all sampleWrite 8 ⟨[], 0⟩ (some 2) (some [1, 2, 3, 4, 5, 6, 7])
        = .ok (⟨[1, 2, 3, 4, 5, 6], 4⟩, REML_OS_ERROR_SYSTEM_FAILURE) ∧
      ∃ st1 r, reml_os_file_write_all sampleWrite (([1, 2, 3, 4, 5] : List Nat).length + 1 + 0)
          ⟨[], 0⟩ (some 2) (some [1, 2, 3, 4, 5]) = .ok (st1, r) ∧
        (r = REML_OS_SUCCESS ↔ st1.out = ([] : List Nat) ++ [1, 2, 3, 4, 5]) :=
  ⟨by decide, by decide,
    have ⟨st1, r, hr, _, hiff⟩ := (write_all_spec sampleWrite sampleWrite_ok 2 [1, 2, 3, 4, 5]
      ⟨[], 0⟩ (by decide) 0).1
    ⟨st1, r, hr, hiff⟩⟩

/-! ## The panic banner (C31, C32) -/

theorem fullWrite_live : HostWriteLive fullWrite := by
  refine ⟨?_, ?_⟩
  · intro st buf k hk
    simp only [fullWrite, Option.some.injEq] at hk
    omega
  · intro st buf hb
    exact ⟨buf.length, rfl, List.length_pos.mpr hb⟩

/-- On a live stream a `write_all` whose result is ignored appends exactly its bytes. -/
theorem panic_put_live (W : HostWrite) (hW : HostWriteLive W) (st : OsState) (bytes : List Nat)
    (fuel : Nat) (hf : bytes.length + 1 ≤ fuel) (hlen : bytes.length < SIZE_MOD) :
    ∃ st1, panic_put W fuel st bytes = .ok st1 ∧ st1.out = st.out ++ bytes := by
  obtain ⟨extra, rfl⟩ : ∃ e, fuel = bytes.length + 1 + e := ⟨fuel - (bytes.length + 1), by omega⟩
  obtain ⟨st1, r, hr, j, hj, hout, _, hcase⟩ := write_all_ok W hW.1 2 bytes st hlen extra
  refine ⟨st1, by simp [panic_put, hr], ?_⟩
  rcases hcase with ⟨_, hj1⟩ | ⟨_, hj1, _, hw⟩
  · rw [hout, hj1, List.take_length]
  · exfalso
    have hne : bytes.drop j ≠ [] := by
      intro he
      have := congrArg List.length he
      simp at this
      omega
    obtain ⟨k, hk, hk0⟩ := hW.2 ⟨st1.out, st1.calls - 1⟩ _ hne
    rcases hw with hw | hw
    · rw [hw] at hk
      cases hk
    · rw [hw] at hk
      cases hk
      omega

/-- A line that fits `line_buffer` with its terminating NUL is written as it is. -/
theorem panic_line_fits (W : HostWrite) (hW : HostWriteLive W) (st : OsState) (text : List Nat)
    (fuel : Nat) (hf : 257 ≤ fuel) (h0 : 0 < text.length) (h1 : text.length ≤ 255) :
    ∃ st1, panic_line W fuel st text = .ok st1 ∧ st1.out = st.out ++ text := by
  have hi : text.length ≤ INT_MAX := by unfold INT_MAX; omega
  have hpos : ((text.length : Nat) : Int) > 0 := by omega
  have htake : (text.take 255 ++ [0]).take text.length = text := by
    rw [List.take_of_length_le (l := text) (by omega), List.take_left]
  have hle : text.length ≤ (text.take 255 ++ [0]).length := by
    simp
    omega
  obtain ⟨st1, hp, hout⟩ := panic_put_live W hW st text fuel (by omega)
    (by unfold SIZE_MOD; omega)
  refine ⟨st1, ?_, hout⟩
  simp only [panic_line, snprintf, hi, if_true, hpos, Int.toNat_ofNat]
  simp only [Nat.reduceSub, Nat.reduceEqDiff, if_false, hle, if_true, htake, hp]

/-- A line of exactly 256 bytes loses its last byte: the 256 bytes written are the first
255 bytes of the line and the terminating NUL. -/
theorem panic_line_256 (W : HostWrite) (hW : HostWriteLive W) (st : OsState) (text : List Nat)
    (fuel : Nat) (hf : 257 ≤ fuel) (h1 : text.length = 256) :
    ∃ st1, panic_line W fuel st text = .ok st1 ∧ st1.out = st.out ++ (text.take 255 ++ [0]) := by
  have hi : text.length ≤ INT_MAX := by unfold INT_MAX; omega
  have hpos : ((text.length : Nat) : Int) > 0 := by omega
  have hlen : (text.take 255 ++ [0]).length = 256 := by
    simp
    omega
  have htake : (text.take 255 ++ [0]).take text.length = text.take 255 ++ [0] := by
    rw [h1, ← hlen, List.take_length]
  have hle : text.length ≤ (text.take 255 ++ [0]).length := by omega
  obtain ⟨st1, hp, hout⟩ := panic_put_live W hW st (text.take 255 ++ [0]) fuel (by omega)
    (by unfold SIZE_MOD; omega)
  refine ⟨st1, ?_, hout⟩
  simp only [panic_line, snprintf, hi, if_true, hpos, Int.toNat_ofNat]
  simp only [Nat.reduceSub, Nat.reduceEqDiff, if_false, hle, if_true, htake, hp]

/-- A line of more than 256 bytes makes the write read past the end of `line_buffer`. -/
theorem panic_line_overread (W : HostWrite) (st : OsState) (text : List Nat) (fuel : Nat)
    (h1 : 257 ≤ text.length) (h2 : text.length ≤ INT_MAX) :
    panic_line W fuel st text = .error .fault := by
  have hpos : ((text.length : Nat) : Int) > 0 := by omega
  have hle : ¬ text.length ≤ (text.take 255 ++ [0]).length := by
    simp
    omega
  simp only [panic_line, snprintf, h2, if_true, hpos, Int.toNat_ofNat]
  simp only [Nat.reduceSub, Nat.reduceEqDiff, if_false, hle]

theorem decimal_length (n : Nat) (hn : n < 2 ^ 64) : 0 < (decimal n).length ∧
    (decimal n).length ≤ 20 := by
  unfold decimal
  rw [List.length_map]
  constructor
  · unfold Nat.toDigits
    rw [Nat.toDigitsCore]
    split
    · simp
    · rw [Nat.toDigitsCore_lens_eq]
      omega
  · exact Nat.toDigitsCore_length 10 (by decide) _ n 20 (by omega) (by decide)


theorem decimalInt_length (v : Int) (h1 : -(2 ^ 31) ≤ v) (h2 : v < 2 ^ 31) :
    (decimalInt v).length ≤ 11 := by
  unfold decimalInt decimal
  split
  · rw [List.length_cons, List.length_map]
    have := Nat.toDigitsCore_length 10 (by decide) ((-v).toNat + 1) (-v).toNat 10 (by omega)
      (by decide)
    unfold Nat.toDigits
    omega
  · rw [List.length_map]
    have := Nat.toDigitsCore_length 10 (by decide) (v.toNat + 1) v.toNat 10 (by omega)
      (by decide)
    unfold Nat.toDigits
    omega

/-- The banner up to the `Message:` line, as both panic functions write it on a live
stream, the labels being `label1` and `label2`. -/
theorem panic_head (W : HostWrite) (hW : HostWriteLive W) (fuel : Nat) (hf : 257 ≤ fuel)
    (time_buf : List Nat) (pid : Nat) (st : OsState) (ht : time_buf.length ≤ 63)
    (hp : pid < 2 ^ 64) (label1 label2 : List Nat) (hl1 : label1.length ≤ 16)
    (hl2 : label2.length ≤ 16) :
    ∃ st1 st2 st3 st4, panic_put W fuel st banner_top = .ok st1 ∧
      panic_put W fuel st1 banner_mid = .ok st2 ∧
      panic_line W fuel st2 (label1 ++ time_buf ++ cstr "\n") = .ok st3 ∧
      panic_line W fuel st3 (label2 ++ decimal pid ++ cstr "\n") = .ok st4 ∧
      st4.out = st.out ++ banner_top ++ banner_mid ++ (label1 ++ time_buf ++ cstr "\n")
        ++ (label2 ++ decimal pid ++ cstr "\n") := by
  have hnl : (cstr "\n").length = 1 := by decide
  obtain ⟨st1, h1, o1⟩ := panic_put_live W hW st banner_top fuel
    (by have : banner_top.length = 49 := by decide
        omega) (by decide)
  obtain ⟨st2, h2, o2⟩ := panic_put_live W hW st1 banner_mid fuel
    (by have : banner_mid.length = 69 := by decide
        omega) (by decide)
  obtain ⟨st3, h3, o3⟩ := panic_line_fits W hW st2 (label1 ++ time_buf ++ cstr "\n") fuel hf
    (by simp only [List.length_append, hnl]; omega)
    (by simp only [List.length_append, hnl]; omega)
  have hd := decimal_length pid hp
  obtain ⟨st4, h4, o4⟩ := panic_line_fits W hW st3 (label2 ++ decimal pid ++ cstr "\n") fuel hf
    (by simp only [List.length_append, hnl]; omega)
    (by simp only [List.length_append, hnl]; omega)
  exact ⟨st1, st2, st3, st4, h1, h2, h3, h4, by rw [o4, o3, o2, o1]⟩

/-- What `panic` writes and how it ends, by the length of the message text: up to 245
bytes the `Message:` line is complete; at 246 bytes the line is 256 bytes long and its
newline is replaced by the NUL that terminates `line_buffer`; from 247 bytes on the write
reads past the end of `line_buffer`. -/
theorem panic_cases (W : HostWrite) (hW : HostWriteLive W) (fuel : Nat) (hf : 257 ≤ fuel)
    (time_buf : List Nat) (pid : Nat) (st : OsState) (msg : Option (List Nat))
    (ht : time_buf.length ≤ 63) (hp : pid < 2 ^ 64) :
    ((msg.getD (cstr "(null)")).length ≤ 245 →
      ∃ e, panic W fuel time_buf pid st msg = .ok e ∧ e.code = 1 ∧
        e.stderr.out = st.out ++ banner_top ++ banner_mid
          ++ (cstr "Time:    " ++ time_buf ++ cstr "\n")
          ++ (cstr "PID:     " ++ decimal pid ++ cstr "\n")
          ++ (cstr "Message: " ++ msg.getD (cstr "(null)") ++ cstr "\n") ++ banner_bottom) ∧
    ((msg.getD (cstr "(null)")).length = 246 →
      ∃ e, panic W fuel time_buf pid st msg = .ok e ∧ e.code = 1 ∧
        e.stderr.out = st.out ++ banner_top ++ banner_mid
          ++ (cstr "Time:    " ++ time_buf ++ cstr "\n")
          ++ (cstr "PID:     " ++ decimal pid ++ cstr "\n")
          ++ (cstr "Message: " ++ msg.getD (cstr "(null)") ++ [0]) ++ banner_bottom) ∧
    (247 ≤ (msg.getD (cstr "(null)")).length →
      (msg.getD (cstr "(null)")).length + 10 ≤ INT_MAX →
      panic W fuel time_buf pid st msg = .error .fault) := by
  have hnl : (cstr "\n").length = 1 := by decide
  have hlm : (cstr "Message: ").length = 9 := by decide
  obtain ⟨st1, st2, st3, st4, h1, h2, h3, h4, o4⟩ := panic_head W hW fuel hf time_buf pid st
    ht hp (cstr "Time:    ") (cstr "PID:     ") (by decide) (by decide)
  have hbot : banner_bottom.length + 1 ≤ fuel := by
    have : banner_bottom.length = 49 := by decide
    omega
  refine ⟨fun hm => ?_, fun hm => ?_, fun hm hi => ?_⟩
  · obtain ⟨st5, h5, o5⟩ := panic_line_fits W hW st4
      (cstr "Message: " ++ msg.getD (cstr "(null)") ++ cstr "\n") fuel hf
      (by simp only [List.length_append, hnl]; omega)
      (by simp only [List.length_append, hnl, hlm]; omega)
    obtain ⟨st6, h6, o6⟩ := panic_put_live W hW st5 banner_bottom fuel hbot (by decide)
    refine ⟨⟨st6, 1⟩, ?_, rfl, ?_⟩
    · simp only [panic, bind, Except.bind, h1, h2, h3, h4, h5, h6]
    · show st6.out = _
      rw [o6, o5, o4]
  · obtain ⟨st5, h5, o5⟩ := panic_line_256 W hW st4
      (cstr "Message: " ++ msg.getD (cstr "(null)") ++ cstr "\n") fuel hf
      (by simp only [List.length_append, hnl, hlm]; omega)
    have htk : (cstr "Message: " ++ msg.getD (cstr "(null)") ++ cstr "\n").take 255
        = cstr "Message: " ++ msg.getD (cstr "(null)") := by
      rw [List.take_append_of_le_length (by simp only [List.length_append, hlm]; omega)]
      exact List.take_of_length_le (by simp only [List.length_append, hlm]; omega)
    rw [htk] at o5
    obtain ⟨st6, h6, o6⟩ := panic_put_live W hW st5 banner_bottom fuel hbot (by decide)
    refine ⟨⟨st6, 1⟩, ?_, rfl, ?_⟩
    · simp only [panic, bind, Except.bind, h1, h2, h3, h4, h5, h6]
    · show st6.out = _
      rw [o6, o5, o4]
  · have h5 := panic_line_overread W st4
      (cstr "Message: " ++ msg.getD (cstr "(null)") ++ cstr "\n") fuel
      (by simp only [List.length_append, hnl, hlm]; omega)
      (by simp only [List.length_append, hnl, hlm]; omega)
    simp only [panic, bind, Except.bind, h1, h2, h3, h4, h5]

/-- What `panic_at` writes when every line fits `line_buffer`. -/
theorem panic_at_fits (W : HostWrite) (hW : HostWriteLive W) (fuel : Nat) (hf : 257 ≤ fuel)
    (time_buf : List Nat) (pid : Nat) (st : OsState) (msg file : Option (List Nat)) (line : Int)
    (ht : time_buf.length ≤ 63) (hp : pid < 2 ^ 64)
    (hm : (msg.getD (cstr "(null)")).length ≤ 244)
    (hfl : (file.getD (cstr "(unknown)")).length ≤ 232)
    (hl1 : -(2 ^ 31) ≤ line) (hl2 : line < 2 ^ 31) :
    ∃ e, panic_at W fuel time_buf pid st msg file line = .ok e ∧ e.code = 1 ∧
      e.stderr.out = st.out ++ banner_top ++ banner_mid
        ++ (cstr "Time:     " ++ time_buf ++ cstr "\n")
        ++ (cstr "PID:      " ++ decimal pid ++ cstr "\n")
        ++ (cstr "Location: " ++ file.getD (cstr "(unknown)") ++ cstr ":" ++ decimalInt line
          ++ cstr "\n")
        ++ (cstr "Message:  " ++ msg.getD (cstr "(null)") ++ cstr "\n") ++ banner_bottom := by
  have hnl : (cstr "\n").length = 1 := by decide
  have hcl : (cstr ":").length = 1 := by decide
  have hlm : (cstr "Message:  ").length = 10 := by decide
  have hll : (cstr "Location: ").length = 10 := by decide
  obtain ⟨st1, st2, st3, st4, h1, h2, h3, h4, o4⟩ := panic_head W hW fuel hf time_buf pid st
    ht hp (cstr "Time:     ") (cstr "PID:      ") (by decide) (by decide)
  have hbot : banner_bottom.length + 1 ≤ fuel := by
    have : banner_bottom.length = 49 := by decide
    omega
  have hdl := decimalInt_length line hl1 hl2
  obtain ⟨st5, h5, o5⟩ := panic_line_fits W hW st4
    (cstr "Location: " ++ file.getD (cstr "(unknown)") ++ cstr ":" ++ decimalInt line
      ++ cstr "\n") fuel hf
    (by simp only [List.length_append, hnl]; omega)
    (by simp only [List.length_append, hnl, hll, hcl]; omega)
  obtain ⟨st6, h6, o6⟩ := panic_line_fits W hW st5
    (cstr "Message:  " ++ msg.getD (cstr "(null)") ++ cstr "\n") fuel hf
    (by simp only [List.length_append, hnl]; omega)
    (by simp only [List.length_append, hnl, hlm]; omega)
  obtain ⟨st7, h7, o7⟩ := panic_put_live W hW st6 banner_bottom fuel hbot (by decide)
  refine ⟨⟨st7, 1⟩, ?_, rfl, ?_⟩
  · simp only [panic_at, bind, Except.bind, h1, h2, h3, h4, h5, h6, h7]
  · show st7.out = _
    rw [o7, o6, o5, o4]

/-- C31, the divergence: on a live standard error, with a timestamp of at most 63 bytes and
a process id below 2^64, `panic(msg)` ends the process with exit code 1 after a complete
`Message:` line only for a message text of at most 245 bytes. For a text of 246 bytes the
line written is `Message: `, the text and a NUL byte, the newline being lost; for a text of
247 bytes or more the write reads past the end of the 256-byte `line_buffer`. -/
theorem panic_message_line (W : HostWrite) (hW : HostWriteLive W) (fuel : Nat)
    (hf : 257 ≤ fuel) (time_buf : List Nat) (pid : Nat) (st : OsState) (msg : Option (List Nat))
    (ht : time_buf.length ≤ 63) (hp : pid < 2 ^ 64) :
    ((msg.getD (cstr "(null)")).length ≤ 245 →
      ∃ e, panic W fuel time_buf pid st msg = .ok e ∧ e.code = 1 ∧
        e.stderr.out = st.out ++ banner_top ++ banner_mid
          ++ (cstr "Time:    " ++ time_buf ++ cstr "\n")
          ++ (cstr "PID:     " ++ decimal pid ++ cstr "\n")
          ++ (cstr "Message: " ++ msg.getD (cstr "(null)") ++ cstr "\n") ++ banner_bottom) ∧
    ((msg.getD (cstr "(null)")).length = 246 →
      ∃ e, panic W fuel time_buf pid st msg = .ok e ∧ e.code = 1 ∧
        e.stderr.out = st.out ++ banner_top ++ banner_mid
          ++ (cstr "Time:    " ++ time_buf ++ cstr "\n")
          ++ (cstr "PID:     " ++ decimal pid ++ cstr "\n")
          ++ (cstr "Message: " ++ msg.getD (cstr "(null)") ++ [0]) ++ banner_bottom) ∧
    (247 ≤ (msg.getD (cstr "(null)")).length →
      (msg.getD (cstr "(null)")).length + 10 ≤ INT_MAX →
      panic W fuel time_buf pid st msg = .error .fault) :=
  panic_cases W hW fuel hf time_buf pid st msg ht hp

/-- Witness for C31: with the timestamp `unknown` and process id 4242, a message of 246
letters `A` is written without its newline, and a message of 300 letters makes the write
read past the end of `line_buffer`. -/
theorem panic_message_line_witness :
    (∃ e, panic fullWrite 257 (cstr "unknown") 4242 ⟨[], 0⟩ (some (List.replicate 246 65))
        = .ok e ∧ e.code = 1 ∧
      e.stderr.out = [] ++ banner_top ++ banner_mid
        ++ (cstr "Time:    " ++ cstr "unknown" ++ cstr "\n")
        ++ (cstr "PID:     " ++ decimal 4242 ++ cstr "\n")
        ++ (cstr "Message: " ++ (some (List.replicate 246 65)).getD (cstr "(null)") ++ [0])
        ++ banner_bottom) ∧
      panic fullWrite 257 (cstr "unknown") 4242 ⟨[], 0⟩ (some (List.replicate 300 65))
        = .error .fault :=
  ⟨(panic_message_line fullWrite fullWrite_live 257 (le_refl _) (cstr "unknown") 4242 ⟨[], 0⟩
      (some (List.replicate 246 65)) (by decide) (by decide)).2.1
      (by rw [Option.getD_some, List.length_replicate]),
    (panic_message_line fullWrite fullWrite_live 257 (le_refl _) (cstr "unknown") 4242 ⟨[], 0⟩
      (some (List.replicate 300 65)) (by decide) (by decide)).2.2
      (by rw [Option.getD_some, List.length_replicate]; decide)
      (by rw [Option.getD_some, List.length_replicate]; decide)⟩

/-- C32 as stated fails: with the timestamp `unknown`, process id 7 and the message `boom`,
`panic` writes the lines `Time:    unknown`, `PID:     7` and `Message: boom`, and what
`panic_at` writes for the file `main.reml` and line 12 is not that output with the line
`Location: main.reml:12` inserted before the `Message:` line: its tenth byte after the
banner is a space where the output of `panic` has the `u` of the timestamp. -/
theorem panic_at_lines_differ :
    ∃ e1 e2, panic fullWrite 257 (cstr "unknown") 7 ⟨[], 0⟩ (some (cstr "boom")) = .ok e1 ∧
      panic_at fullWrite 257 (cstr "unknown") 7 ⟨[], 0⟩ (some (cstr "boom"))
        (some (cstr "main.reml")) 12 = .ok e2 ∧
      e1.stderr.out = [] ++ banner_top ++ banner_mid
        ++ (cstr "Time:    " ++ cstr "unknown" ++ cstr "\n")
        ++ (cstr "PID:     " ++ decimal 7 ++ cstr "\n")
        ++ (cstr "Message: " ++ cstr "boom" ++ cstr "\n") ++ banner_bottom ∧
      e2.stderr.out ≠ [] ++ banner_top ++ banner_mid
        ++ (cstr "Time:    " ++ cstr "unknown" ++ cstr "\n")
        ++ (cstr "PID:     " ++ decimal 7 ++ cstr "\n")
        ++ (cstr "Location: " ++ cstr "main.reml" ++ cstr ":" ++ decimalInt 12 ++ cstr "\n")
        ++ (cstr "Message: " ++ cstr "boom" ++ cstr "\n") ++ banner_bottom := by
  obtain ⟨e1, h1, _, o1⟩ := (panic_cases fullWrite fullWrite_live 257 (le_refl _)
    (cstr "unknown") 7 ⟨[], 0⟩ (some (cstr "boom")) (by decide) (by decide)).1 (by decide)
  obtain ⟨e2, h2, _, o2⟩ := panic_at_fits fullWrite fullWrite_live 257 (le_refl _)
    (cstr "unknown") 7 ⟨[], 0⟩ (some (cstr "boom")) (some (cstr "main.reml")) 12 (by decide)
    (by decide) (by decide) (by decide) (by decide) (by decide)
  refine ⟨e1, e2, h1, h2, o1, ?_⟩
  rw [o2]
  intro heq
  simp only [List.append_assoc, List.nil_append] at heq
  have h3 := List.append_cancel_left (List.append_cancel_left heq)
  have h4 := congrArg (fun l => l[9]?) h3
  revert h4
  decide

/-- C32, amended: on a live standard error, for a timestamp of at most 63 bytes, a process
id below 2^64, a message text of at most 244 bytes (`(null)` for a null message), a file
text of at most 232 bytes (`(unknown)` for a null file) and every `int` line, both
functions end the process with exit code 1; `panic` writes the banner with the lines
`Time:    <timestamp>`, `PID:     <pid>`, `Message: <text>`; `panic_at` writes the same
banner lines around `Time:     <timestamp>`, `PID:      <pid>`,
`Location: <file>:<line>` and `Message:  <text>`: the `Location:` line stands immediately
before the `Message:` line, and the labels `Time:`, `PID:` and `Message:` are followed by
one more space than in the output of `panic`. -/
theorem panic_at_output (W : HostWrite) (hW : HostWriteLive W) (fuel : Nat) (hf : 257 ≤ fuel)
    (time_buf : List Nat) (pid : Nat) (st : OsState) (msg file : Option (List Nat)) (line : Int)
    (ht : time_buf.length ≤ 63) (hp : pid < 2 ^ 64)
    (hm : (msg.getD (cstr "(null)")).length ≤ 244)
    (hfl : (file.getD (cstr "(unknown)")).length ≤ 232)
    (hl1 : -(2 ^ 31) ≤ line) (hl2 : line < 2 ^ 31) :
    ∃ e1 e2, panic W fuel time_buf pid st msg = .ok e1 ∧
      panic_at W fuel time_buf pid st msg file line = .ok e2 ∧ e1.code = 1 ∧ e2.code = 1 ∧
      e1.stderr.out = st.out ++ banner_top ++ banner_mid
        ++ (cstr "Time:    " ++ time_buf ++ cstr "\n")
        ++ (cstr "PID:     " ++ decimal pid ++ cstr "\n")
        ++ (cstr "Message: " ++ msg.getD (cstr "(null)") ++ cstr "\n") ++ banner_bottom ∧
      e2.stderr.out = st.out ++ banner_top ++ banner_mid
        ++ (cstr "Time:    " ++ cstr " " ++ time_buf ++ cstr "\n")
        ++ (cstr "PID:     " ++ cstr " " ++ decimal pid ++ cstr "\n")
        ++ (cstr "Location: " ++ file.getD (cstr "(unknown)") ++ cstr ":" ++ decimalInt line
          ++ cstr "\n")
        ++ (cstr "Message: " ++ cstr " " ++ msg.getD (cstr "(null)") ++ cstr "\n")
        ++ banner_bottom := by
  obtain ⟨e1, h1, c1, o1⟩ := (panic_cases W hW fuel hf time_buf pid st msg ht hp).1 (by omega)
  obtain ⟨e2, h2, c2, o2⟩ := panic_at_fits W hW fuel hf time_buf pid st msg file line ht hp hm
    hfl hl1 hl2
  have e3 : cstr "Time:    " ++ cstr " " = cstr "Time:     " := by decide
  have e4 : cstr "PID:     " ++ cstr " " = cstr "PID:      " := by decide
  have e5 : cstr "Message: " ++ cstr " " = cstr "Message:  " := by decide
  exact ⟨e1, e2, h1, h2, c1, c2, o1, by rw [e3, e4, e5, o2]⟩

/-- Witness for C32 (amended): the message `boom` at `main.reml:12`. -/
theorem panic_at_output_witness :
    ∃ e1 e2, panic fullWrite 257 (cstr "unknown") 7 ⟨[], 0⟩ (some (cstr "boom")) = .ok e1 ∧
      panic_at fullWrite 257 (cstr "unknown") 7 ⟨[], 0⟩ (some (cstr "boom"))
        (some (cstr "main.reml")) 12 = .ok e2 ∧ e1.code = 1 ∧ e2.code = 1 :=
  have ⟨e1, e2, h1, h2, c1, c2, _, _⟩ := panic_at_output fullWrite fullWrite_live 257
    (le_refl _) (cstr "unknown") 7 ⟨[], 0⟩ (some (cstr "boom")) (some (cstr "main.reml")) 12
    (by decide) (by decide) (by decide) (by decide) (by decide) (by decide)
  ⟨e1, e2, h1, h2, c1, c2⟩

/-! ## The representation invariant of sets (C39) -/

theorem set_new_ok {H : Host} (hH : HostOK H) (hs1 : HostServes H 32) (h : Heap) :
    ∃ raw, raw ≠ 0 ∧ memGet raw h.mem = none ∧
      reml_set_new H h = .ok ({ h with
        mem := (raw, .obj 1 REML_TAG_SET [0, 0, 0]) :: h.mem
        alloc_count := (h.alloc_count + 1) % SIZE_MOD }, raw + 8) := by
  obtain ⟨raw, hraw0, hfresh, hma⟩ := mem_alloc_set hH hs1 h
  refine ⟨raw, hraw0, hfresh, ?_⟩
  unfold reml_set_new
  simp only [hma, bind, Except.bind]
  simp [reml_set_type_tag, getObj, HEADER_SIZE, memGet, writeField, putObj, memSet, ofInt64,
    pure, Except.pure]

/-- The set `reml_set_new()` returns: a new object, empty, satisfying the invariant, and
every object live before is untouched. -/
theorem set_new_inv {H : Host} (hH : HostOK H) (hs1 : HostServes H 32) (h : Heap) :
    ∃ h0 s0, reml_set_new H h = .ok (h0, s0) ∧ s0 ≠ 0 ∧ getObj h s0 = none ∧
      IsSet h0 s0 [] ∧ SetInv h0 s0 [] ∧
      (∀ x, x ≠ s0 → getObj h0 x = getObj h x) := by
  obtain ⟨raw, hraw0, hfresh, hok⟩ := set_new_ok hH hs1 h
  have hg : getObj { h with
      mem := (raw, .obj 1 REML_TAG_SET [0, 0, 0]) :: h.mem
      alloc_count := (h.alloc_count + 1) % SIZE_MOD } (raw + 8)
      = some (1, REML_TAG_SET, [0, 0, 0]) :=
    getObj_some_iff.mpr ⟨by omega, by simp [memGet]⟩
  refine ⟨_, raw + 8, hok, by omega, by simp [getObj, HEADER_SIZE, hfresh],
    ⟨1, 0, 0, hg, by simp, fun hne => absurd rfl hne⟩,
    ⟨1, 0, 0, 0, hg, by decide, by decide, rfl, by decide, fun i hi => absurd hi (by simp),
      List.nodup_nil⟩, ?_⟩
  intro x hx
  unfold getObj HEADER_SIZE
  by_cases h8 : x < 8
  · simp [h8]
  · have : x - 8 ≠ raw := by omega
    simp [h8, memGet_cons_ne _ _ this]

theorem insertItems_nodup {xs : List Nat} (v : Nat) (hx : xs.Nodup) :
    (insertItems xs v).Nodup := by
  unfold insertItems
  by_cases hv : v ∈ xs
  · rw [if_pos hv]
    exact hx
  · rw [if_neg hv]
    exact List.Nodup.append hx (List.nodup_singleton v) (by simpa using hv)

/-- One `reml_set_insert` on a set with items `xs` returns a set that satisfies the
invariant with items `insertItems xs v`, and keeps every live object live. -/
theorem set_insert_inv (H : Host) (hH : HostOK H) (hserve : ∀ n, HostServes H n) (h : Heap)
    (s v : Nat) (xs : List Nat) (hn : (xs.length + 1) * 8 < 2 ^ 64) (hset : IsSet h s xs)
    (hnd : xs.Nodup)
    (hxs : ∀ x ∈ xs, x ≠ 0 → ∃ rc t pl, getObj h x = some (rc, t, pl))
    (hv : v ≠ 0 → ∃ rc t pl, getObj h v = some (rc, t, pl)) :
    ∃ h1 p, reml_set_insert H h s v = .ok (h1, p) ∧ p ≠ s ∧ IsSet h1 p (insertItems xs v) ∧
      SetInv h1 p (insertItems xs v) ∧
      (∀ x, (∃ rc t pl, getObj h x = some (rc, t, pl)) →
        ∃ rc t pl, getObj h1 x = some (rc, t, pl)) := by
  obtain ⟨hins, h1, p, hok, hne, hset1, hlive, _⟩ :=
    set_insert_spec H hH h s v xs (hserve _) (hserve _) (hserve _) hn hset hxs hv
  obtain ⟨h1', p', items, hok', _, _, hg, hi0, _, hbuf, _⟩ := hins
  rw [hok] at hok'
  cases hok'
  refine ⟨h1, p, hok, hne, hset1, ?_, hlive⟩
  obtain ⟨_, _, _, _, hlen, _⟩ := hset1
  have hpos := insertItems_pos xs v
  have hto := toInt64_length hlen
  refine ⟨1, _, _, items, hg, by rw [hto]; omega, hto, rfl, ?_, ?_, insertItems_nodup v hnd⟩
  · constructor
    · intro h0
      exact absurd h0 hi0
    · intro h0
      rw [hto] at h0
      omega
  · intro i hi
    exact readSlot_ok hbuf (List.getElem?_eq_getElem hi)

/-- A chain of insertions from a set that satisfies the invariant returns a set that
satisfies it. -/
theorem set_chain_inv (H : Host) (hH : HostOK H) (hserve : ∀ n, HostServes H n) :
    ∀ (vs : List Nat) (h : Heap) (s : Nat) (xs : List Nat), IsSet h s xs → SetInv h s xs →
      (∀ x ∈ xs, x ≠ 0 → ∃ rc t pl, getObj h x = some (rc, t, pl)) →
      (∀ v ∈ vs, v ≠ 0 → ∃ rc t pl, getObj h v = some (rc, t, pl)) →
      (xs.length + vs.length + 1) * 8 < 2 ^ 64 →
      ∃ h1 s1, set_chain H h s vs = .ok (h1, s1) ∧ SetInv h1 s1 (vs.foldl insertItems xs)
  | [], h, s, xs, _, hinv, _, _, _ => ⟨h, s, rfl, hinv⟩
  | v :: vs, h, s, xs, hset, hinv, hxs, hvs, hn => by
    have hnd : xs.Nodup := by
      obtain ⟨_, _, _, _, _, _, _, _, _, _, hnd⟩ := hinv
      exact hnd
    simp only [List.length_cons] at hn
    obtain ⟨h1, p, hok, _, hset1, hinv1, hlive⟩ := set_insert_inv H hH hserve h s v xs
      (by omega) hset hnd hxs (hvs v (List.mem_cons_self _ _))
    have hle := insertItems_length_le xs v
    obtain ⟨h2, s2, hch, hinv2⟩ := set_chain_inv H hH hserve vs h1 p (insertItems xs v) hset1
      hinv1
      (fun x hx hx0 => hlive x (insertItems_valid hxs (hvs v (List.mem_cons_self _ _)) x hx hx0))
      (fun w hw hw0 => hlive w (hvs w (List.mem_cons_of_mem _ hw) hw0))
      (by omega)
    exact ⟨h2, s2, by simp only [set_chain, hok, hch], by simpa using hinv2⟩

/-- C39: with a host allocator that serves every request, `reml_set_new()` returns a set
with `len = 0` that contains no pointer; and for every list of values, each null or a live
object, short enough for the items array to have a `size_t` size, `reml_set_new()`
followed by one `reml_set_insert` per value, each on the set the previous call returned,
returns a set with `len ≥ 0`, `capacity = len`, an `items` pointer that is null exactly
when `len = 0`, and `len` stored items that are pairwise distinct. -/
theorem set_invariant (H : Host) (hH : HostOK H) (hserve : ∀ n, HostServes H n) (h : Heap)
    (vs : List Nat) (hvs : ∀ v ∈ vs, v ≠ 0 → ∃ rc t pl, getObj h v = some (rc, t, pl))
    (hn : (vs.length + 1) * 8 < 2 ^ 64) :
    (∃ h0 s0, reml_set_new H h = .ok (h0, s0) ∧ reml_set_len h0 s0 = .ok 0 ∧
      (∀ w, reml_set_contains h0 s0 w = .ok 0) ∧ SetInv h0 s0 []) ∧
    ∃ h1 s xs, set_build H h vs = .ok (h1, s) ∧ SetInv h1 s xs ∧
      xs = vs.foldl insertItems [] := by
  obtain ⟨h0, s0, hok, hs0, hfresh, hset, hinv, hframe⟩ := set_new_inv hH (hserve 32) h
  refine ⟨⟨h0, s0, hok, ?_, ?_, hinv⟩, ?_⟩
  · rw [set_len_isSet hset]
    rfl
  · intro w
    rw [set_contains_isSet hset w]
    simp
  · have hvs0 : ∀ v ∈ vs, v ≠ 0 → ∃ rc t pl, getObj h0 v = some (rc, t, pl) := by
      intro v hv hv0
      obtain ⟨rc, t, pl, hg⟩ := hvs v hv hv0
      have hne : v ≠ s0 := by
        intro he
        rw [he, hfresh] at hg
        cases hg
      exact ⟨rc, t, pl, by rw [hframe v hne, hg]⟩
    obtain ⟨h1, s1, hch, hinv1⟩ := set_chain_inv H hH hserve vs h0 s0 [] hset hinv
      (fun x hx => absurd hx (by simp)) hvs0 (by simpa using hn)
    exact ⟨h1, s1, _, by simp only [set_build, hok, hch], hinv1, rfl⟩

/-- Witness for C39: from the sample heap, inserting the box at 24, a null pointer and the
box again gives a set that satisfies the invariant. -/
theorem set_invariant_witness :
    ∃ h1 s xs, set_build bumpHost sampleSetHeap [24, 0, 24] = .ok (h1, s) ∧ SetInv h1 s xs ∧
      xs = [24, 0] :=
  (set_invariant bumpHost bumpHost_ok bumpHost_serves sampleSetHeap [24, 0, 24]
    (by
      intro v hv hv0
      simp only [List.mem_cons, List.mem_singleton, List.not_mem_nil, or_false] at hv
      rcases hv with rfl | rfl | rfl
      · exact ⟨1, REML_TAG_INT, [7], by decide⟩
      · exact absurd rfl hv0
      · exact ⟨1, REML_TAG_INT, [7], by decide⟩)
    (by decide)).2

/-! ## Releasing a set (C36) -/

theorem set_step_done {h : Heap} {p i len : Nat} (fuel : Nat)
    (h0 : readField h p 0 = .ok len) (hc : ¬ (i : Int) < toInt64 len) :
    rcExec (fuel + 1) h (.setItems p i) = .ok h := by
  simp only [rcExec, h0, hc, if_false]

theorem set_step_dec {h hd : Heap} {p i len items x : Nat} (fuel : Nat)
    (h0 : readField h p 0 = .ok len) (hc : (i : Int) < toInt64 len)
    (h2 : readField h p 2 = .ok items) (hs : readSlot h items i = .ok x)
    (hdec : dec_ref fuel h x = .ok hd) :
    rcExec (fuel + 1) h (.setItems p i) = rcExec fuel hd (.setItems p (i + 1)) := by
  simp only [dec_ref] at hdec
  simp only [rcExec, h0, hc, if_true, h2, hs, hdec]

theorem dec_ref_null (fuel : Nat) (h : Heap) : dec_ref (fuel + 1) h 0 = .ok h := by
  simp [dec_ref, rcExec]

theorem not_leafTag_set : ¬ leafTag REML_TAG_SET := by
  rintro ⟨_, _, _, _, _, h9⟩
  exact h9 rfl

theorem destroy_switch_set {dec : Heap → Nat → Res Heap}
    {slots setItems : Heap → Nat → Nat → Res Heap} (h : Heap) (p : Nat) :
    destroy_switch dec slots setItems REML_TAG_SET h p = destroy_set setItems h p := by
  rfl

/-- The element loop of `destroy_set` returns and keeps `DestroyInv`; `k` slots are left
and `fuel` exceeds `k`. -/
theorem set_loop_inv (h : Heap) (slots : List Nat) (raw items len : Nat) (pl : List Nat)
    (hobj0 : memGet raw h.mem = some (.obj 1 REML_TAG_SET pl))
    (hbuf0 : memGet items h.mem = some (.buf slots))
    (hl0 : pl[0]? = some len) (hl2 : pl[2]? = some items)
    (hlen : toInt64 len = (slots.length : Int)) (hch : ChildrenOK h slots) :
    ∀ k i fuel cur, i + k = slots.length → k + 1 ≤ fuel →
      DestroyInv h slots raw items REML_TAG_SET pl i cur →
      ∃ fin, rcExec fuel cur (.setItems (raw + 8) i) = .ok fin ∧
        DestroyInv h slots raw items REML_TAG_SET pl slots.length fin := by
  intro k
  induction k with
  | zero =>
    intro i fuel cur hik hfuel hinv
    have hi : i = slots.length := by omega
    subst hi
    obtain ⟨fuel, rfl⟩ : ∃ f, fuel = f + 1 := ⟨fuel - 1, by omega⟩
    have hgc : getObj cur (raw + 8) = some (0, REML_TAG_SET, pl) :=
      getObj_some_iff.mpr ⟨by omega, by simpa using hinv.2.1⟩
    exact ⟨cur, set_step_done fuel (readField_of_getObj hgc hl0) (by rw [hlen]; omega), hinv⟩
  | succ k ih =>
    intro i fuel cur hik hfuel hinv
    have hi : i < slots.length := by omega
    obtain ⟨fuel, rfl⟩ : ∃ f, fuel = f + 1 := ⟨fuel - 1, by omega⟩
    obtain ⟨fuel, rfl⟩ : ∃ f, fuel = f + 1 := ⟨fuel - 1, by omega⟩
    obtain ⟨hbuf, hobj, hrest, hc1, hc2, hc3⟩ := hinv
    have hgc : getObj cur (raw + 8) = some (0, REML_TAG_SET, pl) :=
      getObj_some_iff.mpr ⟨by omega, by simpa using hobj⟩
    have hcond : (i : Int) < toInt64 len := by rw [hlen]; omega
    have hrs : readSlot cur items i = .ok slots[i] :=
      readSlot_ok hbuf (List.getElem?_eq_getElem hi)
    have hr0 := readField_of_getObj hgc hl0
    have hr2 := readField_of_getObj hgc hl2
    by_cases hx : slots[i] = 0
    · have hdec : dec_ref (fuel + 1) cur slots[i] = .ok cur := by
        rw [hx]
        exact dec_ref_null fuel cur
      rw [set_step_dec (fuel + 1) hr0 hcond hr2 hrs hdec]
      apply ih (i + 1) (fuel + 1) cur (by omega) (by omega)
      refine ⟨hbuf, hobj, ?_, hc1, hc2, ?_⟩
      · intro b hba hbr
        rw [hrest b hba hbr, count_take_succ slots i hi]
        have : ¬ slots[i] = b + 8 := by omega
        simp [this]
      · simp [nonNull_take_succ slots i hi, hx, hc3]
    · obtain ⟨rc, t, plx, hgx, hcnt, hrc, hleaf⟩ := hch slots[i] (List.getElem_mem hi) hx
      obtain ⟨hx8, hxm⟩ := getObj_some_iff.mp hgx
      have hxa : slots[i] - 8 ≠ items := by
        intro he
        rw [he, hbuf0] at hxm
        exact absurd hxm (by simp)
      have hlt := count_take_lt slots i hi
      have hxr : slots[i] - 8 ≠ raw := by
        intro he
        rw [he, hobj0] at hxm
        simp only [Option.some.injEq, Block.obj.injEq] at hxm
        obtain ⟨h1, h2, _⟩ := hxm
        subst h1 h2
        exact not_leafTag_set (hleaf (by omega))
      have e : slots[i] - 8 + 8 = slots[i] := by omega
      have hcur := hrest _ hxa hxr
      rw [hxm, e] at hcur
      have hjlt : (slots.take i).count slots[i] < rc := by omega
      simp only [Option.some_bind, dropBlock_obj_lt _ _ hjlt] at hcur
      have hgx2 : getObj cur slots[i] = some (rc - (slots.take i).count slots[i], t, plx) :=
        getObj_some_iff.mpr ⟨hx8, hcur⟩
      by_cases hlast : rc - (slots.take i).count slots[i] = 1
      · have hdec := dec_ref_last fuel hgx2 (by rw [hlast]; decide)
          (fun h2 _ => destroy_switch_leaf h2 _ (hleaf (by omega)))
        rw [set_step_dec (fuel + 1) hr0 hcond hr2 hrs hdec]
        apply ih (i + 1) (fuel + 1) _ (by omega) (by omega)
        refine ⟨?_, ?_, ?_, hc1, hc2, ?_⟩
        · simpa [memGet_memErase_ne _ (Ne.symm hxa)] using hbuf
        · simpa [memGet_memErase_ne _ (Ne.symm hxr)] using hobj
        · intro b hba hbr
          by_cases hbx : b = slots[i] - 8
          · subst hbx
            have : ¬ ((slots.take i).count slots[i] + 1 < rc) := by omega
            simp [memGet_memErase_same, hxm, count_take_succ slots i hi, e,
              dropBlock_obj_ge _ _ (Nat.succ_pos _) this]
          · have : ¬ slots[i] = b + 8 := by omega
            simp [memGet_memErase_ne _ hbx, hrest b hba hbr, count_take_succ slots i hi, this]
        · simp [nonNull_take_succ slots i hi, hx, hc3, countN]
      · have e2 : (rc - (slots.take i).count slots[i] + (U32_MOD - 1)) % U32_MOD
            = rc - (slots.take i).count slots[i] - 1 := by
          unfold U32_MOD at hrc ⊢
          omega
        have hdec := dec_ref_live_pos fuel hgx2 (by rw [e2]; omega)
        rw [e2] at hdec
        rw [set_step_dec (fuel + 1) hr0 hcond hr2 hrs hdec]
        apply ih (i + 1) (fuel + 1) _ (by omega) (by omega)
        refine ⟨?_, ?_, ?_, hc1, hc2, ?_⟩
        · simpa [memGet_memSet_ne _ _ (Ne.symm hxa)] using hbuf
        · simpa [memGet_memSet_ne _ _ (Ne.symm hxr)] using hobj
        · intro b hba hbr
          by_cases hbx : b = slots[i] - 8
          · subst hbx
            have h3 : (slots.take i).count slots[i] + 1 < rc := by omega
            have h4 : rc - (slots.take i).count slots[i] - 1
                = rc - ((slots.take i).count slots[i] + 1) := by omega
            simp [memGet_memSet_same, hcur, hxm, count_take_succ slots i hi, e,
              dropBlock_obj_lt _ _ h3, h4]
          · have : ¬ slots[i] = b + 8 := by omega
            simp [memGet_memSet_ne _ _ hbx, hrest b hba hbr, count_take_succ slots i hi, this]
        · simp [nonNull_take_succ slots i hi, hx, hc3, countN]

theorem destroy_set_run {loop : Heap → Nat → Nat → Res Heap} {h h1 h2 : Heap}
    {p items items1 : Nat} (hr : readField h p 2 = .ok items) (hi : items ≠ 0)
    (hl : loop h p 0 = .ok h1) (hr1 : readField h1 p 2 = .ok items1)
    (hf : hostFree h1 items1 = .ok h2) :
    destroy_set loop h p = writeField h2 p 2 0 := by
  simp [destroy_set, hr, hi, hl, hr1, hf, bind, Except.bind]

/-- Releasing the last reference to a set whose items satisfy `ChildrenOK`: the call
returns; the set and its items array are gone; block by block, every other header has
dropped by the number of slots holding its payload pointer, and a block whose refcount was
exhausted is gone. -/
theorem dec_ref_set (h : Heap) (slots : List Nat) (c items len : Nat) (pl : List Nat)
    (hg : getObj h c = some (1, REML_TAG_SET, pl))
    (hl0 : pl[0]? = some len) (hl2 : pl[2]? = some items) (hi0 : items ≠ 0)
    (hbuf0 : memGet items h.mem = some (.buf slots))
    (hlen : toInt64 len = (slots.length : Int)) (hch : ChildrenOK h slots) (extra : Nat) :
    ∃ h1, dec_ref (slots.length + 2 + extra) h c = .ok h1 ∧
      memGet (c - 8) h1.mem = none ∧ memGet items h1.mem = none ∧
      (∀ b, b ≠ c - 8 → b ≠ items →
        memGet b h1.mem = (memGet b h.mem).bind (dropBlock (slots.count (b + 8)))) ∧
      h1.alloc_count = h.alloc_count ∧ h1.inc_ref_count = h.inc_ref_count ∧
      h1.dec_ref_count = countN (nonNull slots + 1) h.dec_ref_count := by
  obtain ⟨hc8, hobj0⟩ := getObj_some_iff.mp hg
  obtain ⟨raw, rfl⟩ : ∃ r, c = r + 8 := ⟨c - 8, by omega⟩
  simp only [Nat.add_sub_cancel] at hobj0 ⊢
  have hir : items ≠ raw := by
    intro he
    rw [he, hobj0] at hbuf0
    exact absurd hbuf0 (by simp)
  have hfuel : slots.length + 2 + extra = (slots.length + 1 + extra) + 1 := by omega
  rw [hfuel, dec_ref_zero_unfold _ hg (by decide), destroy_switch_set]
  simp only [Nat.add_sub_cancel]
  have hinv : DestroyInv h slots raw items REML_TAG_SET pl 0
      { h with
        mem := memSet raw (.obj 0 REML_TAG_SET pl) h.mem
        dec_ref_count := (h.dec_ref_count + 1) % SIZE_MOD
        destroy_count := (h.destroy_count + 1) % SIZE_MOD } := by
    refine ⟨by simpa [memGet_memSet_ne _ _ hir] using hbuf0,
      by simp [memGet_memSet_same, hobj0], ?_, rfl, rfl, by simp [nonNull, countN]⟩
    intro b _ hbr
    simp [memGet_memSet_ne _ _ hbr, bind_dropBlock_zero]
  obtain ⟨fin, hloop, hfin⟩ := set_loop_inv h slots raw items len pl hobj0 hbuf0 hl0 hl2
    hlen hch slots.length 0 (slots.length + 1 + extra) _ (by omega) (by omega) hinv
  obtain ⟨hbuf, hobj, hrest, hc1, hc2, hc3⟩ := hfin
  simp only [List.take_length] at hrest hc3
  have hg2 : getObj { h with
      mem := memSet raw (.obj 0 REML_TAG_SET pl) h.mem
      dec_ref_count := (h.dec_ref_count + 1) % SIZE_MOD
      destroy_count := (h.destroy_count + 1) % SIZE_MOD } (raw + 8)
      = some (0, REML_TAG_SET, pl) :=
    getObj_some_iff.mpr ⟨by omega, by simp [memGet_memSet_same, hobj0]⟩
  have hgf : getObj fin (raw + 8) = some (0, REML_TAG_SET, pl) :=
    getObj_some_iff.mpr ⟨by omega, by simpa using hobj⟩
  have hfree : hostFree fin items = .ok { fin with mem := memErase items fin.mem } := by
    simp [hostFree, hbuf]
  rw [destroy_set_run (readField_of_getObj hg2 hl2) hi0 hloop
    (readField_of_getObj hgf hl2) hfree]
  have hge : getObj { fin with mem := memErase items fin.mem } (raw + 8)
      = some (0, REML_TAG_SET, pl) :=
    getObj_some_iff.mpr ⟨by omega, by simpa [memGet_memErase_ne _ (Ne.symm hir)] using hobj⟩
  have hl : 2 < pl.length := by
    rcases Nat.lt_or_ge 2 pl.length with h | h
    · exact h
    · rw [List.getElem?_eq_none h] at hl2
      exact absurd hl2 (by simp)
  have hwf : writeField { fin with mem := memErase items fin.mem } (raw + 8) 2 0
      = .ok (putObj { fin with mem := memErase items fin.mem } (raw + 8) 0 REML_TAG_SET
          (pl.set 2 0)) := by
    simp [writeField, hge, hl]
  rw [hwf]
  have hgw : getObj (putObj { fin with mem := memErase items fin.mem } (raw + 8) 0 REML_TAG_SET
      (pl.set 2 0)) (raw + 8) = some (0, REML_TAG_SET, pl.set 2 0) :=
    getObj_putObj_same _ _ _ hge
  simp only [mem_free_live hgw (by decide)]
  refine ⟨_, rfl, ?_, ?_, ?_, hc1, hc2, hc3⟩
  · simp [memGet_memErase_same]
  · simp [putObj, HEADER_SIZE, memGet_memErase_ne _ hir, memGet_memSet_ne _ _ hir,
      memGet_memErase_same]
  · intro b hbr hbi
    simp [putObj, HEADER_SIZE, memGet_memErase_ne _ hbr, memGet_memSet_ne _ _ hbr,
      memGet_memErase_ne _ hbi, hrest b hbi hbr]


/-- The call `reml_set_insert(s, v)` followed by `dec_ref` of its result, on items that are
null or live with a positive refcount that does not wrap during the insertion: both calls
return, the new set and its items array are freed, and every block of memory is what it was
before the insertion. -/
theorem set_insert_release (H : Host) (hH : HostOK H) (h : Heap) (s v : Nat) (xs : List Nat)
    (hs1 : HostServes H 32) (hs2 : HostServes H ((insertItems xs v).length * 8))
    (hn : (insertItems xs v).length * 8 < 2 ^ 64) (hset : IsSet h s xs)
    (hvalid : ∀ x ∈ insertItems xs v, x ≠ 0 → ∃ rc t pl, getObj h x = some (rc, t, pl) ∧
      1 ≤ rc ∧ rc + (insertItems xs v).count x < U32_MOD) (extra : Nat) :
    ∃ h1 r items h2, reml_set_insert H h s v = .ok (h1, r) ∧ getObj h r = none ∧
      getObj h1 r = some (1, REML_TAG_SET,
        [(insertItems xs v).length, (insertItems xs v).length, items]) ∧
      memGet items h.mem = none ∧ memGet items h1.mem = some (.buf (insertItems xs v)) ∧
      (∀ x rc t pl, getObj h x = some (rc, t, pl) → rc + (insertItems xs v).count x < U32_MOD →
        getObj h1 x = some (rc + (insertItems xs v).count x, t, pl)) ∧
      dec_ref ((insertItems xs v).length + 2 + extra) h1 r = .ok h2 ∧
      getObj h2 r = none ∧ memGet items h2.mem = none ∧
      (∀ b, memGet b h2.mem = memGet b h.mem) ∧
      h2.dec_ref_count = countN (nonNull (insertItems xs v) + 1) h.dec_ref_count := by
  have hvalid1 : ∀ x ∈ insertItems xs v, x ≠ 0 → ∃ rc t pl, getObj h x = some (rc, t, pl) := by
    intro x hx hx0
    obtain ⟨rc, t, pl, hg, _⟩ := hvalid x hx hx0
    exact ⟨rc, t, pl, hg⟩
  obtain ⟨rc0, cap, sitems, hg, hlen, hb⟩ := hset
  obtain ⟨h1, raw, a, hok, hraw0, hfresh, ha0, har, hfa, hbuf, hobj, hrest, hc1, hc2, hc3, hc4,
    hc5⟩ := set_insert_ok H hH h s v rc0 REML_TAG_SET cap sitems xs hs1 hs2 hn hg hb
      (valid_args_mem hvalid1)
  have hgr : getObj h1 (raw + 8) = some (1, REML_TAG_SET,
      [(insertItems xs v).length, (insertItems xs v).length, a]) :=
    getObj_some_iff.mpr ⟨by omega, by simpa using hobj⟩
  have hgr0 : getObj h (raw + 8) = none := by simp [getObj, HEADER_SIZE, hfresh]
  have hbump : ∀ x rc t pl, getObj h x = some (rc, t, pl) →
      rc + (insertItems xs v).count x < U32_MOD →
      getObj h1 x = some (rc + (insertItems xs v).count x, t, pl) := by
    intro x rc t pl hgx hlt
    obtain ⟨hx8, hxm⟩ := getObj_some_iff.mp hgx
    have hxr : x - 8 ≠ raw := by
      intro he
      rw [he, hfresh] at hxm
      exact absurd hxm (by simp)
    have hxa : x - 8 ≠ a := by
      intro he
      rw [he, hfa] at hxm
      exact absurd hxm (by simp)
    have e : x - 8 + 8 = x := by omega
    have hbx := hrest (x - 8) hxa hxr
    rw [hxm, e] at hbx
    simp only [Option.map_some', bumpBlock, incN_eq _ _ (show rc < U32_MOD by omega),
      Nat.mod_eq_of_lt hlt] at hbx
    exact getObj_some_iff.mpr ⟨hx8, hbx⟩
  have hback : ∀ b, b ≠ raw → b ≠ a →
      (memGet b h1.mem).bind (dropBlock ((insertItems xs v).count (b + 8)))
        = memGet b h.mem := by
    intro b hbr hba
    rw [hrest b hba hbr]
    cases hm : memGet b h.mem with
    | none => rfl
    | some blk =>
      simp only [Option.map_some', Option.some_bind]
      apply drop_bump_block
      intro rc t pl hblk hj
      have hmem : b + 8 ∈ insertItems xs v := List.count_pos_iff.mp hj
      obtain ⟨rc2, t2, pl2, hg2, h1rc, h2rc⟩ := hvalid (b + 8) hmem (by omega)
      have hm2 := (getObj_some_iff.mp hg2).2
      rw [Nat.add_sub_cancel, hm, hblk] at hm2
      simp only [Option.some.injEq, Block.obj.injEq] at hm2
      obtain ⟨rfl, _, _⟩ := hm2
      exact ⟨h1rc, h2rc⟩
  have hch : ChildrenOK h1 (insertItems xs v) := by
    intro x hx hx0
    obtain ⟨rc, t, pl, hgx, h1rc, h2rc⟩ := hvalid x hx hx0
    exact ⟨rc + (insertItems xs v).count x, t, pl, hbump x rc t pl hgx h2rc, by omega, h2rc,
      fun he => absurd he (by omega)⟩
  have hl63 : (insertItems xs v).length < 2 ^ 63 := by omega
  obtain ⟨h2, hdec, hr2, hi2, hrest2, _, _, hcd⟩ := dec_ref_set h1 (insertItems xs v) (raw + 8) a
    (insertItems xs v).length [(insertItems xs v).length, (insertItems xs v).length, a] hgr rfl
    rfl ha0 hbuf (toInt64_of_lt hl63) hch extra
  simp only [Nat.add_sub_cancel] at hr2 hrest2
  refine ⟨h1, raw + 8, a, h2, hok, hgr0, hgr, hfa, hbuf, hbump, hdec, ?_, hi2, ?_, ?_⟩
  · simp [getObj, HEADER_SIZE, hr2]
  · intro b
    by_cases hbr : b = raw
    · subst hbr
      rw [hr2, hfresh]
    · by_cases hba : b = a
      · subst hba
        rw [hi2, hfa]
      · rw [hrest2 b hbr hba, hback b hbr hba]
  · rw [hcd, hc4]

/-- C36: for every set `s` with pairwise distinct items and every pointer `v`, the items
and `v` being null or live objects with a refcount of at least 1 and below the 32-bit
maximum `2^32 - 1` (the host serving the two allocations), `r = reml_set_insert(s, v)`
followed immediately by `dec_ref(r)`: both calls return; each item stored in `r` is
retained once by the insertion and released once by the destructor (one `dec_ref` per
non-null item and one for `r`); afterwards every item of `s`, `v` and `s` itself have the
header they had before the insertion and are still live, and `r` and its items array,
allocated by the insertion, are freed. -/
theorem set_insert_then_release (H : Host) (hH : HostOK H) (h : Heap) (s v : Nat)
    (xs : List Nat) (hs1 : HostServes H 32)
    (hs2 : HostServes H ((insertItems xs v).length * 8))
    (hn : (insertItems xs v).length * 8 < 2 ^ 64) (hset : IsSet h s xs) (hnd : xs.Nodup)
    (hvalid : ∀ x ∈ insertItems xs v, x ≠ 0 → ∃ rc t pl, getObj h x = some (rc, t, pl) ∧
      1 ≤ rc ∧ rc < U32_MOD - 1) (extra : Nat) :
    ∃ h1 r items h2, reml_set_insert H h s v = .ok (h1, r) ∧ getObj h r = none ∧
      getObj h1 r = some (1, REML_TAG_SET,
        [(insertItems xs v).length, (insertItems xs v).length, items]) ∧
      memGet items h.mem = none ∧ memGet items h1.mem = some (.buf (insertItems xs v)) ∧
      (∀ x ∈ insertItems xs v, x ≠ 0 → ∀ rc t pl, getObj h x = some (rc, t, pl) →
        getObj h1 x = some (rc + 1, t, pl)) ∧
      dec_ref ((insertItems xs v).length + 2 + extra) h1 r = .ok h2 ∧
      h2.dec_ref_count = countN (nonNull (insertItems xs v) + 1) h.dec_ref_count ∧
      (∀ x ∈ insertItems xs v, x ≠ 0 → getObj h2 x = getObj h x ∧ getObj h2 x ≠ none) ∧
      getObj h2 s = getObj h s ∧ getObj h2 s ≠ none ∧
      getObj h2 r = none ∧ memGet items h2.mem = none ∧
      (∀ b, memGet b h2.mem = memGet b h.mem) := by
  have hnd2 := insertItems_nodup v hnd
  have hcount : ∀ x ∈ insertItems xs v, (insertItems xs v).count x = 1 :=
    fun x hx => List.count_eq_one_of_mem hnd2 hx
  obtain ⟨h1, r, items, h2, hok, hr0, hr1, hi0, hi1, hbump, hdec, hr2, hi2, hmem, hcd⟩ :=
    set_insert_release H hH h s v xs hs1 hs2 hn hset
      (fun x hx hx0 => by
        obtain ⟨rc, t, pl, hg, h1rc, h2rc⟩ := hvalid x hx hx0
        exact ⟨rc, t, pl, hg, h1rc, by rw [hcount x hx]; omega⟩) extra
  have hsame : ∀ x, getObj h2 x = getObj h x := by
    intro x
    unfold getObj
    rw [hmem]
  obtain ⟨rc0, cap, sitems, hgs, _⟩ := hset
  refine ⟨h1, r, items, h2, hok, hr0, hr1, hi0, hi1, ?_, hdec, hcd, ?_, hsame s, ?_, hr2, hi2,
    hmem⟩
  · intro x hx hx0 rc t pl hg
    obtain ⟨rc2, t2, pl2, hg2, _, h2rc⟩ := hvalid x hx hx0
    rw [hg] at hg2
    cases hg2
    have := hbump x rc t pl hg (by rw [hcount x hx]; omega)
    rwa [hcount x hx] at this
  · intro x hx hx0
    obtain ⟨rc, t, pl, hg, _⟩ := hvalid x hx hx0
    exact ⟨hsame x, by rw [hsame x, hg]; simp⟩
  · rw [hsame s, hgs]
    simp

/-- Witness for C36: inserting the box of the sample heap into the sample set, which holds
it already, and releasing the result. -/
theorem set_insert_then_release_witness :
    ∃ h1 r h2, reml_set_insert bumpHost sampleSetHeap 56 24 = .ok (h1, r) ∧
      dec_ref ((insertItems [24] 24).length + 2 + 0) h1 r = .ok h2 ∧
      getObj h2 24 = getObj sampleSetHeap 24 ∧ getObj h2 r = none :=
  have ⟨h1, r, _, h2, hok, _, _, _, _, _, hdec, _, hx, _, _, hr, _⟩ :=
    set_insert_then_release bumpHost bumpHost_ok sampleSetHeap 56 24 [24] (bumpHost_serves _)
      (bumpHost_serves _) (by decide) sampleSetHeap_isSet (by decide)
      (by
        intro x hx hx0
        have hx24 : x = 24 := by
          have : insertItems [24] 24 = [24] := by decide
          rw [this] at hx
          simpa using hx
        subst hx24
        exact ⟨1, REML_TAG_INT, [7], by decide, by decide, by decide⟩) 0
  ⟨h1, r, h2, hok, hdec, (hx 24 (by decide) (by decide)).1, hr⟩

/-! ## Counting destructor runs -/

theorem mem_keys_of_memGet {k : Nat} {m : Mem} (h : memGet k m ≠ none) :
    k ∈ m.map Prod.fst := by
  induction m with
  | nil => exact absurd rfl h
  | cons e m ih =>
    obtain ⟨a, b⟩ := e
    by_cases ha : a = k
    · simp [ha]
    · simp only [memGet, ha, if_false] at h
      simp [ih h]

theorem mem_objKeys {k : Nat} {m : Mem} : k ∈ objKeys m ↔ isObj (memGet k m) = true := by
  unfold objKeys
  rw [Finset.mem_filter, List.mem_toFinset]
  constructor
  · exact fun h => h.2
  · intro h
    refine ⟨mem_keys_of_memGet ?_, h⟩
    intro hn
    rw [hn] at h
    exact absurd h (by decide)

theorem objKeys_congr {m m1 : Mem} (h : ∀ a, isObj (memGet a m1) = isObj (memGet a m)) :
    objKeys m1 = objKeys m := by
  ext k
  rw [mem_objKeys, mem_objKeys, h]

theorem objKeys_card_erase {m m1 : Mem} {a : Nat} (ha : isObj (memGet a m) = true)
    (ha1 : isObj (memGet a m1) = false)
    (h : ∀ b, b ≠ a → isObj (memGet b m1) = isObj (memGet b m)) :
    (objKeys m1).card + 1 = (objKeys m).card := by
  have e : objKeys m1 = (objKeys m).erase a := by
    ext k
    rw [Finset.mem_erase, mem_objKeys, mem_objKeys]
    by_cases hk : k = a
    · subst hk
      simp [ha1]
    · simp [hk, h k hk]
  rw [e, Finset.card_erase_of_mem (mem_objKeys.mpr ha)]
  have : 0 < (objKeys m).card := Finset.card_pos.mpr ⟨a, mem_objKeys.mpr ha⟩
  omega

theorem countN_add (a b c : Nat) : countN (a + b) c = countN b (countN a c) := by
  induction b with
  | zero => rfl
  | succ b ih =>
    rw [← Nat.add_assoc]
    simp only [countN, ih]

theorem countN_succ_comm (d c : Nat) : countN d ((c + 1) % SIZE_MOD) = countN (d + 1) c := by
  have h1 : (c + 1) % SIZE_MOD = countN 1 c := rfl
  rw [h1, ← countN_add, Nat.add_comm]

theorem destroyed_refl (h : Heap) : Destroyed h h 0 :=
  ⟨rfl, rfl, rfl, rfl, rfl⟩

theorem destroyed_trans {h h1 h2 : Heap} {d1 d2 : Nat} (a : Destroyed h h1 d1)
    (b : Destroyed h1 h2 d2) : Destroyed h h2 (d1 + d2) := by
  obtain ⟨a1, a2, a3, a4, a5⟩ := a
  obtain ⟨b1, b2, b3, b4, b5⟩ := b
  refine ⟨by rw [b1, a1, countN_add], by rw [b2, a2, countN_add], by omega, by rw [b4, a4],
    by rw [b5, a5]⟩

/-- A step that keeps the set of allocated objects and the four counters. -/
theorem destroyed_same {h h1 : Heap}
    (hm : ∀ a, isObj (memGet a h1.mem) = isObj (memGet a h.mem))
    (h1f : h1.free_count = h.free_count) (h1d : h1.destroy_count = h.destroy_count)
    (h1a : h1.alloc_count = h.alloc_count) (h1i : h1.inc_ref_count = h.inc_ref_count) :
    Destroyed h h1 0 :=
  ⟨h1f, h1d, by simp [objCount, objKeys_congr hm], h1a, h1i⟩

theorem isObj_memSet_obj {a : Nat} {m : Mem} (rc t : Nat) (pl : List Nat)
    (ha : isObj (memGet a m) = true) (b : Nat) :
    isObj (memGet b (memSet a (.obj rc t pl) m)) = isObj (memGet b m) := by
  by_cases hb : b = a
  · subst hb
    rw [memGet_memSet_same]
    cases hm : memGet b m with
    | none => rw [hm] at ha; exact absurd ha (by decide)
    | some blk =>
      rw [hm] at ha
      rw [ha]
      rfl
  · rw [memGet_memSet_ne _ _ hb]

theorem isObj_of_getObj {h : Heap} {p rc t : Nat} {pl : List Nat}
    (hg : getObj h p = some (rc, t, pl)) : isObj (memGet (p - 8) h.mem) = true := by
  rw [(getObj_some_iff.mp hg).2]
  rfl

theorem writeField_destroyed {h h1 : Heap} {p i w : Nat} (hw : writeField h p i w = .ok h1) :
    Destroyed h h1 0 := by
  unfold writeField at hw
  cases hg : getObj h p with
  | none => simp [hg] at hw
  | some o =>
    obtain ⟨rc, t, pl⟩ := o
    simp only [hg] at hw
    split at hw
    · cases hw
      exact destroyed_same (fun a => isObj_memSet_obj _ _ _ (isObj_of_getObj hg) a) rfl rfl rfl
        rfl
    · cases hw

theorem hostFree_destroyed {h h1 : Heap} {a : Nat} (hw : hostFree h a = .ok h1) :
    Destroyed h h1 0 := by
  unfold hostFree at hw
  cases hm : memGet a h.mem with
  | none => simp [hm] at hw
  | some blk =>
    cases blk with
    | obj rc t pl => simp [hm] at hw
    | buf bs =>
      simp only [hm] at hw
      cases hw
      refine destroyed_same (fun b => ?_) rfl rfl rfl rfl
      by_cases hb : b = a
      · subst hb
        simp [memGet_memErase_same, hm, isObj]
      · simp [memGet_memErase_ne _ hb]

theorem mem_free_destroyed {h h1 : Heap} {p : Nat} (hp : p ≠ 0) (hw : mem_free h p = .ok h1) :
    h1.free_count = (h.free_count + 1) % SIZE_MOD ∧ h1.destroy_count = h.destroy_count ∧
      objCount h1 + 1 = objCount h ∧ h1.alloc_count = h.alloc_count ∧
      h1.inc_ref_count = h.inc_ref_count := by
  unfold mem_free at hw
  rw [if_neg hp] at hw
  cases hg : getObj h p with
  | none => simp [hg] at hw
  | some o =>
    obtain ⟨rc, t, pl⟩ := o
    simp only [hg] at hw
    split at hw
    · cases hw
    · cases hw
      refine ⟨rfl, rfl, ?_, rfl, rfl⟩
      simp only [HEADER_SIZE]
      exact objKeys_card_erase (isObj_of_getObj hg) (by simp [memGet_memErase_same, isObj])
        (fun b hb => by simp [memGet_memErase_ne _ hb])


theorem destroy_slots_destroyed {loop : Heap → Nat → Nat → Res Heap}
    (hloop : ∀ s q i s1, loop s q i = .ok s1 → ∃ d, Destroyed s s1 d) {h h1 : Heap} {p : Nat}
    (hr : destroy_slots loop h p = .ok h1) : ∃ d, Destroyed h h1 d := by
  unfold destroy_slots at hr
  by_cases hp : p = 0
  · rw [if_pos hp] at hr
    cases hr
    exact ⟨0, destroyed_refl _⟩
  · rw [if_neg hp] at hr
    cases h0 : readField h p 1 with
    | error e => simp [h0, bind, Except.bind] at hr
    | ok items =>
      simp only [h0, bind, Except.bind] at hr
      by_cases hi : items ≠ 0
      · simp only [hi, ne_eq, not_false_eq_true, if_true] at hr
        cases hl : loop h p 0 with
        | error e => simp [hl] at hr
        | ok s1 =>
          simp only [hl] at hr
          cases h1r : readField s1 p 1 with
          | error e => simp [h1r] at hr
          | ok items1 =>
            simp only [h1r] at hr
            cases hf : hostFree s1 items1 with
            | error e => simp [hf] at hr
            | ok s2 =>
              simp only [hf] at hr
              obtain ⟨d, hd⟩ := hloop _ _ _ _ hl
              have := destroyed_trans (destroyed_trans hd (hostFree_destroyed hf))
                (writeField_destroyed hr)
              exact ⟨_, this⟩
      · simp only [hi, if_false, pure, Except.pure] at hr
        cases hr
        exact ⟨0, destroyed_refl _⟩

theorem destroy_set_destroyed {loop : Heap → Nat → Nat → Res Heap}
    (hloop : ∀ s q i s1, loop s q i = .ok s1 → ∃ d, Destroyed s s1 d) {h h1 : Heap} {p : Nat}
    (hr : destroy_set loop h p = .ok h1) : ∃ d, Destroyed h h1 d := by
  unfold destroy_set at hr
  cases h0 : readField h p 2 with
  | error e => simp [h0, bind, Except.bind] at hr
  | ok items =>
    simp only [h0, bind, Except.bind] at hr
    by_cases hi : items ≠ 0
    · simp only [hi, ne_eq, not_false_eq_true, if_true] at hr
      cases hl : loop h p 0 with
      | error e => simp [hl] at hr
      | ok s1 =>
        simp only [hl] at hr
        cases h1r : readField s1 p 2 with
        | error e => simp [h1r] at hr
        | ok items1 =>
          simp only [h1r] at hr
          cases hf : hostFree s1 items1 with
          | error e => simp [hf] at hr
          | ok s2 =>
            simp only [hf] at hr
            obtain ⟨d, hd⟩ := hloop _ _ _ _ hl
            have := destroyed_trans (destroyed_trans hd (hostFree_destroyed hf))
              (writeField_destroyed hr)
            exact ⟨_, this⟩
    · simp only [hi, if_false, pure, Except.pure] at hr
      cases hr
      exact ⟨0, destroyed_refl _⟩

theorem destroy_switch_destroyed {dec : Heap → Nat → Res Heap}
    {slots setItems : Heap → Nat → Nat → Res Heap}
    (hdec : ∀ s q s1, dec s q = .ok s1 → ∃ d, Destroyed s s1 d)
    (hslots : ∀ s q i s1, slots s q i = .ok s1 → ∃ d, Destroyed s s1 d)
    (hset : ∀ s q i s1, setItems s q i = .ok s1 → ∃ d, Destroyed s s1 d)
    {tag : Nat} {h h1 : Heap} {p : Nat}
    (hr : destroy_switch dec slots setItems tag h p = .ok h1) : ∃ d, Destroyed h h1 d := by
  unfold destroy_switch at hr
  split at hr
  · cases hr
    exact ⟨0, destroyed_refl _⟩
  split at hr
  · exact destroy_slots_destroyed hslots hr
  split at hr
  · exact destroy_slots_destroyed hslots hr
  split at hr
  · exact destroy_slots_destroyed hslots hr
  split at hr
  · unfold destroy_closure at hr
    cases h0 : readField h p 0 with
    | error e => simp [h0] at hr
    | ok env =>
      simp only [h0] at hr
      split at hr
      · exact hdec _ _ _ hr
      · cases hr
        exact ⟨0, destroyed_refl _⟩
  split at hr
  · unfold destroy_adt at hr
    cases h0 : readField h p 1 with
    | error e => simp [h0] at hr
    | ok payload =>
      simp only [h0] at hr
      split at hr
      · exact hdec _ _ _ hr
      · cases hr
        exact ⟨0, destroyed_refl _⟩
  split at hr
  · exact destroy_set_destroyed hset hr
  · cases hr
    exact ⟨0, destroyed_refl _⟩

/-- Whenever `dec_ref` or one of the destructor loops returns, the counters have moved as
by some number `d` of complete destructions: `d` objects fewer are allocated, and the
destruction counter and the free counter have each moved `d` times. -/
theorem rcExec_destroyed : ∀ (fuel : Nat) (h : Heap) (c : RcCall) (h1 : Heap),
    rcExec fuel h c = .ok h1 → ∃ d, Destroyed h h1 d := by
  intro fuel
  induction fuel with
  | zero =>
    intro h c h1 hr
    simp [rcExec] at hr
  | succ fuel ih =>
    intro h c h1 hr
    cases c with
    | dec ptr =>
      simp only [rcExec] at hr
      by_cases hp : ptr = 0
      · rw [if_pos hp] at hr
        cases hr
        exact ⟨0, destroyed_refl _⟩
      · rw [if_neg hp] at hr
        cases hg : getObj h ptr with
        | none => simp [hg] at hr
        | some o =>
          obtain ⟨rc, tag, pl⟩ := o
          simp only [hg] at hr
          have hset : Destroyed h { h with
              mem := memSet (ptr - HEADER_SIZE) (.obj ((rc + (U32_MOD - 1)) % U32_MOD) tag pl)
                h.mem
              dec_ref_count := (h.dec_ref_count + 1) % SIZE_MOD } 0 :=
            destroyed_same (fun a => isObj_memSet_obj _ _ _ (isObj_of_getObj hg) a) rfl rfl rfl
              rfl
          by_cases hz : (rc + (U32_MOD - 1)) % U32_MOD = 0
          · simp only [hz, if_true] at hr
            split at hr
            · cases hr
            · rename_i h3 hds
              obtain ⟨d, hd⟩ := destroy_switch_destroyed
                (fun s q s1 hs => ih s (.dec q) s1 hs)
                (fun s q i s1 hs => ih s (.slots q i) s1 hs)
                (fun s q i s1 hs => ih s (.setItems q i) s1 hs) hds
              obtain ⟨f1, f2, f3, f4, f5⟩ := mem_free_destroyed hp hr
              obtain ⟨d1, d2, d3, d4, d5⟩ := hd
              rw [hz] at hset
              obtain ⟨s1, s2, s3, s4, s5⟩ := hset
              simp only [countN] at s1 s2
              refine ⟨d + 1, ?_, ?_, ?_, ?_, ?_⟩
              · rw [f1, d1]
                simp only [countN]
              · rw [f2, d2]
                exact countN_succ_comm d _
              · simp only [objCount] at d3 s3 f3 ⊢
                simp only [Nat.add_zero] at s3
                rw [← s3, ← d3]
                omega
              · rw [f4, d4]
              · rw [f5, d5]
          · simp only [hz, if_false] at hr
            cases hr
            exact ⟨0, hset⟩
    | slots ptr i =>
      simp only [rcExec] at hr
      cases h0 : readField h ptr 0 with
      | error e => simp [h0] at hr
      | ok len =>
        simp only [h0] at hr
        split at hr
        · cases h1r : readField h ptr 1 with
          | error e => simp [h1r] at hr
          | ok items =>
            simp only [h1r] at hr
            cases hs : readSlot h items i with
            | error e => simp [hs] at hr
            | ok item =>
              simp only [hs] at hr
              split at hr
              · cases hd : rcExec fuel h (.dec item) with
                | error e => simp [hd] at hr
                | ok s1 =>
                  simp only [hd] at hr
                  obtain ⟨d1, hd1⟩ := ih _ _ _ hd
                  obtain ⟨d2, hd2⟩ := ih _ _ _ hr
                  exact ⟨_, destroyed_trans hd1 hd2⟩
              · exact ih _ _ _ hr
        · cases hr
          exact ⟨0, destroyed_refl _⟩
    | setItems ptr i =>
      simp only [rcExec] at hr
      cases h0 : readField h ptr 0 with
      | error e => simp [h0] at hr
      | ok len =>
        simp only [h0] at hr
        split at hr
        · cases h1r : readField h ptr 2 with
          | error e => simp [h1r] at hr
          | ok items =>
            simp only [h1r] at hr
            cases hs : readSlot h items i with
            | error e => simp [hs] at hr
            | ok item =>
              simp only [hs] at hr
              cases hd : rcExec fuel h (.dec item) with
              | error e => simp [hd] at hr
              | ok s1 =>
                simp only [hd] at hr
                obtain ⟨d1, hd1⟩ := ih _ _ _ hd
                obtain ⟨d2, hd2⟩ := ih _ _ _ hr
                exact ⟨_, destroyed_trans hd1 hd2⟩
        · cases hr
          exact ⟨0, destroyed_refl _⟩

/-! ## Boxes collected in an array and released (C35) -/

theorem objCount_cons_obj (h : Heap) {raw : Nat} (hfresh : memGet raw h.mem = none)
    (rc t : Nat) (pl : List Nat) (m : Mem) (hm : m = (raw, .obj rc t pl) :: h.mem) :
    (objKeys m).card = objCount h + 1 := by
  subst hm
  have := @objKeys_card_erase ((raw, .obj rc t pl) :: h.mem) h.mem raw
    (by simp [memGet, isObj]) (by simp [hfresh, isObj])
    (fun b hb => by rw [memGet_cons_ne _ _ hb])
  simp only [objCount]
  omega

/-- Boxing the values of a list returns pairwise distinct new INT boxes with refcount 1 and
leaves every other block as it was. -/
theorem box_all_ok {H : Host} (hH : HostOK H) (hserve : HostServes H 16) :
    ∀ (xs : List Int) (h : Heap), ∃ h1 bs, box_all H h xs = .ok (h1, bs) ∧
      bs.length = xs.length ∧ bs.Nodup ∧
      (∀ b ∈ bs, 8 ≤ b ∧ memGet (b - 8) h.mem = none ∧
        ∃ w, memGet (b - 8) h1.mem = some (.obj 1 REML_TAG_INT [w])) ∧
      (∀ a, a + 8 ∉ bs → memGet a h1.mem = memGet a h.mem) ∧
      h1.alloc_count = countN xs.length h.alloc_count ∧ h1.free_count = h.free_count ∧
      h1.inc_ref_count = h.inc_ref_count ∧ h1.dec_ref_count = h.dec_ref_count ∧
      h1.destroy_count = h.destroy_count ∧ objCount h1 = objCount h + xs.length
  | [], h => ⟨h, [], rfl, rfl, List.nodup_nil, fun b hb => absurd hb (by simp), fun _ _ => rfl,
      rfl, rfl, rfl, rfl, rfl, rfl⟩
  | x :: xs, h => by
    obtain ⟨raw, hraw0, hfresh, hbox⟩ := box_i64_ok hH hserve h x
    obtain ⟨h2, bs, hok, hlen, hnd, hnew, hframe, c1, c2, c3, c4, c5, c6⟩ :=
      box_all_ok hH hserve xs { h with
        mem := (raw, .obj 1 REML_TAG_INT [ofInt64 x]) :: h.mem
        alloc_count := (h.alloc_count + 1) % SIZE_MOD }
    have hnotin : raw + 8 ∉ bs := by
      intro hmem
      obtain ⟨_, hf, _⟩ := hnew _ hmem
      simp [memGet] at hf
    refine ⟨h2, (raw + 8) :: bs, by simp only [box_all, hbox, hok], by simp [hlen],
      List.nodup_cons.mpr ⟨hnotin, hnd⟩, ?_, ?_, ?_, c2, c3, c4, c5, ?_⟩
    · intro b hb
      rcases List.mem_cons.mp hb with rfl | hb
      · refine ⟨by omega, by simpa using hfresh, ofInt64 x, ?_⟩
        rw [Nat.add_sub_cancel, hframe raw hnotin]
        simp [memGet]
      · obtain ⟨h8, hf, hw⟩ := hnew b hb
        have hne : b - 8 ≠ raw := by
          intro he
          rw [he] at hf
          simp [memGet] at hf
        exact ⟨h8, by rwa [memGet_cons_ne _ _ hne] at hf, hw⟩
    · intro a ha
      have ha1 : a + 8 ∉ bs := fun hm => ha (List.mem_cons_of_mem _ hm)
      have ha2 : a ≠ raw := by
        intro he
        apply ha
        rw [he]
        exact List.mem_cons_self _ _
      rw [hframe a ha1]
      exact memGet_cons_ne _ _ ha2
    · rw [c1]
      simp only [List.length_cons]
      exact countN_succ_comm _ _
    · rw [c6]
      have := objCount_cons_obj h hfresh 1 REML_TAG_INT [ofInt64 x] _ rfl
      simp only [objCount, List.length_cons] at this ⊢
      omega

/-- Releasing one reference of each of pairwise distinct objects with refcount 2 leaves
each at refcount 1 and frees nothing. -/
theorem release_all_ok (fuel : Nat) : ∀ (bs : List Nat) (h : Heap), bs.Nodup →
    (∀ b ∈ bs, 8 ≤ b ∧ ∃ t pl, memGet (b - 8) h.mem = some (.obj 2 t pl)) →
    ∃ h1, release_all (fuel + 1) h bs = .ok h1 ∧
      (∀ b ∈ bs, ∀ t pl, memGet (b - 8) h.mem = some (.obj 2 t pl) →
        memGet (b - 8) h1.mem = some (.obj 1 t pl)) ∧
      (∀ a, a + 8 ∉ bs → memGet a h1.mem = memGet a h.mem) ∧
      h1.alloc_count = h.alloc_count ∧ h1.free_count = h.free_count ∧
      h1.inc_ref_count = h.inc_ref_count ∧
      h1.dec_ref_count = countN bs.length h.dec_ref_count ∧
      h1.destroy_count = h.destroy_count
  | [], h, _, _ => ⟨h, rfl, fun b hb => absurd hb (by simp), fun _ _ => rfl, rfl, rfl, rfl, rfl,
      rfl⟩
  | b :: bs, h, hnd, hall => by
    obtain ⟨hb8, t, pl, hm⟩ := hall b (List.mem_cons_self _ _)
    have hg : getObj h b = some (2, t, pl) := getObj_some_iff.mpr ⟨hb8, hm⟩
    have hdec := dec_ref_live_pos fuel hg (by decide)
    have e2 : (2 + (U32_MOD - 1)) % U32_MOD = 1 := by decide
    rw [e2] at hdec
    obtain ⟨hbn, hnd1⟩ := List.nodup_cons.mp hnd
    have hne : ∀ c ∈ bs, c - 8 ≠ b - 8 := by
      intro c hc he
      have h8 := (hall c (List.mem_cons_of_mem _ hc)).1
      have : c = b := by omega
      exact hbn (this ▸ hc)
    obtain ⟨h1, hok, hrc, hframe, c1, c2, c3, c4, c5⟩ := release_all_ok fuel bs
      { h with
        mem := memSet (b - 8) (.obj 1 t pl) h.mem
        dec_ref_count := (h.dec_ref_count + 1) % SIZE_MOD } hnd1
      (fun c hc => by
        obtain ⟨h8, t2, pl2, hm2⟩ := hall c (List.mem_cons_of_mem _ hc)
        exact ⟨h8, t2, pl2, by simpa [memGet_memSet_ne _ _ (hne c hc)] using hm2⟩)
    refine ⟨h1, by simp only [release_all, hdec, hok], ?_, ?_, c1, c2, c3, ?_, c5⟩
    · intro c hc t2 pl2 hm2
      rcases List.mem_cons.mp hc with rfl | hc
      · rw [hm] at hm2
        cases hm2
        have hnot : c - 8 + 8 ∉ bs := by
          have : c - 8 + 8 = c := by omega
          rwa [this]
        rw [hframe _ hnot]
        simp [memGet_memSet_same, hm]
      · exact hrc c hc t2 pl2 (by simpa [memGet_memSet_ne _ _ (hne c hc)] using hm2)
    · intro a ha
      have ha1 : a + 8 ∉ bs := fun hmem => ha (List.mem_cons_of_mem _ hmem)
      have ha2 : a ≠ b - 8 := by
        intro he
        apply ha
        have : a + 8 = b := by omega
        rw [this]
        exact List.mem_cons_self _ _
      rw [hframe a ha1]
      exact memGet_memSet_ne _ _ ha2
    · rw [c4]
      simp only [List.length_cons]
      exact countN_succ_comm _ _


theorem isObj_map_bumpBlock (j : Nat) (o : Option Block) :
    isObj (o.map (bumpBlock j)) = isObj o := by
  cases o with
  | none => rfl
  | some b => cases b <;> rfl

/-- The sequence of C35 from state `h`: box the values, collect the boxes in an array,
release the creator's reference to each box, release the array. -/
theorem box_array_release_ok {H : Host} (hH : HostOK H) (hs16 : HostServes H 16)
    (hs24 : HostServes H 24) (h : Heap) (xs : List Int)
    (hsn : HostServes H (xs.length * 8)) (hn : xs.length * 8 < 2 ^ 64) (extra : Nat) :
    ∃ h1 bs h2 arr h3 h4, box_all H h xs = .ok (h1, bs) ∧ bs.length = xs.length ∧
      reml_array_from H h1 (xs.length : Int) bs = .ok (h2, arr) ∧
      release_all (extra + 1) h2 bs = .ok h3 ∧
      (∀ b ∈ bs, ∃ w, getObj h3 b = some (1, REML_TAG_INT, [w])) ∧
      (∃ items, getObj h3 arr = some (1, REML_TAG_ARRAY, [xs.length, items])) ∧
      dec_ref (xs.length + 2 + extra) h3 arr = .ok h4 ∧
      (∀ b ∈ bs, getObj h b = none ∧ getObj h4 b = none) ∧
      getObj h arr = none ∧ getObj h4 arr = none ∧
      (∀ a, memGet a h4.mem = memGet a h.mem) ∧
      h4.alloc_count = countN (xs.length + 1) h.alloc_count ∧
      h4.free_count = countN (xs.length + 1) h.free_count ∧
      h4.destroy_count = countN (xs.length + 1) h.destroy_count := by
  obtain ⟨h1, bs, hbox, hlen, hnd, hnew, hframe1, a1, f1, i1, d1, y1, o1⟩ :=
    box_all_ok hH hs16 xs h
  have hvalid : ∀ v ∈ bs, v ≠ 0 →
      8 ≤ v ∧ ∃ rc t pl, memGet (v - 8) h1.mem = some (.obj rc t pl) := by
    intro v hv _
    obtain ⟨h8, _, w, hw⟩ := hnew v hv
    exact ⟨h8, 1, REML_TAG_INT, [w], hw⟩
  rw [← hlen] at hsn hn
  obtain ⟨h2, raw, items, harr, hraw0, hfresh, hobj, hz, hpos, hrest, a2, f2, i2, d2, y2⟩ :=
    container_from_ok REML_TAG_ARRAY "array length is negative" "Array allocation failed" H hH
      h1 bs hs24 hsn hn hvalid
  have hcnt : ∀ b ∈ bs, bs.count b = 1 := fun b hb => List.count_eq_one_of_mem hnd hb
  have hbr : ∀ b ∈ bs, b - 8 ≠ raw := by
    intro b hb he
    obtain ⟨_, _, w, hw⟩ := hnew b hb
    rw [he, hfresh] at hw
    cases hw
  have hbi : ∀ b ∈ bs, 0 < bs.length → b - 8 ≠ items := by
    intro b hb hp he
    obtain ⟨_, _, w, hw⟩ := hnew b hb
    rw [he, (hpos hp).2.2.1] at hw
    cases hw
  have hbox2 : ∀ b ∈ bs, ∀ w, memGet (b - 8) h1.mem = some (.obj 1 REML_TAG_INT [w]) →
      memGet (b - 8) h2.mem = some (.obj 2 REML_TAG_INT [w]) := by
    intro b hb w hw
    have h8 := (hnew b hb).1
    have e : b - 8 + 8 = b := by omega
    rw [hrest _ (hbr b hb) (hbi b hb), hw, e, hcnt b hb]
    rfl
  obtain ⟨h3, hrel, hrc3, hframe3, a3, f3, i3, d3, y3⟩ := release_all_ok extra bs h2 hnd
    (fun b hb => by
      obtain ⟨h8, _, w, hw⟩ := hnew b hb
      exact ⟨h8, REML_TAG_INT, [w], hbox2 b hb w hw⟩)
  have hbox3 : ∀ b ∈ bs, ∃ w, memGet (b - 8) h3.mem = some (.obj 1 REML_TAG_INT [w]) := by
    intro b hb
    obtain ⟨_, _, w, hw⟩ := hnew b hb
    exact ⟨w, hrc3 b hb _ _ (hbox2 b hb w hw)⟩
  have hrawbs : raw + 8 ∉ bs := by
    intro hm
    exact hbr _ hm (by omega)
  have hobj3 : memGet raw h3.mem = some (.obj 1 REML_TAG_ARRAY [bs.length, items]) := by
    rw [hframe3 raw hrawbs, hobj]
  have hgarr : getObj h3 (raw + 8) = some (1, REML_TAG_ARRAY, [bs.length, items]) :=
    getObj_some_iff.mpr ⟨by omega, by simpa using hobj3⟩
  have hch : ChildrenOK h3 bs := by
    intro x hx _
    obtain ⟨w, hw⟩ := hbox3 x hx
    exact ⟨1, REML_TAG_INT, [w], getObj_some_iff.mpr ⟨(hnew x hx).1, hw⟩,
      by rw [hcnt x hx], by decide,
      fun _ => ⟨by decide, by decide, by decide, by decide, by decide, by decide⟩⟩
  -- the state after the release of the array
  have hfin : ∃ h4, dec_ref (bs.length + 2 + extra) h3 (raw + 8) = .ok h4 ∧
      memGet raw h4.mem = none ∧ (0 < bs.length → memGet items h4.mem = none) ∧
      (∀ b, b ≠ raw → (0 < bs.length → b ≠ items) →
        memGet b h4.mem = (memGet b h3.mem).bind (dropBlock (bs.count (b + 8)))) := by
    by_cases hzero : bs.length = 0
    · have hi0 := hz hzero
      subst hi0
      obtain ⟨f, hf⟩ : ∃ f, bs.length + 2 + extra = f + 1 := ⟨bs.length + 1 + extra, by omega⟩
      have hdec := dec_ref_last f hgarr (by decide) (fun s hs => by
        rw [destroy_switch_slots _ _ (Or.inr (Or.inr rfl))]
        exact destroy_slots_null (readField_of_getObj (w := 0) hs rfl))
      rw [← hf] at hdec
      refine ⟨_, hdec, by simp [memGet_memErase_same], fun hp => absurd hp (by omega), ?_⟩
      intro b hb _
      have hbs : bs = [] := List.length_eq_zero.mp hzero
      simp [memGet_memErase_ne _ hb, hbs, bind_dropBlock_zero]
    · have hp : 0 < bs.length := by omega
      obtain ⟨hi0, hir, hifresh, hbuf⟩ := hpos hp
      have hbuf3 : memGet items h3.mem = some (.buf bs) := by
        have : items + 8 ∉ bs := by
          intro hm
          exact hbi _ hm hp (by omega)
        rw [hframe3 items this, hbuf]
      obtain ⟨h4, hdec, hc4, hi4, hrest4, _⟩ := dec_ref_container h3 bs (raw + 8) items
        REML_TAG_ARRAY bs.length [bs.length, items] (Or.inr (Or.inr rfl)) hgarr rfl rfl hi0 hbuf3
        (toInt64_of_lt (by omega)) hch extra
      simp only [Nat.add_sub_cancel] at hc4 hrest4
      exact ⟨h4, hdec, hc4, fun _ => hi4, fun b hb hbi2 => hrest4 b hb (hbi2 hp)⟩
  obtain ⟨h4, hdec, hraw4, hit4, hrest4⟩ := hfin
  have hrawh : memGet raw h.mem = none := by rw [← hframe1 raw hrawbs, hfresh]
  have hmem : ∀ a, memGet a h4.mem = memGet a h.mem := by
    intro a
    by_cases har : a = raw
    · rw [har, hraw4, hrawh]
    by_cases hai : 0 < bs.length ∧ a = items
    · obtain ⟨hp, rfl⟩ := hai
      have hnot : a + 8 ∉ bs := by
        intro hm
        exact hbi _ hm hp (by omega)
      rw [hit4 hp, ← hframe1 a hnot, (hpos hp).2.2.1]
    have hai2 : 0 < bs.length → a ≠ items := fun hp he => hai ⟨hp, he⟩
    rw [hrest4 a har hai2]
    by_cases hab : a + 8 ∈ bs
    · obtain ⟨w, hw⟩ := hbox3 _ hab
      obtain ⟨_, hf, _⟩ := hnew _ hab
      rw [Nat.add_sub_cancel] at hw hf
      rw [hw, hf, hcnt _ hab]
      rfl
    · rw [List.count_eq_zero_of_not_mem hab, bind_dropBlock_zero, hframe3 a hab,
        hrest a har hai2, List.count_eq_zero_of_not_mem hab, map_bumpBlock_zero,
        hframe1 a hab]
  have hsame : ∀ x, getObj h4 x = getObj h x := by
    intro x
    unfold getObj
    rw [hmem]
  have hfreshb : ∀ b ∈ bs, getObj h b = none := by
    intro b hb
    obtain ⟨h8, hf, _⟩ := hnew b hb
    simp [getObj, HEADER_SIZE, hf]
  have hfresharr : getObj h (raw + 8) = none := by simp [getObj, HEADER_SIZE, hrawh]
  -- counting the destructor runs
  obtain ⟨d, hd1, hd2, hd3, _, _⟩ := rcExec_destroyed _ _ _ _ hdec
  have ho4 : objCount h4 = objCount h := by
    simp only [objCount]
    rw [@objKeys_congr h.mem h4.mem (fun a => by rw [hmem a])]
  have ho2 : objCount h2 = objCount h1 + 1 := by
    have := @objKeys_card_erase h2.mem h1.mem raw
      (by rw [hobj]; rfl) (by rw [hfresh]; rfl)
      (fun b hb => by
        by_cases hbi2 : 0 < bs.length ∧ b = items
        · obtain ⟨hp, rfl⟩ := hbi2
          rw [(hpos hp).2.2.1, (hpos hp).2.2.2]
          rfl
        · rw [hrest b hb (fun hp he => hbi2 ⟨hp, he⟩), isObj_map_bumpBlock])
    simp only [objCount]
    omega
  have ho3 : objCount h3 = objCount h2 := by
    simp only [objCount]
    rw [objKeys_congr]
    intro a
    by_cases hab : a + 8 ∈ bs
    · obtain ⟨w, hw⟩ := hbox3 _ hab
      obtain ⟨_, _, w1, hw1⟩ := hnew _ hab
      have h2w := hbox2 _ hab w1 hw1
      rw [Nat.add_sub_cancel] at hw h2w
      rw [hw, h2w]
      rfl
    · rw [hframe3 a hab]
  have hdn : d = xs.length + 1 := by omega
  subst hdn
  refine ⟨h1, bs, h2, raw + 8, h3, h4, hbox, hlen, ?_, hrel, ?_, ⟨items, ?_⟩, ?_, ?_, hfresharr,
    ?_, hmem, ?_, ?_, ?_⟩
  · rw [← hlen]
    exact harr
  · intro b hb
    obtain ⟨w, hw⟩ := hbox3 b hb
    exact ⟨w, getObj_some_iff.mpr ⟨(hnew b hb).1, hw⟩⟩
  · rw [← hlen]
    exact hgarr
  · rw [← hlen]
    exact hdec
  · intro b hb
    exact ⟨hfreshb b hb, by rw [hsame b, hfreshb b hb]⟩
  · rw [hsame, hfresharr]
  · have e4 : h4.alloc_count = h3.alloc_count := by
      obtain ⟨_, _, _, _, hx, _⟩ := rcExec_destroyed _ _ _ _ hdec
      exact hx
    rw [e4, a3, a2, a1]
    rfl
  · rw [hd1, f3, f2, f1]
  · rw [hd2, y3, y2, y1]

/-- C35: for every list of `n ≥ 0` values (the host serving the allocations), the sequence
`b_i = reml_box_i64(x_i)` for each `i`, `arr = reml_array_from(n, b_0, ...)`, `dec_ref(b_i)`
for each `i`, `dec_ref(arr)` returns at every step; after the releases of the boxes every
box is still live, with refcount 1; after the release of the array every block of memory
is what it was before the sequence, the array and all `n` boxes, which were not allocated
before, are freed, and the allocation counter, the free counter and the destruction
counter have each moved `n + 1` times: every object allocated by the sequence has been
destroyed and freed once. -/
theorem box_array_release (H : Host) (hH : HostOK H) (hs16 : HostServes H 16)
    (hs24 : HostServes H 24) (h : Heap) (xs : List Int)
    (hsn : HostServes H (xs.length * 8)) (hn : xs.length * 8 < 2 ^ 64) (extra : Nat) :
    ∃ h1 bs h2 arr h3 h4, box_all H h xs = .ok (h1, bs) ∧ bs.length = xs.length ∧
      reml_array_from H h1 (xs.length : Int) bs = .ok (h2, arr) ∧
      release_all (extra + 1) h2 bs = .ok h3 ∧
      (∀ b ∈ bs, ∃ w, getObj h3 b = some (1, REML_TAG_INT, [w])) ∧
      (∃ items, getObj h3 arr = some (1, REML_TAG_ARRAY, [xs.length, items])) ∧
      dec_ref (xs.length + 2 + extra) h3 arr = .ok h4 ∧
      (∀ b ∈ bs, getObj h b = none ∧ getObj h4 b = none) ∧
      getObj h arr = none ∧ getObj h4 arr = none ∧
      (∀ a, memGet a h4.mem = memGet a h.mem) ∧
      h4.alloc_count = countN (xs.length + 1) h.alloc_count ∧
      h4.free_count = countN (xs.length + 1) h.free_count ∧
      h4.destroy_count = countN (xs.length + 1) h.destroy_count :=
  box_array_release_ok hH hs16 hs24 h xs hsn hn extra

/-- Witness for C35: three values boxed from the empty heap, collected and released; the
final memory is empty again. -/
theorem box_array_release_witness :
    ∃ h1 bs h2 arr h3 h4, box_all bumpHost emptyHeap [7, -1, 7] = .ok (h1, bs) ∧
      reml_array_from bumpHost h1 (([7, -1, 7] : List Int).length : Int) bs = .ok (h2, arr) ∧
      release_all (0 + 1) h2 bs = .ok h3 ∧
      dec_ref (([7, -1, 7] : List Int).length + 2 + 0) h3 arr = .ok h4 ∧
      (∀ a, memGet a h4.mem = memGet a emptyHeap.mem) ∧
      h4.free_count = countN (([7, -1, 7] : List Int).length + 1) emptyHeap.free_count :=
  have ⟨h1, bs, h2, arr, h3, h4, hb, _, ha, hr, _, _, hd, _, _, _, hm, _, hf, _⟩ :=
    box_array_release bumpHost bumpHost_ok (bumpHost_serves _) (bumpHost_serves _) emptyHeap
      [7, -1, 7] (bumpHost_serves _) (by decide) 0
  ⟨h1, bs, h2, arr, h3, h4, hb, ha, hr, hd, hm, hf⟩

/-! ## Reference-count well-formedness (C37, C38) -/

theorem memGet_none_of_not_mem_keys {k : Nat} {m : Mem} (h : k ∉ keysOf m) :
    memGet k m = none := by
  by_contra hn
  exact h (List.mem_toFinset.mpr (mem_keys_of_memGet hn))

theorem slotsAt_of_obj {m : Mem} {k rc t : Nat} {pl : List Nat}
    (h : memGet k m = some (.obj rc t pl)) (hrc : 1 ≤ rc) : slotsAt m k = ownedSlots m t pl := by
  simp [slotsAt, liveAt, rcAt, tagAt, plAt, h, isObj, hrc]

theorem slotsAt_of_zero {m : Mem} {k t : Nat} {pl : List Nat}
    (h : memGet k m = some (.obj 0 t pl)) : slotsAt m k = [] := by
  simp [slotsAt, liveAt, rcAt, h, isObj]

theorem slotsAt_of_not_obj {m : Mem} {k : Nat} (h : isObj (memGet k m) = false) :
    slotsAt m k = [] := by
  simp [slotsAt, liveAt, h]

theorem slotsAt_of_none {m : Mem} {k : Nat} (h : memGet k m = none) : slotsAt m k = [] :=
  slotsAt_of_not_obj (by rw [h]; rfl)

theorem liveAt_iff {m : Mem} {k : Nat} :
    liveAt m k = true ↔ ∃ rc t pl, memGet k m = some (.obj rc t pl) ∧ 1 ≤ rc := by
  unfold liveAt rcAt
  cases hm : memGet k m with
  | none => simp [isObj]
  | some b =>
    cases b with
    | obj rc t pl => simp [isObj]
    | buf bs => simp [isObj]

/-- The sum over the keys is the sum over any finite set that contains them. -/
theorem inCount_eq_sum (m : Mem) (q : Nat) (S : Finset Nat) (hS : keysOf m ⊆ S) :
    inCount m q = Finset.sum S (fun k => (slotsAt m k).count q) := by
  unfold inCount
  apply Finset.sum_subset hS
  intro k _ hk
  rw [slotsAt_of_none (memGet_none_of_not_mem_keys hk)]
  rfl

/-- Changing the owning slots at one address changes the count by the difference there. -/
theorem inCount_update {m m1 : Mem} (a : Nat)
    (h : ∀ k, k ≠ a → slotsAt m1 k = slotsAt m k) (q : Nat) :
    inCount m1 q + (slotsAt m a).count q = inCount m q + (slotsAt m1 a).count q := by
  have hS1 : keysOf m1 ⊆ insert a (keysOf m ∪ keysOf m1) := fun k hk => by simp [hk]
  have hS : keysOf m ⊆ insert a (keysOf m ∪ keysOf m1) := fun k hk => by simp [hk]
  rw [inCount_eq_sum m1 q _ hS1, inCount_eq_sum m q _ hS]
  have ha : a ∈ insert a (keysOf m ∪ keysOf m1) := Finset.mem_insert_self _ _
  rw [← Finset.add_sum_erase _ _ ha, ← Finset.add_sum_erase _ (fun k => (slotsAt m k).count q) ha]
  have hrest : Finset.sum ((insert a (keysOf m ∪ keysOf m1)).erase a)
      (fun k => (slotsAt m1 k).count q)
      = Finset.sum ((insert a (keysOf m ∪ keysOf m1)).erase a)
        (fun k => (slotsAt m k).count q) := by
    apply Finset.sum_congr rfl
    intro k hk
    rw [h k (Finset.ne_of_mem_erase hk)]
  rw [hrest]
  omega

theorem inCount_congr {m m1 : Mem} (h : ∀ k, slotsAt m1 k = slotsAt m k) (q : Nat) :
    inCount m1 q = inCount m q := by
  have := @inCount_update m m1 0 (fun k _ => h k) q
  rw [h 0] at this
  omega

theorem count_le_inCount (m : Mem) (k q : Nat) : (slotsAt m k).count q ≤ inCount m q := by
  by_cases hk : k ∈ keysOf m
  · unfold inCount
    exact Finset.single_le_sum (f := fun k => (slotsAt m k).count q)
      (fun _ _ => Nat.zero_le _) hk
  · rw [slotsAt_of_none (memGet_none_of_not_mem_keys hk)]
    simp

theorem inCount_pos_of_mem {m : Mem} {k q : Nat} (h : q ∈ slotsAt m k) : 1 ≤ inCount m q :=
  le_trans (List.count_pos_iff.mpr h) (count_le_inCount m k q)


theorem bufOK_iff {m : Mem} {len items : Nat} :
    bufOK m len items ↔
      (items ≠ 0 → ∃ bs, memGet items m = some (.buf bs) ∧ (toInt64 len).toNat ≤ bs.length) := by
  unfold bufOK
  constructor
  · intro h hi
    obtain ⟨h1, h2, h3⟩ := h hi
    cases hm : memGet items m with
    | none => exact absurd hm h2
    | some b =>
      cases b with
      | obj rc t pl =>
        rw [hm] at h1
        simp [isObj] at h1
      | buf bs =>
        rw [hm] at h3
        exact ⟨bs, rfl, h3⟩
  · intro h hi
    obtain ⟨bs, hb, hl⟩ := h hi
    rw [hb]
    exact ⟨rfl, by simp, hl⟩

theorem bufOK_mono {m m1 : Mem} {len items : Nat}
    (h : items ≠ 0 → ∀ bs, memGet items m = some (.buf bs) → memGet items m1 = some (.buf bs))
    (hb : bufOK m len items) : bufOK m1 len items := by
  rw [bufOK_iff] at hb ⊢
  intro hi
  obtain ⟨bs, hbs, hl⟩ := hb hi
  exact ⟨bs, h hi bs hbs, hl⟩

theorem itemsOf_slots {t : Nat} {pl : List Nat}
    (ht : t = REML_TAG_TUPLE ∨ t = REML_TAG_RECORD ∨ t = REML_TAG_ARRAY) :
    itemsOf t pl = pl.getD 1 0 := by
  simp [itemsOf, ht]

theorem itemsOf_set (pl : List Nat) : itemsOf REML_TAG_SET pl = pl.getD 2 0 := by
  simp [itemsOf, REML_TAG_SET, REML_TAG_TUPLE, REML_TAG_RECORD, REML_TAG_ARRAY]

theorem shapeOK_mono {m m1 : Mem} {t : Nat} {pl : List Nat}
    (h : itemsOf t pl ≠ 0 → ∀ bs, memGet (itemsOf t pl) m = some (.buf bs) →
      memGet (itemsOf t pl) m1 = some (.buf bs))
    (hs : shapeOK m t pl) : shapeOK m1 t pl := by
  obtain ⟨h1, h2, h3, h4⟩ := hs
  refine ⟨fun ht => ?_, h2, h3, fun ht => ?_⟩
  · obtain ⟨hl, hb⟩ := h1 ht
    rw [itemsOf_slots ht] at h
    exact ⟨hl, bufOK_mono h hb⟩
  · obtain ⟨hl, hb⟩ := h4 ht
    subst ht
    rw [itemsOf_set] at h
    exact ⟨hl, bufOK_mono h hb⟩

theorem ownedSlots_congr {m m1 : Mem} (t : Nat) (pl : List Nat)
    (h : itemsOf t pl ≠ 0 →
      bufOf (memGet (itemsOf t pl) m1) = bufOf (memGet (itemsOf t pl) m)) :
    ownedSlots m1 t pl = ownedSlots m t pl := by
  unfold ownedSlots bufSlots
  by_cases ht : t = REML_TAG_TUPLE ∨ t = REML_TAG_RECORD ∨ t = REML_TAG_ARRAY
  · rw [itemsOf_slots ht] at h
    rw [if_pos ht, if_pos ht]
    by_cases hi : pl.getD 1 0 = 0
    · rw [if_pos hi, if_pos hi]
    · rw [if_neg hi, if_neg hi, h hi]
  · rw [if_neg ht, if_neg ht]
    by_cases hs : t = REML_TAG_SET
    · subst hs
      rw [itemsOf_set] at h
      have hc : ¬ REML_TAG_SET = REML_TAG_CLOSURE := by decide
      have ha : ¬ REML_TAG_SET = REML_TAG_ADT := by decide
      rw [if_neg hc, if_neg ha, if_pos rfl, if_neg hc, if_neg ha, if_pos rfl]
      by_cases hi : pl.getD 2 0 = 0
      · rw [if_pos hi, if_pos hi]
      · rw [if_neg hi, if_neg hi, h hi]
    · simp only [hs, if_false]

/-- The owning slots at `k` are the same in two memories that hold the same block at `k`
and the same element array for it. -/
theorem slotsAt_congr {m m1 : Mem} {k : Nat} (hk : memGet k m1 = memGet k m)
    (hb : liveAt m k = true → itemsAt m k ≠ 0 →
      bufOf (memGet (itemsAt m k) m1) = bufOf (memGet (itemsAt m k) m)) :
    slotsAt m1 k = slotsAt m k := by
  have hl : liveAt m1 k = liveAt m k := by simp [liveAt, rcAt, hk]
  unfold slotsAt
  rw [hl]
  by_cases hlive : liveAt m k = true
  · simp only [hlive, if_true]
    have ht : tagAt m1 k = tagAt m k := by simp [tagAt, hk]
    have hp : plAt m1 k = plAt m k := by simp [plAt, hk]
    rw [ht, hp]
    apply ownedSlots_congr
    intro hi
    have hobj : isObj (memGet k m) = true := by
      simp only [liveAt, Bool.and_eq_true] at hlive
      exact hlive.1
    have e : itemsAt m k = itemsOf (tagAt m k) (plAt m k) := by simp [itemsAt, hobj]
    rw [← e] at hi ⊢
    exact hb hlive hi
  · simp [hlive]

theorem livePtr_iff {m : Mem} {x : Nat} : LivePtr m x ↔ 8 ≤ x ∧ liveAt m (x - 8) = true := by
  unfold LivePtr
  rw [liveAt_iff]


theorem bufOf_update_obj {m m1 : Mem} {a rc rc1 t t1 : Nat} {pl pl1 : List Nat}
    (hm : memGet a m = some (.obj rc t pl)) (hm1 : memGet a m1 = some (.obj rc1 t1 pl1))
    (hrest : ∀ b, b ≠ a → memGet b m1 = memGet b m) (b : Nat) :
    bufOf (memGet b m1) = bufOf (memGet b m) := by
  by_cases hb : b = a
  · rw [hb, hm, hm1]
    rfl
  · rw [hrest b hb]

theorem buf_update_obj {m m1 : Mem} {a rc t : Nat} {pl : List Nat}
    (hm : memGet a m = some (.obj rc t pl))
    (hrest : ∀ b, b ≠ a → memGet b m1 = memGet b m) (b : Nat) (bs : List Nat)
    (hb : memGet b m = some (.buf bs)) : memGet b m1 = some (.buf bs) := by
  have hne : b ≠ a := by
    intro he
    rw [he, hm] at hb
    cases hb
  rw [hrest b hne, hb]

theorem livePtr_update {m m1 : Mem} {a x : Nat} (hrest : ∀ b, b ≠ a → memGet b m1 = memGet b m)
    (hx : x ≠ a + 8) (h : LivePtr m x) : LivePtr m1 x := by
  obtain ⟨h8, rc, t, pl, hm, hrc⟩ := h
  have : x - 8 ≠ a := by omega
  exact ⟨h8, rc, t, pl, by rw [hrest _ this, hm], hrc⟩

/-- The invariant after `dec_ref` has lowered a refcount of at least 2: the reference at
the head of the owed list is released. -/
theorem rcInv_dec_live {m m1 : Mem} {a rc t : Nat} {pl owed : List Nat}
    (hm : memGet a m = some (.obj rc t pl)) (hrc : 2 ≤ rc)
    (hm1 : memGet a m1 = some (.obj (rc - 1) t pl))
    (hrest : ∀ b, b ≠ a → memGet b m1 = memGet b m) (hinv : RcInv m ((a + 8) :: owed)) :
    RcInv m1 owed := by
  have hobj : ∀ k rc1 t1 pl1, memGet k m1 = some (.obj rc1 t1 pl1) →
      ∃ rc0, memGet k m = some (.obj rc0 t1 pl1) ∧ rc1 ≤ rc0 ∧ (k ≠ a → rc1 = rc0) := by
    intro k rc1 t1 pl1 hk
    by_cases hka : k = a
    · subst hka
      rw [hm1] at hk
      cases hk
      exact ⟨rc, hm, by omega, fun h => absurd rfl h⟩
    · rw [hrest k hka] at hk
      exact ⟨rc1, hk, le_refl _, fun _ => rfl⟩
  have hslots : ∀ k, slotsAt m1 k = slotsAt m k := by
    intro k
    by_cases hka : k = a
    · subst hka
      rw [slotsAt_of_obj hm1 (by omega), slotsAt_of_obj hm (by omega)]
      exact ownedSlots_congr _ _ (fun _ => bufOf_update_obj hm hm1 hrest _)
    · exact slotsAt_congr (hrest k hka) (fun _ _ => bufOf_update_obj hm hm1 hrest _)
  have hlive : ∀ x, LivePtr m x → LivePtr m1 x := by
    intro x hx
    by_cases hxa : x = a + 8
    · subst hxa
      exact ⟨by omega, rc - 1, t, pl, by simpa using hm1, by omega⟩
    · exact livePtr_update hrest hxa hx
  refine ⟨?_, ?_, ?_, ?_, ?_, ?_⟩
  · intro k rc1 t1 pl1 hk
    obtain ⟨rc0, hk0, hle, _⟩ := hobj k rc1 t1 pl1 hk
    exact lt_of_le_of_lt hle (hinv.rc32 k rc0 t1 pl1 hk0)
  · intro k rc1 t1 pl1 hk
    obtain ⟨rc0, hk0, hle, _⟩ := hobj k rc1 t1 pl1 hk
    exact shapeOK_mono (fun _ bs hb => buf_update_obj hm hrest _ bs hb)
      (hinv.shape k rc0 t1 pl1 hk0)
  · intro k1 k2 rc1 t1 pl1 rc2 t2 pl2 h1 h2 hi he
    obtain ⟨_, h10, _⟩ := hobj k1 rc1 t1 pl1 h1
    obtain ⟨_, h20, _⟩ := hobj k2 rc2 t2 pl2 h2
    exact hinv.bufs k1 k2 _ t1 pl1 _ t2 pl2 h10 h20 hi he
  · intro k x hx hx0
    rw [hslots k] at hx
    exact hlive x (hinv.pts k x hx hx0)
  · intro x hx hx0
    exact hlive x (hinv.owedLive x (List.mem_cons_of_mem _ hx) hx0)
  · intro k rc1 t1 pl1 hk h1
    obtain ⟨rc0, hk0, hle, hne⟩ := hobj k rc1 t1 pl1 hk
    have hr := hinv.rcs k rc0 t1 pl1 hk0 (by omega)
    rw [inCount_congr hslots]
    by_cases hka : k = a
    · subst hka
      rw [hm1] at hk
      cases hk
      rw [hm] at hk0
      cases hk0
      simp only [List.count_cons_self] at hr
      omega
    · have hc : ((a + 8) :: owed).count (k + 8) = owed.count (k + 8) := by
        rw [List.count_cons_of_ne]
        omega
      rw [hc] at hr
      rw [hne hka]
      exact hr

/-- The invariant after `dec_ref` has lowered a refcount of 1 to zero: the object is no
longer live, and its owning slots are references still to be released. -/
theorem rcInv_dec_last {m m1 : Mem} {a t : Nat} {pl owed : List Nat}
    (hm : memGet a m = some (.obj 1 t pl)) (hm1 : memGet a m1 = some (.obj 0 t pl))
    (hrest : ∀ b, b ≠ a → memGet b m1 = memGet b m) (hinv : RcInv m ((a + 8) :: owed)) :
    RcInv m1 (ownedSlots m t pl ++ owed) ∧ inCount m (a + 8) = 0 ∧ owed.count (a + 8) = 0 := by
  have hra := hinv.rcs a 1 t pl hm (le_refl _)
  simp only [List.count_cons_self] at hra
  have hin0 : inCount m (a + 8) = 0 := by omega
  have hcnt0 : owed.count (a + 8) = 0 := by omega
  have hsa : slotsAt m a = ownedSlots m t pl := slotsAt_of_obj hm (le_refl _)
  have hsa1 : slotsAt m1 a = [] := slotsAt_of_zero hm1
  have hobj : ∀ k rc1 t1 pl1, memGet k m1 = some (.obj rc1 t1 pl1) →
      ∃ rc0, memGet k m = some (.obj rc0 t1 pl1) ∧ rc1 ≤ rc0 ∧ (k ≠ a → rc1 = rc0) := by
    intro k rc1 t1 pl1 hk
    by_cases hka : k = a
    · subst hka
      rw [hm1] at hk
      cases hk
      exact ⟨1, hm, by omega, fun h => absurd rfl h⟩
    · rw [hrest k hka] at hk
      exact ⟨rc1, hk, le_refl _, fun _ => rfl⟩
  have hslots : ∀ k, k ≠ a → slotsAt m1 k = slotsAt m k := fun k hka =>
    slotsAt_congr (hrest k hka) (fun _ _ => bufOf_update_obj hm hm1 hrest _)
  have hnotin : ∀ k, a + 8 ∉ slotsAt m k := by
    intro k hmem
    have := inCount_pos_of_mem hmem
    omega
  refine ⟨⟨?_, ?_, ?_, ?_, ?_, ?_⟩, hin0, hcnt0⟩
  · intro k rc1 t1 pl1 hk
    obtain ⟨rc0, hk0, hle, _⟩ := hobj k rc1 t1 pl1 hk
    exact lt_of_le_of_lt hle (hinv.rc32 k rc0 t1 pl1 hk0)
  · intro k rc1 t1 pl1 hk
    obtain ⟨rc0, hk0, hle, _⟩ := hobj k rc1 t1 pl1 hk
    exact shapeOK_mono (fun _ bs hb => buf_update_obj hm hrest _ bs hb)
      (hinv.shape k rc0 t1 pl1 hk0)
  · intro k1 k2 rc1 t1 pl1 rc2 t2 pl2 h1 h2 hi he
    obtain ⟨_, h10, _⟩ := hobj k1 rc1 t1 pl1 h1
    obtain ⟨_, h20, _⟩ := hobj k2 rc2 t2 pl2 h2
    exact hinv.bufs k1 k2 _ t1 pl1 _ t2 pl2 h10 h20 hi he
  · intro k x hx hx0
    by_cases hka : k = a
    · rw [hka, hsa1] at hx
      exact absurd hx (by simp)
    · rw [hslots k hka] at hx
      have hxa : x ≠ a + 8 := fun he => hnotin k (he ▸ hx)
      exact livePtr_update hrest hxa (hinv.pts k x hx hx0)
  · intro x hx hx0
    rcases List.mem_append.mp hx with hx | hx
    · rw [← hsa] at hx
      have hxa : x ≠ a + 8 := fun he => hnotin a (he ▸ hx)
      exact livePtr_update hrest hxa (hinv.pts a x hx hx0)
    · have hxa : x ≠ a + 8 := by
        intro he
        rw [he] at hx
        have := List.count_pos_iff.mpr hx
        omega
      exact livePtr_update hrest hxa (hinv.owedLive x (List.mem_cons_of_mem _ hx) hx0)
  · intro k rc1 t1 pl1 hk h1
    obtain ⟨rc0, hk0, hle, hne⟩ := hobj k rc1 t1 pl1 hk
    have hka : k ≠ a := by
      intro he
      subst he
      rw [hm1] at hk
      cases hk
      omega
    have hr := hinv.rcs k rc0 t1 pl1 hk0 (by omega)
    have hc : ((a + 8) :: owed).count (k + 8) = owed.count (k + 8) := by
      rw [List.count_cons_of_ne]
      omega
    have hu := inCount_update a hslots (k + 8)
    rw [hsa, hsa1] at hu
    simp only [List.count_nil, Nat.add_zero] at hu
    rw [List.count_append, hne hka]
    omega


/-- Dropping a reference from the owed list keeps the invariant. -/
theorem rcInv_tail {m : Mem} {x : Nat} {owed : List Nat} (hinv : RcInv m (x :: owed)) :
    RcInv m owed := by
  refine ⟨hinv.rc32, hinv.shape, hinv.bufs, hinv.pts,
    fun y hy hy0 => hinv.owedLive y (List.mem_cons_of_mem _ hy) hy0, ?_⟩
  intro k rc t pl hk h1
  have := hinv.rcs k rc t pl hk h1
  have hle : owed.count (k + 8) ≤ (x :: owed).count (k + 8) := by
    rw [List.count_cons]
    omega
  omega

theorem buf_of_shape {m : Mem} {t : Nat} {pl : List Nat} (hs : shapeOK m t pl)
    (hi : itemsOf t pl ≠ 0) : ∃ bs, memGet (itemsOf t pl) m = some (.buf bs) := by
  obtain ⟨h1, _, _, h4⟩ := hs
  by_cases ht : t = REML_TAG_TUPLE ∨ t = REML_TAG_RECORD ∨ t = REML_TAG_ARRAY
  · rw [itemsOf_slots ht] at hi ⊢
    obtain ⟨bs, hb, _⟩ := bufOK_iff.mp (h1 ht).2 hi
    exact ⟨bs, hb⟩
  · by_cases hset : t = REML_TAG_SET
    · subst hset
      rw [itemsOf_set] at hi ⊢
      obtain ⟨bs, hb, _⟩ := bufOK_iff.mp (h4 rfl).2 hi
      exact ⟨bs, hb⟩
    · simp [itemsOf, ht, hset] at hi

theorem not_dead_of_live {m : Mem} {k rc t : Nat} {pl : List Nat}
    (hk : memGet k m = some (.obj rc t pl)) (hrc : 1 ≤ rc) : ¬ Dead m k := by
  rintro (⟨t1, pl1, h1⟩ | ⟨bs, _, _, _, h1, _⟩)
  · rw [hk] at h1
    cases h1
    omega
  · rw [hk] at h1
    cases h1

/-- The element array of a live object is not dead. -/
theorem not_dead_items {m : Mem} {owed : List Nat} (hinv : RcInv m owed) {k rc t : Nat}
    {pl : List Nat} (hk : memGet k m = some (.obj rc t pl)) (hrc : 1 ≤ rc)
    (hi : itemsOf t pl ≠ 0) : ¬ Dead m (itemsOf t pl) := by
  obtain ⟨bs, hb⟩ := buf_of_shape (hinv.shape k rc t pl hk) hi
  rintro (⟨t1, pl1, h1⟩ | ⟨bs1, k1, t1, pl1, _, hz, he⟩)
  · rw [hb] at h1
    cases h1
  · have hi1 : itemsOf t1 pl1 ≠ 0 := by rw [he]; exact hi
    have := hinv.bufs k1 k 0 t1 pl1 rc t pl hz hk hi1 he
    subst this
    rw [hk] at hz
    cases hz
    omega

/-- Removing dead blocks, a dead object together with its element array, keeps the
invariant. -/
theorem rcInv_erase {m m1 : Mem} {owed : List Nat} (hinv : RcInv m owed)
    (h : ∀ b, memGet b m1 = memGet b m ∨ (memGet b m1 = none ∧ Dead m b))
    (hclosed : ∀ k rc t pl, memGet k m1 = some (.obj rc t pl) → itemsOf t pl ≠ 0 →
      memGet (itemsOf t pl) m1 = memGet (itemsOf t pl) m) :
    RcInv m1 owed := by
  have hkeep : ∀ b, ¬ Dead m b → memGet b m1 = memGet b m := by
    intro b hb
    rcases h b with h1 | ⟨_, h2⟩
    · exact h1
    · exact absurd h2 hb
  have hobj : ∀ k blk, memGet k m1 = some blk → memGet k m = some blk := by
    intro k blk hk
    rcases h k with h1 | ⟨h2, _⟩
    · rwa [h1] at hk
    · rw [h2] at hk
      cases hk
  have hlive : ∀ x, LivePtr m x → LivePtr m1 x := by
    rintro x ⟨h8, rc, t, pl, hm, hrc⟩
    exact ⟨h8, rc, t, pl, by rw [hkeep _ (not_dead_of_live hm hrc), hm], hrc⟩
  have hslots : ∀ k, slotsAt m1 k = slotsAt m k := by
    intro k
    rcases h k with h1 | ⟨h2, hd⟩
    · apply slotsAt_congr h1
      intro hl hi
      obtain ⟨rc, t, pl, hk, hrc⟩ := liveAt_iff.mp hl
      have e : itemsAt m k = itemsOf t pl := by simp [itemsAt, tagAt, plAt, hk, isObj]
      rw [e] at hi ⊢
      rw [hkeep _ (not_dead_items hinv hk hrc hi)]
    · rw [slotsAt_of_none h2]
      rcases hd with ⟨t, pl, hz⟩ | ⟨bs, _, _, _, hb, _⟩
      · rw [slotsAt_of_zero hz]
      · rw [slotsAt_of_not_obj (by rw [hb]; rfl)]
  refine ⟨?_, ?_, ?_, ?_, ?_, ?_⟩
  · intro k rc t pl hk
    exact hinv.rc32 k rc t pl (hobj _ _ hk)
  · intro k rc t pl hk
    have hk0 := hobj _ _ hk
    refine shapeOK_mono (fun hi bs hb => ?_) (hinv.shape k rc t pl hk0)
    rw [hclosed k rc t pl hk hi, hb]
  · intro k1 k2 rc1 t1 pl1 rc2 t2 pl2 h1 h2 hi he
    exact hinv.bufs k1 k2 rc1 t1 pl1 rc2 t2 pl2 (hobj _ _ h1) (hobj _ _ h2) hi he
  · intro k x hx hx0
    rw [hslots k] at hx
    exact hlive x (hinv.pts k x hx hx0)
  · intro x hx hx0
    exact hlive x (hinv.owedLive x hx hx0)
  · intro k rc t pl hk hrc
    rw [inCount_congr hslots]
    exact hinv.rcs k rc t pl (hobj _ _ hk) hrc


theorem frame_refl (m : Mem) : Frame m m :=
  ⟨fun _ _ => rfl, fun _ rc1 _ _ hk h1 => ⟨rc1, hk, h1⟩⟩

theorem dead_of_frame {m m1 : Mem} (hf : Frame m m1) {a : Nat} (hd : Dead m a) : Dead m1 a := by
  rcases hd with ⟨t, pl, hz⟩ | ⟨bs, k, t, pl, hb, hz, he⟩
  · exact Or.inl ⟨t, pl, by rw [hf.dead a (Or.inl ⟨t, pl, hz⟩), hz]⟩
  · refine Or.inr ⟨bs, k, t, pl, ?_, ?_, he⟩
    · rw [hf.dead a (Or.inr ⟨bs, k, t, pl, hb, hz, he⟩), hb]
    · rw [hf.dead k (Or.inl ⟨t, pl, hz⟩), hz]

theorem frame_trans {m m1 m2 : Mem} (h1 : Frame m m1) (h2 : Frame m1 m2) : Frame m m2 := by
  refine ⟨fun a hd => ?_, fun k rc2 t pl hk hrc => ?_⟩
  · rw [h2.dead a (dead_of_frame h1 hd), h1.dead a hd]
  · obtain ⟨rc1, hk1, hrc1⟩ := h2.sub k rc2 t pl hk hrc
    exact h1.sub k rc1 t pl hk1 hrc1

/-- Lowering the refcount of a live object to a positive value touches no dead block. -/
theorem frame_dec_live {m m1 : Mem} {a rc rc1 t : Nat} {pl : List Nat}
    (hm : memGet a m = some (.obj rc t pl)) (hrc : 1 ≤ rc)
    (hm1 : memGet a m1 = some (.obj rc1 t pl))
    (hrest : ∀ b, b ≠ a → memGet b m1 = memGet b m) : Frame m m1 := by
  refine ⟨fun b hd => ?_, fun k rc2 t2 pl2 hk h2 => ?_⟩
  · have hne : b ≠ a := by
      intro he
      subst he
      exact not_dead_of_live hm hrc hd
    exact hrest b hne
  · by_cases hka : k = a
    · subst hka
      rw [hm1] at hk
      cases hk
      exact ⟨rc, hm, hrc⟩
    · rw [hrest k hka] at hk
      exact ⟨rc2, hk, h2⟩

theorem mem_keysOf_of_memGet {m : Mem} {k : Nat} (h : memGet k m ≠ none) : k ∈ keysOf m :=
  List.mem_toFinset.mpr (mem_keys_of_memGet h)

theorem mem_liveKeys {m : Mem} {k : Nat} :
    k ∈ (keysOf m).filter (fun k => liveAt m k = true) ↔ liveAt m k = true := by
  rw [Finset.mem_filter]
  constructor
  · exact fun h => h.2
  · intro h
    refine ⟨mem_keysOf_of_memGet ?_, h⟩
    obtain ⟨rc, t, pl, hk, _⟩ := liveAt_iff.mp h
    rw [hk]
    simp

theorem liveCount_le {m m1 : Mem} (h : ∀ k, liveAt m1 k = true → liveAt m k = true) :
    liveCount m1 ≤ liveCount m := by
  apply Finset.card_le_card
  intro k hk
  exact mem_liveKeys.mpr (h k (mem_liveKeys.mp hk))

theorem liveCount_lt {m m1 : Mem} {a : Nat} (h : ∀ k, liveAt m1 k = true → liveAt m k = true)
    (ha : liveAt m a = true) (ha1 : liveAt m1 a = false) : liveCount m1 < liveCount m := by
  apply Finset.card_lt_card
  refine ⟨fun k hk => mem_liveKeys.mpr (h k (mem_liveKeys.mp hk)), fun hsub => ?_⟩
  have := mem_liveKeys.mp (hsub (mem_liveKeys.mpr ha))
  rw [ha1] at this
  cases this

theorem liveCount_le_of_frame {m m1 : Mem} (hf : Frame m m1) : liveCount m1 ≤ liveCount m := by
  apply liveCount_le
  intro k hk
  obtain ⟨rc1, t, pl, hk1, hrc1⟩ := liveAt_iff.mp hk
  obtain ⟨rc, hk0, hrc⟩ := hf.sub k rc1 t pl hk1 hrc1
  exact liveAt_iff.mpr ⟨rc, t, pl, hk0, hrc⟩

theorem liveCount_pos_of_livePtr {m : Mem} {x : Nat} (h : LivePtr m x) : 1 ≤ liveCount m := by
  obtain ⟨_, hl⟩ := livePtr_iff.mp h
  exact Finset.card_pos.mpr ⟨x - 8, mem_liveKeys.mpr hl⟩

/-- The frame of a complete destruction: the live object at `a` is set to refcount zero
(`m2`), references are released (`m3`), and the object and its element array are removed
(`m4`). -/
theorem frame_destroy {m m2 m3 m4 : Mem} {owed : List Nat} {a t : Nat} {pl : List Nat}
    (hinv : RcInv m owed) (hm : memGet a m = some (.obj 1 t pl))
    (hm2 : memGet a m2 = some (.obj 0 t pl)) (hrest : ∀ b, b ≠ a → memGet b m2 = memGet b m)
    (hf : Frame m2 m3)
    (h4 : ∀ b, memGet b m4 = memGet b m3 ∨
      (memGet b m4 = none ∧ (b = a ∨ (b = itemsOf t pl ∧ itemsOf t pl ≠ 0)))) :
    Frame m m4 := by
  refine ⟨fun b hd => ?_, fun k rc4 t4 pl4 hk h1 => ?_⟩
  · have hba : b ≠ a := by
      intro he
      subst he
      exact not_dead_of_live hm (le_refl _) hd
    have hd2 : Dead m2 b := by
      rcases hd with ⟨t1, pl1, hz⟩ | ⟨bs, k, t1, pl1, hb, hz, he⟩
      · exact Or.inl ⟨t1, pl1, by rw [hrest b hba, hz]⟩
      · have hka : k ≠ a := by
          intro hh
          subst hh
          rw [hm] at hz
          cases hz
        exact Or.inr ⟨bs, k, t1, pl1, by rw [hrest b hba, hb], by rw [hrest k hka, hz], he⟩
    rcases h4 b with h5 | ⟨_, h6 | ⟨h7, h8⟩⟩
    · rw [h5, hf.dead b hd2, hrest b hba]
    · exact absurd h6 hba
    · exfalso
      rw [h7] at hd
      exact not_dead_items hinv hm (le_refl _) h8 hd
  · have hk3 : memGet k m3 = some (.obj rc4 t4 pl4) := by
      rcases h4 k with h5 | ⟨h6, _⟩
      · rwa [h5] at hk
      · rw [h6] at hk
        cases hk
    obtain ⟨rc2, hk2, hrc2⟩ := hf.sub k rc4 t4 pl4 hk3 h1
    have hka : k ≠ a := by
      intro he
      subst he
      rw [hm2] at hk2
      cases hk2
      omega
    rw [hrest k hka] at hk2
    exact ⟨rc2, hk2, hrc2⟩

/-- The invariant after a complete destruction, from the invariant after the releases. -/
theorem rcInv_destroy {m2 m3 m4 : Mem} {owed : List Nat} {a t : Nat} {pl : List Nat}
    (hinv3 : RcInv m3 owed) (hm2 : memGet a m2 = some (.obj 0 t pl))
    (hbuf2 : itemsOf t pl ≠ 0 → ∃ bs, memGet (itemsOf t pl) m2 = some (.buf bs))
    (hf : Frame m2 m3) (ha4 : memGet a m4 = none)
    (h4 : ∀ b, memGet b m4 = memGet b m3 ∨
      (memGet b m4 = none ∧ (b = a ∨ (b = itemsOf t pl ∧ itemsOf t pl ≠ 0)))) :
    RcInv m4 owed := by
  have ha3 : memGet a m3 = some (.obj 0 t pl) := by
    rw [hf.dead a (Or.inl ⟨t, pl, hm2⟩), hm2]
  apply rcInv_erase hinv3
  · intro b
    rcases h4 b with h5 | ⟨h6, h7 | ⟨h8, h9⟩⟩
    · exact Or.inl h5
    · subst h7
      exact Or.inr ⟨h6, dead_of_frame hf (Or.inl ⟨t, pl, hm2⟩)⟩
    · obtain ⟨bs, hb⟩ := hbuf2 h9
      refine Or.inr ⟨h6, dead_of_frame hf (Or.inr ⟨bs, a, t, pl, ?_, hm2, h8.symm⟩)⟩
      rw [h8, hb]
  · intro k rc1 t1 pl1 hk hi
    have hk3 : memGet k m3 = some (.obj rc1 t1 pl1) := by
      rcases h4 k with h5 | ⟨h6, _⟩
      · rwa [h5] at hk
      · rw [h6] at hk
        cases hk
    obtain ⟨bs1, hb1⟩ := buf_of_shape (hinv3.shape k rc1 t1 pl1 hk3) hi
    rcases h4 (itemsOf t1 pl1) with h5 | ⟨_, h7 | ⟨h8, h9⟩⟩
    · exact h5
    · rw [h7, ha3] at hb1
      cases hb1
    · have hka : k = a := hinv3.bufs k a rc1 t1 pl1 0 t pl hk3 ha3 hi h8
      rw [hka, ha4] at hk
      cases hk

/-! ## Releases on a well-formed heap -/

theorem drop_take_cons (bs : List Nat) (N i : Nat) (hi : i < N) (hb : i < bs.length) :
    (bs.take N).drop i = bs[i] :: (bs.take N).drop (i + 1) := by
  have hl : i < (bs.take N).length := by
    rw [List.length_take]
    omega
  rw [List.drop_eq_getElem_cons hl, List.getElem_take]

/-- The element loop of the tuple / record / array destructors on an object that is being
destroyed: it returns for every fuel from some bound on and releases the slots left. -/
theorem slots_loop_ok {n : Nat} (hdec : DecOK n) (c items len t : Nat) (pl bs owed : List Nat)
    (hl0 : pl[0]? = some len) (hl1 : pl[1]? = some items)
    (hbl : (toInt64 len).toNat ≤ bs.length) (hio : itemsOf t pl = items) :
    ∀ (j i : Nat) (cur : Heap), i + j = (toInt64 len).toNat → liveCount cur.mem ≤ n →
      RcInv cur.mem ((bs.take (toInt64 len).toNat).drop i ++ owed) →
      memGet c cur.mem = some (.obj 0 t pl) → memGet items cur.mem = some (.buf bs) →
      ∃ F fin, (∀ fuel, F ≤ fuel → rcExec fuel cur (.slots (c + 8) i) = .ok fin) ∧
        RcInv fin.mem owed ∧ Frame cur.mem fin.mem := by
  intro j
  induction j with
  | zero =>
    intro i cur hij _ hinv hc _
    have hgc : getObj cur (c + 8) = some (0, t, pl) :=
      getObj_some_iff.mpr ⟨by omega, by simpa using hc⟩
    have hcond : ¬ (i : Int) < toInt64 len := by omega
    have hnil : (bs.take (toInt64 len).toNat).drop i = [] := by
      apply List.drop_eq_nil_of_le
      rw [List.length_take]
      omega
    rw [hnil, List.nil_append] at hinv
    refine ⟨1, cur, ?_, hinv, frame_refl _⟩
    intro fuel hf
    obtain ⟨f, rfl⟩ : ∃ f, fuel = f + 1 := ⟨fuel - 1, by omega⟩
    exact slots_step_done f (readField_of_getObj hgc hl0) hcond
  | succ j ih =>
    intro i cur hij hlc hinv hc hbuf
    have hgc : getObj cur (c + 8) = some (0, t, pl) :=
      getObj_some_iff.mpr ⟨by omega, by simpa using hc⟩
    have hiN : i < (toInt64 len).toNat := by omega
    have hib : i < bs.length := by omega
    have hcond : (i : Int) < toInt64 len := by omega
    have hr0 := readField_of_getObj hgc hl0
    have hr1 := readField_of_getObj hgc hl1
    have hrs : readSlot cur items i = .ok bs[i] :=
      readSlot_ok hbuf (List.getElem?_eq_getElem hib)
    rw [drop_take_cons bs _ i hiN hib, List.cons_append] at hinv
    by_cases hx : bs[i] = 0
    · obtain ⟨F2, fin, hrun, hinv2, hf2⟩ := ih (i + 1) cur (by omega) hlc (rcInv_tail hinv) hc hbuf
      refine ⟨F2 + 1, fin, ?_, hinv2, hf2⟩
      intro fuel hf
      obtain ⟨f, rfl⟩ : ∃ f, fuel = f + 1 := ⟨fuel - 1, by omega⟩
      rw [slots_step_null f hr0 hcond hr1 (by rw [hrs, hx])]
      exact hrun f (by omega)
    · obtain ⟨F1, h1, hrun1, hinv1, hf1⟩ := hdec cur _ bs[i] hlc hinv
      have hc1 : memGet c h1.mem = some (.obj 0 t pl) := by
        rw [hf1.dead c (Or.inl ⟨t, pl, hc⟩), hc]
      have hbuf1 : memGet items h1.mem = some (.buf bs) := by
        rw [hf1.dead items (Or.inr ⟨bs, c, t, pl, hbuf, hc, hio⟩), hbuf]
      obtain ⟨F2, fin, hrun2, hinv2, hf2⟩ := ih (i + 1) h1 (by omega)
        (le_trans (liveCount_le_of_frame hf1) hlc) hinv1 hc1 hbuf1
      refine ⟨max F1 F2 + 1, fin, ?_, hinv2, frame_trans hf1 hf2⟩
      intro fuel hf
      obtain ⟨f, rfl⟩ : ∃ f, fuel = f + 1 := ⟨fuel - 1, by omega⟩
      have hf1' : F1 ≤ f := by omega
      have hf2' : F2 ≤ f := by omega
      rw [slots_step_dec f hr0 hcond hr1 hrs hx (hrun1 f hf1')]
      exact hrun2 f hf2'

/-- The element loop of `destroy_set` on a set that is being destroyed. -/
theorem set_loop_ok {n : Nat} (hdec : DecOK n) (c items len t : Nat) (pl bs owed : List Nat)
    (hl0 : pl[0]? = some len) (hl2 : pl[2]? = some items)
    (hbl : (toInt64 len).toNat ≤ bs.length) (hio : itemsOf t pl = items) :
    ∀ (j i : Nat) (cur : Heap), i + j = (toInt64 len).toNat → liveCount cur.mem ≤ n →
      RcInv cur.mem ((bs.take (toInt64 len).toNat).drop i ++ owed) →
      memGet c cur.mem = some (.obj 0 t pl) → memGet items cur.mem = some (.buf bs) →
      ∃ F fin, (∀ fuel, F ≤ fuel → rcExec fuel cur (.setItems (c + 8) i) = .ok fin) ∧
        RcInv fin.mem owed ∧ Frame cur.mem fin.mem := by
  intro j
  induction j with
  | zero =>
    intro i cur hij _ hinv hc _
    have hgc : getObj cur (c + 8) = some (0, t, pl) :=
      getObj_some_iff.mpr ⟨by omega, by simpa using hc⟩
    have hcond : ¬ (i : Int) < toInt64 len := by omega
    have hnil : (bs.take (toInt64 len).toNat).drop i = [] := by
      apply List.drop_eq_nil_of_le
      rw [List.length_take]
      omega
    rw [hnil, List.nil_append] at hinv
    refine ⟨1, cur, ?_, hinv, frame_refl _⟩
    intro fuel hf
    obtain ⟨f, rfl⟩ : ∃ f, fuel = f + 1 := ⟨fuel - 1, by omega⟩
    exact set_step_done f (readField_of_getObj hgc hl0) hcond
  | succ j ih =>
    intro i cur hij hlc hinv hc hbuf
    have hgc : getObj cur (c + 8) = some (0, t, pl) :=
      getObj_some_iff.mpr ⟨by omega, by simpa using hc⟩
    have hiN : i < (toInt64 len).toNat := by omega
    have hib : i < bs.length := by omega
    have hcond : (i : Int) < toInt64 len := by omega
    have hr0 := readField_of_getObj hgc hl0
    have hr2 := readField_of_getObj hgc hl2
    have hrs : readSlot cur items i = .ok bs[i] :=
      readSlot_ok hbuf (List.getElem?_eq_getElem hib)
    rw [drop_take_cons bs _ i hiN hib, List.cons_append] at hinv
    obtain ⟨F1, h1, hrun1, hinv1, hf1⟩ := hdec cur _ bs[i] hlc hinv
    have hc1 : memGet c h1.mem = some (.obj 0 t pl) := by
      rw [hf1.dead c (Or.inl ⟨t, pl, hc⟩), hc]
    have hbuf1 : memGet items h1.mem = some (.buf bs) := by
      rw [hf1.dead items (Or.inr ⟨bs, c, t, pl, hbuf, hc, hio⟩), hbuf]
    obtain ⟨F2, fin, hrun2, hinv2, hf2⟩ := ih (i + 1) h1 (by omega)
      (le_trans (liveCount_le_of_frame hf1) hlc) hinv1 hc1 hbuf1
    refine ⟨max F1 F2 + 1, fin, ?_, hinv2, frame_trans hf1 hf2⟩
    intro fuel hf
    obtain ⟨f, rfl⟩ : ∃ f, fuel = f + 1 := ⟨fuel - 1, by omega⟩
    have hf1' : F1 ≤ f := by omega
    have hf2' : F2 ≤ f := by omega
    rw [set_step_dec f hr0 hcond hr2 hrs (hrun1 f hf1')]
    exact hrun2 f hf2'


theorem mem_free_zero {h : Heap} {a t : Nat} {pl : List Nat}
    (hm : memGet a h.mem = some (.obj 0 t pl)) :
    mem_free h (a + 8) = .ok { h with
      mem := memErase a h.mem
      free_count := (h.free_count + 1) % SIZE_MOD } := by
  have hg : getObj h (a + 8) = some (0, t, pl) :=
    getObj_some_iff.mpr ⟨by omega, by simpa using hm⟩
  have := mem_free_live hg (by decide)
  simpa using this

/-- After the element loop of a container that is being destroyed: the destructor frees
the element array and clears the field, `mem_free` frees the object, and every other block
is as the loop left it. -/
theorem destroy_slots_finish {h2 fin : Heap}
    {c items t : Nat} {pl bs : List Nat} (hg2 : getObj h2 (c + 8) = some (0, t, pl))
    (hl1 : pl[1]? = some items) (hi0 : items ≠ 0)
    (hc : memGet c fin.mem = some (.obj 0 t pl)) (hbuf : memGet items fin.mem = some (.buf bs)) :
    ∃ h3 h4, (∀ loop : Heap → Nat → Nat → Res Heap, loop h2 (c + 8) 0 = .ok fin →
        destroy_slots loop h2 (c + 8) = .ok h3) ∧ mem_free h3 (c + 8) = .ok h4 ∧
      memGet c h4.mem = none ∧ memGet items h4.mem = none ∧
      ∀ b, b ≠ c → b ≠ items → memGet b h4.mem = memGet b fin.mem := by
  have hir : items ≠ c := by
    intro he
    rw [he, hc] at hbuf
    cases hbuf
  have hgf : getObj fin (c + 8) = some (0, t, pl) :=
    getObj_some_iff.mpr ⟨by omega, by simpa using hc⟩
  have hfree : hostFree fin items = .ok { fin with mem := memErase items fin.mem } := by
    simp [hostFree, hbuf]
  have hge : getObj { fin with mem := memErase items fin.mem } (c + 8) = some (0, t, pl) :=
    getObj_some_iff.mpr ⟨by omega, by simpa [memGet_memErase_ne _ (Ne.symm hir)] using hc⟩
  have hl : 1 < pl.length := by
    rcases Nat.lt_or_ge 1 pl.length with h | h
    · exact h
    · rw [List.getElem?_eq_none h] at hl1
      exact absurd hl1 (by simp)
  have hwf : writeField { fin with mem := memErase items fin.mem } (c + 8) 1 0
      = .ok (putObj { fin with mem := memErase items fin.mem } (c + 8) 0 t (pl.set 1 0)) := by
    simp [writeField, hge, hl]
  have hgw : memGet c (putObj { fin with mem := memErase items fin.mem } (c + 8) 0 t
      (pl.set 1 0)).mem = some (.obj 0 t (pl.set 1 0)) := by
    have := getObj_putObj_same 0 t (pl.set 1 0) hge
    simpa using (getObj_some_iff.mp this).2
  refine ⟨_, _, ?_, mem_free_zero hgw, ?_, ?_, ?_⟩
  · intro loop hloop
    rw [destroy_slots_run (by omega) (readField_of_getObj hg2 hl1) hi0 hloop
      (readField_of_getObj hgf hl1) hfree, hwf]
  · simp [memGet_memErase_same]
  · simp [putObj, HEADER_SIZE, memGet_memErase_ne _ hir, memGet_memSet_ne _ _ hir,
      memGet_memErase_same]
  · intro b hbc hbi
    simp [putObj, HEADER_SIZE, memGet_memErase_ne _ hbc, memGet_memSet_ne _ _ hbc,
      memGet_memErase_ne _ hbi]

theorem destroy_set_finish {h2 fin : Heap}
    {c items t : Nat} {pl bs : List Nat} (hg2 : getObj h2 (c + 8) = some (0, t, pl))
    (hl2 : pl[2]? = some items) (hi0 : items ≠ 0)
    (hc : memGet c fin.mem = some (.obj 0 t pl)) (hbuf : memGet items fin.mem = some (.buf bs)) :
    ∃ h3 h4, (∀ loop : Heap → Nat → Nat → Res Heap, loop h2 (c + 8) 0 = .ok fin →
        destroy_set loop h2 (c + 8) = .ok h3) ∧ mem_free h3 (c + 8) = .ok h4 ∧
      memGet c h4.mem = none ∧ memGet items h4.mem = none ∧
      ∀ b, b ≠ c → b ≠ items → memGet b h4.mem = memGet b fin.mem := by
  have hir : items ≠ c := by
    intro he
    rw [he, hc] at hbuf
    cases hbuf
  have hgf : getObj fin (c + 8) = some (0, t, pl) :=
    getObj_some_iff.mpr ⟨by omega, by simpa using hc⟩
  have hfree : hostFree fin items = .ok { fin with mem := memErase items fin.mem } := by
    simp [hostFree, hbuf]
  have hge : getObj { fin with mem := memErase items fin.mem } (c + 8) = some (0, t, pl) :=
    getObj_some_iff.mpr ⟨by omega, by simpa [memGet_memErase_ne _ (Ne.symm hir)] using hc⟩
  have hl : 2 < pl.length := by
    rcases Nat.lt_or_ge 2 pl.length with h | h
    · exact h
    · rw [List.getElem?_eq_none h] at hl2
      exact absurd hl2 (by simp)
  have hwf : writeField { fin with mem := memErase items fin.mem } (c + 8) 2 0
      = .ok (putObj { fin with mem := memErase items fin.mem } (c + 8) 0 t (pl.set 2 0)) := by
    simp [writeField, hge, hl]
  have hgw : memGet c (putObj { fin with mem := memErase items fin.mem } (c + 8) 0 t
      (pl.set 2 0)).mem = some (.obj 0 t (pl.set 2 0)) := by
    have := getObj_putObj_same 0 t (pl.set 2 0) hge
    simpa using (getObj_some_iff.mp this).2
  refine ⟨_, _, ?_, mem_free_zero hgw, ?_, ?_, ?_⟩
  · intro loop hloop
    rw [destroy_set_run (readField_of_getObj hg2 hl2) hi0 hloop
      (readField_of_getObj hgf hl2) hfree, hwf]
  · simp [memGet_memErase_same]
  · simp [putObj, HEADER_SIZE, memGet_memErase_ne _ hir, memGet_memSet_ne _ _ hir,
      memGet_memErase_same]
  · intro b hbc hbi
    simp [putObj, HEADER_SIZE, memGet_memErase_ne _ hbc, memGet_memSet_ne _ _ hbc,
      memGet_memErase_ne _ hbi]


theorem getElem?_getD_of_lt (pl : List Nat) (i : Nat) (h : i < pl.length) :
    pl[i]? = some (pl.getD i 0) := by
  rw [List.getD_eq_getElem?_getD, List.getElem?_eq_getElem h]
  rfl

theorem erase_pointwise (m : Mem) (a : Nat) (t : Nat) (pl : List Nat) (b : Nat) :
    memGet b (memErase a m) = memGet b m ∨
      (memGet b (memErase a m) = none ∧ (b = a ∨ (b = itemsOf t pl ∧ itemsOf t pl ≠ 0))) := by
  by_cases hb : b = a
  · subst hb
    exact Or.inr ⟨memGet_memErase_same _ _, Or.inl rfl⟩
  · exact Or.inl (memGet_memErase_ne _ hb)

theorem destroy_closure_eq {dec : Heap → Nat → Res Heap} {h : Heap} {p env : Nat}
    (hr : readField h p 0 = .ok env) :
    destroy_closure dec h p = if env ≠ 0 then dec h env else .ok h := by
  simp only [destroy_closure, hr]

theorem destroy_adt_eq {dec : Heap → Nat → Res Heap} {h : Heap} {p payload : Nat}
    (hr : readField h p 1 = .ok payload) :
    destroy_adt dec h p = if payload ≠ 0 then dec h payload else .ok h := by
  simp only [destroy_adt, hr]

/-- The destructor selected by the tag, followed by `mem_free`, on an object whose refcount
has just dropped to zero: with the owning slots of the object on the owed list, both
return for every fuel from some bound on; the references are released, and the object and
its element array are removed. -/
theorem destroy_phase {n : Nat} (ih : DecOK n) (h2 : Heap) (a t : Nat) (pl owed : List Nat)
    (hm2 : memGet a h2.mem = some (.obj 0 t pl)) (hshape : shapeOK h2.mem t pl)
    (hlc : liveCount h2.mem ≤ n) (hinv2 : RcInv h2.mem (ownedSlots h2.mem t pl ++ owed)) :
    ∃ F h3 h4, (∀ fuel, F ≤ fuel →
        destroy_switch (fun s q => rcExec fuel s (.dec q))
          (fun s q i => rcExec fuel s (.slots q i))
          (fun s q i => rcExec fuel s (.setItems q i)) t h2 (a + 8) = .ok h3) ∧
      mem_free h3 (a + 8) = .ok h4 ∧ memGet a h4.mem = none ∧
      ∃ m3, RcInv m3 owed ∧ Frame h2.mem m3 ∧
        ∀ b, memGet b h4.mem = memGet b m3 ∨
          (memGet b h4.mem = none ∧ (b = a ∨ (b = itemsOf t pl ∧ itemsOf t pl ≠ 0))) := by
  have hg2 : getObj h2 (a + 8) = some (0, t, pl) :=
    getObj_some_iff.mpr ⟨by omega, by simpa using hm2⟩
  by_cases ht : t = REML_TAG_TUPLE ∨ t = REML_TAG_RECORD ∨ t = REML_TAG_ARRAY
  · obtain ⟨hl, hb⟩ := hshape.1 ht
    have hl0 := getElem?_getD_of_lt pl 0 (by omega)
    have hl1 := getElem?_getD_of_lt pl 1 (by omega)
    have hown : ownedSlots h2.mem t pl = bufSlots h2.mem (pl.getD 0 0) (pl.getD 1 0) := by
      unfold ownedSlots
      rw [if_pos ht]
    rw [hown] at hinv2
    by_cases hi : pl.getD 1 0 = 0
    · have hnil : bufSlots h2.mem (pl.getD 0 0) (pl.getD 1 0) = [] := by
        unfold bufSlots
        rw [if_pos hi]
      rw [hnil, List.nil_append] at hinv2
      rw [hi] at hl1
      refine ⟨0, h2, _, fun fuel _ => ?_, mem_free_zero hm2, memGet_memErase_same _ _, h2.mem, hinv2, frame_refl _,
        fun b => erase_pointwise _ a t pl b⟩
      rw [destroy_switch_slots _ _ ht]
      exact destroy_slots_null (readField_of_getObj hg2 hl1)
    · obtain ⟨bs, hbuf, hbl⟩ := bufOK_iff.mp hb hi
      have hsl : bufSlots h2.mem (pl.getD 0 0) (pl.getD 1 0)
          = (bs.take (toInt64 (pl.getD 0 0)).toNat).drop 0 := by
        unfold bufSlots
        rw [if_neg hi, hbuf]
        rfl
      rw [hsl] at hinv2
      have hio : itemsOf t pl = pl.getD 1 0 := itemsOf_slots ht
      obtain ⟨F, fin, hrun, hinv3, hf⟩ := slots_loop_ok ih a (pl.getD 1 0) (pl.getD 0 0) t pl bs
        owed hl0 hl1 hbl hio (toInt64 (pl.getD 0 0)).toNat 0 h2 (by omega) hlc hinv2 hm2 hbuf
      have hc3 : memGet a fin.mem = some (.obj 0 t pl) := by
        rw [hf.dead a (Or.inl ⟨t, pl, hm2⟩), hm2]
      have hbuf3 : memGet (pl.getD 1 0) fin.mem = some (.buf bs) := by
        rw [hf.dead _ (Or.inr ⟨bs, a, t, pl, hbuf, hm2, hio⟩), hbuf]
      obtain ⟨h3, h4, hds, hfree, hca, hia, hrest⟩ := destroy_slots_finish hg2 hl1 hi hc3 hbuf3
      refine ⟨F, h3, h4, fun fuel hfl => ?_, hfree, hca, fin.mem, hinv3, hf, fun b => ?_⟩
      · rw [destroy_switch_slots _ _ ht]
        exact hds _ (hrun fuel hfl)
      · by_cases hba : b = a
        · exact Or.inr ⟨by rw [hba, hca], Or.inl hba⟩
        · by_cases hbi : b = pl.getD 1 0
          · exact Or.inr ⟨by rw [hbi, hia], Or.inr ⟨by rw [hio, hbi], by rw [hio]; exact hi⟩⟩
          · exact Or.inl (hrest b hba hbi)
  by_cases hclo : t = REML_TAG_CLOSURE
  · subst hclo
    have hl := hshape.2.1 rfl
    have hl0 := getElem?_getD_of_lt pl 0 (by omega)
    have hown : ownedSlots h2.mem REML_TAG_CLOSURE pl = [pl.getD 0 0] := by
      unfold ownedSlots
      rw [if_neg ht, if_pos rfl]
    rw [hown, List.singleton_append] at hinv2
    have hr0 := readField_of_getObj hg2 hl0
    by_cases he : pl.getD 0 0 = 0
    · refine ⟨0, h2, _, fun fuel _ => ?_, mem_free_zero hm2, memGet_memErase_same _ _, h2.mem, rcInv_tail hinv2,
        frame_refl _, fun b => erase_pointwise _ a _ pl b⟩
      rw [destroy_switch_closure, destroy_closure_eq hr0, if_neg (not_not.mpr he)]
    · obtain ⟨F, h3, hrun, hinv3, hf⟩ := ih h2 owed (pl.getD 0 0) hlc hinv2
      have hc3 : memGet a h3.mem = some (.obj 0 REML_TAG_CLOSURE pl) := by
        rw [hf.dead a (Or.inl ⟨_, pl, hm2⟩), hm2]
      refine ⟨F, h3, _, fun fuel hfl => ?_, mem_free_zero hc3, memGet_memErase_same _ _, h3.mem, hinv3, hf,
        fun b => erase_pointwise _ a _ pl b⟩
      rw [destroy_switch_closure, destroy_closure_eq hr0, if_pos he]
      exact hrun fuel hfl
  by_cases hadt : t = REML_TAG_ADT
  · subst hadt
    have hl := hshape.2.2.1 rfl
    have hl1 := getElem?_getD_of_lt pl 1 (by omega)
    have hown : ownedSlots h2.mem REML_TAG_ADT pl = [pl.getD 1 0] := by
      unfold ownedSlots
      rw [if_neg ht, if_neg hclo, if_pos rfl]
    rw [hown, List.singleton_append] at hinv2
    have hr1 := readField_of_getObj hg2 hl1
    by_cases he : pl.getD 1 0 = 0
    · refine ⟨0, h2, _, fun fuel _ => ?_, mem_free_zero hm2, memGet_memErase_same _ _, h2.mem, rcInv_tail hinv2,
        frame_refl _, fun b => erase_pointwise _ a _ pl b⟩
      rw [destroy_switch_adt, destroy_adt_eq hr1, if_neg (not_not.mpr he)]
    · obtain ⟨F, h3, hrun, hinv3, hf⟩ := ih h2 owed (pl.getD 1 0) hlc hinv2
      have hc3 : memGet a h3.mem = some (.obj 0 REML_TAG_ADT pl) := by
        rw [hf.dead a (Or.inl ⟨_, pl, hm2⟩), hm2]
      refine ⟨F, h3, _, fun fuel hfl => ?_, mem_free_zero hc3, memGet_memErase_same _ _, h3.mem, hinv3, hf,
        fun b => erase_pointwise _ a _ pl b⟩
      rw [destroy_switch_adt, destroy_adt_eq hr1, if_pos he]
      exact hrun fuel hfl
  by_cases hset : t = REML_TAG_SET
  · subst hset
    obtain ⟨hl, hb⟩ := hshape.2.2.2 rfl
    have hl0 := getElem?_getD_of_lt pl 0 (by omega)
    have hl2 := getElem?_getD_of_lt pl 2 (by omega)
    have hown : ownedSlots h2.mem REML_TAG_SET pl
        = bufSlots h2.mem (pl.getD 0 0) (pl.getD 2 0) := by
      unfold ownedSlots
      rw [if_neg ht, if_neg hclo, if_neg hadt, if_pos rfl]
    rw [hown] at hinv2
    by_cases hi : pl.getD 2 0 = 0
    · have hnil : bufSlots h2.mem (pl.getD 0 0) (pl.getD 2 0) = [] := by
        unfold bufSlots
        rw [if_pos hi]
      rw [hnil, List.nil_append] at hinv2
      rw [hi] at hl2
      refine ⟨0, h2, _, fun fuel _ => ?_, mem_free_zero hm2, memGet_memErase_same _ _, h2.mem, hinv2, frame_refl _,
        fun b => erase_pointwise _ a _ pl b⟩
      rw [destroy_switch_set]
      exact destroy_set_null (readField_of_getObj hg2 hl2)
    · obtain ⟨bs, hbuf, hbl⟩ := bufOK_iff.mp hb hi
      have hsl : bufSlots h2.mem (pl.getD 0 0) (pl.getD 2 0)
          = (bs.take (toInt64 (pl.getD 0 0)).toNat).drop 0 := by
        unfold bufSlots
        rw [if_neg hi, hbuf]
        rfl
      rw [hsl] at hinv2
      have hio : itemsOf REML_TAG_SET pl = pl.getD 2 0 := itemsOf_set pl
      obtain ⟨F, fin, hrun, hinv3, hf⟩ := set_loop_ok ih a (pl.getD 2 0) (pl.getD 0 0)
        REML_TAG_SET pl bs owed hl0 hl2 hbl hio (toInt64 (pl.getD 0 0)).toNat 0 h2 (by omega)
        hlc hinv2 hm2 hbuf
      have hc3 : memGet a fin.mem = some (.obj 0 REML_TAG_SET pl) := by
        rw [hf.dead a (Or.inl ⟨_, pl, hm2⟩), hm2]
      have hbuf3 : memGet (pl.getD 2 0) fin.mem = some (.buf bs) := by
        rw [hf.dead _ (Or.inr ⟨bs, a, _, pl, hbuf, hm2, hio⟩), hbuf]
      obtain ⟨h3, h4, hds, hfree, hca, hia, hrest⟩ := destroy_set_finish hg2 hl2 hi hc3 hbuf3
      refine ⟨F, h3, h4, fun fuel hfl => ?_, hfree, hca, fin.mem, hinv3, hf, fun b => ?_⟩
      · rw [destroy_switch_set]
        exact hds _ (hrun fuel hfl)
      · by_cases hba : b = a
        · exact Or.inr ⟨by rw [hba, hca], Or.inl hba⟩
        · by_cases hbi : b = pl.getD 2 0
          · exact Or.inr ⟨by rw [hbi, hia], Or.inr ⟨by rw [hio, hbi], by rw [hio]; exact hi⟩⟩
          · exact Or.inl (hrest b hba hbi)
  · have hleaf : leafTag t := by
      unfold leafTag
      refine ⟨fun h => ht (Or.inl h), fun h => ht (Or.inr (Or.inl h)),
        fun h => ht (Or.inr (Or.inr h)), hclo, hadt, hset⟩
    have hown : ownedSlots h2.mem t pl = [] := by
      unfold ownedSlots
      rw [if_neg ht, if_neg hclo, if_neg hadt, if_neg hset]
    rw [hown, List.nil_append] at hinv2
    exact ⟨0, h2, _, fun fuel _ => destroy_switch_leaf h2 _ hleaf, mem_free_zero hm2,
      memGet_memErase_same _ _, h2.mem, hinv2, frame_refl _, fun b => erase_pointwise _ a t pl b⟩


theorem liveAt_of_obj {m : Mem} {k rc t : Nat} {pl : List Nat}
    (h : memGet k m = some (.obj rc t pl)) : liveAt m k = decide (1 ≤ rc) := by
  simp [liveAt, rcAt, h, isObj]

theorem decOK_zero : DecOK 0 := by
  intro h owed x hlc hinv
  by_cases hx : x = 0
  · subst hx
    refine ⟨1, h, fun fuel hf => ?_, rcInv_tail hinv, frame_refl _⟩
    obtain ⟨f, rfl⟩ : ∃ f, fuel = f + 1 := ⟨fuel - 1, by omega⟩
    exact dec_ref_null f h
  · have := liveCount_pos_of_livePtr (hinv.owedLive x (List.mem_cons_self _ _) hx)
    omega

theorem decOK_succ {n : Nat} (ih : DecOK n) : DecOK (n + 1) := by
  intro h owed x hlc hinv
  by_cases hx : x = 0
  · subst hx
    refine ⟨1, h, fun fuel hf => ?_, rcInv_tail hinv, frame_refl _⟩
    obtain ⟨f, rfl⟩ : ∃ f, fuel = f + 1 := ⟨fuel - 1, by omega⟩
    exact dec_ref_null f h
  · obtain ⟨h8, rc, t, pl, hm, hrc⟩ := hinv.owedLive x (List.mem_cons_self _ _) hx
    obtain ⟨a, rfl⟩ : ∃ a, x = a + 8 := ⟨x - 8, by omega⟩
    simp only [Nat.add_sub_cancel] at hm
    have h32 := hinv.rc32 a rc t pl hm
    have hg : getObj h (a + 8) = some (rc, t, pl) :=
      getObj_some_iff.mpr ⟨by omega, by simpa using hm⟩
    have e1 : (rc + (U32_MOD - 1)) % U32_MOD = rc - 1 := by
      unfold U32_MOD at h32 ⊢
      omega
    by_cases h2 : 2 ≤ rc
    · have hm1 : memGet a (memSet a (.obj (rc - 1) t pl) h.mem) = some (.obj (rc - 1) t pl) := by
        rw [memGet_memSet_same, hm]
        rfl
      have hrest : ∀ b, b ≠ a → memGet b (memSet a (.obj (rc - 1) t pl) h.mem) = memGet b h.mem :=
        fun b hb => memGet_memSet_ne _ _ hb
      refine ⟨1, { h with
        mem := memSet a (.obj (rc - 1) t pl) h.mem
        dec_ref_count := (h.dec_ref_count + 1) % SIZE_MOD }, fun fuel hf => ?_,
        rcInv_dec_live hm h2 hm1 hrest hinv, frame_dec_live hm hrc hm1 hrest⟩
      obtain ⟨f, rfl⟩ : ∃ f, fuel = f + 1 := ⟨fuel - 1, by omega⟩
      have := dec_ref_live_pos f hg (by rw [e1]; omega)
      rw [e1, Nat.add_sub_cancel] at this
      exact this
    · have hrc1 : rc = 1 := by omega
      subst hrc1
      have hm2 : memGet a (memSet a (.obj 0 t pl) h.mem) = some (.obj 0 t pl) := by
        rw [memGet_memSet_same, hm]
        rfl
      have hrest : ∀ b, b ≠ a → memGet b (memSet a (.obj 0 t pl) h.mem) = memGet b h.mem :=
        fun b hb => memGet_memSet_ne _ _ hb
      obtain ⟨hinv2, _, _⟩ := rcInv_dec_last hm hm2 hrest hinv
      have hown : ownedSlots (memSet a (.obj 0 t pl) h.mem) t pl = ownedSlots h.mem t pl :=
        ownedSlots_congr _ _ (fun _ => bufOf_update_obj hm hm2 hrest _)
      rw [← hown] at hinv2
      have hshape : shapeOK (memSet a (.obj 0 t pl) h.mem) t pl :=
        shapeOK_mono (fun _ bs hb => buf_update_obj hm hrest _ bs hb)
          (hinv.shape a 1 t pl hm)
      have hlt : liveCount (memSet a (.obj 0 t pl) h.mem) < liveCount h.mem := by
        apply liveCount_lt (a := a)
        · intro k hk
          by_cases hka : k = a
          · subst hka
            rw [liveAt_of_obj hm2] at hk
            simp at hk
          · obtain ⟨rc1, t1, pl1, hk1, hrc1⟩ := liveAt_iff.mp hk
            rw [hrest k hka] at hk1
            exact liveAt_iff.mpr ⟨rc1, t1, pl1, hk1, hrc1⟩
        · rw [liveAt_of_obj hm]
          simp
        · rw [liveAt_of_obj hm2]
          simp
      obtain ⟨F, h3, h4, hds, hfree, ha4, m3, hinv3, hf, hpt⟩ := destroy_phase ih
        { h with
          mem := memSet a (.obj 0 t pl) h.mem
          dec_ref_count := (h.dec_ref_count + 1) % SIZE_MOD
          destroy_count := (h.destroy_count + 1) % SIZE_MOD } a t pl owed hm2 hshape (by
            show liveCount (memSet a (.obj 0 t pl) h.mem) ≤ n
            omega) hinv2
      refine ⟨F + 1, h4, fun fuel hfl => ?_,
        rcInv_destroy hinv3 hm2 (fun hi => buf_of_shape hshape hi) hf ha4 hpt,
        frame_destroy hinv hm hm2 hrest hf hpt⟩
      obtain ⟨f, rfl⟩ : ∃ f, fuel = f + 1 := ⟨fuel - 1, by omega⟩
      have hz := dec_ref_zero_unfold f hg (by decide)
      simp only [Nat.add_sub_cancel] at hz
      rw [hds f (by omega)] at hz
      simp only [dec_ref] at hz
      rw [hz]
      exact hfree

/-- Releases are safe whatever the number of live objects. -/
theorem decOK_all : ∀ n, DecOK n
  | 0 => decOK_zero
  | n + 1 => decOK_succ (decOK_all n)

/-- From the invariant with `x` owed, `dec_ref(x)` returns for every fuel from some bound
on, in a state that satisfies the invariant with nothing owed. -/
theorem dec_ref_inv (h : Heap) (x : Nat) (owed : List Nat) (hinv : RcInv h.mem (x :: owed)) :
    ∃ F h1, (∀ fuel, F ≤ fuel → dec_ref fuel h x = .ok h1) ∧ RcInv h1.mem owed ∧
      Frame h.mem h1.mem :=
  decOK_all (liveCount h.mem) h owed x (le_refl _) hinv

/-! ## Constructors on a well-formed heap -/

theorem inCount_eq_zero {m : Mem} {q : Nat} (h : ∀ k, q ∉ slotsAt m k) : inCount m q = 0 := by
  unfold inCount
  apply Finset.sum_eq_zero
  intro k _
  exact List.count_eq_zero_of_not_mem (h k)

/-- A constructor keeps the invariant: it adds a new object at `raw` with refcount 1 whose
owning slots are `S`, possibly with a new element array, and retains every non-null pointer
of `S` once per occurrence, without wrapping its refcount. -/
theorem rcInv_construct {m m1 : Mem} {raw t : Nat} {pl S : List Nat} (hinv : RcInv m [])
    (hfresh : memGet raw m = none) (hnew : memGet raw m1 = some (.obj 1 t pl))
    (hshape : shapeOK m1 t pl) (hS : ownedSlots m1 t pl = S)
    (hbufnew : itemsOf t pl ≠ 0 → memGet (itemsOf t pl) m = none)
    (hrest : ∀ b, b ≠ raw → (itemsOf t pl ≠ 0 → b ≠ itemsOf t pl) →
      memGet b m1 = (memGet b m).map (bumpBlock (S.count (b + 8))))
    (hlive : ∀ x ∈ S, x ≠ 0 → 8 ≤ x ∧ ∃ rc t1 pl1, memGet (x - 8) m = some (.obj rc t1 pl1) ∧
      1 ≤ rc ∧ rc + S.count x < U32_MOD) :
    RcInv m1 [] := by
  -- the blocks of `m` in `m1`
  have hold : ∀ b blk, memGet b m = some blk →
      memGet b m1 = some (bumpBlock (S.count (b + 8)) blk) := by
    intro b blk hb
    have h1 : b ≠ raw := by
      intro he
      rw [he, hfresh] at hb
      cases hb
    have h2 : itemsOf t pl ≠ 0 → b ≠ itemsOf t pl := by
      intro hi he
      rw [he, hbufnew hi] at hb
      cases hb
    rw [hrest b h1 h2, hb]
    rfl
  have hbuf : ∀ b bs, memGet b m = some (.buf bs) → memGet b m1 = some (.buf bs) := by
    intro b bs hb
    rw [hold b _ hb]
    rfl
  have hnewbuf : itemsOf t pl ≠ 0 → ∃ bs, memGet (itemsOf t pl) m1 = some (.buf bs) :=
    fun hi => buf_of_shape hshape hi
  have hcount : ∀ k rc t1 pl1, memGet k m = some (.obj rc t1 pl1) →
      rc + S.count (k + 8) < U32_MOD ∧ (0 < S.count (k + 8) → 1 ≤ rc) ∧
      memGet k m1 = some (.obj (rc + S.count (k + 8)) t1 pl1) := by
    intro k rc t1 pl1 hk
    have h32 := hinv.rc32 k rc t1 pl1 hk
    have hk1 := hold k _ hk
    by_cases hc : S.count (k + 8) = 0
    · rw [hc] at hk1 ⊢
      exact ⟨by omega, fun h => absurd h (by omega), by simpa [bumpBlock, incN] using hk1⟩
    · have hmem : k + 8 ∈ S := List.count_pos_iff.mp (by omega)
      obtain ⟨_, rc2, t2, pl2, hk2, hrc2, hlt⟩ := hlive (k + 8) hmem (by omega)
      rw [Nat.add_sub_cancel, hk] at hk2
      cases hk2
      refine ⟨hlt, fun _ => hrc2, ?_⟩
      rw [hk1]
      simp only [bumpBlock, incN_eq _ _ h32, Nat.mod_eq_of_lt hlt]
  have hobj : ∀ k rc1 t1 pl1, memGet k m1 = some (.obj rc1 t1 pl1) →
      (k = raw ∧ rc1 = 1 ∧ t1 = t ∧ pl1 = pl) ∨
      (k ≠ raw ∧ ∃ rc, memGet k m = some (.obj rc t1 pl1) ∧ rc1 = rc + S.count (k + 8)) := by
    intro k rc1 t1 pl1 hk
    by_cases hkr : k = raw
    · subst hkr
      rw [hnew] at hk
      cases hk
      exact Or.inl ⟨rfl, rfl, rfl, rfl⟩
    · have h2 : itemsOf t pl ≠ 0 → k ≠ itemsOf t pl := by
        intro hi he
        obtain ⟨bs, hb⟩ := hnewbuf hi
        rw [he, hb] at hk
        cases hk
      rw [hrest k hkr h2] at hk
      cases hm : memGet k m with
      | none =>
        rw [hm] at hk
        cases hk
      | some blk =>
        cases blk with
        | buf bs =>
          rw [hm] at hk
          cases hk
        | obj rc t2 pl2 =>
          obtain ⟨_, _, hk1⟩ := hcount k rc t2 pl2 hm
          rw [← hrest k hkr h2, hk1] at hk
          cases hk
          exact Or.inr ⟨hkr, rc, rfl, rfl⟩
  have hliveP : ∀ x, LivePtr m x → LivePtr m1 x := by
    rintro x ⟨h8, rc, t1, pl1, hk, hrc⟩
    obtain ⟨_, _, hk1⟩ := hcount _ rc t1 pl1 hk
    exact ⟨h8, _, t1, pl1, hk1, by omega⟩
  have hslots : ∀ k, k ≠ raw → slotsAt m1 k = slotsAt m k := by
    intro k hkr
    cases hm : memGet k m with
    | none =>
      rw [slotsAt_of_none hm]
      cases hm1 : memGet k m1 with
      | none => exact slotsAt_of_none hm1
      | some blk =>
        cases blk with
        | buf bs => exact slotsAt_of_not_obj (by rw [hm1]; rfl)
        | obj rc1 t1 pl1 =>
          rcases hobj k rc1 t1 pl1 hm1 with ⟨h1, _⟩ | ⟨_, rc, h2, _⟩
          · exact absurd h1 hkr
          · rw [hm] at h2
            cases h2
    | some blk =>
      cases blk with
      | buf bs =>
        rw [slotsAt_of_not_obj (by rw [hbuf k bs hm]; rfl),
          slotsAt_of_not_obj (by rw [hm]; rfl)]
      | obj rc t1 pl1 =>
        obtain ⟨_, hpos, hk1⟩ := hcount k rc t1 pl1 hm
        by_cases hrc : rc = 0
        · subst hrc
          have hc0 : S.count (k + 8) = 0 := by
            by_contra hne
            have := hpos (by omega)
            omega
          rw [hc0] at hk1
          rw [slotsAt_of_zero hk1, slotsAt_of_zero hm]
        · rw [slotsAt_of_obj hk1 (by omega), slotsAt_of_obj hm (by omega)]
          apply ownedSlots_congr
          intro hi
          obtain ⟨bs, hb⟩ := buf_of_shape (hinv.shape k rc t1 pl1 hm) hi
          rw [hbuf _ bs hb, hb]
  have hsr : slotsAt m raw = [] := slotsAt_of_none hfresh
  have hsr1 : slotsAt m1 raw = S := by rw [slotsAt_of_obj hnew (le_refl _), hS]
  have hin : ∀ q, inCount m1 q = inCount m q + S.count q := by
    intro q
    have := inCount_update raw hslots q
    rw [hsr, hsr1] at this
    simpa using this
  have hraw0 : inCount m (raw + 8) = 0 := by
    apply inCount_eq_zero
    intro k hmem
    obtain ⟨_, rc, t1, pl1, hk, _⟩ := hinv.pts k _ hmem (by omega)
    rw [Nat.add_sub_cancel, hfresh] at hk
    cases hk
  have hrawS : S.count (raw + 8) = 0 := by
    apply List.count_eq_zero_of_not_mem
    intro hmem
    obtain ⟨_, rc, t1, pl1, hk, _⟩ := hlive _ hmem (by omega)
    rw [Nat.add_sub_cancel, hfresh] at hk
    cases hk
  refine ⟨?_, ?_, ?_, ?_, ?_, ?_⟩
  · intro k rc1 t1 pl1 hk
    rcases hobj k rc1 t1 pl1 hk with ⟨_, h1, _⟩ | ⟨_, rc, hk0, h2⟩
    · rw [h1]
      decide
    · rw [h2]
      exact (hcount k rc t1 pl1 hk0).1
  · intro k rc1 t1 pl1 hk
    rcases hobj k rc1 t1 pl1 hk with ⟨_, _, h2, h3⟩ | ⟨_, rc, hk0, _⟩
    · rw [h2, h3]
      exact hshape
    · exact shapeOK_mono (fun _ bs hb => hbuf _ bs hb) (hinv.shape k rc t1 pl1 hk0)
  · intro k1 k2 rc1 t1 pl1 rc2 t2 pl2 h1 h2 hi he
    rcases hobj k1 rc1 t1 pl1 h1 with ⟨a1, _, a3, a4⟩ | ⟨_, r1, b1, _⟩
    · rcases hobj k2 rc2 t2 pl2 h2 with ⟨c1, _⟩ | ⟨_, r2, d1, _⟩
      · rw [a1, c1]
      · exfalso
        rw [a3, a4] at hi he
        have hi2 : itemsOf t2 pl2 ≠ 0 := by rw [← he]; exact hi
        obtain ⟨bs, hb⟩ := buf_of_shape (hinv.shape k2 r2 t2 pl2 d1) hi2
        rw [← he, hbufnew hi] at hb
        cases hb
    · rcases hobj k2 rc2 t2 pl2 h2 with ⟨_, _, c3, c4⟩ | ⟨_, r2, d1, _⟩
      · exfalso
        rw [c3, c4] at he
        obtain ⟨bs, hb⟩ := buf_of_shape (hinv.shape k1 r1 t1 pl1 b1) hi
        have hi2 : itemsOf t pl ≠ 0 := by rw [← he]; exact hi
        rw [he, hbufnew hi2] at hb
        cases hb
      · exact hinv.bufs k1 k2 r1 t1 pl1 r2 t2 pl2 b1 d1 hi he
  · intro k x hx hx0
    by_cases hkr : k = raw
    · rw [hkr, hsr1] at hx
      obtain ⟨h8, rc, t1, pl1, hk, hrc, _⟩ := hlive x hx hx0
      exact hliveP x ⟨h8, rc, t1, pl1, hk, hrc⟩
    · rw [hslots k hkr] at hx
      exact hliveP x (hinv.pts k x hx hx0)
  · intro x hx
    exact absurd hx (by simp)
  · intro k rc1 t1 pl1 hk hrc1
    rw [hin]
    simp only [List.count_nil, Nat.add_zero]
    rcases hobj k rc1 t1 pl1 hk with ⟨h1, h2, _⟩ | ⟨_, rc, hk0, h2⟩
    · rw [h1, hraw0, hrawS, h2]
      omega
    · obtain ⟨_, hpos, _⟩ := hcount k rc t1 pl1 hk0
      have hrc : 1 ≤ rc := by
        by_contra hn
        have hc0 : S.count (k + 8) = 0 := by
          by_contra hne
          exact hn (hpos (by omega))
        omega
      have := hinv.rcs k rc t1 pl1 hk0 hrc
      simp only [List.count_nil, Nat.add_zero] at this
      omega

/-- Retaining a live object whose refcount does not wrap keeps the invariant. -/
theorem rcInv_inc {m m1 : Mem} {a rc t : Nat} {pl : List Nat} (hinv : RcInv m [])
    (hm : memGet a m = some (.obj rc t pl)) (hrc : 1 ≤ rc) (hlt : rc + 1 < U32_MOD)
    (hm1 : memGet a m1 = some (.obj (rc + 1) t pl))
    (hrest : ∀ b, b ≠ a → memGet b m1 = memGet b m) : RcInv m1 [] := by
  have hobj : ∀ k rc1 t1 pl1, memGet k m1 = some (.obj rc1 t1 pl1) →
      ∃ rc0, memGet k m = some (.obj rc0 t1 pl1) ∧ rc0 ≤ rc1 ∧ rc1 < U32_MOD ∧
        (1 ≤ rc1 → 1 ≤ rc0) := by
    intro k rc1 t1 pl1 hk
    by_cases hka : k = a
    · subst hka
      rw [hm1] at hk
      cases hk
      exact ⟨rc, hm, by omega, hlt, fun _ => hrc⟩
    · rw [hrest k hka] at hk
      exact ⟨rc1, hk, le_refl _, hinv.rc32 k rc1 t1 pl1 hk, fun h => h⟩
  have hslots : ∀ k, slotsAt m1 k = slotsAt m k := by
    intro k
    by_cases hka : k = a
    · subst hka
      rw [slotsAt_of_obj hm1 (by omega), slotsAt_of_obj hm hrc]
      exact ownedSlots_congr _ _ (fun _ => bufOf_update_obj hm hm1 hrest _)
    · exact slotsAt_congr (hrest k hka) (fun _ _ => bufOf_update_obj hm hm1 hrest _)
  have hlive : ∀ x, LivePtr m x → LivePtr m1 x := by
    intro x hx
    by_cases hxa : x = a + 8
    · subst hxa
      exact ⟨by omega, rc + 1, t, pl, by simpa using hm1, by omega⟩
    · exact livePtr_update hrest hxa hx
  refine ⟨?_, ?_, ?_, ?_, ?_, ?_⟩
  · intro k rc1 t1 pl1 hk
    obtain ⟨_, _, _, h32, _⟩ := hobj k rc1 t1 pl1 hk
    exact h32
  · intro k rc1 t1 pl1 hk
    obtain ⟨rc0, hk0, _⟩ := hobj k rc1 t1 pl1 hk
    exact shapeOK_mono (fun _ bs hb => buf_update_obj hm hrest _ bs hb)
      (hinv.shape k rc0 t1 pl1 hk0)
  · intro k1 k2 rc1 t1 pl1 rc2 t2 pl2 h1 h2 hi he
    obtain ⟨_, h10, _⟩ := hobj k1 rc1 t1 pl1 h1
    obtain ⟨_, h20, _⟩ := hobj k2 rc2 t2 pl2 h2
    exact hinv.bufs k1 k2 _ t1 pl1 _ t2 pl2 h10 h20 hi he
  · intro k x hx hx0
    rw [hslots k] at hx
    exact hlive x (hinv.pts k x hx hx0)
  · intro x hx
    exact absurd hx (by simp)
  · intro k rc1 t1 pl1 hk h1
    obtain ⟨rc0, hk0, hle, _, hpos⟩ := hobj k rc1 t1 pl1 hk
    have := hinv.rcs k rc0 t1 pl1 hk0 (hpos h1)
    rw [inCount_congr hslots]
    omega

/-! ## The invariant without pending releases is well-formedness -/

theorem obj_of_isObj {o : Option Block} (h : isObj o = true) : ∃ rc t pl, o = some (.obj rc t pl) := by
  cases o with
  | none => simp [isObj] at h
  | some b =>
    cases b with
    | obj rc t pl => exact ⟨rc, t, pl, rfl⟩
    | buf bs => simp [isObj] at h

theorem itemsAt_of_obj {m : Mem} {k rc t : Nat} {pl : List Nat}
    (h : memGet k m = some (.obj rc t pl)) : itemsAt m k = itemsOf t pl := by
  simp [itemsAt, tagAt, plAt, h, isObj]

theorem itemsAt_of_not_obj {m : Mem} {k : Nat} (h : isObj (memGet k m) = false) :
    itemsAt m k = 0 := by
  simp [itemsAt, h]

theorem wellFormed_of_rcInv {h : Heap} (hinv : RcInv h.mem []) : WellFormed h ∧ Typed h := by
  constructor
  · intro k _
    refine ⟨fun x hx hx0 => livePtr_iff.mp (hinv.pts k x hx hx0), fun hl => ?_⟩
    obtain ⟨rc, t, pl, hk, hrc⟩ := liveAt_iff.mp hl
    have := hinv.rcs k rc t pl hk hrc
    simpa [rcAt, hk] using this
  · intro k _ ho
    obtain ⟨rc, t, pl, hk⟩ := obj_of_isObj ho
    refine ⟨?_, ?_, ?_⟩
    · simpa [rcAt, hk] using hinv.rc32 k rc t pl hk
    · simpa [tagAt, plAt, hk] using hinv.shape k rc t pl hk
    · intro hi k2 _ he
      rw [itemsAt_of_obj hk] at hi he
      cases ho2 : isObj (memGet k2 h.mem) with
      | false =>
        rw [itemsAt_of_not_obj ho2] at he
        exact absurd he.symm hi
      | true =>
        obtain ⟨rc2, t2, pl2, hk2⟩ := obj_of_isObj ho2
        rw [itemsAt_of_obj hk2] at he
        exact (hinv.bufs k k2 rc t pl rc2 t2 pl2 hk hk2 hi he.symm).symm

theorem rcInv_of_wellFormed {h : Heap} (hwf : WellFormed h) (hty : Typed h) : RcInv h.mem [] := by
  have hkey : ∀ k rc t pl, memGet k h.mem = some (.obj rc t pl) → k ∈ keysOf h.mem :=
    fun k rc t pl hk => mem_keysOf_of_memGet (by rw [hk]; simp)
  refine ⟨?_, ?_, ?_, ?_, ?_, ?_⟩
  · intro k rc t pl hk
    have := (hty k (hkey k rc t pl hk) (by rw [hk]; rfl)).1
    simpa [rcAt, hk] using this
  · intro k rc t pl hk
    have := (hty k (hkey k rc t pl hk) (by rw [hk]; rfl)).2.1
    simpa [tagAt, plAt, hk] using this
  · intro k1 k2 rc1 t1 pl1 rc2 t2 pl2 h1 h2 hi he
    have := (hty k1 (hkey k1 rc1 t1 pl1 h1) (by rw [h1]; rfl)).2.2
    rw [itemsAt_of_obj h1] at this
    exact (this hi k2 (hkey k2 rc2 t2 pl2 h2) (by rw [itemsAt_of_obj h2]; exact he.symm)).symm
  · intro k x hx hx0
    by_cases hk : k ∈ keysOf h.mem
    · exact livePtr_iff.mpr ((hwf k hk).1 x hx hx0)
    · rw [slotsAt_of_none (memGet_none_of_not_mem_keys hk)] at hx
      exact absurd hx (by simp)
  · intro x hx
    exact absurd hx (by simp)
  · intro k rc t pl hk hrc
    have := (hwf k (hkey k rc t pl hk)).2 (by rw [liveAt_of_obj hk]; simpa using hrc)
    simpa [rcAt, hk] using this

/-- An external reference to a live object is a pending release the invariant allows. -/
theorem rcInv_external {h : Heap} {p rc t : Nat} {pl : List Nat} (hinv : RcInv h.mem [])
    (hp : getObj h p = some (rc, t, pl)) (hext : inCount h.mem p < rc) : RcInv h.mem [p] := by
  obtain ⟨h8, hm⟩ := getObj_some_iff.mp hp
  have hp8 : p - 8 + 8 = p := by omega
  refine ⟨hinv.rc32, hinv.shape, hinv.bufs, hinv.pts, ?_, ?_⟩
  · intro x hx _
    rw [List.mem_singleton] at hx
    subst hx
    exact ⟨h8, rc, t, pl, hm, by omega⟩
  · intro k rc1 t1 pl1 hk hrc1
    have := hinv.rcs k rc1 t1 pl1 hk hrc1
    simp only [List.count_nil, Nat.add_zero] at this
    by_cases hkp : k + 8 = p
    · have hk2 : k = p - 8 := by omega
      rw [hk2, hm] at hk
      cases hk
      rw [hk2, hp8]
      simp
      omega
    · rw [List.count_eq_zero_of_not_mem (by simpa using hkp)]
      omega

/-! ## The operations of the claim -/

theorem mem_alloc_inv {H : Host} (hH : HostOK H) {h h1 : Heap} {size p : Nat}
    (hinv : RcInv h.mem []) (hok : mem_alloc H h size = .ok (h1, p)) : RcInv h1.mem [] := by
  obtain ⟨raw, hraw, _, rfl⟩ := mem_alloc_ok hok
  obtain ⟨_, hfresh⟩ := hH _ _ _ hraw
  refine rcInv_construct hinv hfresh (memGet_cons_same _ _ _) ?_ (S := []) ?_ ?_ ?_ ?_
  · simp [shapeOK, REML_TAG_TUPLE, REML_TAG_RECORD, REML_TAG_ARRAY, REML_TAG_CLOSURE,
      REML_TAG_ADT, REML_TAG_SET]
  · simp [ownedSlots, REML_TAG_TUPLE, REML_TAG_RECORD, REML_TAG_ARRAY, REML_TAG_CLOSURE,
      REML_TAG_ADT, REML_TAG_SET]
  · intro hi
    exact absurd (by simp [itemsOf, REML_TAG_TUPLE, REML_TAG_RECORD, REML_TAG_ARRAY,
      REML_TAG_SET]) hi
  · intro b hb _
    rw [memGet_cons_ne _ _ hb, List.count_nil, map_bumpBlock_zero]
  · intro x hx
    exact absurd hx (by simp)

theorem closure_shape (m : Mem) (env code : Nat) :
    shapeOK m REML_TAG_CLOSURE [env, code] ∧ ownedSlots m REML_TAG_CLOSURE [env, code] = [env] ∧
      itemsOf REML_TAG_CLOSURE [env, code] = 0 := by
  simp [shapeOK, ownedSlots, itemsOf, REML_TAG_TUPLE, REML_TAG_RECORD, REML_TAG_ARRAY,
    REML_TAG_CLOSURE, REML_TAG_ADT, REML_TAG_SET]

theorem closure_new_inv {H : Host} (hH : HostOK H) (hserve : HostServes H 24) (h : Heap)
    (env code : Nat) (hinv : RcInv h.mem []) (hret : Retainable h.mem [env]) :
    ∃ h1 p, reml_closure_new H h env code = .ok (h1, p) ∧ RcInv h1.mem [] := by
  by_cases henv : env = 0
  · subst henv
    obtain ⟨raw, _, hfresh, hok⟩ := closure_new_null hH hserve h code
    refine ⟨_, _, hok, ?_⟩
    refine rcInv_construct hinv hfresh (memGet_cons_same _ _ _) (closure_shape _ _ _).1
      (closure_shape _ _ _).2.1 (fun hi => absurd (closure_shape h.mem 0 code).2.2 hi) ?_ hret
    intro b hb _
    have : List.count (b + 8) [0] = 0 := List.count_eq_zero_of_not_mem (by simp)
    simp only [this]
    rw [memGet_cons_ne _ _ hb, map_bumpBlock_zero]
  · obtain ⟨h8, rc, t, pl, hm, hrc, hlt⟩ := hret env (by simp) henv
    have hg : getObj h env = some (rc, t, pl) := getObj_some_iff.mpr ⟨h8, hm⟩
    obtain ⟨raw, _, hfresh, hne, hok⟩ := closure_new_live hH hserve h env code rc t pl hg
    refine ⟨_, _, hok, ?_⟩
    refine rcInv_construct hinv hfresh (memGet_cons_same _ _ _) (closure_shape _ _ _).1
      (closure_shape _ _ _).2.1 (fun hi => absurd (closure_shape h.mem env code).2.2 hi) ?_ hret
    intro b hb _
    simp only
    rw [memGet_cons_ne _ _ hb]
    simp only [List.count_singleton] at hlt
    by_cases hbe : b = env - 8
    · subst hbe
      have he : env - 8 + 8 = env := by omega
      rw [memGet_memSet_same, hm, he]
      simp [bumpBlock, incN_eq _ _ (hinv.rc32 _ rc t pl hm)]
    · have : List.count (b + 8) [env] = 0 :=
        List.count_eq_zero_of_not_mem (by simp; omega)
      rw [memGet_memSet_ne _ _ hbe, this, map_bumpBlock_zero]

theorem container_shape {m : Mem} {tag items : Nat} {vs : List Nat}
    (htag : tag = REML_TAG_TUPLE ∨ tag = REML_TAG_RECORD ∨ tag = REML_TAG_ARRAY)
    (hn : vs.length < 2 ^ 63) (h0 : vs.length = 0 → items = 0)
    (h1 : 0 < vs.length → items ≠ 0 ∧ memGet items m = some (.buf vs)) :
    shapeOK m tag [vs.length, items] ∧ ownedSlots m tag [vs.length, items] = vs ∧
      itemsOf tag [vs.length, items] = items := by
  have hlen : (toInt64 vs.length).toNat = vs.length := by
    rw [toInt64_of_lt hn]
    simp
  have hnc : ¬ tag = REML_TAG_CLOSURE := by
    rcases htag with e | e | e <;> rw [e] <;> decide
  have hna : ¬ tag = REML_TAG_ADT := by
    rcases htag with e | e | e <;> rw [e] <;> decide
  have hns : ¬ tag = REML_TAG_SET := by
    rcases htag with e | e | e <;> rw [e] <;> decide
  refine ⟨⟨fun _ => ⟨by simp, ?_⟩, fun e => absurd e hnc, fun e => absurd e hna,
    fun e => absurd e hns⟩, ?_, ?_⟩
  · intro hi
    have hi2 : items ≠ 0 := by simpa using hi
    have hpos : 0 < vs.length := by
      by_contra hz
      exact hi2 (h0 (by omega))
    have hb := (h1 hpos).2
    simp only [List.getD_cons_zero, List.getD_cons_succ]
    rw [hb]
    exact ⟨rfl, by simp, by rw [hlen]; exact le_refl _⟩
  · rw [ownedSlots, if_pos htag]
    simp only [List.getD_cons_zero, List.getD_cons_succ, bufSlots]
    by_cases hz : vs.length = 0
    · rw [if_pos (h0 hz)]
      exact (List.length_eq_zero.mp hz).symm
    · obtain ⟨hi, hb⟩ := h1 (by omega)
      rw [if_neg hi, hb, hlen]
      exact List.take_of_length_le (le_refl _)
  · rw [itemsOf, if_pos htag]
    rfl

theorem container_from_inv (tag : Nat) (negMsg allocMsg : String) {H : Host} (hH : HostOK H)
    (h : Heap) (vs : List Nat)
    (htag : tag = REML_TAG_TUPLE ∨ tag = REML_TAG_RECORD ∨ tag = REML_TAG_ARRAY)
    (hs1 : HostServes H 24) (hs2 : HostServes H (vs.length * 8)) (hn : vs.length * 8 < 2 ^ 64)
    (hinv : RcInv h.mem []) (hret : Retainable h.mem vs) :
    ∃ h1 p, container_from tag negMsg allocMsg H h (vs.length : Int) vs = .ok (h1, p) ∧
      RcInv h1.mem [] := by
  have hvalid : ∀ v ∈ vs, v ≠ 0 →
      8 ≤ v ∧ ∃ rc t pl, memGet (v - 8) h.mem = some (.obj rc t pl) := by
    intro v hv hv0
    obtain ⟨h8, rc, t, pl, hm, _⟩ := hret v hv hv0
    exact ⟨h8, rc, t, pl, hm⟩
  obtain ⟨h1, raw, items, hok, _, hfresh, hnew, hz, hpos, hrest, _⟩ :=
    container_from_ok tag negMsg allocMsg H hH h vs hs1 hs2 hn hvalid
  have hpos0 : 0 < vs.length → items ≠ 0 := fun hp => (hpos hp).1
  have hitems : items ≠ 0 → 0 < vs.length := by
    intro hi
    by_contra hc
    exact hi (hz (by omega))
  obtain ⟨hsh, hown, hit⟩ := container_shape (m := h1.mem) htag (by omega) hz
    (fun hp => ⟨(hpos hp).1, (hpos hp).2.2.2⟩)
  refine ⟨h1, raw + 8, hok, rcInv_construct hinv hfresh hnew hsh hown ?_ ?_ hret⟩
  · rw [hit]
    intro hi
    exact (hpos (hitems hi)).2.2.1
  · rw [hit]
    intro b hb hbi
    exact hrest b hb (fun hp => hbi (hpos0 hp))

theorem set_shape {m : Mem} {a : Nat} {ys : List Nat} (hn : ys.length < 2 ^ 63) (ha : a ≠ 0)
    (hb : memGet a m = some (.buf ys)) :
    shapeOK m REML_TAG_SET [ys.length, ys.length, a] ∧
      ownedSlots m REML_TAG_SET [ys.length, ys.length, a] = ys ∧
      itemsOf REML_TAG_SET [ys.length, ys.length, a] = a := by
  have hlen : (toInt64 ys.length).toNat = ys.length := by
    rw [toInt64_of_lt hn]
    simp
  refine ⟨⟨fun e => absurd e (by decide), fun e => absurd e (by decide),
    fun e => absurd e (by decide), fun _ => ⟨by simp, ?_⟩⟩, ?_, ?_⟩
  · intro _
    simp only [List.getD_cons_zero, List.getD_cons_succ]
    rw [hb]
    exact ⟨rfl, by simp, by rw [hlen]; exact le_refl _⟩
  · simp only [ownedSlots, REML_TAG_TUPLE, REML_TAG_RECORD, REML_TAG_ARRAY, REML_TAG_CLOSURE,
      REML_TAG_ADT, REML_TAG_SET, List.getD_cons_zero, List.getD_cons_succ, bufSlots]
    simp only [if_neg ha, hb, hlen, bufOf]
    simp
  · simp [itemsOf, REML_TAG_TUPLE, REML_TAG_RECORD, REML_TAG_ARRAY, REML_TAG_SET]

theorem set_insert_inv_rc {H : Host} (hH : HostOK H) (h : Heap) (s v : Nat) (xs : List Nat)
    (hs1 : HostServes H 32) (hs2 : HostServes H ((insertItems xs v).length * 8))
    (hn : (insertItems xs v).length * 8 < 2 ^ 64) (hset : IsSet h s xs)
    (hinv : RcInv h.mem []) (hret : Retainable h.mem (insertItems xs v)) :
    ∃ h1 p, reml_set_insert H h s v = .ok (h1, p) ∧ RcInv h1.mem [] := by
  obtain ⟨rc, cap, sitems, hg, _, hb⟩ := hset
  have hvalid : ∀ x ∈ insertItems xs v, x ≠ 0 →
      8 ≤ x ∧ ∃ rc t pl, memGet (x - 8) h.mem = some (.obj rc t pl) := by
    intro x hx hx0
    obtain ⟨h8, rc, t, pl, hm, _⟩ := hret x hx hx0
    exact ⟨h8, rc, t, pl, hm⟩
  obtain ⟨h1, raw, a, hok, _, hfresh, ha0, _, hfa, hbuf, hnew, hrest, _⟩ :=
    set_insert_ok H hH h s v rc REML_TAG_SET cap sitems xs hs1 hs2 hn hg hb hvalid
  obtain ⟨hsh, hown, hit⟩ := set_shape (by omega) ha0 hbuf
  refine ⟨h1, raw + 8, hok, rcInv_construct hinv hfresh hnew hsh hown ?_ ?_ hret⟩
  · rw [hit]
    exact fun _ => hfa
  · rw [hit]
    intro b hb hbi
    exact hrest b (hbi ha0) hb

theorem inc_ref_inv (h : Heap) (p : Nat) (hinv : RcInv h.mem []) (hret : Retainable h.mem [p]) :
    ∃ h1, inc_ref h p = .ok h1 ∧ RcInv h1.mem [] := by
  by_cases hp : p = 0
  · exact ⟨h, by simp [inc_ref, hp], hinv⟩
  · obtain ⟨h8, rc, t, pl, hm, hrc, hlt⟩ := hret p (by simp) hp
    simp only [List.count_singleton, beq_self_eq_true, if_true] at hlt
    have hg : getObj h p = some (rc, t, pl) := getObj_some_iff.mpr ⟨h8, hm⟩
    refine ⟨{ h with
      mem := memSet (p - 8) (.obj (rc + 1) t pl) h.mem
      inc_ref_count := (h.inc_ref_count + 1) % SIZE_MOD }, ?_, ?_⟩
    · simp only [inc_ref, if_neg hp, hg, HEADER_SIZE, Nat.mod_eq_of_lt hlt]
    exact rcInv_inc hinv hm hrc hlt (by rw [memGet_memSet_same, hm]; rfl)
      (fun b hb => memGet_memSet_ne _ _ hb)

theorem dec_ref_external (h : Heap) (p rc t : Nat) (pl : List Nat) (hinv : RcInv h.mem [])
    (hp : getObj h p = some (rc, t, pl)) (hext : inCount h.mem p < rc) :
    ∃ F h1, (∀ fuel, F ≤ fuel → dec_ref fuel h p = .ok h1) ∧ RcInv h1.mem [] ∧
      Frame h.mem h1.mem :=
  dec_ref_inv h p [] (rcInv_external hinv hp hext)

/-! ## Counting the destructors of a release -/

/-- The objects a release frees were live before it: an object whose refcount had already
dropped to zero is left in place. -/
theorem destroyed_le_live {h h1 : Heap} {d : Nat} (hf : Frame h.mem h1.mem)
    (hd : objCount h1 + d = objCount h) : d ≤ liveCount h.mem := by
  have hsub : objKeys h.mem \ (keysOf h.mem).filter (fun k => liveAt h.mem k = true)
      ⊆ objKeys h1.mem := by
    intro k hk
    rw [Finset.mem_sdiff, mem_objKeys, mem_liveKeys] at hk
    obtain ⟨ho, hl⟩ := hk
    obtain ⟨rc, t, pl, hm⟩ := obj_of_isObj ho
    have hrc : rc = 0 := by
      by_contra hne
      exact hl (liveAt_iff.mpr ⟨rc, t, pl, hm, by omega⟩)
    subst hrc
    rw [mem_objKeys, hf.dead k (Or.inl ⟨t, pl, hm⟩), hm]
    rfl
  have h1 := Finset.card_le_card hsub
  have h2 := Finset.le_card_sdiff
    ((keysOf h.mem).filter (fun k => liveAt h.mem k = true)) (objKeys h.mem)
  unfold objCount at hd
  unfold liveCount
  omega

theorem dec_ref_bounded (h : Heap) (p rc t : Nat) (pl : List Nat) (hinv : RcInv h.mem [])
    (hp : getObj h p = some (rc, t, pl)) (hext : inCount h.mem p < rc) :
    ∃ F h1 d, (∀ fuel, F ≤ fuel → dec_ref fuel h p = .ok h1) ∧
      h1.destroy_count = countN d h.destroy_count ∧ objCount h1 + d = objCount h ∧
      d ≤ liveCount h.mem := by
  obtain ⟨F, h1, hF, _, hf⟩ := dec_ref_external h p rc t pl hinv hp hext
  obtain ⟨d, _, hdc, hoc, _⟩ := rcExec_destroyed F h (.dec p) h1 (hF F (le_refl _))
  exact ⟨F, h1, d, hF, hdc, hoc, destroyed_le_live hf hoc⟩

theorem mem_alloc_returns {H : Host} (h : Heap) (size : Nat)
    (hserve : HostServes H (8 + align_to_8 size)) (hfit : 8 + align_to_8 size < 2 ^ 64) :
    ∃ h1 p, mem_alloc H h size = .ok (h1, p) := by
  obtain ⟨raw, hraw⟩ := hserve h.mem
  unfold mem_alloc
  simp only [HEADER_SIZE, SIZE_MOD, Nat.mod_eq_of_lt hfit, hraw, lt_irrefl, if_false]
  exact ⟨_, _, rfl⟩

theorem retainable_env : Retainable envHeap.mem [24] := by
  intro x hx _
  rw [List.mem_singleton] at hx
  subst hx
  exact ⟨by decide, 2, REML_TAG_INT, [7], rfl, by decide, by decide⟩

theorem retainable_env_twice : Retainable envHeap.mem [24, 0, 24] := by
  intro x hx hx0
  have hx24 : x = 24 := by
    simp only [List.mem_cons, List.mem_singleton, List.mem_nil_iff, or_false] at hx
    rcases hx with e | e | e
    · exact e
    · exact absurd e hx0
    · exact e
  subst hx24
  exact ⟨by decide, 2, REML_TAG_INT, [7], rfl, by decide, by decide⟩

theorem isSet_envHeap : IsSet envHeap 72 [] :=
  ⟨1, 0, 0, rfl, by decide, fun hne => absurd rfl hne⟩

/-- C37 (counterexample): retaining a live object whose refcount is `UINT32_MAX` wraps the
refcount to zero, so the environment slot of a live closure no longer points to a live
object: `inc_ref` takes a well-formed heap to one that is not well-formed. -/
theorem inc_ref_wraps_wellformed :
    WellFormed fullHeap ∧ Typed fullHeap ∧
      getObj fullHeap 24 = some (U32_MOD - 1, REML_TAG_INT, [7]) ∧
      ∃ h1, inc_ref fullHeap 24 = .ok h1 ∧ ¬ WellFormed h1 :=
  ⟨by decide, by decide, rfl,
    ⟨[(16, .obj 0 REML_TAG_INT [7]), (40, .obj 1 REML_TAG_CLOSURE [24, 0])], 2, 0, 2, 0, 0⟩,
    rfl, by decide⟩

/-- C37 (amended): on a well-formed heap whose objects have the layout of their tags,
`mem_alloc`, `inc_ref`, `reml_array_from`, `reml_record_from`, `reml_closure_new` and
`reml_set_insert` return a heap that is again well-formed, provided the host serves the
requests and every object the call retains is live with a refcount that does not wrap; and
`dec_ref(p)` for a live `p` whose refcount exceeds the number of slots pointing to it returns,
for all sufficient fuel, without fault and with a well-formed heap. -/
theorem wellformed_preserved (H : Host) (hH : HostOK H) (h : Heap) (hwf : WellFormed h)
    (hty : Typed h) :
    (∀ size, HostServes H (8 + align_to_8 size) → 8 + align_to_8 size < 2 ^ 64 →
      ∃ h1 p, mem_alloc H h size = .ok (h1, p) ∧ WellFormed h1 ∧ Typed h1) ∧
    (∀ p, Retainable h.mem [p] → ∃ h1, inc_ref h p = .ok h1 ∧ WellFormed h1 ∧ Typed h1) ∧
    (∀ vs : List Nat, HostServes H 24 → HostServes H (vs.length * 8) →
      vs.length * 8 < 2 ^ 64 → Retainable h.mem vs →
      ∃ h1 p, reml_array_from H h (vs.length : Int) vs = .ok (h1, p) ∧
        WellFormed h1 ∧ Typed h1) ∧
    (∀ vs : List Nat, HostServes H 24 → HostServes H (vs.length * 8) →
      vs.length * 8 < 2 ^ 64 → Retainable h.mem vs →
      ∃ h1 p, reml_record_from H h (vs.length : Int) vs = .ok (h1, p) ∧
        WellFormed h1 ∧ Typed h1) ∧
    (∀ env code, HostServes H 24 → Retainable h.mem [env] →
      ∃ h1 p, reml_closure_new H h env code = .ok (h1, p) ∧ WellFormed h1 ∧ Typed h1) ∧
    (∀ s v xs, HostServes H 32 → HostServes H ((insertItems xs v).length * 8) →
      (insertItems xs v).length * 8 < 2 ^ 64 → IsSet h s xs →
      Retainable h.mem (insertItems xs v) →
      ∃ h1 p, reml_set_insert H h s v = .ok (h1, p) ∧ WellFormed h1 ∧ Typed h1) ∧
    (∀ p rc t pl, getObj h p = some (rc, t, pl) → inCount h.mem p < rc →
      ∃ F h1, (∀ fuel, F ≤ fuel → dec_ref fuel h p = .ok h1) ∧ WellFormed h1 ∧ Typed h1) := by
  have hinv := rcInv_of_wellFormed hwf hty
  refine ⟨?_, ?_, ?_, ?_, ?_, ?_, ?_⟩
  · intro size hs hfit
    obtain ⟨h1, p, hok⟩ := mem_alloc_returns h size hs hfit
    exact ⟨h1, p, hok, wellFormed_of_rcInv (mem_alloc_inv hH hinv hok)⟩
  · intro p hret
    obtain ⟨h1, hok, hi⟩ := inc_ref_inv h p hinv hret
    exact ⟨h1, hok, wellFormed_of_rcInv hi⟩
  · intro vs hs1 hs2 hn hret
    obtain ⟨h1, p, hok, hi⟩ := container_from_inv REML_TAG_ARRAY "array length is negative"
      "Array allocation failed" hH h vs (Or.inr (Or.inr rfl)) hs1 hs2 hn hinv hret
    exact ⟨h1, p, hok, wellFormed_of_rcInv hi⟩
  · intro vs hs1 hs2 hn hret
    obtain ⟨h1, p, hok, hi⟩ := container_from_inv REML_TAG_RECORD
      "record field_count is negative" "Record allocation failed" hH h vs (Or.inr (Or.inl rfl))
      hs1 hs2 hn hinv hret
    exact ⟨h1, p, hok, wellFormed_of_rcInv hi⟩
  · intro env code hs hret
    obtain ⟨h1, p, hok, hi⟩ := closure_new_inv hH hs h env code hinv hret
    exact ⟨h1, p, hok, wellFormed_of_rcInv hi⟩
  · intro s v xs hs1 hs2 hn hset hret
    obtain ⟨h1, p, hok, hi⟩ := set_insert_inv_rc hH h s v xs hs1 hs2 hn hset hinv hret
    exact ⟨h1, p, hok, wellFormed_of_rcInv hi⟩
  · intro p rc t pl hp hext
    obtain ⟨F, h1, hF, hi, _⟩ := dec_ref_external h p rc t pl hinv hp hext
    exact ⟨F, h1, hF, wellFormed_of_rcInv hi⟩

/-- C37 (witness): the seven operations on a heap with a boxed integer held by a closure
and by one external reference, and an empty set. -/
theorem wellformed_preserved_witness :
    HostOK bumpHost ∧ WellFormed envHeap ∧ Typed envHeap ∧
    (∃ h1 p, mem_alloc bumpHost envHeap 12 = .ok (h1, p) ∧ WellFormed h1 ∧ Typed h1) ∧
    (∃ h1, inc_ref envHeap 24 = .ok h1 ∧ WellFormed h1 ∧ Typed h1) ∧
    (∃ h1 p, reml_array_from bumpHost envHeap 3 [24, 0, 24] = .ok (h1, p) ∧
      WellFormed h1 ∧ Typed h1) ∧
    (∃ h1 p, reml_record_from bumpHost envHeap 3 [24, 0, 24] = .ok (h1, p) ∧
      WellFormed h1 ∧ Typed h1) ∧
    (∃ h1 p, reml_closure_new bumpHost envHeap 24 0 = .ok (h1, p) ∧
      WellFormed h1 ∧ Typed h1) ∧
    (∃ h1 p, reml_set_insert bumpHost envHeap 72 24 = .ok (h1, p) ∧
      WellFormed h1 ∧ Typed h1) ∧
    (∃ F h1, (∀ fuel, F ≤ fuel → dec_ref fuel envHeap 24 = .ok h1) ∧
      WellFormed h1 ∧ Typed h1) := by
  obtain ⟨a, b, c, d, e, f, g⟩ :=
    wellformed_preserved bumpHost bumpHost_ok envHeap (by decide) (by decide)
  exact ⟨bumpHost_ok, by decide, by decide,
    a 12 (bumpHost_serves _) (by decide),
    b 24 retainable_env,
    c [24, 0, 24] (bumpHost_serves _) (bumpHost_serves _) (by decide) retainable_env_twice,
    d [24, 0, 24] (bumpHost_serves _) (bumpHost_serves _) (by decide) retainable_env_twice,
    e 24 0 (bumpHost_serves _) retainable_env,
    f 72 24 [] (bumpHost_serves _) (bumpHost_serves _) (by decide) isSet_envHeap retainable_env,
    g 24 2 REML_TAG_INT [7] rfl (by decide)⟩

/-- C38: on a well-formed heap (whose objects have the representation the runtime gives
them: 32-bit refcounts, the payload layout of their tag, element arrays not shared),
`dec_ref(p)` for a live `p` that holds an external reference, that is whose refcount exceeds
the number of owning slots pointing to it, returns for all sufficient fuel, whether or not
the heap has reference cycles; the destructors it runs are counted by `d`, each frees one
object, and `d` is at most the number of live objects. -/
theorem dec_ref_terminates (h : Heap) (p rc t : Nat) (pl : List Nat) (hwf : WellFormed h)
    (hty : Typed h) (hp : getObj h p = some (rc, t, pl)) (hext : inCount h.mem p < rc) :
    ∃ F h1 d, (∀ fuel, F ≤ fuel → dec_ref fuel h p = .ok h1) ∧
      h1.destroy_count = countN d h.destroy_count ∧ objCount h1 + d = objCount h ∧
      d ≤ liveCount h.mem :=
  dec_ref_bounded h p rc t pl (rcInv_of_wellFormed hwf hty) hp hext

/-- C38 (witness): the release of the array of `cascadeHeap`. Its destructor releases the
closure `b` twice, which runs the destructor of `b` and, nested in it, that of the boxed
integer, and releases `x` once, which stays alive in its cycle with `y`: three destructors
run, three of the five objects are freed, and the cycle is left. -/
theorem dec_ref_terminates_witness :
    WellFormed cascadeHeap ∧ Typed cascadeHeap ∧ inCount cascadeHeap.mem 24 < 1 ∧
    liveCount cascadeHeap.mem = 5 ∧
    dec_ref 6 cascadeHeap 24 = .ok ⟨[(88, .obj 1 REML_TAG_CLOSURE [120, 0]),
      (112, .obj 1 REML_TAG_CLOSURE [96, 0])], 5, 3, 5, 5, 3⟩ ∧
    ∃ F h1 d, (∀ fuel, F ≤ fuel → dec_ref fuel cascadeHeap 24 = .ok h1) ∧
      h1.destroy_count = countN d cascadeHeap.destroy_count ∧
      objCount h1 + d = objCount cascadeHeap ∧ d ≤ liveCount cascadeHeap.mem :=
  ⟨by decide, by decide, by decide, by decide, by decide,
    dec_ref_terminates cascadeHeap 24 1 REML_TAG_ARRAY [3, 200] (by decide) (by decide) rfl
      (by decide)⟩

/-! ## A release stays within a closed set of addresses -/

theorem within_refl (P : Nat → Prop) (m : Mem) : Within P m m :=
  ⟨fun _ _ => rfl, fun _ rc1 _ pl1 hk => ⟨rc1, pl1, hk, fun _ => rfl, fun _ hx => hx⟩,
    fun h => h⟩

theorem within_trans {P : Nat → Prop} {m m1 m2 : Mem} (a : Within P m m1)
    (b : Within P m1 m2) : Within P m m2 := by
  refine ⟨fun k hk => by rw [b.out k hk, a.out k hk], ?_, fun h => b.null (a.null h)⟩
  intro k rc2 t pl2 hk
  obtain ⟨rc1, pl1, hk1, hi1, hs1⟩ := b.shrink k rc2 t pl2 hk
  obtain ⟨rc, pl, hk0, hi0, hs0⟩ := a.shrink k rc1 t pl1 hk1
  refine ⟨rc, pl, hk0, ?_, fun x hx => hs0 x (hs1 x hx)⟩
  intro hne
  have e := hi1 hne
  rw [e] at hne
  rw [e, hi0 hne]

theorem within_mono {P Q : Nat → Prop} {m m1 : Mem} (hPQ : ∀ b, P b → Q b)
    (hw : Within P m m1) : Within Q m m1 :=
  ⟨fun b hb => hw.out b (fun hp => hb (hPQ b hp)), hw.shrink, hw.null⟩

theorem closed_of_within {P Q : Nat → Prop} {m m1 : Mem} (hc : Closed P m)
    (hw : Within Q m m1) : Closed P m1 := by
  intro k rc1 t pl1 hP hk
  obtain ⟨rc, pl, hk0, hi, hs⟩ := hw.shrink k rc1 t pl1 hk
  obtain ⟨c1, c2⟩ := hc k rc t pl hP hk0
  refine ⟨?_, fun x hx hx0 => c2 x (hs x hx) hx0⟩
  intro hne
  have e := hi hne
  rw [e] at hne ⊢
  exact c1 hne

/-- The owning slots of a payload do not grow when element arrays are kept or freed. -/
theorem ownedSlots_sub {m m1 : Mem} (t : Nat) (pl : List Nat)
    (h : ∀ b, bufOf (memGet b m1) = bufOf (memGet b m) ∨ bufOf (memGet b m1) = []) :
    ∀ x ∈ ownedSlots m1 t pl, x ∈ ownedSlots m t pl := by
  have hb : ∀ len items, ∀ x ∈ bufSlots m1 len items, x ∈ bufSlots m len items := by
    intro len items x hx
    unfold bufSlots at hx ⊢
    by_cases hi : items = 0
    · rw [if_pos hi] at hx
      exact absurd hx (by simp)
    · rw [if_neg hi] at hx ⊢
      rcases h items with e | e
      · rw [e] at hx
        exact hx
      · rw [e] at hx
        exact absurd hx (by simp)
  intro x hx
  unfold ownedSlots at hx ⊢
  by_cases ht : t = REML_TAG_TUPLE ∨ t = REML_TAG_RECORD ∨ t = REML_TAG_ARRAY
  · rw [if_pos ht] at hx ⊢
    exact hb _ _ x hx
  · rw [if_neg ht] at hx ⊢
    by_cases hc : t = REML_TAG_CLOSURE
    · rw [if_pos hc] at hx ⊢
      exact hx
    · rw [if_neg hc] at hx ⊢
      by_cases ha : t = REML_TAG_ADT
      · rw [if_pos ha] at hx ⊢
        exact hx
      · rw [if_neg ha] at hx ⊢
        by_cases hs : t = REML_TAG_SET
        · rw [if_pos hs] at hx ⊢
          exact hb _ _ x hx
        · rw [if_neg hs] at hx
          exact absurd hx (by simp)

/-- A step that changes blocks of `P` only, keeps or frees element arrays, and keeps the
payload of every object or leaves it without element array and owning slots. -/
theorem within_step {P : Nat → Prop} {m m1 : Mem}
    (hout : ∀ b, ¬ P b → memGet b m1 = memGet b m)
    (hbuf : ∀ b, bufOf (memGet b m1) = bufOf (memGet b m) ∨ bufOf (memGet b m1) = [])
    (hobj : ∀ k rc1 t pl1, memGet k m1 = some (.obj rc1 t pl1) →
      ∃ rc pl, memGet k m = some (.obj rc t pl) ∧
        (pl1 = pl ∨ (itemsOf t pl1 = 0 ∧ ownedSlots m1 t pl1 = [])))
    (hnull : memGet 0 m = none → memGet 0 m1 = none) : Within P m m1 := by
  refine ⟨hout, ?_, hnull⟩
  intro k rc1 t pl1 hk
  obtain ⟨rc, pl, hk0, hpl⟩ := hobj k rc1 t pl1 hk
  refine ⟨rc, pl, hk0, ?_, ?_⟩
  · intro hne
    rcases hpl with e | ⟨e, _⟩
    · rw [e]
    · exact absurd e hne
  · intro x hx
    rcases hpl with e | ⟨_, e⟩
    · rw [e] at hx
      exact ownedSlots_sub t pl hbuf x hx
    · rw [e] at hx
      exact absurd hx (by simp)

/-- Rewriting the header of an object of `P`. -/
theorem within_header {P : Nat → Prop} {m : Mem} {a rc rc1 t : Nat} {pl : List Nat}
    (hP : P a) (hm : memGet a m = some (.obj rc t pl)) :
    Within P m (memSet a (.obj rc1 t pl) m) := by
  have hm1 : memGet a (memSet a (.obj rc1 t pl) m) = some (.obj rc1 t pl) := by
    rw [memGet_memSet_same, hm]
    rfl
  have hrest : ∀ b, b ≠ a → memGet b (memSet a (.obj rc1 t pl) m) = memGet b m :=
    fun b hb => memGet_memSet_ne _ _ hb
  refine within_step ?_ (fun b => Or.inl (bufOf_update_obj hm hm1 hrest b)) ?_ ?_
  · intro b hb
    exact hrest b (fun e => hb (e ▸ hP))
  · intro k rc2 t2 pl2 hk
    by_cases hka : k = a
    · subst hka
      rw [hm1] at hk
      cases hk
      exact ⟨rc, pl, hm, Or.inl rfl⟩
    · rw [hrest k hka] at hk
      exact ⟨rc2, pl2, hk, Or.inl rfl⟩
  · intro h0
    by_cases h0a : 0 = a
    · subst h0a
      rw [hm] at h0
      cases h0
    · rw [hrest 0 h0a]
      exact h0

theorem readField_inv {h : Heap} {p i w : Nat} (hr : readField h p i = .ok w) :
    ∃ rc t pl, getObj h p = some (rc, t, pl) ∧ pl[i]? = some w := by
  unfold readField at hr
  cases hg : getObj h p with
  | none => simp [hg] at hr
  | some o =>
    obtain ⟨rc, t, pl⟩ := o
    simp only [hg] at hr
    cases hw : pl[i]? with
    | none => simp [hw] at hr
    | some v =>
      simp only [hw, Except.ok.injEq] at hr
      exact ⟨rc, t, pl, rfl, by rw [hw, hr]⟩

theorem readSlot_inv {h : Heap} {a i w : Nat} (hr : readSlot h a i = .ok w) :
    ∃ bs, memGet a h.mem = some (.buf bs) ∧ bs[i]? = some w := by
  unfold readSlot at hr
  cases hm : memGet a h.mem with
  | none => simp [hm] at hr
  | some blk =>
    cases blk with
    | obj rc t pl => simp [hm] at hr
    | buf bs =>
      simp only [hm] at hr
      cases hw : bs[i]? with
      | none => simp [hw] at hr
      | some v =>
        simp only [hw, Except.ok.injEq] at hr
        exact ⟨bs, rfl, by rw [hw, hr]⟩

/-- The write with which a destructor clears its `items` field. -/
theorem within_writeField {P : Nat → Prop} {h h1 : Heap} {p i : Nat}
    (hw : writeField h p i 0 = .ok h1) (hP : P (p - 8))
    (hz : ∀ rc t pl, getObj h p = some (rc, t, pl) → i < pl.length →
      itemsOf t (pl.set i 0) = 0 ∧ ∀ m, ownedSlots m t (pl.set i 0) = []) :
    Within P h.mem h1.mem := by
  unfold writeField at hw
  cases hg : getObj h p with
  | none => simp [hg] at hw
  | some o =>
    obtain ⟨rc, t, pl⟩ := o
    simp only [hg] at hw
    split at hw
    · rename_i hi
      cases hw
      obtain ⟨h8, hm⟩ := getObj_some_iff.mp hg
      obtain ⟨z1, z2⟩ := hz rc t pl hg hi
      have hm1 : memGet (p - 8) (memSet (p - 8) (.obj rc t (pl.set i 0)) h.mem)
          = some (.obj rc t (pl.set i 0)) := by
        rw [memGet_memSet_same, hm]
        rfl
      have hrest : ∀ b, b ≠ p - 8 →
          memGet b (memSet (p - 8) (.obj rc t (pl.set i 0)) h.mem) = memGet b h.mem :=
        fun b hb => memGet_memSet_ne _ _ hb
      simp only [putObj, HEADER_SIZE]
      refine within_step ?_ (fun b => Or.inl (bufOf_update_obj hm hm1 hrest b)) ?_ ?_
      · intro b hb
        exact hrest b (fun e => hb (e ▸ hP))
      · intro k rc2 t2 pl2 hk
        by_cases hka : k = p - 8
        · subst hka
          rw [hm1] at hk
          cases hk
          exact ⟨rc, pl, hm, Or.inr ⟨z1, z2 _⟩⟩
        · rw [hrest k hka] at hk
          exact ⟨rc2, pl2, hk, Or.inl rfl⟩
      · intro h0
        by_cases h0a : 0 = p - 8
        · rw [← h0a] at hm
          rw [hm] at h0
          cases h0
        · rw [hrest 0 h0a]
          exact h0
    · cases hw

/-- Freeing an element array of `P`. -/
theorem within_hostFree {P : Nat → Prop} {h h1 : Heap} {a : Nat}
    (hw : hostFree h a = .ok h1) (hP : P a) : Within P h.mem h1.mem := by
  unfold hostFree at hw
  cases hm : memGet a h.mem with
  | none => simp [hm] at hw
  | some blk =>
    cases blk with
    | obj rc t pl => simp [hm] at hw
    | buf bs =>
      simp only [hm] at hw
      cases hw
      have hrest : ∀ b, b ≠ a → memGet b (memErase a h.mem) = memGet b h.mem :=
        fun b hb => memGet_memErase_ne _ hb
      refine within_step ?_ ?_ ?_ ?_
      · intro b hb
        exact hrest b (fun e => hb (e ▸ hP))
      · intro b
        by_cases hb : b = a
        · subst hb
          rw [memGet_memErase_same]
          exact Or.inr rfl
        · rw [hrest b hb]
          exact Or.inl rfl
      · intro k rc2 t2 pl2 hk
        by_cases hka : k = a
        · subst hka
          rw [memGet_memErase_same] at hk
          cases hk
        · rw [hrest k hka] at hk
          exact ⟨rc2, pl2, hk, Or.inl rfl⟩
      · intro h0
        by_cases h0a : 0 = a
        · subst h0a
          exact memGet_memErase_same _ _
        · rw [hrest 0 h0a]
          exact h0

/-- Freeing an object of `P`. -/
theorem within_mem_free {P : Nat → Prop} {h h1 : Heap} {p : Nat} (hp : p ≠ 0)
    (hw : mem_free h p = .ok h1) (hP : P (p - 8)) :
    Within P h.mem h1.mem ∧ memGet (p - 8) h1.mem = none := by
  unfold mem_free at hw
  rw [if_neg hp] at hw
  cases hg : getObj h p with
  | none => simp [hg] at hw
  | some o =>
    obtain ⟨rc, t, pl⟩ := o
    simp only [hg] at hw
    split at hw
    · cases hw
    · cases hw
      obtain ⟨h8, hm⟩ := getObj_some_iff.mp hg
      simp only [HEADER_SIZE]
      have hrest : ∀ b, b ≠ p - 8 → memGet b (memErase (p - 8) h.mem) = memGet b h.mem :=
        fun b hb => memGet_memErase_ne _ hb
      refine ⟨within_step ?_ ?_ ?_ ?_, memGet_memErase_same _ _⟩
      · intro b hb
        exact hrest b (fun e => hb (e ▸ hP))
      · intro b
        by_cases hb : b = p - 8
        · subst hb
          rw [memGet_memErase_same]
          exact Or.inr rfl
        · rw [hrest b hb]
          exact Or.inl rfl
      · intro k rc2 t2 pl2 hk
        by_cases hka : k = p - 8
        · subst hka
          rw [memGet_memErase_same] at hk
          cases hk
        · rw [hrest k hka] at hk
          exact ⟨rc2, pl2, hk, Or.inl rfl⟩
      · intro h0
        by_cases h0a : 0 = p - 8
        · rw [← h0a]
          exact memGet_memErase_same _ _
        · rw [hrest 0 h0a]
          exact h0

theorem getD_of_getElem? {pl : List Nat} {i w : Nat} (h : pl[i]? = some w) : pl.getD i 0 = w := by
  rw [List.getD_eq_getElem?_getD, h]
  rfl

theorem slot_mem_bufSlots {m : Mem} {len items i item : Nat} {bs : List Nat}
    (hi : items ≠ 0) (hb : memGet items m = some (.buf bs)) (hs : bs[i]? = some item)
    (hlt : (i : Int) < toInt64 len) : item ∈ bufSlots m len items := by
  unfold bufSlots
  rw [if_neg hi, hb]
  apply List.mem_iff_getElem?.mpr
  refine ⟨i, ?_⟩
  have : i < (toInt64 len).toNat := by omega
  simp only [bufOf]
  rw [List.getElem?_take_of_lt this, hs]

theorem ownedSlots_of_slotsTag {m : Mem} {t : Nat} {pl : List Nat} (ht : slotsTag t) :
    ownedSlots m t pl = bufSlots m (pl.getD 0 0) (pl.getD 1 0) := by
  unfold ownedSlots
  exact if_pos ht

theorem ownedSlots_of_set {m : Mem} {pl : List Nat} :
    ownedSlots m REML_TAG_SET pl = bufSlots m (pl.getD 0 0) (pl.getD 2 0) := by
  simp [ownedSlots, REML_TAG_SET, REML_TAG_TUPLE, REML_TAG_RECORD, REML_TAG_ARRAY,
    REML_TAG_CLOSURE, REML_TAG_ADT]

theorem getObj_of_within {P : Nat → Prop} {h h1 : Heap} {p rc1 t : Nat} {pl1 : List Nat}
    (hw : Within P h.mem h1.mem) (hg : getObj h1 p = some (rc1, t, pl1)) :
    ∃ rc pl, getObj h p = some (rc, t, pl) := by
  obtain ⟨h8, hm⟩ := getObj_some_iff.mp hg
  obtain ⟨rc, pl, hk, _⟩ := hw.shrink _ rc1 t pl1 hm
  exact ⟨rc, pl, getObj_some_iff.mpr ⟨h8, hk⟩⟩

theorem slots_zeroed {t : Nat} {pl : List Nat} (ht : slotsTag t) (hl : 1 < pl.length) :
    itemsOf t (pl.set 1 0) = 0 ∧ ∀ m, ownedSlots m t (pl.set 1 0) = [] := by
  have e : (pl.set 1 0).getD 1 0 = 0 := by
    apply getD_of_getElem?
    rw [List.getElem?_set]
    simp [hl]
  refine ⟨by rw [itemsOf_slots ht, e], fun m => ?_⟩
  rw [ownedSlots_of_slotsTag ht, e]
  simp [bufSlots]

theorem set_zeroed {pl : List Nat} (hl : 2 < pl.length) :
    itemsOf REML_TAG_SET (pl.set 2 0) = 0 ∧ ∀ m, ownedSlots m REML_TAG_SET (pl.set 2 0) = [] := by
  have e : (pl.set 2 0).getD 2 0 = 0 := by
    apply getD_of_getElem?
    rw [List.getElem?_set]
    simp [hl]
  refine ⟨by rw [itemsOf_set, e], fun m => ?_⟩
  rw [ownedSlots_of_set, e]
  simp [bufSlots]

/-- The common body of the container destructors stays within `P`: `idx` is the word of the
`items` field and `T` the tags the destructor belongs to. -/
theorem destroy_body_within {P : Nat → Prop} {T : Nat → Prop} {h s1 s2 h1 : Heap}
    {p idx items1 : Nat}
    (hc : Closed P h.mem) (h0 : memGet 0 h.mem = none) (hP : P (p - 8))
    (ht : ∀ rc t pl, getObj h p = some (rc, t, pl) → T t)
    (hT1 : ∀ (t : Nat) (pl : List Nat), T t → itemsOf t pl = pl.getD idx 0)
    (hT2 : ∀ (t : Nat) (pl : List Nat), T t → idx < pl.length →
      itemsOf t (pl.set idx 0) = 0 ∧ ∀ m, ownedSlots m t (pl.set idx 0) = [])
    (hw1 : Within P h.mem s1.mem) (hr1 : readField s1 p idx = .ok items1)
    (hf : hostFree s1 items1 = .ok s2) (hw : writeField s2 p idx 0 = .ok h1) :
    Within P h.mem h1.mem := by
  obtain ⟨rc1, t1, pl1, hg1, hi1⟩ := readField_inv hr1
  have hc1 := closed_of_within hc hw1
  have hT : T t1 := by
    obtain ⟨rc0, pl0, hg0⟩ := getObj_of_within hw1 hg1
    exact ht rc0 t1 pl0 hg0
  have hPi : P items1 := by
    by_cases hz1 : items1 = 0
    · exfalso
      unfold hostFree at hf
      rw [hz1, hw1.null h0] at hf
      cases hf
    · have e := hT1 t1 pl1 hT
      rw [getD_of_getElem? hi1] at e
      have := (hc1 _ rc1 t1 pl1 hP (getObj_some_iff.mp hg1).2).1
      rw [e] at this
      exact this hz1
  have hw2 := within_trans hw1 (within_hostFree hf hPi)
  refine within_trans hw2 (within_writeField hw hP ?_)
  intro rc t pl hg hl
  obtain ⟨rc0, pl0, hg0⟩ := getObj_of_within hw2 hg
  exact hT2 t pl (ht rc0 t pl0 hg0) hl

theorem destroy_slots_within {P : Nat → Prop} {loop : Heap → Nat → Nat → Res Heap}
    {h h1 : Heap} {p : Nat}
    (hloop : ∀ s s1, loop s p 0 = .ok s1 → Closed P s.mem → memGet 0 s.mem = none →
      InFoot P s (.slots p 0) → Within P s.mem s1.mem)
    (hr : destroy_slots loop h p = .ok h1) (hc : Closed P h.mem) (h0 : memGet 0 h.mem = none)
    (hP : P (p - 8)) (ht : ∀ rc t pl, getObj h p = some (rc, t, pl) → slotsTag t) :
    Within P h.mem h1.mem := by
  unfold destroy_slots at hr
  by_cases hp : p = 0
  · rw [if_pos hp] at hr
    cases hr
    exact within_refl _ _
  · rw [if_neg hp] at hr
    cases hf0 : readField h p 1 with
    | error e => simp [hf0, bind, Except.bind] at hr
    | ok items =>
      simp only [hf0, bind, Except.bind] at hr
      by_cases hi : items ≠ 0
      · simp only [hi, ne_eq, not_false_eq_true, if_true] at hr
        cases hl : loop h p 0 with
        | error e => simp [hl] at hr
        | ok s1 =>
          simp only [hl] at hr
          cases h1r : readField s1 p 1 with
          | error e => simp [h1r] at hr
          | ok items1 =>
            simp only [h1r] at hr
            cases hf : hostFree s1 items1 with
            | error e => simp [hf] at hr
            | ok s2 =>
              simp only [hf] at hr
              exact destroy_body_within hc h0 hP ht (fun t pl h => itemsOf_slots h)
                (fun t pl h hl => slots_zeroed h hl) (hloop h s1 hl hc h0 ⟨hP, ht⟩) h1r hf hr
      · simp only [hi, if_false, pure, Except.pure] at hr
        cases hr
        exact within_refl _ _

theorem destroy_set_within {P : Nat → Prop} {loop : Heap → Nat → Nat → Res Heap}
    {h h1 : Heap} {p : Nat}
    (hloop : ∀ s s1, loop s p 0 = .ok s1 → Closed P s.mem → memGet 0 s.mem = none →
      InFoot P s (.setItems p 0) → Within P s.mem s1.mem)
    (hr : destroy_set loop h p = .ok h1) (hc : Closed P h.mem) (h0 : memGet 0 h.mem = none)
    (hP : P (p - 8)) (ht : ∀ rc t pl, getObj h p = some (rc, t, pl) → t = REML_TAG_SET) :
    Within P h.mem h1.mem := by
  unfold destroy_set at hr
  cases hf0 : readField h p 2 with
  | error e => simp [hf0, bind, Except.bind] at hr
  | ok items =>
    simp only [hf0, bind, Except.bind] at hr
    by_cases hi : items ≠ 0
    · simp only [hi, ne_eq, not_false_eq_true, if_true] at hr
      cases hl : loop h p 0 with
      | error e => simp [hl] at hr
      | ok s1 =>
        simp only [hl] at hr
        cases h1r : readField s1 p 2 with
        | error e => simp [h1r] at hr
        | ok items1 =>
          simp only [h1r] at hr
          cases hf : hostFree s1 items1 with
          | error e => simp [hf] at hr
          | ok s2 =>
            simp only [hf] at hr
            exact destroy_body_within hc h0 hP ht (fun t pl h => by subst h; exact itemsOf_set pl)
              (fun t pl h hl => by subst h; exact set_zeroed hl)
              (hloop h s1 hl hc h0 ⟨hP, ht⟩) h1r hf hr
    · simp only [hi, if_false, pure, Except.pure] at hr
      cases hr
      exact within_refl _ _

/-- The destructor of a closure or an ADT value, which releases the pointer in word `idx`,
stays within `P`. -/
theorem destroy_field_within {P : Nat → Prop} {dec : Heap → Nat → Res Heap} {h h1 : Heap}
    {p idx w : Nat}
    (hdec : ∀ s q s1, dec s q = .ok s1 → Closed P s.mem → memGet 0 s.mem = none →
      InFoot P s (.dec q) → Within P s.mem s1.mem)
    (hf : readField h p idx = .ok w) (hr : (if w ≠ 0 then dec h w else .ok h) = .ok h1)
    (hc : Closed P h.mem) (h0 : memGet 0 h.mem = none) (hP : P (p - 8))
    (hown : ∀ rc t pl, getObj h p = some (rc, t, pl) → ∀ m, ownedSlots m t pl = [pl.getD idx 0]) :
    Within P h.mem h1.mem := by
  by_cases hw : w ≠ 0
  · rw [if_pos hw] at hr
    refine hdec h w h1 hr hc h0 ?_
    intro _
    obtain ⟨rc, t, pl, hg, hi⟩ := readField_inv hf
    have := (hc _ rc t pl hP (getObj_some_iff.mp hg).2).2 w
    rw [hown rc t pl hg, getD_of_getElem? hi] at this
    exact this (by simp) hw
  · rw [if_neg hw] at hr
    cases hr
    exact within_refl _ _

theorem destroy_switch_within {P : Nat → Prop} {dec : Heap → Nat → Res Heap}
    {slots setItems : Heap → Nat → Nat → Res Heap} {tag : Nat} {h h1 : Heap} {p : Nat}
    (hdec : ∀ s q s1, dec s q = .ok s1 → Closed P s.mem → memGet 0 s.mem = none →
      InFoot P s (.dec q) → Within P s.mem s1.mem)
    (hslots : ∀ s s1, slots s p 0 = .ok s1 → Closed P s.mem → memGet 0 s.mem = none →
      InFoot P s (.slots p 0) → Within P s.mem s1.mem)
    (hset : ∀ s s1, setItems s p 0 = .ok s1 → Closed P s.mem → memGet 0 s.mem = none →
      InFoot P s (.setItems p 0) → Within P s.mem s1.mem)
    (hr : destroy_switch dec slots setItems tag h p = .ok h1) (hc : Closed P h.mem)
    (h0 : memGet 0 h.mem = none) (hP : P (p - 8))
    (ht : ∀ rc t pl, getObj h p = some (rc, t, pl) → t = tag) : Within P h.mem h1.mem := by
  unfold destroy_switch at hr
  split at hr
  · cases hr
    exact within_refl _ _
  split at hr
  · rename_i e
    exact destroy_slots_within hslots hr hc h0 hP
      (fun rc t pl hg => Or.inl ((ht rc t pl hg).trans e))
  split at hr
  · rename_i e
    exact destroy_slots_within hslots hr hc h0 hP
      (fun rc t pl hg => Or.inr (Or.inl ((ht rc t pl hg).trans e)))
  split at hr
  · rename_i e
    exact destroy_slots_within hslots hr hc h0 hP
      (fun rc t pl hg => Or.inr (Or.inr ((ht rc t pl hg).trans e)))
  split at hr
  · rename_i e
    unfold destroy_closure at hr
    cases hf : readField h p 0 with
    | error e => simp [hf] at hr
    | ok env =>
      simp only [hf] at hr
      refine destroy_field_within hdec hf hr hc h0 hP ?_
      intro rc t pl hg m
      rw [ht rc t pl hg, e]
      simp [ownedSlots, REML_TAG_TUPLE, REML_TAG_RECORD, REML_TAG_ARRAY, REML_TAG_CLOSURE]
  split at hr
  · rename_i e
    unfold destroy_adt at hr
    cases hf : readField h p 1 with
    | error e => simp [hf] at hr
    | ok payload =>
      simp only [hf] at hr
      refine destroy_field_within hdec hf hr hc h0 hP ?_
      intro rc t pl hg m
      rw [ht rc t pl hg, e]
      simp [ownedSlots, REML_TAG_TUPLE, REML_TAG_RECORD, REML_TAG_ARRAY, REML_TAG_CLOSURE,
        REML_TAG_ADT]
  split at hr
  · rename_i e
    exact destroy_set_within hset hr hc h0 hP (fun rc t pl hg => (ht rc t pl hg).trans e)
  · cases hr
    exact within_refl _ _

/-- The item an element loop reads lies in `P`. -/
theorem loop_item_in {P : Nat → Prop} {h : Heap} {p i idx len items item : Nat}
    (hc : Closed P h.mem) (h0 : memGet 0 h.mem = none) (hP : P (p - 8))
    (hown : ∀ rc t pl, getObj h p = some (rc, t, pl) →
      ownedSlots h.mem t pl = bufSlots h.mem (pl.getD 0 0) (pl.getD idx 0))
    (hf0 : readField h p 0 = .ok len) (hlt : (i : Int) < toInt64 len)
    (hf1 : readField h p idx = .ok items) (hs : readSlot h items i = .ok item)
    (hitem : item ≠ 0) : P (item - 8) := by
  obtain ⟨rc, t, pl, hg, hl0⟩ := readField_inv hf0
  obtain ⟨rc1, t1, pl1, hg1, hl1⟩ := readField_inv hf1
  rw [hg] at hg1
  cases hg1
  obtain ⟨bs, hb, hbi⟩ := readSlot_inv hs
  have hi : items ≠ 0 := by
    intro e
    rw [e, h0] at hb
    cases hb
  have hmem : item ∈ ownedSlots h.mem t pl := by
    rw [hown rc t pl hg, getD_of_getElem? hl0, getD_of_getElem? hl1]
    exact slot_mem_bufSlots hi hb hbi hlt
  exact (hc _ rc t pl hP (getObj_some_iff.mp hg).2).2 item hmem hitem

/-- Whenever `dec_ref` or one of the destructor loops returns, started on an object of a
set `P` of addresses that is closed under ownership, it has changed blocks of `P` only. -/
theorem rcExec_within (P : Nat → Prop) : ∀ (fuel : Nat) (h : Heap) (c : RcCall) (h1 : Heap),
    rcExec fuel h c = .ok h1 → Closed P h.mem → memGet 0 h.mem = none → InFoot P h c →
    Within P h.mem h1.mem := by
  intro fuel
  induction fuel with
  | zero =>
    intro h c h1 hr
    simp [rcExec] at hr
  | succ fuel ih =>
    intro h c h1 hr hc h0 hin
    cases c with
    | dec ptr =>
      simp only [rcExec] at hr
      by_cases hp : ptr = 0
      · rw [if_pos hp] at hr
        cases hr
        exact within_refl _ _
      · rw [if_neg hp] at hr
        have hP : P (ptr - 8) := hin hp
        cases hg : getObj h ptr with
        | none => simp [hg] at hr
        | some o =>
          obtain ⟨rc, tag, pl⟩ := o
          simp only [hg, HEADER_SIZE] at hr
          obtain ⟨h8, hm⟩ := getObj_some_iff.mp hg
          have hw0 : Within P h.mem
              (memSet (ptr - 8) (.obj ((rc + (U32_MOD - 1)) % U32_MOD) tag pl) h.mem) :=
            within_header hP hm
          by_cases hz : (rc + (U32_MOD - 1)) % U32_MOD = 0
          · simp only [hz, if_true] at hr
            rw [hz] at hw0
            split at hr
            · cases hr
            · rename_i h3 hds
              have hw1 := destroy_switch_within (P := P)
                (fun s q s1 hs a b c => ih s (.dec q) s1 hs a b c)
                (fun s s1 hs a b c => ih s (.slots ptr 0) s1 hs a b c)
                (fun s s1 hs a b c => ih s (.setItems ptr 0) s1 hs a b c) hds
                (closed_of_within hc hw0) (hw0.null h0) hP (by
                  intro rc2 t2 pl2 hg2
                  obtain ⟨_, hm2⟩ := getObj_some_iff.mp hg2
                  simp only at hm2
                  rw [memGet_memSet_same, hm] at hm2
                  cases hm2
                  rfl)
              have hw2 := (within_mem_free hp hr hP).1
              exact within_trans (within_trans hw0 hw1) hw2
          · simp only [hz, if_false] at hr
            cases hr
            exact hw0
    | slots ptr i =>
      obtain ⟨hP, ht⟩ := hin
      simp only [rcExec] at hr
      cases hf0 : readField h ptr 0 with
      | error e => simp [hf0] at hr
      | ok len =>
        simp only [hf0] at hr
        split at hr
        · rename_i hlt
          cases hf1 : readField h ptr 1 with
          | error e => simp [hf1] at hr
          | ok items =>
            simp only [hf1] at hr
            cases hs : readSlot h items i with
            | error e => simp [hs] at hr
            | ok item =>
              simp only [hs] at hr
              split at hr
              · rename_i hitem
                cases hd : rcExec fuel h (.dec item) with
                | error e => simp [hd] at hr
                | ok s1 =>
                  simp only [hd] at hr
                  have hPi : P (item - 8) := loop_item_in hc h0 hP
                    (fun rc t pl hg => ownedSlots_of_slotsTag (ht rc t pl hg)) hf0 hlt hf1 hs
                    hitem
                  have hw1 := ih h (.dec item) s1 hd hc h0 (fun _ => hPi)
                  have hw2 := ih s1 (.slots ptr (i + 1)) h1 hr (closed_of_within hc hw1)
                    (hw1.null h0) ⟨hP, fun rc t pl hg => by
                      obtain ⟨rc0, pl0, hg0⟩ := getObj_of_within hw1 hg
                      exact ht rc0 t pl0 hg0⟩
                  exact within_trans hw1 hw2
              · exact ih h (.slots ptr (i + 1)) h1 hr hc h0 ⟨hP, ht⟩
        · cases hr
          exact within_refl _ _
    | setItems ptr i =>
      obtain ⟨hP, ht⟩ := hin
      simp only [rcExec] at hr
      cases hf0 : readField h ptr 0 with
      | error e => simp [hf0] at hr
      | ok len =>
        simp only [hf0] at hr
        split at hr
        · rename_i hlt
          cases hf1 : readField h ptr 2 with
          | error e => simp [hf1] at hr
          | ok items =>
            simp only [hf1] at hr
            cases hs : readSlot h items i with
            | error e => simp [hs] at hr
            | ok item =>
              simp only [hs] at hr
              cases hd : rcExec fuel h (.dec item) with
              | error e => simp [hd] at hr
              | ok s1 =>
                simp only [hd] at hr
                have hPi : item ≠ 0 → P (item - 8) := loop_item_in hc h0 hP
                  (fun rc t pl hg => by rw [ht rc t pl hg]; exact ownedSlots_of_set) hf0 hlt hf1
                  hs
                have hw1 := ih h (.dec item) s1 hd hc h0 hPi
                have hw2 := ih s1 (.setItems ptr (i + 1)) h1 hr (closed_of_within hc hw1)
                  (hw1.null h0) ⟨hP, fun rc t pl hg => by
                    obtain ⟨rc0, pl0, hg0⟩ := getObj_of_within hw1 hg
                    exact ht rc0 t pl0 hg0⟩
                exact within_trans hw1 hw2
        · cases hr
          exact within_refl _ _

/-! ## Release of a container whose children are containers themselves -/

theorem closed_of_closedIn {m : Mem} {L : List Nat} (h : closedIn m L) :
    Closed (fun b => b ∈ L) m := by
  intro k rc t pl hk hm
  have := h k hk
  rw [itemsAt_of_obj hm] at this
  simp only [tagAt, plAt, hm] at this
  exact this

theorem slots_step_err {h : Heap} {p i len items x : Nat} {e : Err} (fuel : Nat)
    (h0 : readField h p 0 = .ok len) (hc : (i : Int) < toInt64 len)
    (h1 : readField h p 1 = .ok items) (hs : readSlot h items i = .ok x) (hx : x ≠ 0)
    (hdec : dec_ref fuel h x = .error e) :
    rcExec (fuel + 1) h (.slots p i) = .error e := by
  simp only [dec_ref] at hdec
  simp only [rcExec, h0, hc, if_true, h1, hs, ne_eq, hx, not_false_eq_true, hdec]

/-- The last release of an object frees it. -/
theorem dec_last_gone {fuel : Nat} {h h1 : Heap} {p t : Nat} {pl : List Nat}
    (hg : getObj h p = some (1, t, pl)) (hr : dec_ref fuel h p = .ok h1) :
    memGet (p - 8) h1.mem = none := by
  cases fuel with
  | zero => simp [dec_ref, rcExec] at hr
  | succ f =>
    have hp : p ≠ 0 := by
      have := (getObj_some_iff.mp hg).1
      omega
    rw [dec_ref_zero_unfold f hg (by decide)] at hr
    split at hr
    · cases hr
    · exact (within_mem_free (P := fun _ => True) hp hr trivial).2

theorem cascade_loop (h : Heap) (slots : List Nat) (foot : Nat → List Nat)
    (raw items tag len : Nat) (pl : List Nat)
    (hbuf0 : memGet items h.mem = some (.buf slots))
    (hl0 : pl[0]? = some len) (hl1 : pl[1]? = some items)
    (hlen : toInt64 len = (slots.length : Int)) (h0 : memGet 0 h.mem = none)
    (hcs : raw + 8 ∉ slots) (hch : KidsApart h slots (raw + 8) items foot) :
    ∀ k i fuel cur fin, i + k = slots.length →
      CascadeInv h slots foot raw items tag pl i cur →
      rcExec fuel cur (.slots (raw + 8) i) = .ok fin →
      CascadeInv h slots foot raw items tag pl slots.length fin := by
  intro k
  induction k with
  | zero =>
    intro i fuel cur fin hik hinv hr
    have hi : i = slots.length := by omega
    subst hi
    cases fuel with
    | zero => simp [rcExec] at hr
    | succ fuel =>
      have hgc : getObj cur (raw + 8) = some (0, tag, pl) :=
        getObj_some_iff.mpr ⟨by omega, by simpa using hinv.2.1⟩
      rw [slots_step_done fuel (readField_of_getObj hgc hl0) (by rw [hlen]; omega)] at hr
      cases hr
      exact hinv
  | succ k ih =>
    intro i fuel cur fin hik hinv hr
    have hi : i < slots.length := by omega
    cases fuel with
    | zero => simp [rcExec] at hr
    | succ fuel =>
      obtain ⟨hbuf, hobj, hwt, hkids, hrest⟩ := hinv
      have hgc : getObj cur (raw + 8) = some (0, tag, pl) :=
        getObj_some_iff.mpr ⟨by omega, by simpa using hobj⟩
      have hcond : (i : Int) < toInt64 len := by rw [hlen]; omega
      have hrs : readSlot cur items i = .ok slots[i] :=
        readSlot_ok hbuf (List.getElem?_eq_getElem hi)
      have hr0 := readField_of_getObj hgc hl0
      have hr1 := readField_of_getObj hgc hl1
      by_cases hx : slots[i] = 0
      · rw [slots_step_null fuel hr0 hcond hr1 (by rw [hrs, hx])] at hr
        refine ih (i + 1) fuel cur fin (by omega) ⟨hbuf, hobj, hwt, ?_, hrest⟩ hr
        intro x hxs hx0
        rw [hkids x hxs hx0, count_take_succ slots i hi]
        have : ¬ slots[i] = x := by omega
        simp [this]
      · obtain ⟨rc, t, plx, hgx, hcnt, hrc, hap⟩ := hch slots[i] (List.getElem_mem hi) hx
        obtain ⟨hx8, hxm⟩ := getObj_some_iff.mp hgx
        have hxa : slots[i] - 8 ≠ items := by
          intro he
          rw [he, hbuf0] at hxm
          exact absurd hxm (by simp)
        have hlt := count_take_lt slots i hi
        have hxr : slots[i] - 8 ≠ raw := by
          intro he
          apply hcs
          have : slots[i] = raw + 8 := by omega
          rw [← this]
          exact List.getElem_mem hi
        have hcur := hkids slots[i] (List.getElem_mem hi) hx
        rw [hxm] at hcur
        have hjlt : (slots.take i).count slots[i] < rc := by omega
        simp only [Option.some_bind, dropBlock_obj_lt _ _ hjlt] at hcur
        have hgx2 : getObj cur slots[i] = some (rc - (slots.take i).count slots[i], t, plx) :=
          getObj_some_iff.mpr ⟨hx8, hcur⟩
        have hne : ∀ y, 8 ≤ y → y ≠ slots[i] → y - 8 ≠ slots[i] - 8 := by
          intro y hy hyx
          omega
        cases hd : dec_ref fuel cur slots[i] with
        | error e =>
          rw [slots_step_err fuel hr0 hcond hr1 hrs hx hd] at hr
          cases hr
        | ok cur1 =>
          rw [slots_step_dec fuel hr0 hcond hr1 hrs hx hd] at hr
          refine ih (i + 1) fuel cur1 fin (by omega) ?_ hr
          by_cases hlast : rc - (slots.take i).count slots[i] = 1
          · obtain ⟨a1, a2, a3, a4, a5⟩ := hap (by omega)
            rw [hlast] at hgx2
            have hgone := dec_last_gone hgx2 hd
            have hw : Within (fun b => b ∈ foot slots[i]) cur.mem cur1.mem :=
              rcExec_within _ fuel cur (.dec slots[i]) cur1 hd
                (closed_of_within (closed_of_closedIn a2) hwt) (hwt.null h0) (fun _ => a1)
            refine ⟨?_, ?_, within_trans hwt (within_mono (fun _ _ => trivial) hw), ?_, ?_⟩
            · rw [hw.out items a4]
              exact hbuf
            · rw [hw.out raw (by simpa using a3)]
              exact hobj
            · intro x hxs hx0
              by_cases hxe : x = slots[i]
              · subst hxe
                have : ¬ ((slots.take i).count slots[i] + 1 < rc) := by omega
                rw [hgone, hxm, count_take_succ slots i hi]
                simp [dropBlock_obj_ge _ _ (Nat.succ_pos _) this]
              · rw [hw.out _ (a5 x hxs hx0 hxe), hkids x hxs hx0, count_take_succ slots i hi]
                have : ¬ slots[i] = x := fun e => hxe e.symm
                simp [this]
            · intro b hbr hbi hbs hbf
              rw [hw.out b (hbf slots[i] (List.getElem_mem hi) hx)]
              exact hrest b hbr hbi hbs hbf
          · have e2 : (rc - (slots.take i).count slots[i] + (U32_MOD - 1)) % U32_MOD
                = rc - (slots.take i).count slots[i] - 1 := by
              unfold U32_MOD at hrc ⊢
              omega
            cases fuel with
            | zero => simp [dec_ref, rcExec] at hd
            | succ fuel =>
              have hdec := dec_ref_live_pos fuel hgx2 (by rw [e2]; omega)
              rw [e2, hd] at hdec
              simp only [Except.ok.injEq] at hdec
              subst hdec
              have hrest1 : ∀ b, b ≠ slots[i] - 8 →
                  memGet b (memSet (slots[i] - 8)
                    (.obj (rc - (slots.take i).count slots[i] - 1) t plx) cur.mem)
                    = memGet b cur.mem := fun b hb => memGet_memSet_ne _ _ hb
              refine ⟨?_, ?_, within_trans hwt (within_header (P := fun _ => True) trivial hcur),
                ?_, ?_⟩
              · simpa [memGet_memSet_ne _ _ (Ne.symm hxa)] using hbuf
              · simpa [memGet_memSet_ne _ _ (Ne.symm hxr)] using hobj
              · intro x hxs hx0
                by_cases hxe : x = slots[i]
                · subst hxe
                  have h3 : (slots.take i).count slots[i] + 1 < rc := by omega
                  have h4 : rc - (slots.take i).count slots[i] - 1
                      = rc - ((slots.take i).count slots[i] + 1) := by omega
                  simp [memGet_memSet_same, hcur, hxm, count_take_succ slots i hi,
                    dropBlock_obj_lt _ _ h3, h4]
                · obtain ⟨_, _, _, hgy, _⟩ := hch x hxs hx0
                  have hy8 := (getObj_some_iff.mp hgy).1
                  simp only
                  rw [hrest1 _ (hne x hy8 hxe), hkids x hxs hx0, count_take_succ slots i hi]
                  have : ¬ slots[i] = x := fun e => hxe e.symm
                  simp [this]
              · intro b hbr hbi hbs hbf
                have hbx : b ≠ slots[i] - 8 := by
                  intro e
                  apply hbs
                  have : b + 8 = slots[i] := by omega
                  rw [this]
                  exact List.getElem_mem hi
                simp only
                rw [hrest1 b hbx]
                exact hrest b hbr hbi hbs hbf

theorem destroy_slots_loop_err {loop : Heap → Nat → Nat → Res Heap} {h : Heap}
    {p items : Nat} {e : Err} (hp : p ≠ 0) (hr : readField h p 1 = .ok items) (hi : items ≠ 0)
    (hl : loop h p 0 = .error e) : destroy_slots loop h p = .error e := by
  simp [destroy_slots, hp, hr, hi, hl, bind, Except.bind]

/-- Whenever the release of the last reference to a tuple, record or array whose children
satisfy `KidsApart` returns, the container and its element array are gone, every child has
dropped by the number of slots holding it, and what lies outside `foot` is unchanged. -/
theorem container_cascade (h h1 : Heap) (slots : List Nat) (foot : Nat → List Nat)
    (raw items tag len : Nat) (pl : List Nat) (fuel : Nat)
    (ht : slotsTag tag) (hg : getObj h (raw + 8) = some (1, tag, pl))
    (hl0 : pl[0]? = some len) (hl1 : pl[1]? = some items) (hi0 : items ≠ 0)
    (hbuf0 : memGet items h.mem = some (.buf slots))
    (hlen : toInt64 len = (slots.length : Int)) (h0 : memGet 0 h.mem = none)
    (hcs : raw + 8 ∉ slots) (hch : KidsApart h slots (raw + 8) items foot)
    (hr : dec_ref fuel h (raw + 8) = .ok h1) :
    memGet raw h1.mem = none ∧ memGet items h1.mem = none ∧
      (∀ x ∈ slots, x ≠ 0 →
        memGet (x - 8) h1.mem = (memGet (x - 8) h.mem).bind (dropBlock (slots.count x))) ∧
      (∀ b, b ≠ raw → b ≠ items → b + 8 ∉ slots → (∀ x ∈ slots, x ≠ 0 → b ∉ foot x) →
        memGet b h1.mem = memGet b h.mem) := by
  obtain ⟨_, hobj0⟩ := getObj_some_iff.mp hg
  simp only [Nat.add_sub_cancel] at hobj0
  have hir : items ≠ raw := by
    intro he
    rw [he, hobj0] at hbuf0
    exact absurd hbuf0 (by simp)
  cases fuel with
  | zero => simp [dec_ref, rcExec] at hr
  | succ f =>
    rw [dec_ref_zero_unfold f hg (by decide), destroy_switch_slots _ _ ht] at hr
    simp only [Nat.add_sub_cancel] at hr
    have hm2 : memGet raw (memSet raw (.obj 0 tag pl) h.mem) = some (.obj 0 tag pl) := by
      rw [memGet_memSet_same, hobj0]
      rfl
    have hg2 : getObj { h with
        mem := memSet raw (.obj 0 tag pl) h.mem
        dec_ref_count := (h.dec_ref_count + 1) % SIZE_MOD
        destroy_count := (h.destroy_count + 1) % SIZE_MOD } (raw + 8) = some (0, tag, pl) :=
      getObj_some_iff.mpr ⟨by omega, by simpa using hm2⟩
    have hinv : CascadeInv h slots foot raw items tag pl 0
        { h with
          mem := memSet raw (.obj 0 tag pl) h.mem
          dec_ref_count := (h.dec_ref_count + 1) % SIZE_MOD
          destroy_count := (h.destroy_count + 1) % SIZE_MOD } := by
      refine ⟨?_, hm2, within_header (P := fun _ => True) trivial hobj0, ?_, ?_⟩
      · simpa [memGet_memSet_ne _ _ hir] using hbuf0
      · intro x hxs hx0
        obtain ⟨_, _, _, hgx, _⟩ := hch x hxs hx0
        have hx8 := (getObj_some_iff.mp hgx).1
        have hxr : x - 8 ≠ raw := by
          intro e
          apply hcs
          have : x = raw + 8 := by omega
          rw [← this]
          exact hxs
        simp [memGet_memSet_ne _ _ hxr, bind_dropBlock_zero]
      · intro b hbr _ _ _
        simp [memGet_memSet_ne _ _ hbr]
    cases hl : rcExec f { h with
        mem := memSet raw (.obj 0 tag pl) h.mem
        dec_ref_count := (h.dec_ref_count + 1) % SIZE_MOD
        destroy_count := (h.destroy_count + 1) % SIZE_MOD } (.slots (raw + 8) 0) with
    | error e =>
      rw [destroy_slots_loop_err (by omega) (readField_of_getObj hg2 hl1) hi0 hl] at hr
      cases hr
    | ok fin =>
      obtain ⟨fbuf, fobj, _, fkids, frest⟩ := cascade_loop h slots foot raw items tag len pl
        hbuf0 hl0 hl1 hlen h0 hcs hch slots.length 0 f _ fin (by omega) hinv hl
      obtain ⟨h3, h4, hds, hmf, hc4, hi4, hrest4⟩ := destroy_slots_finish hg2 hl1 hi0 fobj fbuf
      rw [hds (fun s q i => rcExec f s (.slots q i)) hl] at hr
      simp only at hr
      rw [hmf] at hr
      cases hr
      refine ⟨hc4, hi4, ?_, ?_⟩
      · intro x hxs hx0
        obtain ⟨_, _, _, hgx, _⟩ := hch x hxs hx0
        obtain ⟨hx8, hxm⟩ := getObj_some_iff.mp hgx
        have hxr : x - 8 ≠ raw := by
          intro e
          apply hcs
          have : x = raw + 8 := by omega
          rw [← this]
          exact hxs
        have hxa : x - 8 ≠ items := by
          intro he
          rw [he, hbuf0] at hxm
          exact absurd hxm (by simp)
        rw [hrest4 _ hxr hxa, fkids x hxs hx0, List.take_length]
      · intro b hbr hbi hbs hbf
        rw [hrest4 b hbr hbi]
        exact frest b hbr hbi hbs hbf

theorem ownedSlots_container {m : Mem} {tag len items : Nat} {pl slots : List Nat}
    (ht : slotsTag tag) (hl0 : pl[0]? = some len) (hl1 : pl[1]? = some items) (hi0 : items ≠ 0)
    (hbuf0 : memGet items m = some (.buf slots)) (hlen : toInt64 len = (slots.length : Int)) :
    ownedSlots m tag pl = slots := by
  rw [ownedSlots_of_slotsTag ht, getD_of_getElem? hl0, getD_of_getElem? hl1]
  unfold bufSlots
  rw [if_neg hi0, hbuf0, hlen]
  simp [bufOf]

/-- On a well-formed heap the children of a live container are live, and the refcount of
each is at least the number of slots of the container that hold it. -/
theorem kids_of_rcInv {h : Heap} {slots : List Nat} {c items tag len : Nat} {pl : List Nat}
    (hinv : RcInv h.mem []) (ht : slotsTag tag) (hg : getObj h c = some (1, tag, pl))
    (hl0 : pl[0]? = some len) (hl1 : pl[1]? = some items) (hi0 : items ≠ 0)
    (hbuf0 : memGet items h.mem = some (.buf slots))
    (hlen : toInt64 len = (slots.length : Int)) :
    slotsAt h.mem (c - 8) = slots ∧
      ∀ x ∈ slots, x ≠ 0 → ∃ rc t plx, getObj h x = some (rc, t, plx) ∧ slots.count x ≤ rc ∧
        rc < U32_MOD := by
  obtain ⟨hc8, hm⟩ := getObj_some_iff.mp hg
  have hs : slotsAt h.mem (c - 8) = slots := by
    rw [slotsAt_of_obj hm (le_refl _)]
    exact ownedSlots_container ht hl0 hl1 hi0 hbuf0 hlen
  refine ⟨hs, ?_⟩
  intro x hx hx0
  have hx1 : x ∈ slotsAt h.mem (c - 8) := by rw [hs]; exact hx
  obtain ⟨hx8, rc, t, plx, hxm, hrc⟩ := hinv.pts (c - 8) x hx1 hx0
  refine ⟨rc, t, plx, getObj_some_iff.mpr ⟨hx8, hxm⟩, ?_, hinv.rc32 _ rc t plx hxm⟩
  have h1 := hinv.rcs _ rc t plx hxm hrc
  have h2 := count_le_inCount h.mem (c - 8) x
  rw [hs] at h2
  have e : x - 8 + 8 = x := by omega
  rw [e] at h1
  simp only [List.count_nil, Nat.add_zero] at h1
  omega

/-- Releasing the last reference to a tuple, record or array on a well-formed heap, when
every child whose refcount is exhausted can be destroyed apart from the rest of the
container: the call returns for all sufficient fuel, the container and its element array
are freed, every child has dropped by exactly the number of slots holding it, and what lies
outside `foot` is unchanged. -/
theorem container_release_nested (h : Heap) (slots : List Nat) (c items tag len : Nat)
    (pl : List Nat) (foot : Nat → List Nat) (ht : slotsTag tag)
    (hg : getObj h c = some (1, tag, pl))
    (hl0 : pl[0]? = some len) (hl1 : pl[1]? = some items) (hi0 : items ≠ 0)
    (hbuf0 : memGet items h.mem = some (.buf slots))
    (hlen : toInt64 len = (slots.length : Int))
    (hwf : WellFormed h) (hty : Typed h) (h0 : memGet 0 h.mem = none)
    (hext : inCount h.mem c = 0)
    (hap : ∀ x ∈ slots, x ≠ 0 → ∀ rc t plx, getObj h x = some (rc, t, plx) →
      slots.count x = rc → Apart h slots c items x (foot x)) :
    ∃ F h1, (∀ fuel, F ≤ fuel → dec_ref fuel h c = .ok h1) ∧
      getObj h1 c = none ∧ memGet items h1.mem = none ∧
      (∀ x rc t plx, x ∈ slots → x ≠ 0 → getObj h x = some (rc, t, plx) →
        (slots.count x < rc → getObj h1 x = some (rc - slots.count x, t, plx)) ∧
        (slots.count x = rc → getObj h1 x = none)) ∧
      (∀ b, b ≠ c - 8 → b ≠ items → b + 8 ∉ slots → (∀ x ∈ slots, x ≠ 0 → b ∉ foot x) →
        memGet b h1.mem = memGet b h.mem) := by
  have hinv := rcInv_of_wellFormed hwf hty
  obtain ⟨hc8, hm⟩ := getObj_some_iff.mp hg
  obtain ⟨raw, rfl⟩ : ∃ r, c = r + 8 := ⟨c - 8, by omega⟩
  obtain ⟨hs, hkids⟩ := kids_of_rcInv hinv ht hg hl0 hl1 hi0 hbuf0 hlen
  simp only [Nat.add_sub_cancel] at hm hs ⊢
  have hcs : raw + 8 ∉ slots := by
    intro hin
    have := inCount_pos_of_mem (m := h.mem) (k := raw) (q := raw + 8) (by rw [hs]; exact hin)
    omega
  have hch : KidsApart h slots (raw + 8) items foot := by
    intro x hx hx0
    obtain ⟨rc, t, plx, hgx, hle, h32⟩ := hkids x hx hx0
    exact ⟨rc, t, plx, hgx, hle, h32, fun he => hap x hx hx0 rc t plx hgx he⟩
  obtain ⟨F, h1, hF, _, _⟩ := dec_ref_external h (raw + 8) 1 tag pl hinv hg (by omega)
  obtain ⟨r1, r2, r3, r4⟩ := container_cascade h h1 slots foot raw items tag len pl F ht hg
    hl0 hl1 hi0 hbuf0 hlen h0 hcs hch (hF F (le_refl _))
  refine ⟨F, h1, hF, ?_, r2, ?_, r4⟩
  · simp [getObj, HEADER_SIZE, r1]
  · intro x rc t plx hx hx0 hgx
    obtain ⟨hx8, hxm⟩ := getObj_some_iff.mp hgx
    have hpos : 0 < slots.count x := List.count_pos_iff.mpr hx
    have hb := r3 x hx hx0
    rw [hxm] at hb
    constructor
    · intro hlt
      rw [Option.some_bind, dropBlock_obj_lt _ _ hlt] at hb
      exact getObj_some_iff.mpr ⟨hx8, hb⟩
    · intro heq
      rw [Option.some_bind, dropBlock_obj_ge _ _ hpos (by omega)] at hb
      simp [getObj, HEADER_SIZE, hb]

end Reml
